import Mathlib

/-!
# composite-video-simulator: a shallow embedding of `ffmpeg_ntsc.cpp`

Conventions of the embedding.

* C++ `float` and `double` values are exact rationals (`ℚ`); decimal literals are the
  exact decimals written in the source, and `M_PI` is the decimal literal of `math.h`.
  This is the arithmetic without rounding.  The functions whose integer results depend on
  the rounding have a second definition in binary floating point (`Binary`, rounding to
  nearest, ties to even, with 24 or 53 significant bits): `RGB_to_YIQ_binary64`,
  `YIQ_to_RGB_binary64` and the chroma lowpass `composite_lowpass_binary32`,
  `composite_lowpass_tv_binary32`.
* C++ `int` values are mathematical integers (`Int`): signed overflow is undefined
  behaviour in C++ and lies outside the model.  `a / b` on `int` is `Int.tdiv`
  (truncation toward zero), `a >> 1` on `int` is floor division by two.
* `static_cast<int>(x)` and the implicit `float → int` conversion are `toInt`
  (truncation toward zero).
* Unsigned arithmetic wraps: `unsigned long long` values are reduced with `u64`.
* A plane (`int* fY` with `fY + y * width` addressing row `y`) is a function from the
  row index and the column index to the sample; a scanline is a function from the column.
* `rand()` is a stream of draws consumed in program order.
* The command line is the list of the strings `argv[1]`, …, `argv[argc - 1]`; `atoi`,
  `atof`, `strtoul` and `pow` are parameters (`CLib`).  `parse_argv` yields the globals
  when the source returns 0, and a `ParseError` when it returns 1 or reads the null pointer
  `argv[argc]` as a string.
* The interleaved audio buffer is a function from the index to the sample; an index that
  leaves one of the filter arrays, or a failed `assert`, gives `none`.
-/

namespace CompositeVideo

/-! ## Numeric conversions -/

/-- Conversion of a floating value to `int`, as done by `static_cast<int>` and by the
implicit conversion on assignment: truncation toward zero. -/
def toInt (q : ℚ) : Int := if 0 ≤ q then ⌊q⌋ else ⌈q⌉

/-- Conversion of an integer to `unsigned long long`: reduction modulo `2^64`. -/
def u64 (z : Int) : Nat := (z % (2 ^ 64 : Int)).toNat

/-- Conversion of an integer to `unsigned int`: reduction modulo `2^32`. -/
def u32 (z : Int) : Nat := (z % (2 ^ 32 : Int)).toNat

/-- The constant `M_PI` of `math.h`. -/
def M_PI : ℚ := 3.14159265358979323846

/-! ## Single-pole filter (`class LowpassFilter`) -/

/-- The data members of `class LowpassFilter`, all initialised to zero. -/
structure LowpassFilter where
  timeInterval : ℚ := 0
  cutoff : ℚ := 0
  alpha : ℚ := 0
  prev : ℚ := 0
  tau : ℚ := 0
  deriving DecidableEq

namespace LowpassFilter

/-- The method `LowpassFilter::setFilter(rate, hz)`. -/
def setFilter (f : LowpassFilter) (rate hz : ℚ) : LowpassFilter :=
  let timeInterval := 1 / rate
  let tau := 1 / (hz * 2 * M_PI)
  { f with
    timeInterval := timeInterval
    tau := tau
    cutoff := hz
    alpha := timeInterval / (tau + timeInterval) }

/-- The method `LowpassFilter::resetFilter(val)`. -/
def resetFilter (f : LowpassFilter) (val : ℚ) : LowpassFilter :=
  { f with prev := val }

/-- The method `LowpassFilter::lowpass(sample)`: the returned value and the filter
after the call. -/
def lowpass (f : LowpassFilter) (sample : ℚ) : ℚ × LowpassFilter :=
  let stage1 := sample * f.alpha
  let stage2 := f.prev - (f.prev * f.alpha)
  (stage1 + stage2, { f with prev := stage1 + stage2 })

/-- The method `LowpassFilter::highpass(sample)`: the returned value and the filter
after the call. -/
def highpass (f : LowpassFilter) (sample : ℚ) : ℚ × LowpassFilter :=
  let stage1 := sample * f.alpha
  let stage2 := f.prev - (f.prev * f.alpha)
  (sample - (stage1 + stage2), { f with prev := stage1 + stage2 })

/-- The filter after `n` successive calls `lowpass(x)`. -/
def afterLowpass (f : LowpassFilter) (x : ℚ) : Nat → LowpassFilter
  | 0 => f
  | n + 1 => ((afterLowpass f x n).lowpass x).2

/-- The value returned by the call number `n + 1` of a run of successive `lowpass(x)`. -/
def lowpassOutput (f : LowpassFilter) (x : ℚ) (n : Nat) : ℚ :=
  ((afterLowpass f x n).lowpass x).1

/-- The filter after `n` successive calls `highpass(x)`. -/
def afterHighpass (f : LowpassFilter) (x : ℚ) : Nat → LowpassFilter
  | 0 => f
  | n + 1 => ((afterHighpass f x n).highpass x).2

/-- The value returned by the call number `n + 1` of a run of successive `highpass(x)`. -/
def highpassOutput (f : LowpassFilter) (x : ℚ) (n : Nat) : ℚ :=
  ((afterHighpass f x n).highpass x).1

end LowpassFilter

/-- The error kinds of the specification that concern filter configuration. -/
inductive FilterError where
  | InvalidParameter
  deriving DecidableEq

/-- The configuration operation in the words of the specification (section 4.1): it
fails with `InvalidParameter` unless `rate > 0` and `cutoff_hz > 0`, and otherwise
yields `alpha = Δt / (τ + Δt)` and `Δt = 1 / rate`, with `τ = 1 / (2π·fc)`. -/
def configure_spec (rate cutoff_hz : ℚ) : Except FilterError (ℚ × ℚ) :=
  if rate ≤ 0 ∨ cutoff_hz ≤ 0 then Except.error FilterError.InvalidParameter
  else
    let dt := 1 / rate
    let tau := 1 / (2 * M_PI * cutoff_hz)
    Except.ok (dt / (tau + dt), dt)

/-- The outcome of a call `f.setFilter(rate, hz)` as the caller observes it: the method
is `void` and contains no `throw`, `return` of a status, or `assert`, so every call
completes, leaving `alpha` and `timeInterval` as computed. -/
def setFilter_outcome (f : LowpassFilter) (rate hz : ℚ) : Except FilterError (ℚ × ℚ) :=
  Except.ok ((f.setFilter rate hz).alpha, (f.setFilter rate hz).timeInterval)

/-! ## Filter banks (`class HiLoPair`, `class HiLoPass`) -/

/-- The data members of `class HiLoPair`. -/
structure HiLoPair where
  hi : LowpassFilter := {}
  lo : LowpassFilter := {}
  deriving DecidableEq

/-- The class `HiLoPass`, a `vector<HiLoPair>`. -/
abbrev HiLoPass := List HiLoPair

namespace HiLoPass

/-- One iteration of the first loop of `HiLoPass::filter`:
`sample = (*this)[i].lo.lowpass(sample)`. -/
def loStep (st : ℚ × HiLoPass) (i : Nat) : ℚ × HiLoPass :=
  match st.2[i]? with
  | some p => ((p.lo.lowpass st.1).1, st.2.set i { p with lo := (p.lo.lowpass st.1).2 })
  | none => st

/-- One iteration of the second loop of `HiLoPass::filter`:
`sample = (*this)[i].hi.highpass(sample)`. -/
def hiStep (st : ℚ × HiLoPass) (i : Nat) : ℚ × HiLoPass :=
  match st.2[i]? with
  | some p => ((p.hi.highpass st.1).1, st.2.set i { p with hi := (p.hi.highpass st.1).2 })
  | none => st

/-- The method `HiLoPass::filter(sample)`: two loops over `i = 0 .. size() - 1`; the
returned sample and the bank after the call. -/
def filter (bank : HiLoPass) (sample : ℚ) : ℚ × HiLoPass :=
  let st1 := (List.range bank.length).foldl loStep (sample, bank)
  (List.range st1.2.length).foldl hiStep st1

/-- The running sample after the lowpass stages of the first `i` pairs. -/
def sampleAfterLo (bank : HiLoPass) (sample : ℚ) (i : Nat) : ℚ :=
  (bank.take i).foldl (fun s p => (p.lo.lowpass s).1) sample

/-- The running sample after the highpass stages of the first `i` pairs. -/
def sampleAfterHi (bank : HiLoPass) (sample : ℚ) (i : Nat) : ℚ :=
  (bank.take i).foldl (fun s p => (p.hi.highpass s).1) sample

end HiLoPass

/-! ## Colour conversion -/

/-- The function `RGB_to_YIQ` in exact arithmetic (the coefficients as exact decimals):
the triple `(Y, I, Q)` written through the reference parameters. -/
def RGB_to_YIQ (r g b : Int) : Int × Int × Int :=
  let dY : ℚ := (0.30 * r) + (0.59 * g) + (0.11 * b)
  let Y := toInt (256 * dY)
  let I := toInt (256 * ((-0.27 * (b - dY)) + (0.74 * (r - dY))))
  let Q := toInt (256 * ((0.41 * (b - dY)) + (0.48 * (r - dY))))
  (Y, I, Q)

/-- The clamping `if (v < 0) v = 0; else if (v > 255) v = 255;` of `YIQ_to_RGB`. -/
def clamp255 (v : Int) : Int := if v < 0 then 0 else if v > 255 then 255 else v

/-- The function `YIQ_to_RGB` in exact arithmetic: the triple `(r, g, b)` written through
the reference parameters. -/
def YIQ_to_RGB (Y I Q : Int) : Int × Int × Int :=
  let r := toInt (((1.000 * Y) + (0.956 * I) + (0.621 * Q)) / 256)
  let g := toInt (((1.000 * Y) + (-0.272 * I) + (-0.647 * Q)) / 256)
  let b := toInt (((1.000 * Y) + (-1.106 * I) + (1.703 * Q)) / 256)
  (clamp255 r, clamp255 g, clamp255 b)

/-- The conversion `RGB→YIQ` in the words of the specification (section 4.2), with the
rounding operation as a parameter. -/
def RGB_to_YIQ_spec (rnd : ℚ → Int) (r g b : Int) : Int × Int × Int :=
  let Y' : ℚ := 0.30 * r + 0.59 * g + 0.11 * b
  (rnd (256 * (0.30 * r + 0.59 * g + 0.11 * b)),
   rnd (256 * (-0.27 * (b - Y') + 0.74 * (r - Y'))),
   rnd (256 * (0.41 * (b - Y') + 0.48 * (r - Y'))))

/-! ## Planes and loops -/

/-- One scanline of a plane: the array reached through a row pointer such as
`int* Y = fY + (y * dstframe->width)`, indexed by the column. -/
abbrev Scanline := Nat → Int

/-- One plane of the field buffer (`int* fY`), indexed by row and column. -/
abbrev Plane := Nat → Nat → Int

/-- The three planes `fY`, `fI`, `fQ` of the field buffer. -/
structure Planes where
  fY : Plane
  fI : Plane
  fQ : Plane

/-- The three scanlines `Y`, `I`, `Q` of one row. -/
structure Row where
  Y : Scanline
  I : Scanline
  Q : Scanline

/-- The row pointers `fY + y * width`, `fI + y * width`, `fQ + y * width`. -/
def Planes.row (p : Planes) (y : Nat) : Row :=
  { Y := p.fY y, I := p.fI y, Q := p.fQ y }

/-- The planes after the scanlines of row `y` have been overwritten through the row
pointers. -/
def Planes.setRow (p : Planes) (y : Nat) (r : Row) : Planes :=
  { fY := Function.update p.fY y r.Y
    fI := Function.update p.fI y r.I
    fQ := Function.update p.fQ y r.Q }

/-- The store `a[x] = v`. -/
def store (a : Scanline) (x : Nat) (v : Int) : Scanline := Function.update a x v

/-- The loop `for (x = x0; (x + k) < bound; x += step) body`, run with the given fuel:
the final value of the loop variable and the final state. -/
def loopFrom {σ : Type} (step k bound : Nat) (body : Nat → σ → σ) : Nat → Nat → σ → Nat × σ
  | 0, x, s => (x, s)
  | fuel + 1, x, s =>
    if x + k < bound then loopFrom step k bound body fuel (x + step) (body x s) else (x, s)

/-- The loop `for (y = field; y < height; y += 2) body` over the rows of one field. -/
def forFieldRows {σ : Type} (field height : Nat) (body : Nat → σ → σ) (s : σ) : σ :=
  (loopFrom 2 0 height body height field s).2

/-- The loop `for (x = 0; x < width; x++) body` over the columns of a row. -/
def forColumns {σ : Type} (width : Nat) (body : Nat → σ → σ) (s : σ) : σ :=
  (List.range width).foldl (fun s x => body x s) s

/-! ## Subcarrier modulation and demodulation -/

/-- The table `static const int8_t Umult[4] = {1, 0, -1, 0}`. -/
def Umult (k : Nat) : Int := [1, 0, -1, 0].getD k 0

/-- The table `static const int8_t Vmult[4] = {0, 1, 0, -1}`. -/
def Vmult (k : Nat) : Int := [0, 1, 0, -1].getD k 0

/-- The phase index `xi` of row `y` as computed in `chroma_into_luma` from the globals
`video_scanline_phase_shift` and `video_scanline_phase_shift_offset`. -/
def chroma_into_luma_xi (video_scanline_phase_shift video_scanline_phase_shift_offset : Int)
    (fieldno : Nat) (y : Nat) : Nat :=
  if video_scanline_phase_shift = 90 then
    u64 ((fieldno : Int) + video_scanline_phase_shift_offset + ((y >>> 1 : Nat) : Int)) &&& 3
  else if video_scanline_phase_shift = 180 then
    u64 (((u64 ((fieldno : Int) + (y : Int)) &&& 2 : Nat) : Int)
      + video_scanline_phase_shift_offset) &&& 3
  else if video_scanline_phase_shift = 270 then
    u64 ((fieldno : Int) + video_scanline_phase_shift_offset - ((y >>> 1 : Nat) : Int)) &&& 3
  else
    u32 video_scanline_phase_shift_offset &&& 3

/-- The body of the column loop of `chroma_into_luma` on one row. -/
def chroma_into_luma_pixel (subcarrier_amplitude : Int) (xi : Nat) (x : Nat) (r : Row) : Row :=
  let sxi := u32 ((xi : Int) + (x : Int))
  let chroma := r.I x * subcarrier_amplitude * Umult (sxi &&& 3)
  let chroma := chroma + r.Q x * subcarrier_amplitude * Vmult (sxi &&& 3)
  { Y := store r.Y x (r.Y x + Int.tdiv chroma 50)
    I := store r.I x 0
    Q := store r.Q x 0 }

/-- The function `chroma_into_luma`. -/
def chroma_into_luma (video_scanline_phase_shift video_scanline_phase_shift_offset : Int)
    (width height field fieldno : Nat) (subcarrier_amplitude : Int) (p : Planes) : Planes :=
  forFieldRows field height (fun y p =>
    let xc := width
    let xi := chroma_into_luma_xi video_scanline_phase_shift
      video_scanline_phase_shift_offset fieldno y
    p.setRow y (forColumns xc (chroma_into_luma_pixel subcarrier_amplitude xi) (p.row y))) p

/-- The phase index `xi` of row `y` as computed in `chroma_from_luma`. -/
def chroma_from_luma_xi (video_scanline_phase_shift video_scanline_phase_shift_offset : Int)
    (fieldno : Nat) (y : Nat) : Nat :=
  if video_scanline_phase_shift = 90 then
    u64 ((fieldno : Int) + video_scanline_phase_shift_offset + ((y >>> 1 : Nat) : Int)) &&& 3
  else if video_scanline_phase_shift = 180 then
    u64 (((u64 ((fieldno : Int) + (y : Int)) &&& 2 : Nat) : Int)
      + video_scanline_phase_shift_offset) &&& 3
  else if video_scanline_phase_shift = 270 then
    u64 ((fieldno : Int) + video_scanline_phase_shift_offset - ((y >>> 1 : Nat) : Int)) &&& 3
  else
    u32 video_scanline_phase_shift_offset &&& 3

/-- The state of the box-blur loop of `chroma_from_luma`: the luma scanline, the scratch
array `chroma`, the four taps `delay[0..3]` and the running `sum`. -/
structure BlurState where
  Y : Scanline
  chroma : Scanline
  delay0 : Int
  delay1 : Int
  delay2 : Int
  delay3 : Int
  sum : Int

/-- The body of the box-blur loop of `chroma_from_luma`. -/
def blurStep (width : Nat) (x : Nat) (s : BlurState) : BlurState :=
  let c := if x + 2 < width then s.Y (x + 2) else 0
  let sum := s.sum - s.delay0
  let sum := sum + c
  let Y := store s.Y x (Int.tdiv sum 4)
  { Y := Y
    chroma := store s.chroma x (c - Y x)
    delay0 := s.delay1
    delay1 := s.delay2
    delay2 := s.delay3
    delay3 := c
    sum := sum }

/-- The precharge and the box-blur loop of `chroma_from_luma` on one row.  The scratch
array `chroma` is uninitialised in the source; each of its entries below `width` is
written here before any later read, and the model starts it from zero.  The precharge
reads `Y[0]` and `Y[1]` whatever the width; for a width below 2 these reads leave the
row, and the model returns what the scanline function holds there. -/
def chroma_from_luma_blur (width : Nat) (Y : Scanline) : BlurState :=
  forColumns width (blurStep width)
    { Y := Y, chroma := fun _ => 0, delay0 := 0, delay1 := 0, delay2 := Y 0, delay3 := Y 1,
      sum := Y 0 + Y 1 }

/-- The loop of `chroma_from_luma` that negates `chroma[x + 2]` and `chroma[x + 3]` for
`x = (4 - xi) & 3, x + 4, …` while `x + 3 < width`. -/
def chroma_from_luma_flip (width xi : Nat) (chroma : Scanline) : Scanline :=
  (loopFrom 4 3 width
    (fun x ch =>
      let ch := store ch (x + 2) (-ch (x + 2))
      store ch (x + 3) (-ch (x + 3)))
    width (u32 (4 - (xi : Int)) &&& 3) chroma).2

/-- The loop `chroma[x] = (chroma[x] * 50) / subcarrier_amplitude` of `chroma_from_luma`;
`none` when the integer division has a zero divisor. -/
def chroma_from_luma_scale (width : Nat) (subcarrier_amplitude : Int) (chroma : Scanline) :
    Option Scanline :=
  forColumns width
    (fun x ch => ch.bind fun ch =>
      if subcarrier_amplitude = 0 then none
      else some (store ch x (Int.tdiv (ch x * 50) subcarrier_amplitude)))
    (some chroma)

/-- The two loops of `chroma_from_luma` that demultiplex `chroma` into `I` and `Q` on even
columns and clear the even columns that remain. -/
def chroma_from_luma_decode (width xi : Nat) (chroma : Scanline) (I Q : Scanline) :
    Scanline × Scanline :=
  let r1 := loopFrom 2 (xi + 1) width
    (fun x (iq : Scanline × Scanline) =>
      (store iq.1 x (-chroma (x + xi + 0)), store iq.2 x (-chroma (x + xi + 1))))
    width 0 (I, Q)
  (loopFrom 2 0 width
    (fun x (iq : Scanline × Scanline) => (store iq.1 x 0, store iq.2 x 0))
    width r1.1 r1.2).2

/-- The two loops of `chroma_from_luma` that interpolate the odd columns and clear the
tail of the row. -/
def chroma_from_luma_interpolate (width : Nat) (I Q : Scanline) : Scanline × Scanline :=
  let r1 := loopFrom 2 2 width
    (fun x (iq : Scanline × Scanline) =>
      (store iq.1 (x + 1) ((iq.1 x + iq.1 (x + 2)) >>> (1 : Nat)),
       store iq.2 (x + 1) ((iq.2 x + iq.2 (x + 2)) >>> (1 : Nat))))
    width 0 (I, Q)
  (loopFrom 1 0 width
    (fun x (iq : Scanline × Scanline) => (store iq.1 x 0, store iq.2 x 0))
    width r1.1 r1.2).2

/-- The body of the row loop of `chroma_from_luma` on one row with phase index `xi`. -/
def chroma_from_luma_row (width xi : Nat) (subcarrier_amplitude : Int) (r : Row) :
    Option Row :=
  let b := chroma_from_luma_blur width r.Y
  let chroma := chroma_from_luma_flip width xi b.chroma
  (chroma_from_luma_scale width subcarrier_amplitude chroma).map fun chroma =>
    let iq := chroma_from_luma_decode width xi chroma r.I r.Q
    let iq := chroma_from_luma_interpolate width iq.1 iq.2
    { Y := b.Y, I := iq.1, Q := iq.2 }

/-- The function `chroma_from_luma`; `none` when a division by zero is reached. -/
def chroma_from_luma (video_scanline_phase_shift video_scanline_phase_shift_offset : Int)
    (width height field fieldno : Nat) (subcarrier_amplitude : Int) (p : Planes) :
    Option Planes :=
  forFieldRows field height (fun y p => p.bind fun p =>
    let xi := chroma_from_luma_xi video_scanline_phase_shift
      video_scanline_phase_shift_offset fieldno y
    (chroma_from_luma_row width xi subcarrier_amplitude (p.row y)).map fun r => p.setRow y r)
    (some p)

/-- The luma sample at column `j` of a row of `width` samples, the samples outside the
row counting as zero. -/
def padded (width : Nat) (Y : Scanline) (j : Nat) : Int := if j < width then Y j else 0

/-- The 4-tap box blur at column `x`: the truncated quarter of the sum of the samples at
`x - 1`, `x`, `x + 1` and `x + 2`, the samples outside the row counting as zero. -/
def boxBlur (width : Nat) (Y : Scanline) (x : Nat) : Int :=
  Int.tdiv ((if x = 0 then 0 else padded width Y (x - 1)) + padded width Y x
    + padded width Y (x + 1) + padded width Y (x + 2)) 4

/-- The columns whose residual is negated by the sign-correction loop of
`chroma_from_luma`: the last two columns of every complete group of four that starts at
`(4 - xi) mod 4`. -/
def flipped (width xi j : Nat) : Prop :=
  (4 - xi) % 4 + 2 ≤ j ∧ 2 ≤ (j - (4 - xi) % 4) % 4
    ∧ j - (j - (4 - xi) % 4) % 4 + 3 < width

instance (width xi j : Nat) : Decidable (flipped width xi j) := by
  unfold flipped
  infer_instance

/-- The subcarrier sample at phase `n` for the chroma pair `(i, q)`:
`i·Umult[n mod 4] + q·Vmult[n mod 4]`. -/
def carrier (i q : Int) (n : Nat) : Int := i * Umult (n % 4) + q * Vmult (n % 4)

/-! ## Frames, configuration and environment -/

/-- The members of `AVFrame` that `composite_layer` uses.  `data` stands for `data[0]`:
`none` is the null pointer, otherwise the pixel words of the frame by row and column,
each word being the little-endian reading of the four bytes B, G, R, A.  `linesize`
stands for `linesize[0]`. -/
structure AVFrame where
  width : Nat
  height : Nat
  linesize : Nat
  data : Option (Nat → Nat → Nat)
  interlaced_frame : Int := 0
  top_field_first : Int := 0

/-- The global variables read by `composite_layer` and set by `parse_argv`, with their
initial values. -/
structure Config where
  output_ntsc : Bool := true
  video_scanline_phase_shift : Int := 180
  video_scanline_phase_shift_offset : Int := 0
  composite_preemphasis : ℚ := 0
  composite_preemphasis_cut : ℚ := 1000000
  vhs_out_sharpen : ℚ := 1.5
  vhs_head_switching : Bool := false
  vhs_head_switching_point : ℚ := 1.0 - ((4.5 + 0.01) / 262.5)
  vhs_head_switching_phase : ℚ := (1.0 - 0.01) / 262.5
  vhs_head_switching_phase_noise : ℚ := ((1.0 / 500) / 262.5)
  composite_in_chroma_lowpass : Bool := true
  composite_out_chroma_lowpass : Bool := true
  composite_out_chroma_lowpass_lite : Bool := true
  video_chroma_noise : Int := 0
  video_chroma_phase_noise : Int := 0
  video_chroma_loss : Int := 0
  video_noise : Int := 2
  subcarrier_amplitude : Int := 50
  subcarrier_amplitude_back : Int := 50
  emulating_vhs : Bool := false
  nocolor_subcarrier : Bool := false
  vhs_chroma_vert_blend : Bool := true
  vhs_svideo_out : Bool := false
  enable_composite_emulation : Bool := true
  enable_audio_emulation : Bool := true
  output_vhs_tape_speed : Int := 0

/-- The enumerators `VHS_SP`, `VHS_LP`, `VHS_EP`. -/
def VHS_SP : Int := 0

/-- The enumerator `VHS_LP`. -/
def VHS_LP : Int := 1

/-- The enumerator `VHS_EP`. -/
def VHS_EP : Int := 2

/-- The branch of `parse_argv` taken for the switch `-nocomp`. -/
def parse_argv_nocomp (cfg : Config) : Config :=
  { cfg with enable_composite_emulation := false, enable_audio_emulation := false }

/-- The library functions that the source calls and does not define: the stream of values
returned by successive calls of `rand()`, and `sin` and `cos`. -/
structure Env where
  rand : Nat → Nat
  sin : ℚ → ℚ
  cos : ℚ → ℚ

/-- Conversion of an unsigned 32-bit value to `int`. -/
def i32 (n : Nat) : Int :=
  if n % 2 ^ 32 < 2 ^ 31 then ((n % 2 ^ 32 : Nat) : Int) else ((n % 2 ^ 32 : Nat) : Int) - 2 ^ 32

/-- The expression `static_cast<int>(static_cast<unsigned int>(rand()) % m) - v` for the
draw number `k`. -/
def noiseDraw (env : Env) (k : Nat) (m v : Int) : Int :=
  i32 (u32 (env.rand k) % u32 m) - v

/-- The function `fmod(x, 1.0F)`: `x` minus its integer part. -/
def fmod1 (x : ℚ) : ℚ := x - (toInt x : ℚ)

/-- The sample rate `(315000000.00F * 4.F) / 88.F` used by the video filters. -/
def videoRate : ℚ := (315000000.00 * 4) / 88

/-! ## Chroma lowpass -/

/-- The loop `for (auto& f : lp) { s = f.lowpass(s); }` over an array of filters: the
final sample and the filters after the loop. -/
def lowpassChain (lp : List LowpassFilter) (s : ℚ) : ℚ × List LowpassFilter :=
  lp.foldl
    (fun (acc : ℚ × List LowpassFilter) f =>
      ((f.lowpass acc.1).1, acc.2 ++ [(f.lowpass acc.1).2]))
    (s, [])

/-- Three filters configured with `setFilter(videoRate, cutoff)` and `resetFilter(val)`. -/
def filters3 (cutoff val : ℚ) : List LowpassFilter :=
  List.replicate 3 ((({} : LowpassFilter).setFilter videoRate cutoff).resetFilter val)

/-- The column loop shared by `composite_lowpass`, `composite_lowpass_tv` and the VHS
chroma lowpass on one scanline `P`: three cascaded lowpass filters, the output written
`delay` columns to the left. -/
def delayedLowpassStep (delay : Nat) (x : Nat) (st : Scanline × List LowpassFilter) :
    Scanline × List LowpassFilter :=
  let s : ℚ := st.1 x
  let r := lowpassChain st.2 s
  (if x ≥ delay then store st.1 (x - delay) (toInt r.1) else st.1, r.2)

/-- The body of the row loop of `composite_lowpass` and `composite_lowpass_tv` on one
scanline. -/
def chroma_lowpass_row (width : Nat) (cutoff : ℚ) (delay : Nat) (P : Scanline) : Scanline :=
  (forColumns width (delayedLowpassStep delay) (P, filters3 cutoff 0)).1

/-- The function `composite_lowpass`: the pass `p = 1` over `fI`, then the pass `p = 2`
over `fQ`. -/
def composite_lowpass (width height field : Nat) (p : Planes) : Planes :=
  let p1 := forFieldRows field height (fun y (p : Planes) =>
    { p with fI := Function.update p.fI y (chroma_lowpass_row width 1300000 2 (p.fI y)) }) p
  forFieldRows field height (fun y (p : Planes) =>
    { p with fQ := Function.update p.fQ y (chroma_lowpass_row width 600000 4 (p.fQ y)) }) p1

/-- The function `composite_lowpass_tv`. -/
def composite_lowpass_tv (width height field : Nat) (p : Planes) : Planes :=
  let p1 := forFieldRows field height (fun y (p : Planes) =>
    { p with fI := Function.update p.fI y (chroma_lowpass_row width 2600000 1 (p.fI y)) }) p
  forFieldRows field height (fun y (p : Planes) =>
    { p with fQ := Function.update p.fQ y (chroma_lowpass_row width 2600000 1 (p.fQ y)) }) p1

/-! ## The stages of `composite_layer` -/

/-- The source row read for destination row `row`:
`std::min(row + opposite, height - 1U)`. -/
def sourceRow (src : AVFrame) (height row : Nat) : Nat :=
  let opposite : Nat :=
    if src.interlaced_frame ≠ 0 then (if src.top_field_first ≠ 0 then 1 else 0) else 0
  min (row + opposite) (height - 1)

/-- The loop of `composite_layer` that converts the source pixels of the field to YIQ,
starting from zeroed planes. -/
def composite_layer_fill (width height field : Nat) (src : AVFrame)
    (pixels : Nat → Nat → Nat) : Planes :=
  forFieldRows field height (fun row (p : Planes) =>
    forColumns width (fun col (p : Planes) =>
      let pixel := pixels (sourceRow src height row) col
      let b : Int := ((pixel % 256 : Nat) : Int)
      let g : Int := ((pixel / 256 % 256 : Nat) : Int)
      let r : Int := ((pixel / 65536 % 256 : Nat) : Int)
      let yiq := RGB_to_YIQ r g b
      { fY := Function.update p.fY row (store (p.fY row) col yiq.1)
        fI := Function.update p.fI row (store (p.fI row) col yiq.2.1)
        fQ := Function.update p.fQ row (store (p.fQ row) col yiq.2.2) }) p)
    { fY := fun _ _ => 0, fI := fun _ _ => 0, fQ := fun _ _ => 0 }

/-- The composite preemphasis loop on one scanline. -/
def preemphasis_row (width : Nat) (cut scale : ℚ) (Y : Scanline) : Scanline :=
  (forColumns width (fun x (st : Scanline × LowpassFilter) =>
    let s : ℚ := st.1 x
    let h := st.2.highpass s
    let s := s + h.1 * scale
    (store st.1 x (toInt s), h.2))
    (Y, (({} : LowpassFilter).setFilter videoRate cut).resetFilter 16)).1

/-- The stage `video composite preemphasis`. -/
def composite_layer_preemphasis (cfg : Config) (width height field : Nat) (p : Planes) :
    Planes :=
  if cfg.composite_preemphasis ≠ 0 ∧ cfg.composite_preemphasis_cut > 0 then
    forFieldRows field height (fun y (p : Planes) =>
      { p with fY := (Function.update p.fY y
          (preemphasis_row width cfg.composite_preemphasis_cut cfg.composite_preemphasis
            (p.fY y))) }) p
  else p

/-- The state of the luma noise loops: the luma plane, the accumulator `noise` and the
number of draws made so far. -/
structure NoiseState where
  fY : Plane
  noise : Int
  k : Nat

/-- The stage `add video noise` on the luma plane. -/
def composite_layer_video_noise (cfg : Config) (env : Env) (width height field : Nat)
    (fY : Plane) (k : Nat) : Plane × Nat :=
  if cfg.video_noise ≠ 0 then
    let noise_mod := (cfg.video_noise * 2) + 1
    let r := forFieldRows field height (fun y (st : NoiseState) =>
      forColumns width (fun x (st : NoiseState) =>
        let fY := Function.update st.fY y (store (st.fY y) x (st.fY y x + st.noise))
        let noise := st.noise + noiseDraw env st.k noise_mod cfg.video_noise
        let noise := Int.tdiv noise 2
        { fY := fY, noise := noise, k := st.k + 1 }) st)
      { fY := fY, noise := 0, k := k }
    (r.fY, r.k)
  else (fY, k)

/-- The state of the copy loop of the head switching stage: the scanline and `x2`. -/
structure ShiftState where
  Y : Scanline
  x2 : Nat

/-- The shifted rewrite of one scanline in the head switching stage. -/
def head_switching_shift_row (width twidth tx : Nat) (shif : Int) (Y : Scanline) : Scanline :=
  let x2 := u32 ((tx : Int) + (twidth : Int) + (u32 shif : Int)) % twidth
  let tmp : Scanline := fun j => if j < width then Y j else 0
  (loopFrom 1 0 width (fun x (st : ShiftState) =>
      let Y := store st.Y x (tmp st.x2)
      let x2 := st.x2 + 1
      { Y := Y, x2 := if x2 = twidth then 0 else x2 })
    width tx { Y := Y, x2 := x2 }).2.Y

/-- The loop `while (y < dstframe->height)` of the head switching stage. -/
def head_switching_loop (width height twidth : Nat) (ishif : Int) :
    Nat → Int → Nat → Int → Nat → Plane → Plane
  | 0, _, _, _, _, fY => fY
  | fuel + 1, y, tx, shif, shy, fY =>
    if y < (height : Int) then
      let fY :=
        if 0 ≤ y then
          if shif ≠ 0 then
            Function.update fY y.toNat
              (head_switching_shift_row width twidth tx shif (fY y.toNat))
          else fY
        else fY
      let shif := if shy = 0 then ishif else Int.tdiv (shif * 7) 8
      head_switching_loop width height twidth ishif fuel (y + 2) 0 shif (shy + 1) fY
    else fY

/-- The stage `VHS head switching noise`; `none` when the virtual line width is zero
and the stage divides by it. -/
def composite_layer_head_switching (cfg : Config) (env : Env) (width height field : Nat)
    (fY : Plane) (k : Nat) : Option (Plane × Nat) :=
  if cfg.vhs_head_switching then
    let twidth := width + (width / 10)
    let noisek : ℚ × Nat :=
      if cfg.vhs_head_switching_phase_noise ≠ 0 then
        let x : Nat := u32 (env.rand k) * u32 (env.rand (k + 1)) * u32 (env.rand (k + 2))
          * u32 (env.rand (k + 3)) % 2 ^ 32
        let x : Nat := x % 2000000000
        let noise : ℚ := ((x : ℚ) / 1000000000) - 1.0
        (noise * cfg.vhs_head_switching_phase_noise, k + 4)
      else (0, k)
    let noise := noisek.1
    let t : ℚ := if cfg.output_ntsc then (twidth : ℚ) * 262.5 else (twidth : ℚ) * 312.5
    if twidth = 0 then none
    else
      let p := u32 (toInt (fmod1 (cfg.vhs_head_switching_point + noise) * t))
      let y : Int := (((p / twidth) * 2 + field : Nat) : Int)
      let p := u32 (toInt (fmod1 (cfg.vhs_head_switching_phase + noise) * t))
      let x := p % twidth
      let y := if cfg.output_ntsc then y - (262 - 240) * 2 else y - (312 - 288) * 2
      let tx := x
      let ishif : Int := if x ≥ twidth / 2 then (x : Int) - (twidth : Int) else (x : Int)
      some (head_switching_loop width height twidth ishif (height + 50) y tx 0 0 fY, noisek.2)
  else some (fY, k)

/-- The state of the chroma noise loops. -/
structure ChromaNoiseState where
  fI : Plane
  fQ : Plane
  noiseU : Int
  noiseV : Int
  k : Nat

/-- The stage `add video noise` on the chroma planes. -/
def composite_layer_chroma_noise (cfg : Config) (env : Env) (width height field : Nat)
    (p : Planes) (k : Nat) : Planes × Nat :=
  if cfg.video_chroma_noise ≠ 0 then
    let r := forFieldRows field height (fun y (st : ChromaNoiseState) =>
      forColumns width (fun x (st : ChromaNoiseState) =>
        let fI := Function.update st.fI y (store (st.fI y) x (st.fI y x + st.noiseU))
        let fQ := Function.update st.fQ y (store (st.fQ y) x (st.fQ y x + st.noiseV))
        let noiseU := st.noiseU
          + noiseDraw env st.k ((cfg.video_chroma_noise * 2) + 1) cfg.video_chroma_noise
        let noiseU := Int.tdiv noiseU 2
        let noiseV := st.noiseV
          + noiseDraw env (st.k + 1) ((cfg.video_chroma_noise * 2) + 1) cfg.video_chroma_noise
        let noiseV := Int.tdiv noiseV 2
        { fI := fI, fQ := fQ, noiseU := noiseU, noiseV := noiseV, k := st.k + 2 }) st)
      { fI := p.fI, fQ := p.fQ, noiseU := 0, noiseV := 0, k := k }
    ({ p with fI := r.fI, fQ := r.fQ }, r.k)
  else (p, k)

/-- The state of the chroma phase noise row loop. -/
structure PhaseNoiseState where
  fI : Plane
  fQ : Plane
  noise : Int
  k : Nat

/-- The rotation of one row of chroma by the angle whose sine and cosine are given. -/
def rotate_row (width : Nat) (sinpi cospi : ℚ) (U V : Scanline) : Scanline × Scanline :=
  forColumns width (fun x (uv : Scanline × Scanline) =>
    let u : ℚ := uv.1 x
    let v : ℚ := uv.2 x
    let u_ := (u * cospi) - (v * sinpi)
    let v_ := (u * sinpi) + (v * cospi)
    (store uv.1 x (toInt u_), store uv.2 x (toInt v_))) (U, V)

/-- The chroma phase noise stage. -/
def composite_layer_phase_noise (cfg : Config) (env : Env) (width height field : Nat)
    (p : Planes) (k : Nat) : Planes × Nat :=
  if cfg.video_chroma_phase_noise ≠ 0 then
    let r := forFieldRows field height (fun y (st : PhaseNoiseState) =>
      let noise := st.noise + noiseDraw env st.k ((cfg.video_chroma_phase_noise * 2) + 1)
        cfg.video_chroma_phase_noise
      let noise := Int.tdiv noise 2
      let pi : ℚ := ((noise : ℚ) * M_PI) / 100
      let uv := rotate_row width (env.sin pi) (env.cos pi) (st.fI y) (st.fQ y)
      { fI := Function.update st.fI y uv.1, fQ := Function.update st.fQ y uv.2,
        noise := noise, k := st.k + 1 })
      { fI := p.fI, fQ := p.fQ, noise := 0, k := k }
    ({ p with fI := r.fI, fQ := r.fQ }, r.k)
  else (p, k)

/-- The VHS luma lowpass loop on one scanline: three cascaded lowpass filters reset to 16
and a preemphasis add-back scaled by 1.6. -/
def vhs_luma_lowpass_row (width : Nat) (luma_cut : ℚ) (Y : Scanline) : Scanline :=
  (forColumns width (fun x (st : Scanline × List LowpassFilter × LowpassFilter) =>
    let s : ℚ := st.1 x
    let r := lowpassChain st.2.1 s
    let h := st.2.2.highpass r.1
    let s := r.1 + h.1 * 1.6
    (store st.1 x (toInt s), r.2, h.2))
    (Y, filters3 luma_cut 16,
      (({} : LowpassFilter).setFilter videoRate luma_cut).resetFilter 16)).1

/-- The VHS chroma lowpass loop on one row: the two planes are filtered in the same
column loop, each with its own three filters. -/
def vhs_chroma_lowpass_row (width : Nat) (chroma_cut : ℚ) (chroma_delay : Nat)
    (U V : Scanline) : Scanline × Scanline :=
  let r := forColumns width
    (fun x (st : (Scanline × List LowpassFilter) × (Scanline × List LowpassFilter)) =>
      (delayedLowpassStep chroma_delay x st.1, delayedLowpassStep chroma_delay x st.2))
    ((U, filters3 chroma_cut 0), (V, filters3 chroma_cut 0))
  (r.1.1, r.2.1)

/-- The state of the vertical chroma blend: the chroma planes and the delay lines. -/
structure BlendState where
  fI : Plane
  fQ : Plane
  delayU : Scanline
  delayV : Scanline

/-- The body of the column loop of the vertical chroma blend on row `y`. -/
def vert_blend_step (y : Nat) (x : Nat) (st : BlendState) : BlendState :=
  let cU := st.fI y x
  let cV := st.fQ y x
  { fI := Function.update st.fI y (store (st.fI y) x ((st.delayU x + cU + 1) >>> (1 : Nat)))
    fQ := Function.update st.fQ y (store (st.fQ y) x ((st.delayV x + cV + 1) >>> (1 : Nat)))
    delayU := store st.delayU x cU
    delayV := store st.delayV x cV }

/-- The vertical chroma blend of the VHS stage: the row loop starts at `field + 2` with
zeroed delay lines. -/
def vhs_vert_blend (width height field : Nat) (p : Planes) : Planes :=
  let r := forFieldRows (field + 2) height
    (fun y (st : BlendState) => forColumns width (vert_blend_step y) st)
    { fI := p.fI, fQ := p.fQ, delayU := fun _ => 0, delayV := fun _ => 0 }
  { p with fI := r.fI, fQ := r.fQ }

/-- The playback sharpening loop of the VHS stage on one scanline. -/
def vhs_sharpen_row (width : Nat) (luma_cut vhs_out_sharpen : ℚ) (Y : Scanline) : Scanline :=
  (forColumns width (fun x (st : Scanline × List LowpassFilter) =>
    let s : ℚ := st.1 x
    let r := lowpassChain st.2 s
    let ts := r.1
    (store st.1 x (toInt (s + ((s - ts) * vhs_out_sharpen * 2))), r.2))
    (Y, filters3 (luma_cut * 4) 0)).1

/-- The parameters `luma_cut`, `chroma_cut`, `chroma_delay` selected by the tape speed;
`none` for the `default: abort()` branch. -/
def vhs_parameters (output_vhs_tape_speed : Int) : Option (ℚ × ℚ × Nat) :=
  if output_vhs_tape_speed = VHS_SP then some (2400000, 320000, 9)
  else if output_vhs_tape_speed = VHS_LP then some (1900000, 300000, 12)
  else if output_vhs_tape_speed = VHS_EP then some (1400000, 280000, 14)
  else none

/-- The block `if (emulating_vhs) { … }` of `composite_layer`. -/
def composite_layer_vhs (cfg : Config) (width height field fieldno : Nat) (p : Planes) :
    Option Planes :=
  if cfg.emulating_vhs then
    (vhs_parameters cfg.output_vhs_tape_speed).bind fun prm =>
      let luma_cut := prm.1
      let chroma_cut := prm.2.1
      let chroma_delay := prm.2.2
      let p := forFieldRows field height (fun y (p : Planes) =>
        { p with fY := Function.update p.fY y (vhs_luma_lowpass_row width luma_cut (p.fY y)) }) p
      let p := forFieldRows field height (fun y (p : Planes) =>
        let uv := vhs_chroma_lowpass_row width chroma_cut chroma_delay (p.fI y) (p.fQ y)
        { p with fI := Function.update p.fI y uv.1, fQ := Function.update p.fQ y uv.2 }) p
      let p := if cfg.vhs_chroma_vert_blend ∧ cfg.output_ntsc then
          vhs_vert_blend width height field p
        else p
      let p := forFieldRows field height (fun y (p : Planes) =>
        { p with fY := (Function.update p.fY y
            (vhs_sharpen_row width luma_cut cfg.vhs_out_sharpen (p.fY y))) }) p
      if ¬ cfg.vhs_svideo_out then
        chroma_from_luma cfg.video_scanline_phase_shift cfg.video_scanline_phase_shift_offset
          width height field fieldno cfg.subcarrier_amplitude
          (chroma_into_luma cfg.video_scanline_phase_shift
            cfg.video_scanline_phase_shift_offset width height field fieldno
            cfg.subcarrier_amplitude p)
      else some p
  else some p

/-- The chroma dropout stage: one draw per row of the field; a dropped row has its
`width` samples of `I` and of `Q` cleared by `memset`. -/
def composite_layer_chroma_loss (cfg : Config) (env : Env) (width height field : Nat)
    (p : Planes) (k : Nat) : Planes × Nat :=
  if cfg.video_chroma_loss ≠ 0 then
    forFieldRows field height (fun y (st : Planes × Nat) =>
      if u32 (env.rand st.2) % 100000 < u32 cfg.video_chroma_loss then
        ({ st.1 with
            fI := Function.update st.1.fI y (fun x => if x < width then 0 else st.1.fI y x),
            fQ := Function.update st.1.fQ y (fun x => if x < width then 0 else st.1.fQ y x) },
          st.2 + 1)
      else (st.1, st.2 + 1)) (p, k)
  else (p, k)

/-- The output chroma lowpass stage. -/
def composite_layer_out_lowpass (cfg : Config) (width height field : Nat) (p : Planes) :
    Planes :=
  if cfg.composite_out_chroma_lowpass then
    if cfg.composite_out_chroma_lowpass_lite then composite_lowpass_tv width height field p
    else composite_lowpass width height field p
  else p

/-- The pixel word `(r << 16) + (g << 8) + b` stored for the sample `(Y, I, Q)`; the
shifts of the clamped channels are multiplications by `2^16` and `2^8`. -/
def packPixel (Y I Q : Int) : Nat :=
  u32 (((YIQ_to_RGB Y I Q).1 * 2 ^ 16) + ((YIQ_to_RGB Y I Q).2.1 * 2 ^ 8)
    + (YIQ_to_RGB Y I Q).2.2)

/-- The final loop of `composite_layer`: the rows of the field are converted back to RGB
and stored in the destination pixels. -/
def composite_layer_store (width height field : Nat) (p : Planes) (pixels : Nat → Nat → Nat) :
    Nat → Nat → Nat :=
  forFieldRows field height (fun y (d : Nat → Nat → Nat) =>
    forColumns width (fun x (d : Nat → Nat → Nat) =>
      Function.update d y (Function.update (d y) x (packPixel (p.fY y x) (p.fI y x) (p.fQ y x))))
      d) pixels

/-- The planes `fY`, `fI`, `fQ` of `composite_layer` just before the final loop, and the
number of `rand()` draws made; `none` when a stage divides by zero or aborts. -/
def composite_layer_planes (cfg : Config) (env : Env) (src : AVFrame)
    (srcPixels : Nat → Nat → Nat) (width height field fieldno : Nat) (k : Nat) :
    Option (Planes × Nat) :=
  let p := composite_layer_fill width height field src srcPixels
  let p := if cfg.composite_in_chroma_lowpass then composite_lowpass width height field p else p
  let p := chroma_into_luma cfg.video_scanline_phase_shift cfg.video_scanline_phase_shift_offset
    width height field fieldno cfg.subcarrier_amplitude p
  let p := composite_layer_preemphasis cfg width height field p
  let yk := composite_layer_video_noise cfg env width height field p.fY k
  (composite_layer_head_switching cfg env width height field yk.1 yk.2).bind fun yk =>
    let p : Planes := { p with fY := yk.1 }
    let k := yk.2
    (if ¬ cfg.nocolor_subcarrier then
        chroma_from_luma cfg.video_scanline_phase_shift cfg.video_scanline_phase_shift_offset
          width height field fieldno cfg.subcarrier_amplitude_back p
      else some p).bind fun p =>
      let pk := composite_layer_chroma_noise cfg env width height field p k
      let pk := composite_layer_phase_noise cfg env width height field pk.1 pk.2
      (composite_layer_vhs cfg width height field fieldno pk.1).map fun p =>
        let pk2 := composite_layer_chroma_loss cfg env width height field p pk.2
        (composite_layer_out_lowpass cfg width height field pk2.1, pk2.2)

/-- The function `composite_layer`: the destination frame after the call and the number
of `rand()` draws made; `none` when a stage divides by zero or aborts, and when the frame
has no pixel: `new int[dstframe_pixels]{0}` with `dstframe_pixels = 0` has more
initializers than elements and throws `std::bad_array_new_length`.  The frames are passed
by non-null pointers. -/
def composite_layer (cfg : Config) (env : Env) (dstframe srcframe : AVFrame)
    (field fieldno : Nat) (k : Nat) : Option (AVFrame × Nat) :=
  match dstframe.data, srcframe.data with
  | some dstPixels, some srcPixels =>
    if dstframe.linesize < dstframe.width * 4 then some (dstframe, k)
    else if srcframe.linesize < srcframe.width * 4 then some (dstframe, k)
    else if dstframe.width ≠ srcframe.width then some (dstframe, k)
    else if dstframe.height ≠ srcframe.height then some (dstframe, k)
    else if dstframe.width * dstframe.height = 0 then none
    else
      (composite_layer_planes cfg env srcframe srcPixels dstframe.width dstframe.height field
        fieldno k).map fun pk =>
        ({ dstframe with
            data := some (composite_layer_store dstframe.width dstframe.height field pk.1
              dstPixels) }, pk.2)
  | _, _ => some (dstframe, k)

/-- The loop over the input files inside `while (current < upto)` of `main`, for the
field `current`: every layer is composited into the same output frame with
`composite_layer(…, (current & 1) ^ 1, current)`. -/
def main_composite_field (cfg : Config) (env : Env) (layers : List AVFrame) (current : Nat)
    (dstframe : AVFrame) (k : Nat) : Option (AVFrame × Nat) :=
  layers.foldl
    (fun (st : Option (AVFrame × Nat)) (srcframe : AVFrame) =>
      st.bind fun st => composite_layer cfg env st.1 srcframe ((current &&& 1) ^^^ 1) current st.2)
    (some (dstframe, k))

/-- The pixel word of a frame at row `y`, column `x`; `none` for a null `data[0]`. -/
def AVFrame.pixelAt (f : AVFrame) (y x : Nat) : Option Nat := f.data.map fun d => d y x

/-- The rows visited by `for (y = field; y < height; y += 2)`. -/
def visited (field height y : Nat) : Prop := field ≤ y ∧ y < height ∧ (y - field) % 2 = 0

instance (field height y : Nat) : Decidable (visited field height y) := by
  unfold visited
  infer_instance

/-- The function `RGB_to_YIQ` in integer arithmetic: with `S = 30r + 59g + 11b`, the
truncated quotients that the exact decimal products reduce to. -/
def RGB_to_YIQ_int (r g b : Int) : Int × Int × Int :=
  (Int.tdiv (256 * (30 * r + 59 * g + 11 * b)) 100,
   Int.tdiv (256 * (-27 * (100 * b - (30 * r + 59 * g + 11 * b))
      + 74 * (100 * r - (30 * r + 59 * g + 11 * b)))) 10000,
   Int.tdiv (256 * (41 * (100 * b - (30 * r + 59 * g + 11 * b))
      + 48 * (100 * r - (30 * r + 59 * g + 11 * b)))) 10000)

/-- The function `YIQ_to_RGB` in integer arithmetic. -/
def YIQ_to_RGB_int (Y I Q : Int) : Int × Int × Int :=
  (clamp255 (Int.tdiv (1000 * Y + 956 * I + 621 * Q) 256000),
   clamp255 (Int.tdiv (1000 * Y - 272 * I - 647 * Q) 256000),
   clamp255 (Int.tdiv (1000 * Y - 1106 * I + 1703 * Q) 256000))

/-- The configuration after the switches `-noise 0 -in-composite-lowpass 0
-out-composite-lowpass 0` on the initial values. -/
def quietConfig : Config :=
  { video_noise := 0, composite_in_chroma_lowpass := false,
    composite_out_chroma_lowpass := false }

/-- A 2×2 frame whose four pixels hold the word `w`. -/
def solidFrame (w : Nat) : AVFrame :=
  { width := 2, height := 2, linesize := 8, data := some (fun _ _ => w) }

/-- An environment whose `rand()` always returns 0 and whose `sin` and `cos` are the
values at angle 0. -/
def zeroEnv : Env := { rand := fun _ => 0, sin := fun _ => 0, cos := fun _ => 1 }

/-- The configuration with head switching enabled at `vhs_head_switching_point = 0.97`,
`vhs_head_switching_phase = 0.0` and noise level 0, for NTSC output. -/
def headSwitchingConfig : Config :=
  { vhs_head_switching := true, vhs_head_switching_point := 0.97,
    vhs_head_switching_phase := 0.0, vhs_head_switching_phase_noise := 0,
    output_ntsc := true }

/-- A luma plane whose rows are the ramp `1, 2, 3, …`: no two columns of a row hold the
same value, and no column holds 0. -/
def rampPlane : Plane := fun _ x => (x : Int) + 1

/-- The body of the column loop of the luma noise stage on row `y`: the current
accumulator is added to `Y[x]`, then the accumulator takes a draw and is halved. -/
def video_noise_pixel (env : Env) (noise_mod video_noise : Int) (y x : Nat) (st : NoiseState) :
    NoiseState :=
  let fY := Function.update st.fY y (store (st.fY y) x (st.fY y x + st.noise))
  let noise := st.noise + noiseDraw env st.k noise_mod video_noise
  let noise := Int.tdiv noise 2
  { fY := fY, noise := noise, k := st.k + 1 }

/-- The value of the accumulator `noise` of the luma noise stage after `n` pixels, when
the stage starts at draw number `k` with `video_noise = v`. -/
def noiseWalk (env : Env) (k : Nat) (v : Int) : Nat → Int
  | 0 => 0
  | n + 1 => Int.tdiv (noiseWalk env k v n + noiseDraw env (k + n) ((v * 2) + 1) v) 2

/-- The luma noise stage in the words of the specification: the accumulator is reset to 0
at the start of every processed row, and each column first updates
`noise := (noise + u_x) / 2` and then adds the updated noise to `Y[x]`. -/
def video_noise_spec (cfg : Config) (env : Env) (width height field : Nat)
    (fY : Plane) (k : Nat) : Plane × Nat :=
  if cfg.video_noise ≠ 0 then
    let noise_mod := (cfg.video_noise * 2) + 1
    let r := forFieldRows field height (fun y (st : NoiseState) =>
      forColumns width (fun x (st : NoiseState) =>
        let noise := Int.tdiv (st.noise + noiseDraw env st.k noise_mod cfg.video_noise) 2
        { fY := Function.update st.fY y (store (st.fY y) x (st.fY y x + noise)),
          noise := noise, k := st.k + 1 }) { st with noise := 0 })
      { fY := fY, noise := 0, k := k }
    (r.fY, r.k)
  else (fY, k)

/-- An environment whose first `rand()` returns 4 and whose later ones return 2. -/
def drawEnv : Env := { rand := fun k => if k = 0 then 4 else 2, sin := fun _ => 0, cos := fun _ => 1 }

/-- The planes of `composite_layer` with the stages in the order of the data flow of the
specification: the chroma dropout stage is applied to the demodulated, noise-rotated
chroma before the VHS stage runs. -/
def composite_layer_planes_spec_order (cfg : Config) (env : Env) (src : AVFrame)
    (srcPixels : Nat → Nat → Nat) (width height field fieldno : Nat) (k : Nat) :
    Option (Planes × Nat) :=
  let p := composite_layer_fill width height field src srcPixels
  let p := if cfg.composite_in_chroma_lowpass then composite_lowpass width height field p else p
  let p := chroma_into_luma cfg.video_scanline_phase_shift cfg.video_scanline_phase_shift_offset
    width height field fieldno cfg.subcarrier_amplitude p
  let p := composite_layer_preemphasis cfg width height field p
  let yk := composite_layer_video_noise cfg env width height field p.fY k
  (composite_layer_head_switching cfg env width height field yk.1 yk.2).bind fun yk =>
    let p : Planes := { p with fY := yk.1 }
    let k := yk.2
    (if ¬ cfg.nocolor_subcarrier then
        chroma_from_luma cfg.video_scanline_phase_shift cfg.video_scanline_phase_shift_offset
          width height field fieldno cfg.subcarrier_amplitude_back p
      else some p).bind fun p =>
      let pk := composite_layer_chroma_noise cfg env width height field p k
      let pk := composite_layer_phase_noise cfg env width height field pk.1 pk.2
      let pk2 := composite_layer_chroma_loss cfg env width height field pk.1 pk.2
      (composite_layer_vhs cfg width height field fieldno pk2.1).map fun p =>
        (composite_layer_out_lowpass cfg width height field p, pk2.2)

/-- The configuration after the switches `-vhs -vhs-svideo 1 -vhs-head-switching 0
-noise 0 -chroma-noise 0 -chroma-phase-noise 0 -chroma-dropout 50000
-in-composite-lowpass 0 -out-composite-lowpass 0` on the initial values. -/
def dropoutConfig : Config :=
  { emulating_vhs := true, vhs_svideo_out := true, video_chroma_loss := 50000,
    video_noise := 0, composite_in_chroma_lowpass := false,
    composite_out_chroma_lowpass := false }

/-- An environment whose third `rand()` returns 0 and whose other ones return 99999. -/
def dropoutEnv : Env :=
  { rand := fun k => if k = 2 then 0 else 99999, sin := fun _ => 0, cos := fun _ => 1 }

/-- A 4×5 frame whose pixels hold the word `w`. -/
def wideFrame (w : Nat) : AVFrame :=
  { width := 4, height := 5, linesize := 16, data := some (fun _ _ => w) }

/-- The stages of `composite_layer` up to and including the chroma phase noise: the planes
holding the demodulated, noise-rotated chroma, and the number of draws made so far. -/
def composite_layer_demodulated (cfg : Config) (env : Env) (src : AVFrame)
    (srcPixels : Nat → Nat → Nat) (width height field fieldno : Nat) (k : Nat) :
    Option (Planes × Nat) :=
  let p := composite_layer_fill width height field src srcPixels
  let p := if cfg.composite_in_chroma_lowpass then composite_lowpass width height field p else p
  let p := chroma_into_luma cfg.video_scanline_phase_shift cfg.video_scanline_phase_shift_offset
    width height field fieldno cfg.subcarrier_amplitude p
  let p := composite_layer_preemphasis cfg width height field p
  let yk := composite_layer_video_noise cfg env width height field p.fY k
  (composite_layer_head_switching cfg env width height field yk.1 yk.2).bind fun yk =>
    let p : Planes := { p with fY := yk.1 }
    let k := yk.2
    (if ¬ cfg.nocolor_subcarrier then
        chroma_from_luma cfg.video_scanline_phase_shift cfg.video_scanline_phase_shift_offset
          width height field fieldno cfg.subcarrier_amplitude_back p
      else some p).map fun p =>
      let pk := composite_layer_chroma_noise cfg env width height field p k
      composite_layer_phase_noise cfg env width height field pk.1 pk.2

/-! ## Command line (`parse_argv`) -/

/-- The global variables set by `parse_argv` that `composite_layer` does not read, with
their initial values, on top of those of `Config`. -/
structure Globals extends Config where
  output_field_rate : Int × Int := (60000, 1001)
  output_width : Int := 720
  output_height : Int := 480
  output_pal : Bool := false
  output_audio_channels : Int := 2
  output_audio_rate : Int := 44100
  output_avstream_video_frame_delay : Nat := 1
  input_files : List String := []
  output_file : String := ""
  video_yc_recombine : Int := 0
  output_audio_hiss_db : ℚ := -72
  output_audio_linear_buzz : ℚ := -42
  output_audio_highpass : ℚ := 20
  output_audio_lowpass : ℚ := 20000
  vhs_linear_high_boost : ℚ := 0.25
  output_vhs_hifi : Bool := true
  output_vhs_linear_stereo : Bool := false
  output_vhs_linear_audio : Bool := false
  emulating_preemphasis : Bool := true
  emulating_deemphasis : Bool := true
  nocolor_subcarrier_after_yc_sep : Bool := false
  output_audio_hiss_level : Int := 0

/-- The library functions called by `parse_argv`: `atoi`, `atof`, `strtoul(·, nullptr, 0)`
and `pow(10.0F, ·)`; and `undefined_int`, the `int` that the build stores when it converts
an infinite `float` to `int`, a conversion whose result C++ leaves undefined (`INT_MIN`
with the conversion instruction of x86-64). -/
structure CLib where
  atoi : String → Int
  atof : String → ℚ
  strtoul : String → Nat
  pow10 : ℚ → ℚ
  undefined_int : Int := -2147483648

/-- The ways in which `parse_argv` does not return 0: it returns 1, or it passes the null
pointer `argv[argc]` to `atoi`, `atof` or `strcmp`. -/
inductive ParseError where
  | Rejected
  | NullArgument
  deriving DecidableEq

/-- The function `dBFS`: `pow(10.0F, dB / 20.0F)`. -/
def dBFS (lib : CLib) (dB : ℚ) : ℚ := lib.pow10 (dB / 20.0)

/-- The function `preset_PAL`. -/
def preset_PAL (g : Globals) : Globals :=
  { g with output_field_rate := (50, 1), output_height := 576, output_width := 720,
           output_pal := true, output_ntsc := false }

/-- The function `preset_NTSC`. -/
def preset_NTSC (g : Globals) : Globals :=
  { g with output_field_rate := (60000, 1001), output_height := 480, output_width := 720,
           output_pal := false, output_ntsc := true }

/-- The text of a switch: `none` unless the argument starts with `-`, otherwise the
argument after `do { a++; } while (*a == '-');`. -/
def switchName (a : String) : Option String :=
  match a.data with
  | '-' :: cs => some (String.mk (cs.dropWhile fun c => c == '-'))
  | _ => none

/-- A branch of `parse_argv` that reads `a = argv[i++]`: `missing` is what happens when
the argument is the null pointer `argv[argc]`. -/
def withArg (v : Option String) (missing : ParseError)
    (f : String → Except ParseError (Globals × Bool)) : Except ParseError (Globals × Bool) :=
  match v with
  | none => .error missing
  | some s => f s

/-- A branch of `parse_argv` that reads `atoi(argv[i++])`. -/
def withInt (lib : CLib) (v : Option String) (f : Int → Globals) :
    Except ParseError (Globals × Bool) :=
  withArg v .NullArgument fun s => .ok (f (lib.atoi s), true)

/-- A branch of `parse_argv` that reads `atof(argv[i++])`. -/
def withFloat (lib : CLib) (v : Option String) (f : ℚ → Globals) :
    Except ParseError (Globals × Bool) :=
  withArg v .NullArgument fun s => .ok (f (lib.atof s), true)

/-- The branch `-tvstd` of `parse_argv`. -/
def parse_tvstd (v : Option String) (g : Globals) : Except ParseError (Globals × Bool) :=
  withArg v .NullArgument fun s =>
    if s = "pal" then .ok (preset_PAL g, true)
    else if s = "ntsc" then .ok (preset_NTSC g, true)
    else .error .Rejected

/-- The branch `-vhs-speed` of `parse_argv`. -/
def parse_vhs_speed (v : Option String) (g : Globals) : Except ParseError (Globals × Bool) :=
  withArg v .NullArgument fun s =>
    let g : Globals := { g with emulating_vhs := true }
    if s = "ep" then
      .ok ({ g with output_vhs_tape_speed := VHS_EP, video_chroma_phase_noise := 6,
                    video_chroma_noise := 22, video_chroma_loss := 8, video_noise := 6 }, true)
    else if s = "lp" then
      .ok ({ g with output_vhs_tape_speed := VHS_LP, video_chroma_phase_noise := 5,
                    video_chroma_noise := 19, video_chroma_loss := 6, video_noise := 5 }, true)
    else if s = "sp" then
      .ok ({ g with output_vhs_tape_speed := VHS_SP, video_chroma_phase_noise := 4,
                    video_chroma_noise := 16, video_chroma_loss := 4, video_noise := 4 }, true)
    else .error .Rejected

/-- The branch `-vhs-hifi` of `parse_argv`. -/
def parse_vhs_hifi (lib : CLib) (v : Option String) (g : Globals) :
    Except ParseError (Globals × Bool) :=
  withInt lib v fun x =>
    let g : Globals := { g with output_vhs_hifi := decide (x > 0) }
    let g : Globals := { g with output_vhs_linear_audio := !g.output_vhs_hifi,
                                emulating_vhs := true }
    if g.output_vhs_hifi then
      { g with emulating_preemphasis := true, emulating_deemphasis := true,
               output_audio_hiss_db := -70 }
    else { g with output_audio_hiss_db := -42 }

/-- The branch `-vhs` of `parse_argv`. -/
def parse_vhs (g : Globals) : Globals :=
  { g with emulating_vhs := true, vhs_head_switching := true, emulating_preemphasis := false,
           emulating_deemphasis := false, output_audio_hiss_db := -70,
           video_chroma_phase_noise := 4, video_chroma_noise := 16, video_chroma_loss := 4,
           video_noise := 4 }

/-- The body of the `if`/`else if` chain of `parse_argv` for the switch text `a`, with
`v` the argument `argv[i]` that follows (`none` for the null pointer `argv[argc]`): the
globals after the branch and whether the branch consumed `v`. -/
def parse_switch (lib : CLib) (a : String) (v : Option String) (g : Globals) :
    Except ParseError (Globals × Bool) :=
  if a = "h" ∨ a = "help" then .error .Rejected
  else if a = "comp-phase-offset" then
    withInt lib v fun x => { g with video_scanline_phase_shift_offset := x }
  else if a = "comp-phase" then
    withArg v .NullArgument fun s =>
      if ¬ (lib.atoi s = 0 ∨ lib.atoi s = 90 ∨ lib.atoi s = 180 ∨ lib.atoi s = 270) then
        .error .Rejected
      else .ok ({ g with video_scanline_phase_shift := lib.atoi s }, true)
  else if a = "width" then
    withArg v .Rejected fun s =>
      if i32 (lib.strtoul s) < 32 then .error .Rejected
      else .ok ({ g with output_width := i32 (lib.strtoul s) }, true)
  else if a = "d" then
    withArg v .Rejected fun s =>
      if lib.strtoul s % 2 ^ 32 = 0 ∨ lib.strtoul s % 2 ^ 32 > 256 then .error .Rejected
      else .ok ({ g with output_avstream_video_frame_delay := lib.strtoul s % 2 ^ 32 }, true)
  else if a = "i" then
    withArg v .Rejected fun s => .ok ({ g with input_files := g.input_files ++ [s] }, true)
  else if a = "o" then
    withArg v .Rejected fun s => .ok ({ g with output_file := s }, true)
  else if a = "tvstd" then parse_tvstd v g
  else if a = "in-composite-lowpass" then
    withInt lib v fun x => { g with composite_in_chroma_lowpass := decide (x > 0) }
  else if a = "out-composite-lowpass" then
    withInt lib v fun x => { g with composite_out_chroma_lowpass := decide (x > 0) }
  else if a = "out-composite-lowpass-lite" then
    withInt lib v fun x => { g with composite_out_chroma_lowpass_lite := decide (x > 0) }
  else if a = "nocomp" then
    .ok ({ g with toConfig := parse_argv_nocomp g.toConfig }, false)
  else if a = "vhs-head-switching-point" then
    withFloat lib v fun x => { g with vhs_head_switching_point := x }
  else if a = "vhs-head-switching-phase" then
    withFloat lib v fun x => { g with vhs_head_switching_phase := x }
  else if a = "vhs-head-switching-noise-level" then
    withFloat lib v fun x => { g with vhs_head_switching_phase_noise := x }
  else if a = "vhs-head-switching" then
    withInt lib v fun x => { g with vhs_head_switching := decide (x > 0) }
  else if a = "vhs-linear-high-boost" then
    withFloat lib v fun x => { g with vhs_linear_high_boost := x }
  else if a = "comp-pre" then
    withFloat lib v fun x => { g with composite_preemphasis := x }
  else if a = "comp-cut" then
    withFloat lib v fun x => { g with composite_preemphasis_cut := x }
  else if a = "comp-catv" then
    .ok ({ g with composite_preemphasis := 7,
                  composite_preemphasis_cut := ((Int.tdiv 315000000 88 : Int) : ℚ),
                  video_chroma_phase_noise := 2 }, false)
  else if a = "comp-catv2" then
    .ok ({ g with composite_preemphasis := 15,
                  composite_preemphasis_cut := ((Int.tdiv 315000000 88 : Int) : ℚ),
                  video_chroma_phase_noise := 4 }, false)
  else if a = "comp-catv3" then
    .ok ({ g with composite_preemphasis := 25,
                  composite_preemphasis_cut := ((Int.tdiv (315000000 * 2) 88 : Int) : ℚ),
                  video_chroma_phase_noise := 6 }, false)
  else if a = "comp-catv4" then
    .ok ({ g with composite_preemphasis := 40,
                  composite_preemphasis_cut := ((Int.tdiv (315000000 * 4) 88 : Int) : ℚ),
                  video_chroma_phase_noise := 6 }, false)
  else if a = "vhs-linear-video-crosstalk" then
    withFloat lib v fun x => { g with output_audio_linear_buzz := x }
  else if a = "chroma-phase-noise" then
    withInt lib v fun x => { g with video_chroma_phase_noise := x }
  else if a = "yc-recomb" then
    withFloat lib v fun x => { g with video_yc_recombine := toInt x }
  else if a = "audio-hiss" then
    withFloat lib v fun x => { g with output_audio_hiss_db := x }
  else if a = "vhs-svideo" then
    withInt lib v fun x => { g with vhs_svideo_out := decide (x > 0) }
  else if a = "vhs-chroma-vblend" then
    withInt lib v fun x => { g with vhs_chroma_vert_blend := decide (x > 0) }
  else if a = "chroma-noise" then
    withInt lib v fun x => { g with video_chroma_noise := x }
  else if a = "noise" then
    withInt lib v fun x => { g with video_noise := x }
  else if a = "subcarrier-amp" then
    withInt lib v fun x => { g with subcarrier_amplitude := x, subcarrier_amplitude_back := x }
  else if a = "nocolor-subcarrier" then
    .ok ({ g with nocolor_subcarrier := true }, false)
  else if a = "nocolor-subcarrier-after-yc-sep" then
    .ok ({ g with nocolor_subcarrier_after_yc_sep := true }, false)
  else if a = "chroma-dropout" then
    withInt lib v fun x => { g with video_chroma_loss := x }
  else if a = "vhs" then .ok (parse_vhs g, false)
  else if a = "preemphasis" then
    withInt lib v fun x => { g with emulating_preemphasis := decide (x > 0) }
  else if a = "deemphasis" then
    withInt lib v fun x => { g with emulating_deemphasis := decide (x > 0) }
  else if a = "vhs-speed" then parse_vhs_speed v g
  else if a = "vhs-hifi" then parse_vhs_hifi lib v g
  else .error .Rejected

/-- The loop `for (i = 1; i < argc;)` of `parse_argv` over the arguments that follow
`argv[0]`. -/
def parse_argv_loop (lib : CLib) : List String → Globals → Except ParseError Globals
  | [], g => .ok g
  | [a], g =>
    match switchName a with
    | none => .error .Rejected
    | some name => (parse_switch lib name none g).map fun r => r.1
  | a :: v :: rest, g =>
    match switchName a with
    | none => .error .Rejected
    | some name =>
      match parse_switch lib name (some v) g with
      | .error e => .error e
      | .ok (g, true) => parse_argv_loop lib rest g
      | .ok (g, false) => parse_argv_loop lib (v :: rest) g

/-- The audio band and channel count chosen after the loop of `parse_argv`. -/
def parse_argv_audio (g : Globals) : Globals :=
  if g.emulating_vhs then
    if g.output_vhs_hifi then
      { g with output_audio_highpass := 20, output_audio_lowpass := 20000,
               output_audio_channels := 2 }
    else if g.output_vhs_linear_audio then
      let g : Globals :=
        if g.output_vhs_tape_speed = VHS_SP then
          { g with output_audio_highpass := 100, output_audio_lowpass := 10000 }
        else if g.output_vhs_tape_speed = VHS_LP then
          { g with output_audio_highpass := 100, output_audio_lowpass := 7000 }
        else if g.output_vhs_tape_speed = VHS_EP then
          { g with output_audio_highpass := 100, output_audio_lowpass := 4000 }
        else g
      if ¬ g.output_vhs_linear_stereo then { g with output_audio_channels := 1 }
      else { g with output_audio_channels := 2 }
    else g
  else
    { g with output_audio_highpass := 20, output_audio_lowpass := 20000,
             output_audio_channels := 2 }

/-- The statement `subcarrier_amplitude_back += (50 * composite_preemphasis *
(315000000 / 88)) / (2 * composite_preemphasis_cut)` under
`if (composite_preemphasis != 0)`: the sum is formed in floating point and converted back
to `int`.  There is no test of the cutoff: with the cutoff 0 the quotient of the nonzero
product is infinite, and the `int` stored is `lib.undefined_int`. -/
def parse_argv_amplitude (lib : CLib) (g : Globals) : Globals :=
  if g.composite_preemphasis ≠ 0 then
    let back : Int :=
      if g.composite_preemphasis_cut = 0 then lib.undefined_int
      else toInt ((g.subcarrier_amplitude_back : ℚ)
        + (50 * g.composite_preemphasis * ((Int.tdiv 315000000 88 : Int) : ℚ))
          / (2 * g.composite_preemphasis_cut))
    { g with subcarrier_amplitude_back := back }
  else g

/-- The function `parse_argv` on the arguments `argv[1]`, …, `argv[argc - 1]`, started
from the globals `g`: the globals when it returns 0. -/
def parse_argv (lib : CLib) (args : List String) (g : Globals) : Except ParseError Globals :=
  (parse_argv_loop lib args g).bind fun g =>
    let g := parse_argv_audio g
    let g := parse_argv_amplitude lib g
    let g : Globals :=
      { g with output_audio_hiss_level := toInt (dBFS lib g.output_audio_hiss_db * 5000) }
    if g.output_file = "" then .error .Rejected
    else if g.input_files = [] then .error .Rejected
    else .ok g

/-- A library whose integer conversions return `n` and whose `pow(10.0F, ·)` returns 1:
the library on a command line whose only numeric argument is the decimal string of `n`. -/
def constLib (n : Int) : CLib :=
  { atoi := fun _ => n, atof := fun _ => n, strtoul := fun _ => n.toNat, pow10 := fun _ => 1 }

/-- A library whose conversions return 0 and whose `pow(10.0F, ·)` returns 1. -/
def zeroLib : CLib :=
  { atoi := fun _ => 0, atof := fun _ => 0, strtoul := fun _ => 0, pow10 := fun _ => 1 }

/-! ## Audio (`composite_audio_process`) -/

/-- The audio filters and counters that `composite_audio_process` reads and updates:
`audio_hilopass.audiostate`, `audio_linear_preemphasis_pre`,
`audio_linear_preemphasis_post`, `audio_post_vhs_boost`, `audio_proc_count`, and the
number of `rand()` draws made so far. -/
structure AudioState where
  audiostate : List HiLoPass := []
  audio_linear_preemphasis_pre : List LowpassFilter := [{}, {}]
  audio_linear_preemphasis_post : List LowpassFilter := [{}, {}]
  audio_post_vhs_boost : List LowpassFilter := [{}, {}]
  audio_proc_count : Nat := 0
  k : Nat := 0

/-- The function `clips16`. -/
def clips16 (x : Int) : Int :=
  if x < -32768 then -32768 else if x > 32767 then 32767 else x

/-- The block `prepare audio filtering` of `main` with the filter setup that follows it:
six passes per channel configured with `setFilter(rate, output_audio_lowpass,
output_audio_highpass)`, the playback boost filters at 10000 Hz, and the preemphasis and
deemphasis filters at 16000 Hz (Hi-Fi) or 8000 Hz. -/
def audio_init (g : Globals) : AudioState :=
  let rate : ℚ := g.output_audio_rate
  let channels := u64 g.output_audio_channels
  let audiostate : List HiLoPass :=
    if channels = 0 ∨ rate = 0 ∨ g.output_audio_lowpass = 0 ∨ g.output_audio_highpass = 0 then []
    else
      List.replicate channels (List.replicate 6
        { lo := ({} : LowpassFilter).setFilter rate g.output_audio_lowpass,
          hi := ({} : LowpassFilter).setFilter rate g.output_audio_highpass })
  let emph : ℚ := if g.output_vhs_hifi then 16000 else 8000
  let setup (enabled : Bool) : List LowpassFilter :=
    (List.range 2).map fun i =>
      if enabled ∧ i < channels then ({} : LowpassFilter).setFilter rate emph else {}
  { audiostate := audiostate
    audio_linear_preemphasis_pre := setup g.emulating_preemphasis
    audio_linear_preemphasis_post := setup g.emulating_deemphasis
    audio_post_vhs_boost := [({} : LowpassFilter).setFilter rate 10000,
      ({} : LowpassFilter).setFilter rate 10000] }

/-- The loop `for (i = 0; i < output_audio_channels; i++) s = s + pre[i].highpass(s)`;
`none` when `i` leaves the array. -/
def audio_preemphasis (channels : Nat) (s : ℚ) (pre : List LowpassFilter) :
    Option (ℚ × List LowpassFilter) :=
  forColumns channels (fun i (st : Option (ℚ × List LowpassFilter)) =>
    st.bind fun st =>
      st.2[i]?.map fun f =>
        let h := f.highpass st.1
        (st.1 + h.1, st.2.set i h.2))
    (some (s, pre))

/-- The loop `for (i = 0; i < output_audio_channels; i++) s = post[i].lowpass(s)`;
`none` when `i` leaves the array. -/
def audio_deemphasis (channels : Nat) (s : ℚ) (post : List LowpassFilter) :
    Option (ℚ × List LowpassFilter) :=
  forColumns channels (fun i (st : Option (ℚ × List LowpassFilter)) =>
    st.bind fun st =>
      st.2[i]?.map fun f =>
        let l := f.lowpass st.1
        (l.1, st.2.set i l.2))
    (some (s, post))

/-- The function `fmod(a, b)` for `b ≠ 0`: `a` minus `b` times the truncated quotient. -/
def fmodq (a b : ℚ) : ℚ := a - b * (toInt (a / b) : ℚ)

/-- The crosstalk loop of `composite_audio_process`: sixteen oversampled positions in the
scanline, each inside a sync pulse lowering the sample by `linear_buzz / 16 / 2`. -/
def audio_buzz (g : Globals) (linear_buzz : ℚ) (audio_proc_count : Nat) (s : ℚ) : ℚ :=
  let hsync_hz : ℚ := if g.output_ntsc then 15734 else 15625
  let vsync_lines : Int := if g.output_ntsc then 525 else 625
  let vpulse_end : Int := if g.output_ntsc then 10 else 12
  let hpulse_end : ℚ :=
    if g.output_ntsc then hsync_hz * (4.7 / 1000000) else hsync_hz * (4.0 / 1000000)
  let oversample : Nat := 16
  forColumns oversample (fun oi (s : ℚ) =>
    let t : ℚ := ((((audio_proc_count : ℚ) * oversample) + oi) * hsync_hz)
      / g.output_audio_rate / oversample
    let hpos := fmod1 t
    let vline : Int := toInt (fmodq (⌊t + 0.0001 - hpos⌋ : ℚ) ((vsync_lines : ℚ) / 2))
    let pulse : Bool := decide (hpos < hpulse_end) || decide (vline < vpulse_end)
    if pulse then s - linear_buzz / oversample / 2 else s) s

/-- The body of the channel loop of `composite_audio_process` for channel `c` with input
sample `x`: the output sample and the state after it; `none` when an index leaves its
array. -/
def audio_channel (g : Globals) (lib : CLib) (env : Env) (c : Nat) (x : Int)
    (st : AudioState) : Option (Int × AudioState) :=
  let channels := u32 g.output_audio_channels
  let linear_buzz := dBFS lib g.output_audio_linear_buzz
  let s : ℚ := (x : ℚ) / 32768
  st.audiostate[c]?.bind fun bank =>
    let r := bank.filter s
    let s := r.1
    let st : AudioState := { st with audiostate := st.audiostate.set c r.2 }
    (if g.emulating_preemphasis then
        audio_preemphasis channels s st.audio_linear_preemphasis_pre
      else some (s, st.audio_linear_preemphasis_pre)).bind fun sp =>
      let s := sp.1
      let st : AudioState := { st with audio_linear_preemphasis_pre := sp.2 }
      let s := if ¬ g.output_vhs_hifi ∧ linear_buzz > 0.000000001 then
          audio_buzz g linear_buzz st.audio_proc_count s
        else s
      let s : ℚ := if s > 1.0 then 1.0 else if s < -1.0 then -1.0 else s
      let sk : ℚ × Nat :=
        if g.output_audio_hiss_level ≠ 0 then
          (s + ((noiseDraw env st.k ((g.output_audio_hiss_level * 2) + 1)
            g.output_audio_hiss_level : Int) : ℚ) / 20000, st.k + 1)
        else (s, st.k)
      let s := sk.1
      let st : AudioState := { st with k := sk.2 }
      (if ¬ g.output_vhs_hifi ∧ g.vhs_linear_high_boost > 0 then
          st.audio_post_vhs_boost[c]?.map fun f =>
            let h := f.highpass s
            (s + h.1 * g.vhs_linear_high_boost, st.audio_post_vhs_boost.set c h.2)
        else some (s, st.audio_post_vhs_boost)).bind fun sb =>
        let s := sb.1
        let st : AudioState := { st with audio_post_vhs_boost := sb.2 }
        (if g.emulating_deemphasis then
            audio_deemphasis channels s st.audio_linear_preemphasis_post
          else some (s, st.audio_linear_preemphasis_post)).map fun sd =>
          (clips16 (toInt (sd.1 * 32768)),
            { st with audio_linear_preemphasis_post := sd.2 })

/-- The function `composite_audio_process` on the interleaved buffer `audio` holding
`samples` sample periods: the buffer and the state after the call; `none` when the
assertion on `audiostate` fails or an index leaves its array. -/
def composite_audio_process (g : Globals) (lib : CLib) (env : Env) (audio : Nat → Int)
    (samples : Nat) (st : AudioState) : Option ((Nat → Int) × AudioState) :=
  let channels := u32 g.output_audio_channels
  if st.audiostate.length < u64 g.output_audio_channels then none
  else
    forColumns samples (fun s (acc : Option ((Nat → Int) × AudioState)) =>
      (forColumns channels (fun c (acc : Option ((Nat → Int) × AudioState)) =>
        acc.bind fun acc =>
          (audio_channel g lib env c (acc.1 (s * channels + c)) acc.2).map fun r =>
            (Function.update acc.1 (s * channels + c) r.1, r.2)) acc).map fun acc =>
        (acc.1, { acc.2 with audio_proc_count := acc.2.audio_proc_count + 1 }))
      (some (audio, st))

/-- An environment whose `rand()` always returns 1. -/
def oneEnv : Env := { rand := fun _ => 1, sin := fun _ => 0, cos := fun _ => 1 }

/-- The globals after `parse_argv` on a command line that names the files only: the
initial values with `output_audio_hiss_level = 1`, the truncation of
`dBFS(-72) * 5000`. -/
def defaultGlobals : Globals := { output_audio_hiss_level := 1 }

/-- A buffer of one stereo sample period: the left sample `l` and a silent right
sample. -/
def stereoBuffer (l : Int) : Nat → Int := fun i => if i = 0 then l else 0

/-- The first three loops of the row body of `chroma_from_luma`: the residual `chroma`
after the box blur, the sign correction and the rescaling by `50 / subcarrier_amplitude`;
`none` when the division has a zero divisor. -/
def chroma_from_luma_residual (width xi : Nat) (subcarrier_amplitude : Int) (Y : Scanline) :
    Option Scanline :=
  chroma_from_luma_scale width subcarrier_amplitude
    (chroma_from_luma_flip width xi (chroma_from_luma_blur width Y).chroma)

/-- The value demultiplexed into `I[x]` for an even column `x`: `-chroma[x + xi]` while
`x + xi + 1 < width`, 0 afterwards. -/
def demuxI (width xi : Nat) (chroma : Scanline) (x : Nat) : Int :=
  if x + xi + 1 < width then -chroma (x + xi) else 0

/-- The value demultiplexed into `Q[x]` for an even column `x`: `-chroma[x + xi + 1]`
while `x + xi + 1 < width`, 0 afterwards. -/
def demuxQ (width xi : Nat) (chroma : Scanline) (x : Nat) : Int :=
  if x + xi + 1 < width then -chroma (x + xi + 1) else 0

/-- A row of four luma samples `0, 0, 8, 0` with chroma planes at zero. -/
def stepRow : Row := { Y := fun x => if x = 2 then 8 else 0, I := fun _ => 0, Q := fun _ => 0 }

/-- A row of four luma samples `0, 0, 100, 0` with chroma planes at zero. -/
def pulseRow : Row :=
  { Y := fun x => if x = 2 then 100 else 0, I := fun _ => 0, Q := fun _ => 0 }

/-- The body of the column loop of the chroma noise stage on row `y`: the current
accumulators are added to `U[x]` and `V[x]`, then each accumulator takes a draw and is
halved. -/
def chroma_noise_pixel (env : Env) (video_chroma_noise : Int) (y x : Nat)
    (st : ChromaNoiseState) : ChromaNoiseState :=
  let fI := Function.update st.fI y (store (st.fI y) x (st.fI y x + st.noiseU))
  let fQ := Function.update st.fQ y (store (st.fQ y) x (st.fQ y x + st.noiseV))
  let noiseU := st.noiseU
    + noiseDraw env st.k ((video_chroma_noise * 2) + 1) video_chroma_noise
  let noiseU := Int.tdiv noiseU 2
  let noiseV := st.noiseV
    + noiseDraw env (st.k + 1) ((video_chroma_noise * 2) + 1) video_chroma_noise
  let noiseV := Int.tdiv noiseV 2
  { fI := fI, fQ := fQ, noiseU := noiseU, noiseV := noiseV, k := st.k + 2 }

/-- The value of the accumulator `noiseU` (`off = 0`) or `noiseV` (`off = 1`) of the
chroma noise stage after `n` pixels, when the stage starts at draw number `k` with
`video_chroma_noise = v`. -/
def chromaNoiseWalk (env : Env) (k : Nat) (v : Int) (off : Nat) : Nat → Int
  | 0 => 0
  | n + 1 => Int.tdiv (chromaNoiseWalk env k v off n
      + noiseDraw env (k + 2 * n + off) ((v * 2) + 1) v) 2

/-- A configuration with luma noise 2 and chroma noise 3. -/
def noisyConfig : Config := { video_noise := 2, video_chroma_noise := 3 }

/-- The values that the head switching stage computes before its loop: the start row `y`,
the start column `x` (copied to `tx`), the initial displacement `ishif` and the number of
`rand()` draws made so far. -/
structure HeadSwitchingStart where
  y : Int
  x : Nat
  ishif : Int
  k : Nat
  deriving DecidableEq

/-- The statements of the head switching stage from the phase noise down to
`ishif = x - twidth` or `ishif = x`. -/
def head_switching_start (cfg : Config) (env : Env) (width field k : Nat) :
    HeadSwitchingStart :=
  let twidth := width + (width / 10)
  let noisek : ℚ × Nat :=
    if cfg.vhs_head_switching_phase_noise ≠ 0 then
      let x : Nat := u32 (env.rand k) * u32 (env.rand (k + 1)) * u32 (env.rand (k + 2))
        * u32 (env.rand (k + 3)) % 2 ^ 32
      let x : Nat := x % 2000000000
      let noise : ℚ := ((x : ℚ) / 1000000000) - 1.0
      (noise * cfg.vhs_head_switching_phase_noise, k + 4)
    else (0, k)
  let noise := noisek.1
  let t : ℚ := if cfg.output_ntsc then (twidth : ℚ) * 262.5 else (twidth : ℚ) * 312.5
  let p := u32 (toInt (fmod1 (cfg.vhs_head_switching_point + noise) * t))
  let y : Int := (((p / twidth) * 2 + field : Nat) : Int)
  let p := u32 (toInt (fmod1 (cfg.vhs_head_switching_phase + noise) * t))
  let x := p % twidth
  let y := if cfg.output_ntsc then y - (262 - 240) * 2 else y - (312 - 288) * 2
  let ishif : Int := if x ≥ twidth / 2 then (x : Int) - (twidth : Int) else (x : Int)
  { y := y, x := x, ishif := ishif, k := noisek.2 }

/-- The value of `shif` at the start of iteration number `shy` of the loop of the head
switching stage: `shif = 0` before the loop, and each iteration ends with
`if (shy == 0) shif = ishif; else shif = (shif * 7) / 8;`. -/
def head_switching_shif (ishif : Int) : Nat → Int
  | 0 => 0
  | shy + 1 => if shy = 0 then ishif else Int.tdiv (head_switching_shif ishif shy * 7) 8

/-- Head switching at point 0.97 with phase 0.002, noise level 0, NTSC. -/
def phaseConfig : Config :=
  { vhs_head_switching := true, vhs_head_switching_point := 0.97,
    vhs_head_switching_phase := 0.002, vhs_head_switching_phase_noise := 0,
    output_ntsc := true }

/-- Whether the loop of the head switching stage has an iteration for row `r` of the
frame: the loop runs over the rows `y`, `y + 2`, … below `height`, from the start row. -/
def head_switching_visits (cfg : Config) (env : Env) (width height field k r : Nat) : Prop :=
  (head_switching_start cfg env width field k).y ≤ (r : Int) ∧ r < height
    ∧ ((r : Int) - (head_switching_start cfg env width field k).y) % 2 = 0

instance (cfg : Config) (env : Env) (width height field k r : Nat) :
    Decidable (head_switching_visits cfg env width height field k r) := by
  unfold head_switching_visits
  infer_instance

/-- The value of `shif` in the iteration of the loop of the head switching stage for row
`r`, which is iteration number `(r - y) / 2` counted from the start row `y`. -/
def head_switching_row_shif (cfg : Config) (env : Env) (width field k r : Nat) : Int :=
  head_switching_shif (head_switching_start cfg env width field k).ishif
    (((r : Int) - (head_switching_start cfg env width field k).y) / 2).toNat

/-! ## Binary floating point -/

/-- The number of binary digits of `n` (0 for `n = 0`), found in at most `fuel` halvings. -/
def bitLength : Nat → Nat → Nat
  | 0, _ => 0
  | fuel + 1, n => if n = 0 then 0 else bitLength fuel (n / 2) + 1

/-- A binary floating-point number `m · 2^e`.  The range of the exponent is not bounded:
overflow, underflow and subnormal numbers of `float` and `double` are outside the model. -/
structure Binary where
  m : Int
  e : Int
  deriving DecidableEq

namespace Binary

/-- The numerator of `m · 2^e` written as a fraction with the denominator `den`. -/
def num (x : Binary) : Int := if 0 ≤ x.e then x.m * 2 ^ x.e.toNat else x.m

/-- The denominator of `m · 2^e` written as a fraction: a power of two. -/
def den (x : Binary) : Nat := if 0 ≤ x.e then 1 else 2 ^ (-x.e).toNat

/-- The value `m · 2^e` as a rational. -/
def toRat (x : Binary) : ℚ := (x.num : ℚ) / (x.den : ℚ)

end Binary

/-- The exponent `L` with `2^L ≤ a / d < 2^(L+1)`, for positive `a` and `d`: the
difference of the numbers of binary digits of `a` and `d`, or one less. -/
def floorLog2 (a d : Nat) : Int :=
  let l : Int := (bitLength a a : Int) - (bitLength d d : Int)
  if (if 0 ≤ l then d * 2 ^ l.toNat ≤ a else d ≤ a * 2 ^ (-l).toNat) then l else l - 1

/-- The quotient `N / D` rounded to the nearest integer, to the even one of two nearest. -/
def roundQuotient (N D : Nat) : Nat :=
  if D < 2 * (N % D) ∨ (2 * (N % D) = D ∧ N / D % 2 = 1) then N / D + 1 else N / D

/-- Rounding to nearest, ties to even, of the fraction `n / d` to `p` significant bits
(`p = 24` for `float`, `p = 53` for `double`): with `E` the exponent for which
`2^(p-1) ≤ |n / d| / 2^E < 2^p`, the quotient `|n / d| / 2^E` is rounded to the nearest
integer, to the even one of two nearest. -/
def roundNearestEven (p : Nat) (n : Int) (d : Nat) : Binary :=
  if n = 0 ∨ d = 0 then { m := 0, e := 0 }
  else
    let E : Int := floorLog2 n.natAbs d - ((p : Int) - 1)
    let q : Nat :=
      if 0 ≤ E then roundQuotient n.natAbs (d * 2 ^ E.toNat)
      else roundQuotient (n.natAbs * 2 ^ (-E).toNat) d
    { m := if n < 0 then -(q : Int) else (q : Int), e := E }

namespace Binary

/-- The conversion of an `int` to a floating-point number of `p` significant bits. -/
def ofInt (p : Nat) (n : Int) : Binary := roundNearestEven p n 1

/-- The conversion between the floating-point types: rounding to `p` significant bits. -/
def round (p : Nat) (x : Binary) : Binary := roundNearestEven p x.num x.den

/-- The sum `x + y` rounded to `p` significant bits. -/
def add (p : Nat) (x y : Binary) : Binary :=
  roundNearestEven p (x.num * y.den + y.num * x.den) (x.den * y.den)

/-- The difference `x - y` rounded to `p` significant bits. -/
def sub (p : Nat) (x y : Binary) : Binary :=
  roundNearestEven p (x.num * y.den - y.num * x.den) (x.den * y.den)

/-- The product `x * y` rounded to `p` significant bits. -/
def mul (p : Nat) (x y : Binary) : Binary :=
  roundNearestEven p (x.num * y.num) (x.den * y.den)

/-- The quotient `x / y` rounded to `p` significant bits, for `y ≠ 0`. -/
def div (p : Nat) (x y : Binary) : Binary :=
  roundNearestEven p (if y.num < 0 then -(x.num * y.den) else x.num * y.den)
    (x.den * y.num.natAbs)

/-- The conversion of a floating-point number to `int`: truncation toward zero. -/
def toInt (x : Binary) : Int := Int.tdiv x.num x.den

end Binary

/-- The `double` literal with the decimal value `n / 1000`. -/
def double1000 (n : Int) : Binary := roundNearestEven 53 n 1000

/-- The function `RGB_to_YIQ` in `double` arithmetic, as the source computes it: every
literal, product, sum and difference is rounded to 53 significant bits, and the `int`
arguments are converted to `double` where they meet one. -/
def RGB_to_YIQ_binary64 (r g b : Int) : Int × Int × Int :=
  let dY := Binary.add 53
    (Binary.add 53 (Binary.mul 53 (double1000 300) (Binary.ofInt 53 r))
      (Binary.mul 53 (double1000 590) (Binary.ofInt 53 g)))
    (Binary.mul 53 (double1000 110) (Binary.ofInt 53 b))
  let Y := Binary.toInt (Binary.mul 53 (Binary.ofInt 53 256) dY)
  let I := Binary.toInt (Binary.mul 53 (Binary.ofInt 53 256)
    (Binary.add 53 (Binary.mul 53 (double1000 (-270)) (Binary.sub 53 (Binary.ofInt 53 b) dY))
      (Binary.mul 53 (double1000 740) (Binary.sub 53 (Binary.ofInt 53 r) dY))))
  let Q := Binary.toInt (Binary.mul 53 (Binary.ofInt 53 256)
    (Binary.add 53 (Binary.mul 53 (double1000 410) (Binary.sub 53 (Binary.ofInt 53 b) dY))
      (Binary.mul 53 (double1000 480) (Binary.sub 53 (Binary.ofInt 53 r) dY))))
  (Y, I, Q)

/-- The function `YIQ_to_RGB` in `double` arithmetic, as the source computes it: every
literal, product, sum and quotient is rounded to 53 significant bits. -/
def YIQ_to_RGB_binary64 (Y I Q : Int) : Int × Int × Int :=
  let y := Binary.mul 53 (double1000 1000) (Binary.ofInt 53 Y)
  let r := Binary.toInt (Binary.div 53
    (Binary.add 53 (Binary.add 53 y (Binary.mul 53 (double1000 956) (Binary.ofInt 53 I)))
      (Binary.mul 53 (double1000 621) (Binary.ofInt 53 Q))) (Binary.ofInt 53 256))
  let g := Binary.toInt (Binary.div 53
    (Binary.add 53 (Binary.add 53 y (Binary.mul 53 (double1000 (-272)) (Binary.ofInt 53 I)))
      (Binary.mul 53 (double1000 (-647)) (Binary.ofInt 53 Q))) (Binary.ofInt 53 256))
  let b := Binary.toInt (Binary.div 53
    (Binary.add 53 (Binary.add 53 y (Binary.mul 53 (double1000 (-1106)) (Binary.ofInt 53 I)))
      (Binary.mul 53 (double1000 1703) (Binary.ofInt 53 Q))) (Binary.ofInt 53 256))
  (clamp255 r, clamp255 g, clamp255 b)

/-! ## Chroma lowpass in `float` arithmetic -/

/-- The constant `M_PI` of `math.h` as a `double`. -/
def M_PI_binary64 : Binary :=
  roundNearestEven 53 314159265358979323846 100000000000000000000

/-- The sample rate `(315000000.00F * 4.F) / 88.F` as the `float` expression evaluates. -/
def videoRate_binary32 : Binary :=
  Binary.div 24 (Binary.mul 24 (Binary.ofInt 24 315000000) (Binary.ofInt 24 4))
    (Binary.ofInt 24 88)

/-- The class `LowpassFilter` with its `float` members as binary floating-point numbers. -/
structure LowpassFilter32 where
  timeInterval : Binary := { m := 0, e := 0 }
  cutoff : Binary := { m := 0, e := 0 }
  alpha : Binary := { m := 0, e := 0 }
  prev : Binary := { m := 0, e := 0 }
  tau : Binary := { m := 0, e := 0 }
  deriving DecidableEq

namespace LowpassFilter32

/-- The method `LowpassFilter::setFilter(rate, hz)` in the arithmetic of the source:
`1.0F / rate` and `timeInterval / (tau + timeInterval)` are `float` operations;
in `1.F / (hz * 2.F * M_PI)` the product `hz * 2.F` is a `float`, its product with the
`double` constant `M_PI` and the quotient are `double` operations, and the result is
converted to the `float` member `tau`. -/
def setFilter (f : LowpassFilter32) (rate hz : Binary) : LowpassFilter32 :=
  let timeInterval := Binary.div 24 (Binary.ofInt 24 1) rate
  let tau := Binary.round 24 (Binary.div 53 (Binary.ofInt 24 1)
    (Binary.mul 53 (Binary.mul 24 hz (Binary.ofInt 24 2)) M_PI_binary64))
  { f with
    timeInterval := timeInterval
    tau := tau
    cutoff := hz
    alpha := Binary.div 24 timeInterval (Binary.add 24 tau timeInterval) }

/-- The method `LowpassFilter::resetFilter(val)`. -/
def resetFilter (f : LowpassFilter32) (val : Binary) : LowpassFilter32 :=
  { f with prev := val }

/-- The method `LowpassFilter::lowpass(sample)` in `float` arithmetic: the returned value
and the filter after the call. -/
def lowpass (f : LowpassFilter32) (sample : Binary) : Binary × LowpassFilter32 :=
  let stage1 := Binary.mul 24 sample f.alpha
  let stage2 := Binary.sub 24 f.prev (Binary.mul 24 f.prev f.alpha)
  (Binary.add 24 stage1 stage2, { f with prev := Binary.add 24 stage1 stage2 })

end LowpassFilter32

/-- The loop `for (auto& f : lp) { s = f.lowpass(s); }` in `float` arithmetic: the final
sample and the filters after the loop. -/
def lowpassChain_binary32 (lp : List LowpassFilter32) (s : Binary) :
    Binary × List LowpassFilter32 :=
  lp.foldl
    (fun (acc : Binary × List LowpassFilter32) f =>
      ((f.lowpass acc.1).1, acc.2 ++ [(f.lowpass acc.1).2]))
    (s, [])

/-- Three filters configured with `setFilter((315000000.00F * 4.F) / 88.F, cutoff)` and
`resetFilter(0.F)`, for an integral `cutoff`. -/
def filters3_binary32 (cutoff : Int) : List LowpassFilter32 :=
  List.replicate 3 ((({} : LowpassFilter32).setFilter videoRate_binary32
    (Binary.ofInt 24 cutoff)).resetFilter { m := 0, e := 0 })

/-- The body of the column loop of `composite_lowpass` and `composite_lowpass_tv` in
`float` arithmetic: `s = P[x]` converts the sample to `float`, the three filters run, and
`P[x - delay] = s` converts back by truncation. -/
def delayedLowpassStep_binary32 (delay : Nat) (x : Nat)
    (st : Scanline × List LowpassFilter32) : Scanline × List LowpassFilter32 :=
  let s : Binary := Binary.ofInt 24 (st.1 x)
  let r := lowpassChain_binary32 st.2 s
  (if x ≥ delay then store st.1 (x - delay) (Binary.toInt r.1) else st.1, r.2)

/-- The body of the row loop of `composite_lowpass` and `composite_lowpass_tv` on one
scanline, in `float` arithmetic. -/
def chroma_lowpass_row_binary32 (width : Nat) (cutoff : Int) (delay : Nat) (P : Scanline) :
    Scanline :=
  (forColumns width (delayedLowpassStep_binary32 delay) (P, filters3_binary32 cutoff)).1

/-- The function `composite_lowpass` in `float` arithmetic: the pass `p = 1` over `fI`,
then the pass `p = 2` over `fQ`. -/
def composite_lowpass_binary32 (width height field : Nat) (p : Planes) : Planes :=
  let p1 := forFieldRows field height (fun y (p : Planes) =>
    { p with fI := Function.update p.fI y (chroma_lowpass_row_binary32 width 1300000 2 (p.fI y)) })
    p
  forFieldRows field height (fun y (p : Planes) =>
    { p with fQ := Function.update p.fQ y (chroma_lowpass_row_binary32 width 600000 4 (p.fQ y)) })
    p1

/-- The function `composite_lowpass_tv` in `float` arithmetic. -/
def composite_lowpass_tv_binary32 (width height field : Nat) (p : Planes) : Planes :=
  let p1 := forFieldRows field height (fun y (p : Planes) =>
    { p with fI := Function.update p.fI y (chroma_lowpass_row_binary32 width 2600000 1 (p.fI y)) })
    p
  forFieldRows field height (fun y (p : Planes) =>
    { p with fQ := Function.update p.fQ y (chroma_lowpass_row_binary32 width 2600000 1 (p.fQ y)) })
    p1

/-- The three filters of a row of the chroma lowpass before column `x`, in `float`
arithmetic: configured for `cutoff` and reset to 0 at the start of the row, then fed the
samples `P[0]`, …, `P[x - 1]`, each through the three filters in turn. -/
def cascadeState_binary32 (cutoff : Int) (P : Scanline) : Nat → List LowpassFilter32
  | 0 => filters3_binary32 cutoff
  | x + 1 => (lowpassChain_binary32 (cascadeState_binary32 cutoff P x)
      (Binary.ofInt 24 (P x))).2

/-- The output `f_x` of the three cascaded filters for the sample `P[x]`, after they have
been fed `P[0]`, …, `P[x - 1]`, in `float` arithmetic. -/
def cascadeOutput_binary32 (cutoff : Int) (P : Scanline) (x : Nat) : Binary :=
  (lowpassChain_binary32 (cascadeState_binary32 cutoff P x) (Binary.ofInt 24 (P x))).1

/-! # Verified properties -/

/-! ## Properties of the numeric conversions -/

theorem toInt_lt (q : ℚ) : ((toInt q : Int) : ℚ) < q + 1 := by
  unfold toInt
  split
  · have := Int.floor_le q; linarith
  · exact Int.ceil_lt_add_one q

theorem toInt_gt (q : ℚ) : q - 1 < ((toInt q : Int) : ℚ) := by
  unfold toInt
  split
  · have := Int.lt_floor_add_one q; linarith
  · have := Int.le_ceil q; linarith

theorem toInt_intCast (n : Int) : toInt (n : ℚ) = n := by
  unfold toInt
  split <;> simp

/-- Truncation of a quotient of integers is `Int.tdiv`. -/
theorem toInt_div_nat (n : Int) (d : Nat) (hd : 0 < d) :
    toInt ((n : ℚ) / (d : ℚ)) = Int.tdiv n d := by
  have hdq : (0 : ℚ) < (d : ℚ) := by exact_mod_cast hd
  unfold toInt
  by_cases hn : 0 ≤ n
  · have hq : (0 : ℚ) ≤ (n : ℚ) / (d : ℚ) := div_nonneg (by exact_mod_cast hn) hdq.le
    rw [if_pos hq, Rat.floor_intCast_div_natCast, Int.tdiv_eq_ediv hn (by positivity)]
  · have hn' : n < 0 := not_le.mp hn
    have hq : ¬ (0 : ℚ) ≤ (n : ℚ) / (d : ℚ) := by
      rw [not_le]
      exact div_neg_of_neg_of_pos (by exact_mod_cast hn') hdq
    rw [if_neg hq]
    have h1 : (n : ℚ) / (d : ℚ) = -(((-n : Int) : ℚ) / (d : ℚ)) := by
      push_cast; ring
    rw [h1, Int.ceil_neg, Rat.floor_intCast_div_natCast,
      ← Int.tdiv_eq_ediv (by omega) (by positivity), Int.neg_tdiv, neg_neg]

/-- Truncation of a quotient of integers with a positive integer denominator. -/
theorem toInt_div (n d : Int) (hd : 0 < d) :
    toInt ((n : ℚ) / (d : ℚ)) = Int.tdiv n d := by
  obtain ⟨k, rfl⟩ := Int.eq_ofNat_of_zero_le hd.le
  have hk : 0 < k := by exact_mod_cast hd
  have := toInt_div_nat n k hk
  simpa using this

theorem toInt_near (q : ℚ) (n : Int) (h1 : (n : ℚ) - 2 < q) (h2 : q < n + 2) :
    |toInt q - n| ≤ 2 := by
  have a := toInt_lt q
  have b := toInt_gt q
  have a1 : ((toInt q : Int) : ℚ) < ((n + 3 : Int) : ℚ) := by push_cast; linarith
  have b1 : ((n - 3 : Int) : ℚ) < ((toInt q : Int) : ℚ) := by push_cast; linarith
  have a2 : toInt q < n + 3 := by exact_mod_cast a1
  have b2 : n - 3 < toInt q := by exact_mod_cast b1
  rw [abs_le]; constructor <;> omega

theorem clamp255_near (v r : Int) (h0 : 0 ≤ r) (h1 : r ≤ 255) (h : |v - r| ≤ 2) :
    |clamp255 v - r| ≤ 2 := by
  unfold clamp255
  rw [abs_le] at *
  split_ifs <;> constructor <;> omega

theorem M_PI_pos : 0 < M_PI := by
  unfold M_PI; norm_num

/-! ## Colour conversion round trip -/

/-- The rational window of the round trip: if `Y`, `I`, `Q` are within one unit of the
exact products, the three exact inverse combinations are within two of `r`, `g`, `b`. -/
theorem roundtrip_window (r g b Y I Q : ℚ)
    (hr0 : 0 ≤ r) (hr1 : r ≤ 255) (hg0 : 0 ≤ g) (hg1 : g ≤ 255) (hb0 : 0 ≤ b) (hb1 : b ≤ 255)
    (y1 : Y < 256 * (0.30 * r + 0.59 * g + 0.11 * b) + 1)
    (y2 : 256 * (0.30 * r + 0.59 * g + 0.11 * b) - 1 < Y)
    (i1 : I < 256 * ((-0.27 * (b - (0.30 * r + 0.59 * g + 0.11 * b)))
        + (0.74 * (r - (0.30 * r + 0.59 * g + 0.11 * b)))) + 1)
    (i2 : 256 * ((-0.27 * (b - (0.30 * r + 0.59 * g + 0.11 * b)))
        + (0.74 * (r - (0.30 * r + 0.59 * g + 0.11 * b)))) - 1 < I)
    (q1 : Q < 256 * ((0.41 * (b - (0.30 * r + 0.59 * g + 0.11 * b)))
        + (0.48 * (r - (0.30 * r + 0.59 * g + 0.11 * b)))) + 1)
    (q2 : 256 * ((0.41 * (b - (0.30 * r + 0.59 * g + 0.11 * b)))
        + (0.48 * (r - (0.30 * r + 0.59 * g + 0.11 * b)))) - 1 < Q) :
    (r - 2 < ((1.000 * Y) + (0.956 * I) + (0.621 * Q)) / 256
      ∧ ((1.000 * Y) + (0.956 * I) + (0.621 * Q)) / 256 < r + 2)
    ∧ (g - 2 < ((1.000 * Y) + (-0.272 * I) + (-0.647 * Q)) / 256
      ∧ ((1.000 * Y) + (-0.272 * I) + (-0.647 * Q)) / 256 < g + 2)
    ∧ (b - 2 < ((1.000 * Y) + (-1.106 * I) + (1.703 * Q)) / 256
      ∧ ((1.000 * Y) + (-1.106 * I) + (1.703 * Q)) / 256 < b + 2) := by
  norm_num at y1 y2 i1 i2 q1 q2 ⊢
  refine ⟨⟨?_, ?_⟩, ⟨?_, ?_⟩, ⟨?_, ?_⟩⟩ <;> linarith

/-- C1: for every `r, g, b` in `0..255`, converting with `RGB_to_YIQ` and back with
`YIQ_to_RGB` (exact decimal coefficients, truncating conversions) changes each channel
by at most 2. -/
theorem rgb_yiq_roundtrip (r g b : Int) (hr0 : 0 ≤ r) (hr1 : r ≤ 255) (hg0 : 0 ≤ g)
    (hg1 : g ≤ 255) (hb0 : 0 ≤ b) (hb1 : b ≤ 255) :
    |(YIQ_to_RGB (RGB_to_YIQ r g b).1 (RGB_to_YIQ r g b).2.1 (RGB_to_YIQ r g b).2.2).1 - r| ≤ 2
    ∧ |(YIQ_to_RGB (RGB_to_YIQ r g b).1 (RGB_to_YIQ r g b).2.1 (RGB_to_YIQ r g b).2.2).2.1 - g|
        ≤ 2
    ∧ |(YIQ_to_RGB (RGB_to_YIQ r g b).1 (RGB_to_YIQ r g b).2.1 (RGB_to_YIQ r g b).2.2).2.2 - b|
        ≤ 2 := by
  have hr0q : (0:ℚ) ≤ r := by exact_mod_cast hr0
  have hr1q : (r:ℚ) ≤ 255 := by exact_mod_cast hr1
  have hg0q : (0:ℚ) ≤ g := by exact_mod_cast hg0
  have hg1q : (g:ℚ) ≤ 255 := by exact_mod_cast hg1
  have hb0q : (0:ℚ) ≤ b := by exact_mod_cast hb0
  have hb1q : (b:ℚ) ≤ 255 := by exact_mod_cast hb1
  obtain ⟨⟨wr1, wr2⟩, ⟨wg1, wg2⟩, ⟨wb1, wb2⟩⟩ := roundtrip_window r g b
    (RGB_to_YIQ r g b).1 (RGB_to_YIQ r g b).2.1 (RGB_to_YIQ r g b).2.2
    hr0q hr1q hg0q hg1q hb0q hb1q
    (toInt_lt _) (toInt_gt _) (toInt_lt _) (toInt_gt _) (toInt_lt _) (toInt_gt _)
  exact ⟨clamp255_near _ _ hr0 hr1 (toInt_near _ _ wr1 wr2),
    clamp255_near _ _ hg0 hg1 (toInt_near _ _ wg1 wg2),
    clamp255_near _ _ hb0 hb1 (toInt_near _ _ wb1 wb2)⟩

/-- The round trip bound at the pure red pixel `(255, 0, 0)`. -/
theorem rgb_yiq_roundtrip_witness :
    |(YIQ_to_RGB (RGB_to_YIQ 255 0 0).1 (RGB_to_YIQ 255 0 0).2.1 (RGB_to_YIQ 255 0 0).2.2).1
        - 255| ≤ 2
    ∧ |(YIQ_to_RGB (RGB_to_YIQ 255 0 0).1 (RGB_to_YIQ 255 0 0).2.1
        (RGB_to_YIQ 255 0 0).2.2).2.1 - 0| ≤ 2
    ∧ |(YIQ_to_RGB (RGB_to_YIQ 255 0 0).1 (RGB_to_YIQ 255 0 0).2.1
        (RGB_to_YIQ 255 0 0).2.2).2.2 - 0| ≤ 2 :=
  rgb_yiq_roundtrip 255 0 0 (by decide) (by decide) (by decide) (by decide) (by decide)
    (by decide)

/-! ## Rounding to nearest: the error of one operation -/

/-! ## The error of rounding -/

theorem bitLength_zero (fuel : Nat) : bitLength fuel 0 = 0 := by
  cases fuel <;> simp [bitLength]

theorem bitLength_bounds : ∀ (fuel n : Nat), n < 2 ^ fuel → 0 < n →
    1 ≤ bitLength fuel n ∧ 2 ^ (bitLength fuel n - 1) ≤ n ∧ n < 2 ^ bitLength fuel n := by
  intro fuel
  induction fuel with
  | zero =>
    intro n h1 h2
    simp at h1
    omega
  | succ fuel ih =>
    intro n h1 h2
    have hne : n ≠ 0 := by omega
    have e : bitLength (fuel + 1) n = bitLength fuel (n / 2) + 1 := by
      simp [bitLength, hne]
    rw [e]
    by_cases h : n / 2 = 0
    · rw [h, bitLength_zero]
      have : n = 1 := by omega
      subst this
      simp
    · have hlt : n / 2 < 2 ^ fuel := by
        rw [pow_succ] at h1
        omega
      obtain ⟨a, b, c⟩ := ih (n / 2) hlt (by omega)
      refine ⟨by omega, ?_, ?_⟩
      · have e2 : bitLength fuel (n / 2) + 1 - 1 = (bitLength fuel (n / 2) - 1) + 1 := by omega
        rw [e2, pow_succ]
        omega
      · rw [pow_succ]
        omega

theorem bitLength_self (n : Nat) (hn : 0 < n) :
    1 ≤ bitLength n n ∧ 2 ^ (bitLength n n - 1) ≤ n ∧ n < 2 ^ bitLength n n :=
  bitLength_bounds n n (Nat.lt_two_pow n) hn

theorem roundQuotient_error (N D : Nat) (hD : 0 < D) :
    |((roundQuotient N D : Nat) : ℚ) - (N : ℚ) / D| ≤ 1 / 2 := by
  have hdiv := Nat.div_add_mod N D
  have hmod := Nat.mod_lt N hD
  have hDq : (0 : ℚ) < D := by exact_mod_cast hD
  have hq : (N : ℚ) / D = ((N / D : Nat) : ℚ) + ((N % D : Nat) : ℚ) / D := by
    have e : (N : ℚ) = (D : ℚ) * ((N / D : Nat) : ℚ) + ((N % D : Nat) : ℚ) := by
      exact_mod_cast hdiv.symm
    have hne : (D : ℚ) ≠ 0 := ne_of_gt hDq
    rw [eq_comm, ← sub_eq_zero]
    have : ((N / D : Nat) : ℚ) + ((N % D : Nat) : ℚ) / D - (N : ℚ) / D
        = ((D : ℚ) * ((N / D : Nat) : ℚ) + ((N % D : Nat) : ℚ) - (N : ℚ)) / D := by
      field_simp
      ring
    rw [this, ← e, sub_self, zero_div]
  have h3 : ((N % D : Nat) : ℚ) < D := by exact_mod_cast hmod
  have h4 : (0 : ℚ) ≤ ((N % D : Nat) : ℚ) := Nat.cast_nonneg _
  have hlt1 : ((N % D : Nat) : ℚ) / D < 1 := (div_lt_one hDq).mpr h3
  have hge0 : (0 : ℚ) ≤ ((N % D : Nat) : ℚ) / D := div_nonneg h4 (le_of_lt hDq)
  unfold roundQuotient
  rw [hq]
  split_ifs with h
  · have h2 : (D : ℚ) ≤ 2 * ((N % D : Nat) : ℚ) := by
      rcases h with h | ⟨h, _⟩
      · exact_mod_cast le_of_lt h
      · exact_mod_cast le_of_eq h.symm
    have h5 : (1 : ℚ) / 2 ≤ ((N % D : Nat) : ℚ) / D := by
      rw [le_div_iff₀ hDq]
      linarith
    rw [abs_le]
    push_cast
    constructor <;> linarith
  · have h2 : 2 * ((N % D : Nat) : ℚ) ≤ D := by
      have : ¬ D < 2 * (N % D) := fun hc => h (Or.inl hc)
      exact_mod_cast not_lt.mp this
    have h5 : ((N % D : Nat) : ℚ) / D ≤ 1 / 2 := by
      rw [div_le_iff₀ hDq]
      linarith
    rw [abs_le]
    constructor <;> linarith

theorem floorLog2_spec (a d : Nat) (ha : 0 < a) (hd : 0 < d) :
    (2 : ℚ) ^ (floorLog2 a d) ≤ (a : ℚ) / d
      ∧ (a : ℚ) / d < (2 : ℚ) ^ (floorLog2 a d + 1) := by
  obtain ⟨a1, a2, a3⟩ := bitLength_self a ha
  obtain ⟨d1, d2, d3⟩ := bitLength_self d hd
  have hdq : (0 : ℚ) < d := by exact_mod_cast hd
  have haq : (0 : ℚ) < a := by exact_mod_cast ha
  generalize hla : bitLength a a = la at a1 a2 a3
  generalize hld : bitLength d d = ld at d1 d2 d3
  -- the bounds over ℚ
  have A2 : (2 : ℚ) ^ la ≤ 2 * a := by
    have : 2 ^ la ≤ 2 * a := by
      have e : la = (la - 1) + 1 := by omega
      rw [e, pow_succ]
      omega
    exact_mod_cast this
  have A3 : (a : ℚ) < (2 : ℚ) ^ la := by exact_mod_cast a3
  have D2 : (2 : ℚ) ^ ld ≤ 2 * d := by
    have : 2 ^ ld ≤ 2 * d := by
      have e : ld = (ld - 1) + 1 := by omega
      rw [e, pow_succ]
      omega
    exact_mod_cast this
  have D3 : (d : ℚ) < (2 : ℚ) ^ ld := by exact_mod_cast d3
  have hpl : (0 : ℚ) < (2 : ℚ) ^ ld := by positivity
  have hpa : (0 : ℚ) < (2 : ℚ) ^ la := by positivity
  have zl : (2 : ℚ) ^ ((la : Int) - (ld : Int)) = (2 : ℚ) ^ la / (2 : ℚ) ^ ld := by
    rw [zpow_sub₀ (by norm_num : (2 : ℚ) ≠ 0), zpow_natCast, zpow_natCast]
  -- the test of the definition
  have hc : (if 0 ≤ (la : Int) - (ld : Int) then d * 2 ^ ((la : Int) - (ld : Int)).toNat ≤ a
        else d ≤ a * 2 ^ (-((la : Int) - (ld : Int))).toNat)
      ↔ (2 : ℚ) ^ ((la : Int) - (ld : Int)) ≤ (a : ℚ) / d := by
    by_cases hl : 0 ≤ (la : Int) - (ld : Int)
    · rw [if_pos hl]
      have e : (2 : ℚ) ^ ((la : Int) - (ld : Int))
          = (2 : ℚ) ^ (((la : Int) - (ld : Int)).toNat) := by
        rw [← zpow_natCast, Int.toNat_of_nonneg hl]
      rw [e, le_div_iff₀ hdq]
      constructor
      · intro h
        have : ((d * 2 ^ ((la : Int) - (ld : Int)).toNat : Nat) : ℚ) ≤ (a : ℚ) := by
          exact_mod_cast h
        push_cast at this
        linarith
      · intro h
        have : ((d * 2 ^ ((la : Int) - (ld : Int)).toNat : Nat) : ℚ) ≤ (a : ℚ) := by
          push_cast
          linarith
        exact_mod_cast this
    · rw [if_neg hl]
      have hl' : 0 ≤ -((la : Int) - (ld : Int)) := by omega
      have e : (2 : ℚ) ^ ((la : Int) - (ld : Int))
          = 1 / (2 : ℚ) ^ ((-((la : Int) - (ld : Int))).toNat) := by
        rw [← zpow_natCast, Int.toNat_of_nonneg hl', zpow_neg, one_div, inv_inv]
      have hpk : (0 : ℚ) < (2 : ℚ) ^ ((-((la : Int) - (ld : Int))).toNat) := by positivity
      rw [e, div_le_div_iff₀ hpk hdq, one_mul]
      constructor
      · intro h
        have : ((d : Nat) : ℚ) ≤ ((a * 2 ^ (-((la : Int) - (ld : Int))).toNat : Nat) : ℚ) := by
          exact_mod_cast h
        push_cast at this
        linarith
      · intro h
        have : ((d : Nat) : ℚ) ≤ ((a * 2 ^ (-((la : Int) - (ld : Int))).toNat : Nat) : ℚ) := by
          push_cast
          linarith
        exact_mod_cast this
  unfold floorLog2
  rw [hld, hla]
  dsimp only
  by_cases hcond : (if 0 ≤ (la : Int) - (ld : Int) then
      d * 2 ^ ((la : Int) - (ld : Int)).toNat ≤ a
      else d ≤ a * 2 ^ (-((la : Int) - (ld : Int))).toNat)
  · rw [if_pos hcond]
    refine ⟨hc.mp hcond, ?_⟩
    rw [zpow_add_one₀ (by norm_num : (2 : ℚ) ≠ 0), zl, div_lt_iff₀ hdq]
    have : (2 : ℚ) ^ la / (2 : ℚ) ^ ld * 2 * d = (2 : ℚ) ^ la * (2 * d / (2 : ℚ) ^ ld) := by
      field_simp
      ring
    rw [this]
    have h1 : (1 : ℚ) ≤ 2 * d / (2 : ℚ) ^ ld := by
      rw [le_div_iff₀ hpl]
      linarith
    nlinarith
  · rw [if_neg hcond]
    have hlt : (a : ℚ) / d < (2 : ℚ) ^ ((la : Int) - (ld : Int)) := by
      by_contra hh
      exact hcond (hc.mpr (not_lt.mp hh))
    constructor
    · rw [zpow_sub_one₀ (by norm_num : (2 : ℚ) ≠ 0), zl, le_div_iff₀ hdq]
      have : (2 : ℚ) ^ la / (2 : ℚ) ^ ld * 2⁻¹ * d = ((2 : ℚ) ^ la / 2) * (d / (2 : ℚ) ^ ld) := by
        field_simp
        ring
      rw [this]
      have h1 : d / (2 : ℚ) ^ ld ≤ 1 := by
        rw [div_le_one hpl]
        exact le_of_lt D3
      have h2 : (2 : ℚ) ^ la / 2 ≤ a := by linarith
      have h3 : (0 : ℚ) ≤ d / (2 : ℚ) ^ ld := by positivity
      nlinarith
    · have e : (la : Int) - (ld : Int) - 1 + 1 = (la : Int) - (ld : Int) := by ring
      rw [e]
      exact hlt

theorem Binary.toRat_mk (m e : Int) :
    ({ m := m, e := e } : Binary).toRat = (m : ℚ) * (2 : ℚ) ^ e := by
  unfold Binary.toRat Binary.num Binary.den
  dsimp only
  by_cases h : 0 ≤ e
  · rw [if_pos h, if_pos h]
    push_cast
    rw [div_one]
    congr 1
    rw [← zpow_natCast, Int.toNat_of_nonneg h]
  · rw [if_neg h, if_neg h]
    have h' : 0 ≤ -e := by omega
    push_cast
    rw [div_eq_mul_inv]
    congr 1
    rw [← zpow_natCast, Int.toNat_of_nonneg h', zpow_neg, inv_inv]

theorem Binary.den_pos (x : Binary) : 0 < x.den := by
  unfold Binary.den
  split
  · exact Nat.one_pos
  · exact Nat.pos_pow_of_pos _ (by decide)

/-- The scaled quotient that `roundNearestEven` rounds to an integer. -/
theorem scaled_quotient_error (a d : Nat) (hd : 0 < d) (E : Int) :
    |(((if 0 ≤ E then roundQuotient a (d * 2 ^ E.toNat)
          else roundQuotient (a * 2 ^ (-E).toNat) d : Nat)) : ℚ)
        - (a : ℚ) / d / (2 : ℚ) ^ E| ≤ 1 / 2 := by
  have hdq : (0 : ℚ) < d := by exact_mod_cast hd
  by_cases h : 0 ≤ E
  · rw [if_pos h]
    have e1 := roundQuotient_error a (d * 2 ^ E.toNat) (Nat.mul_pos hd (by positivity))
    have e2 : (a : ℚ) / ((d * 2 ^ E.toNat : Nat) : ℚ) = (a : ℚ) / d / (2 : ℚ) ^ E := by
      push_cast
      rw [div_div]
      congr 2
      rw [← zpow_natCast, Int.toNat_of_nonneg h]
    rw [← e2]
    exact e1
  · rw [if_neg h]
    have h' : 0 ≤ -E := by omega
    have e1 := roundQuotient_error (a * 2 ^ (-E).toNat) d hd
    have e2 : ((a * 2 ^ (-E).toNat : Nat) : ℚ) / (d : ℚ) = (a : ℚ) / d / (2 : ℚ) ^ E := by
      push_cast
      have e3 : (2 : ℚ) ^ E = ((2 : ℚ) ^ (-E).toNat)⁻¹ := by
        rw [← zpow_natCast, Int.toNat_of_nonneg h', zpow_neg, inv_inv]
      rw [e3, div_inv_eq_mul]
      ring
    rw [← e2]
    exact e1

/-- The relative error of rounding to `p` significant bits is at most `2^-p`. -/
theorem roundNearestEven_error (p : Nat) (n : Int) (d : Nat) (hd : 0 < d) :
    |(roundNearestEven p n d).toRat - (n : ℚ) / d| * 2 ^ p ≤ |(n : ℚ) / d| := by
  have hdq : (0 : ℚ) < d := by exact_mod_cast hd
  by_cases hn : n = 0
  · subst hn
    simp [roundNearestEven, Binary.toRat, Binary.num, Binary.den]
  · have ha : 0 < n.natAbs := Int.natAbs_pos.mpr hn
    obtain ⟨s1, -⟩ := floorLog2_spec n.natAbs d ha hd
    unfold roundNearestEven
    rw [if_neg (by omega : ¬ (n = 0 ∨ d = 0))]
    dsimp only
    have hq := scaled_quotient_error n.natAbs d hd (floorLog2 n.natAbs d - ((p : Int) - 1))
    generalize (if 0 ≤ floorLog2 n.natAbs d - ((p : Int) - 1) then
        roundQuotient n.natAbs (d * 2 ^ (floorLog2 n.natAbs d - ((p : Int) - 1)).toNat)
      else roundQuotient (n.natAbs * 2 ^ (-(floorLog2 n.natAbs d - ((p : Int) - 1))).toNat) d)
      = q at hq ⊢
    have hL : (2 : ℚ) ^ (floorLog2 n.natAbs d)
        = (2 : ℚ) ^ (floorLog2 n.natAbs d - ((p : Int) - 1)) * (2 : ℚ) ^ p / 2 := by
      have e : floorLog2 n.natAbs d
          = (floorLog2 n.natAbs d - ((p : Int) - 1)) + (p : Int) - 1 := by ring
      conv_lhs => rw [e]
      rw [zpow_sub_one₀ (by norm_num : (2 : ℚ) ≠ 0), zpow_add₀ (by norm_num : (2 : ℚ) ≠ 0),
        zpow_natCast]
      ring
    generalize floorLog2 n.natAbs d - ((p : Int) - 1) = E at hq hL ⊢
    rw [hL] at s1
    rw [Binary.toRat_mk]
    have hE : (0 : ℚ) < (2 : ℚ) ^ E := by positivity
    have hp : (0 : ℚ) < (2 : ℚ) ^ p := by positivity
    -- the magnitude of the error
    have key : |(q : ℚ) * (2 : ℚ) ^ E - (n.natAbs : ℚ) / d| ≤ (2 : ℚ) ^ E / 2 := by
      have e : (q : ℚ) * (2 : ℚ) ^ E - (n.natAbs : ℚ) / d
          = ((q : ℚ) - (n.natAbs : ℚ) / d / (2 : ℚ) ^ E) * (2 : ℚ) ^ E := by
        field_simp
        ring
      rw [e, abs_mul, abs_of_pos hE]
      calc |(q : ℚ) - (n.natAbs : ℚ) / d / (2 : ℚ) ^ E| * (2 : ℚ) ^ E
          ≤ 1 / 2 * (2 : ℚ) ^ E := mul_le_mul_of_nonneg_right hq (le_of_lt hE)
        _ = (2 : ℚ) ^ E / 2 := by ring
    have habs : |(n : ℚ) / d| = (n.natAbs : ℚ) / d := by
      rw [abs_div, abs_of_pos hdq]
      congr 1
      rw [Nat.cast_natAbs]
      exact (Int.cast_abs).symm
    by_cases hneg : n < 0
    · rw [if_pos hneg]
      have en : (n : ℚ) = -(n.natAbs : ℚ) := by
        have : (n : Int) = -(n.natAbs : Int) := by omega
        exact_mod_cast this
      have e : ((-(q : Int) : Int) : ℚ) * (2 : ℚ) ^ E - (n : ℚ) / d
          = -((q : ℚ) * (2 : ℚ) ^ E - (n.natAbs : ℚ) / d) := by
        rw [en]
        push_cast
        ring
      rw [e, abs_neg, habs]
      calc |(q : ℚ) * (2 : ℚ) ^ E - (n.natAbs : ℚ) / d| * (2 : ℚ) ^ p
          ≤ (2 : ℚ) ^ E / 2 * (2 : ℚ) ^ p := mul_le_mul_of_nonneg_right key (le_of_lt hp)
        _ = (2 : ℚ) ^ E * (2 : ℚ) ^ p / 2 := by ring
        _ ≤ (n.natAbs : ℚ) / d := s1
    · rw [if_neg hneg]
      have en : (n : ℚ) = (n.natAbs : ℚ) := by
        rw [Nat.cast_natAbs, abs_of_nonneg (by omega : 0 ≤ n)]
      have e : (((q : Int) : Int) : ℚ) * (2 : ℚ) ^ E - (n : ℚ) / d
          = (q : ℚ) * (2 : ℚ) ^ E - (n.natAbs : ℚ) / d := by
        rw [en]
        push_cast
        ring
      rw [e, habs]
      calc |(q : ℚ) * (2 : ℚ) ^ E - (n.natAbs : ℚ) / d| * (2 : ℚ) ^ p
          ≤ (2 : ℚ) ^ E / 2 * (2 : ℚ) ^ p := mul_le_mul_of_nonneg_right key (le_of_lt hp)
        _ = (2 : ℚ) ^ E * (2 : ℚ) ^ p / 2 := by ring
        _ ≤ (n.natAbs : ℚ) / d := s1

theorem Binary.toRat_eq (x : Binary) : x.toRat = (x.num : ℚ) / (x.den : ℚ) := rfl

theorem Binary.ofInt_error (p : Nat) (n : Int) :
    |(Binary.ofInt p n).toRat - (n : ℚ)| * 2 ^ p ≤ |(n : ℚ)| := by
  have h := roundNearestEven_error p n 1 Nat.one_pos
  simpa [Binary.ofInt] using h

theorem Binary.add_error (p : Nat) (x y : Binary) :
    |(Binary.add p x y).toRat - (x.toRat + y.toRat)| * 2 ^ p ≤ |x.toRat + y.toRat| := by
  have hx : (0 : ℚ) < x.den := by exact_mod_cast x.den_pos
  have hy : (0 : ℚ) < y.den := by exact_mod_cast y.den_pos
  have h := roundNearestEven_error p (x.num * y.den + y.num * x.den) (x.den * y.den)
    (Nat.mul_pos x.den_pos y.den_pos)
  have e : (((x.num * y.den + y.num * x.den : Int) : ℚ)) / ((x.den * y.den : Nat) : ℚ)
      = x.toRat + y.toRat := by
    rw [Binary.toRat_eq, Binary.toRat_eq]
    push_cast
    field_simp
  rw [e] at h
  exact h

theorem Binary.sub_error (p : Nat) (x y : Binary) :
    |(Binary.sub p x y).toRat - (x.toRat - y.toRat)| * 2 ^ p ≤ |x.toRat - y.toRat| := by
  have hx : (0 : ℚ) < x.den := by exact_mod_cast x.den_pos
  have hy : (0 : ℚ) < y.den := by exact_mod_cast y.den_pos
  have h := roundNearestEven_error p (x.num * y.den - y.num * x.den) (x.den * y.den)
    (Nat.mul_pos x.den_pos y.den_pos)
  have e : (((x.num * y.den - y.num * x.den : Int) : ℚ)) / ((x.den * y.den : Nat) : ℚ)
      = x.toRat - y.toRat := by
    rw [Binary.toRat_eq, Binary.toRat_eq]
    push_cast
    field_simp
    ring
  rw [e] at h
  exact h

theorem Binary.mul_error (p : Nat) (x y : Binary) :
    |(Binary.mul p x y).toRat - x.toRat * y.toRat| * 2 ^ p ≤ |x.toRat * y.toRat| := by
  have hx : (0 : ℚ) < x.den := by exact_mod_cast x.den_pos
  have hy : (0 : ℚ) < y.den := by exact_mod_cast y.den_pos
  have h := roundNearestEven_error p (x.num * y.num) (x.den * y.den)
    (Nat.mul_pos x.den_pos y.den_pos)
  have e : (((x.num * y.num : Int) : ℚ)) / ((x.den * y.den : Nat) : ℚ)
      = x.toRat * y.toRat := by
    rw [Binary.toRat_eq, Binary.toRat_eq]
    push_cast
    field_simp
  rw [e] at h
  exact h

theorem Binary.div_error (p : Nat) (x y : Binary) (hy0 : y.num ≠ 0) :
    |(Binary.div p x y).toRat - x.toRat / y.toRat| * 2 ^ p ≤ |x.toRat / y.toRat| := by
  have hx : (0 : ℚ) < x.den := by exact_mod_cast x.den_pos
  have hy : (0 : ℚ) < y.den := by exact_mod_cast y.den_pos
  have hyn : (y.num : ℚ) ≠ 0 := by exact_mod_cast hy0
  have h := roundNearestEven_error p (if y.num < 0 then -(x.num * y.den) else x.num * y.den)
    (x.den * y.num.natAbs) (Nat.mul_pos x.den_pos (Int.natAbs_pos.mpr hy0))
  have e : (((if y.num < 0 then -(x.num * y.den) else x.num * y.den : Int) : ℚ))
        / ((x.den * y.num.natAbs : Nat) : ℚ)
      = x.toRat / y.toRat := by
    rw [Binary.toRat_eq, Binary.toRat_eq]
    by_cases hneg : y.num < 0
    · rw [if_pos hneg]
      have ea : ((y.num.natAbs : Nat) : ℚ) = -(y.num : ℚ) := by
        rw [Nat.cast_natAbs, abs_of_neg hneg]
        push_cast
        rfl
      push_cast
      rw [ea]
      field_simp
    · rw [if_neg hneg]
      have ea : ((y.num.natAbs : Nat) : ℚ) = (y.num : ℚ) := by
        rw [Nat.cast_natAbs, abs_of_nonneg (by omega : 0 ≤ y.num)]
      push_cast
      rw [ea]
      field_simp
  rw [e] at h
  exact h

theorem double1000_error (n : Int) :
    |(double1000 n).toRat - (n : ℚ) / 1000| * 2 ^ 53 ≤ |(n : ℚ) / 1000| := by
  have h := roundNearestEven_error 53 n 1000 (by decide)
  simpa [double1000] using h

/-- Truncation toward zero of a fraction with a positive denominator. -/
theorem toInt_toRat (x : Binary) : Binary.toInt x = toInt x.toRat := by
  have hd : (0 : ℚ) < x.den := by exact_mod_cast x.den_pos
  unfold Binary.toInt toInt
  rw [Binary.toRat_eq]
  by_cases h : 0 ≤ x.num
  · have h1 : (0 : ℚ) ≤ (x.num : ℚ) / x.den := div_nonneg (by exact_mod_cast h) (le_of_lt hd)
    rw [if_pos h1, Int.tdiv_eq_ediv h (Int.natCast_nonneg _)]
    exact (Rat.floor_intCast_div_natCast x.num x.den).symm
  · have hneg : x.num < 0 := by omega
    have h1 : ¬ (0 : ℚ) ≤ (x.num : ℚ) / x.den := by
      rw [not_le]
      exact div_neg_of_neg_of_pos (by exact_mod_cast hneg) hd
    rw [if_neg h1]
    have e : x.num = -(-x.num) := by ring
    rw [e, Int.neg_tdiv, Int.tdiv_eq_ediv (by omega : 0 ≤ -x.num) (Int.natCast_nonneg _)]
    have e2 : ((-(-x.num) : Int) : ℚ) / (x.den : ℚ) = -(((-x.num : Int) : ℚ) / (x.den : ℚ)) := by
      push_cast
      ring
    rw [e2, Int.ceil_neg, Rat.floor_intCast_div_natCast]

theorem toInt_le_add_one (w v : ℚ) (h : w ≤ v + 1) : toInt w ≤ toInt v + 1 := by
  unfold toInt
  by_cases hv : 0 ≤ v
  · rw [if_pos hv]
    by_cases hw : 0 ≤ w
    · rw [if_pos hw, ← Int.floor_add_one]
      exact Int.floor_mono h
    · rw [if_neg hw]
      have h1 : ⌈w⌉ ≤ 0 := Int.ceil_le.mpr (by push_cast; linarith)
      have h2 : 0 ≤ ⌊v⌋ := Int.floor_nonneg.mpr hv
      omega
  · rw [if_neg hv]
    by_cases hw : 0 ≤ w
    · rw [if_pos hw]
      have h1 : ⌊w⌋ ≤ ⌈v⌉ + 1 := by
        rw [← Int.ceil_add_one]
        exact le_trans (Int.floor_mono h) (Int.floor_le_ceil _)
      exact h1
    · rw [if_neg hw, ← Int.ceil_add_one]
      exact Int.ceil_mono h

theorem toInt_within_one (w v : ℚ) (h : |w - v| ≤ 1) : |toInt w - toInt v| ≤ 1 := by
  obtain ⟨h1, h2⟩ := abs_le.mp h
  have a := toInt_le_add_one w v (by linarith)
  have b := toInt_le_add_one v w (by linarith)
  rw [abs_le]
  constructor <;> omega

theorem clamp255_within_one (a b : Int) (h : |a - b| ≤ 1) : |clamp255 a - clamp255 b| ≤ 1 := by
  obtain ⟨h1, h2⟩ := abs_le.mp h
  unfold clamp255
  rw [abs_le]
  split_ifs <;> constructor <;> omega

/-! ## Rounding to nearest: the error of the colour conversions in `double` -/

/-- One rounding step: `x` is `z` rounded to 53 bits, `z` is within `e` of `v`. -/
theorem round_step (x z v e V : ℚ) (hx : |x - z| * 2 ^ 53 ≤ |z|) (hz : |z - v| ≤ e)
    (hv : |v| ≤ V) : |x - v| ≤ e + (V + e) / 2 ^ 53 := by
  have hz' : |z| ≤ V + e := by
    calc |z| = |(z - v) + v| := by ring_nf
      _ ≤ |z - v| + |v| := abs_add _ _
      _ ≤ e + V := add_le_add hz hv
      _ = V + e := add_comm _ _
  have hp : (0 : ℚ) < 2 ^ 53 := by positivity
  have h1 : |x - z| ≤ (V + e) / 2 ^ 53 := by
    rw [le_div_iff₀ hp]
    exact le_trans hx hz'
  calc |x - v| ≤ |x - z| + |z - v| := abs_sub_le x z v
    _ ≤ (V + e) / 2 ^ 53 + e := add_le_add h1 hz
    _ = e + (V + e) / 2 ^ 53 := add_comm _ _

theorem mul_near (a va b vb ea eb Va Vb : ℚ) (ha : |a - va| ≤ ea) (hb : |b - vb| ≤ eb)
    (hva : |va| ≤ Va) (hvb : |vb| ≤ Vb) :
    |a * b - va * vb| ≤ ea * (Vb + eb) + Va * eb := by
  have hb' : |b| ≤ Vb + eb := by
    calc |b| = |(b - vb) + vb| := by ring_nf
      _ ≤ |b - vb| + |vb| := abs_add _ _
      _ ≤ eb + Vb := add_le_add hb hvb
      _ = Vb + eb := add_comm _ _
  have e : a * b - va * vb = (a - va) * b + va * (b - vb) := by ring
  rw [e]
  calc |(a - va) * b + va * (b - vb)| ≤ |(a - va) * b| + |va * (b - vb)| := abs_add _ _
    _ = |a - va| * |b| + |va| * |b - vb| := by rw [abs_mul, abs_mul]
    _ ≤ ea * (Vb + eb) + Va * eb :=
      add_le_add
        (mul_le_mul ha hb' (abs_nonneg _) (le_trans (abs_nonneg _) ha))
        (mul_le_mul hva hb (abs_nonneg _) (le_trans (abs_nonneg _) hva))

theorem add_near (a va b vb ea eb : ℚ) (ha : |a - va| ≤ ea) (hb : |b - vb| ≤ eb) :
    |(a + b) - (va + vb)| ≤ ea + eb := by
  have e : (a + b) - (va + vb) = (a - va) + (b - vb) := by ring
  rw [e]
  exact le_trans (abs_add _ _) (add_le_add ha hb)

theorem sub_near (a va b vb ea eb : ℚ) (ha : |a - va| ≤ ea) (hb : |b - vb| ≤ eb) :
    |(a - b) - (va - vb)| ≤ ea + eb := by
  have e : (a - b) - (va - vb) = (a - va) + -(b - vb) := by ring
  rw [e]
  refine le_trans (abs_add _ _) (add_le_add ha ?_)
  rw [abs_neg]
  exact hb

/-- The `double` literal `c / 1000` is within `2^-52` of the decimal, for `|c| ≤ 2000`. -/
theorem double1000_near (c : Int) (hc : |(c : ℚ)| ≤ 2000) :
    |(double1000 c).toRat - (c : ℚ) / 1000| ≤ 2 / 2 ^ 53 := by
  have h := double1000_error c
  have hp : (0 : ℚ) < 2 ^ 53 := by positivity
  rw [le_div_iff₀ hp]
  refine le_trans h ?_
  rw [abs_div]
  have : |(1000 : ℚ)| = 1000 := abs_of_pos (by norm_num)
  rw [this, div_le_iff₀ (by norm_num)]
  linarith

/-- The conversion of an `int` of magnitude at most `B` to `double` is within `B / 2^53`. -/
theorem ofInt_near (X : Int) (B : ℚ) (hX : |(X : ℚ)| ≤ B) :
    |(Binary.ofInt 53 X).toRat - (X : ℚ)| ≤ B / 2 ^ 53 := by
  have h := Binary.ofInt_error 53 X
  have hp : (0 : ℚ) < 2 ^ 53 := by positivity
  rw [le_div_iff₀ hp]
  exact le_trans h hX

/-- The product of a `double` literal and an `int` converted to `double`. -/
theorem term_near (c X : Int) (B : ℚ) (hc : |(c : ℚ)| ≤ 2000) (hX : |(X : ℚ)| ≤ B) :
    |(Binary.mul 53 (double1000 c) (Binary.ofInt 53 X)).toRat - (c : ℚ) / 1000 * X|
      ≤ 8 * B / 2 ^ 53 := by
  have hB : 0 ≤ B := le_trans (abs_nonneg _) hX
  have hc' : |(c : ℚ) / 1000| ≤ 2 := by
    rw [abs_div]
    have : |(1000 : ℚ)| = 1000 := abs_of_pos (by norm_num)
    rw [this, div_le_iff₀ (by norm_num)]
    linarith
  have h1 := mul_near _ _ _ _ _ _ 2 B (double1000_near c hc) (ofInt_near X B hX) hc' hX
  have hv : |(c : ℚ) / 1000 * X| ≤ 2 * B := by
    rw [abs_mul]
    exact mul_le_mul hc' hX (abs_nonneg _) (by norm_num)
  have h2 := round_step _ _ _ _ _ (Binary.mul_error 53 (double1000 c) (Binary.ofInt 53 X)) h1 hv
  refine le_trans h2 ?_
  norm_num
  linarith

theorem ofInt_256 : Binary.ofInt 53 256 = { m := 4503599627370496, e := -44 } := by
  decide

theorem ofInt_256_toRat : (Binary.ofInt 53 256).toRat = 256 := by
  rw [ofInt_256, Binary.toRat_mk]
  norm_num

theorem ofInt_256_num : (Binary.ofInt 53 256).num ≠ 0 := by
  rw [ofInt_256]
  decide

/-- One channel of `YIQ_to_RGB` before the conversion to `int`: the `double` value is
within `2^-20` of the exact value, for arguments in the range of `int`. -/
theorem YIQ_channel_near (c2 c3 Y I Q : Int) (hc2 : |(c2 : ℚ)| ≤ 2000)
    (hc3 : |(c3 : ℚ)| ≤ 2000) (hY : |(Y : ℚ)| ≤ 2 ^ 31) (hI : |(I : ℚ)| ≤ 2 ^ 31)
    (hQ : |(Q : ℚ)| ≤ 2 ^ 31) :
    |(Binary.div 53
        (Binary.add 53
          (Binary.add 53 (Binary.mul 53 (double1000 1000) (Binary.ofInt 53 Y))
            (Binary.mul 53 (double1000 c2) (Binary.ofInt 53 I)))
          (Binary.mul 53 (double1000 c3) (Binary.ofInt 53 Q)))
        (Binary.ofInt 53 256)).toRat
      - (((1000 : Int) : ℚ) / 1000 * Y + (c2 : ℚ) / 1000 * I + (c3 : ℚ) / 1000 * Q) / 256|
      ≤ 1 / 2 ^ 20 := by
  have bound : ∀ c X : Int, |(c : ℚ)| ≤ 2000 → |(X : ℚ)| ≤ 2 ^ 31 →
      |(c : ℚ) / 1000 * X| ≤ 2 ^ 32 := by
    intro c X hc hX
    rw [abs_mul, abs_div]
    have : |(1000 : ℚ)| = 1000 := abs_of_pos (by norm_num)
    rw [this]
    have h1 : |(c : ℚ)| / 1000 ≤ 2 := by
      rw [div_le_iff₀ (by norm_num)]
      linarith
    calc |(c : ℚ)| / 1000 * |(X : ℚ)| ≤ 2 * 2 ^ 31 :=
        mul_le_mul h1 hX (abs_nonneg _) (by norm_num)
      _ = 2 ^ 32 := by norm_num
  have h1000 : |(((1000 : Int) : ℚ))| ≤ 2000 := by norm_num
  have t1 := term_near 1000 Y (2 ^ 31) h1000 hY
  have t2 := term_near c2 I (2 ^ 31) hc2 hI
  have t3 := term_near c3 Q (2 ^ 31) hc3 hQ
  have v1 := bound 1000 Y h1000 hY
  have v2 := bound c2 I hc2 hI
  have v3 := bound c3 Q hc3 hQ
  generalize (Binary.mul 53 (double1000 1000) (Binary.ofInt 53 Y)) = T1 at t1 ⊢
  generalize (Binary.mul 53 (double1000 c2) (Binary.ofInt 53 I)) = T2 at t2 ⊢
  generalize (Binary.mul 53 (double1000 c3) (Binary.ofInt 53 Q)) = T3 at t3 ⊢
  generalize (((1000 : Int) : ℚ)) / 1000 * Y = a1 at t1 v1 ⊢
  generalize (c2 : ℚ) / 1000 * I = a2 at t2 v2 ⊢
  generalize (c3 : ℚ) / 1000 * Q = a3 at t3 v3 ⊢
  -- the first sum
  have s1 := round_step _ _ _ _ (2 ^ 32 + 2 ^ 32) (Binary.add_error 53 T1 T2)
    (add_near _ _ _ _ _ _ t1 t2) (le_trans (abs_add _ _) (add_le_add v1 v2))
  generalize Binary.add 53 T1 T2 = S1 at s1 ⊢
  -- the second sum
  have s2 := round_step _ _ _ _ (2 ^ 32 + 2 ^ 32 + 2 ^ 32) (Binary.add_error 53 S1 T3)
    (add_near _ _ _ _ _ _ s1 t3)
    (le_trans (abs_add _ _) (add_le_add (le_trans (abs_add _ _) (add_le_add v1 v2)) v3))
  generalize Binary.add 53 S1 T3 = S2 at s2 ⊢
  -- the quotient
  have hd := Binary.div_error 53 S2 (Binary.ofInt 53 256) ofInt_256_num
  rw [ofInt_256_toRat] at hd
  have hz : |S2.toRat / 256 - (a1 + a2 + a3) / 256|
      ≤ (8 * 2 ^ 31 / 2 ^ 53 + 8 * 2 ^ 31 / 2 ^ 53
          + (2 ^ 32 + 2 ^ 32 + (8 * 2 ^ 31 / 2 ^ 53 + 8 * 2 ^ 31 / 2 ^ 53)) / 2 ^ 53
          + 8 * 2 ^ 31 / 2 ^ 53
          + (2 ^ 32 + 2 ^ 32 + 2 ^ 32
            + (8 * 2 ^ 31 / 2 ^ 53 + 8 * 2 ^ 31 / 2 ^ 53
              + (2 ^ 32 + 2 ^ 32 + (8 * 2 ^ 31 / 2 ^ 53 + 8 * 2 ^ 31 / 2 ^ 53)) / 2 ^ 53
              + 8 * 2 ^ 31 / 2 ^ 53)) / 2 ^ 53) / 256 := by
    rw [← sub_div, abs_div]
    have : |(256 : ℚ)| = 256 := abs_of_pos (by norm_num)
    rw [this]
    exact div_le_div_of_nonneg_right s2 (by norm_num)
  have hv : |(a1 + a2 + a3) / 256| ≤ (2 ^ 32 + 2 ^ 32 + 2 ^ 32) / 256 := by
    rw [abs_div]
    have : |(256 : ℚ)| = 256 := abs_of_pos (by norm_num)
    rw [this]
    exact div_le_div_of_nonneg_right
      (le_trans (abs_add _ _) (add_le_add (le_trans (abs_add _ _) (add_le_add v1 v2)) v3))
      (by norm_num)
  have w := round_step _ _ _ _ _ hd hz hv
  refine le_trans w ?_
  norm_num

theorem int_range_abs (X : Int) (h : -2 ^ 31 ≤ X ∧ X < 2 ^ 31) : |(X : ℚ)| ≤ 2 ^ 31 := by
  rw [abs_le]
  constructor
  · have : ((-2 ^ 31 : Int) : ℚ) ≤ (X : ℚ) := by exact_mod_cast h.1
    push_cast at this
    linarith
  · have : (X : ℚ) ≤ ((2 ^ 31 : Int) : ℚ) := by exact_mod_cast le_of_lt h.2
    push_cast at this
    linarith

/-- For arguments in the range of `int`, every channel of `YIQ_to_RGB` computed in
`double` is within 1 of the channel computed in exact arithmetic. -/
theorem YIQ_to_RGB_binary64_near (Y I Q : Int) (hY : -2 ^ 31 ≤ Y ∧ Y < 2 ^ 31)
    (hI : -2 ^ 31 ≤ I ∧ I < 2 ^ 31) (hQ : -2 ^ 31 ≤ Q ∧ Q < 2 ^ 31) :
    |(YIQ_to_RGB_binary64 Y I Q).1 - (YIQ_to_RGB Y I Q).1| ≤ 1
    ∧ |(YIQ_to_RGB_binary64 Y I Q).2.1 - (YIQ_to_RGB Y I Q).2.1| ≤ 1
    ∧ |(YIQ_to_RGB_binary64 Y I Q).2.2 - (YIQ_to_RGB Y I Q).2.2| ≤ 1 := by
  have aY := int_range_abs Y hY
  have aI := int_range_abs I hI
  have aQ := int_range_abs Q hQ
  have key : ∀ c2 c3 : Int, |(c2 : ℚ)| ≤ 2000 → |(c3 : ℚ)| ≤ 2000 → ∀ v : ℚ,
      v = (((1000 : Int) : ℚ) / 1000 * Y + (c2 : ℚ) / 1000 * I + (c3 : ℚ) / 1000 * Q) / 256 →
      |clamp255 (Binary.toInt (Binary.div 53
        (Binary.add 53
          (Binary.add 53 (Binary.mul 53 (double1000 1000) (Binary.ofInt 53 Y))
            (Binary.mul 53 (double1000 c2) (Binary.ofInt 53 I)))
          (Binary.mul 53 (double1000 c3) (Binary.ofInt 53 Q)))
        (Binary.ofInt 53 256))) - clamp255 (toInt v)| ≤ 1 := by
    intro c2 c3 h2 h3 v hv
    have h := YIQ_channel_near c2 c3 Y I Q h2 h3 aY aI aQ
    rw [← hv] at h
    rw [toInt_toRat]
    exact clamp255_within_one _ _ (toInt_within_one _ _ (le_trans h (by norm_num)))
  unfold YIQ_to_RGB_binary64 YIQ_to_RGB
  dsimp only
  refine ⟨key 956 621 (by norm_num) (by norm_num) _ ?_,
    key (-272) (-647) (by norm_num) (by norm_num) _ ?_,
    key (-1106) 1703 (by norm_num) (by norm_num) _ ?_⟩
  · norm_num
  · norm_num
  · norm_num

theorem byte_abs (X : Int) (h : 0 ≤ X ∧ X ≤ 255) : |(X : ℚ)| ≤ 256 := by
  rw [abs_le]
  constructor
  · have : ((0 : Int) : ℚ) ≤ (X : ℚ) := by exact_mod_cast h.1
    push_cast at this
    linarith
  · have : (X : ℚ) ≤ ((255 : Int) : ℚ) := by exact_mod_cast h.2
    push_cast at this
    linarith

theorem term_bound (c X : Int) (B : ℚ) (hc : |(c : ℚ)| ≤ 2000) (hX : |(X : ℚ)| ≤ B) :
    |(c : ℚ) / 1000 * X| ≤ 2 * B := by
  rw [abs_mul, abs_div]
  have : |(1000 : ℚ)| = 1000 := abs_of_pos (by norm_num)
  rw [this]
  have h1 : |(c : ℚ)| / 1000 ≤ 2 := by
    rw [div_le_iff₀ (by norm_num)]
    linarith
  exact mul_le_mul h1 hX (abs_nonneg _) (by norm_num)

/-- The luma `dY` of `RGB_to_YIQ` in `double` is within `2^-39` of the exact value. -/
theorem dY_near (r g b : Int) (hr : |(r : ℚ)| ≤ 256) (hg : |(g : ℚ)| ≤ 256)
    (hb : |(b : ℚ)| ≤ 256) :
    |(Binary.add 53
        (Binary.add 53 (Binary.mul 53 (double1000 300) (Binary.ofInt 53 r))
          (Binary.mul 53 (double1000 590) (Binary.ofInt 53 g)))
        (Binary.mul 53 (double1000 110) (Binary.ofInt 53 b))).toRat
      - (((300 : Int) : ℚ) / 1000 * r + ((590 : Int) : ℚ) / 1000 * g
          + ((110 : Int) : ℚ) / 1000 * b)| ≤ 1 / 2 ^ 39
    ∧ |(((300 : Int) : ℚ) / 1000 * r + ((590 : Int) : ℚ) / 1000 * g
          + ((110 : Int) : ℚ) / 1000 * b)| ≤ 1536 := by
  have c1 : |(((300 : Int) : ℚ))| ≤ 2000 := by norm_num
  have c2 : |(((590 : Int) : ℚ))| ≤ 2000 := by norm_num
  have c3 : |(((110 : Int) : ℚ))| ≤ 2000 := by norm_num
  have t1 := term_near 300 r 256 c1 hr
  have t2 := term_near 590 g 256 c2 hg
  have t3 := term_near 110 b 256 c3 hb
  have v1 := term_bound 300 r 256 c1 hr
  have v2 := term_bound 590 g 256 c2 hg
  have v3 := term_bound 110 b 256 c3 hb
  generalize (Binary.mul 53 (double1000 300) (Binary.ofInt 53 r)) = T1 at t1 ⊢
  generalize (Binary.mul 53 (double1000 590) (Binary.ofInt 53 g)) = T2 at t2 ⊢
  generalize (Binary.mul 53 (double1000 110) (Binary.ofInt 53 b)) = T3 at t3 ⊢
  generalize (((300 : Int) : ℚ)) / 1000 * r = a1 at t1 v1 ⊢
  generalize (((590 : Int) : ℚ)) / 1000 * g = a2 at t2 v2 ⊢
  generalize (((110 : Int) : ℚ)) / 1000 * b = a3 at t3 v3 ⊢
  have b12 : |a1 + a2| ≤ 2 * 256 + 2 * 256 := le_trans (abs_add _ _) (add_le_add v1 v2)
  have b123 : |a1 + a2 + a3| ≤ 2 * 256 + 2 * 256 + 2 * 256 :=
    le_trans (abs_add _ _) (add_le_add b12 v3)
  have s1 := round_step _ _ _ _ _ (Binary.add_error 53 T1 T2)
    (add_near _ _ _ _ _ _ t1 t2) b12
  generalize Binary.add 53 T1 T2 = S1 at s1 ⊢
  have s2 := round_step _ _ _ _ _ (Binary.add_error 53 S1 T3)
    (add_near _ _ _ _ _ _ s1 t3) b123
  constructor
  · refine le_trans s2 ?_
    norm_num
  · refine le_trans b123 ?_
    norm_num

/-- The luma output `256 * dY` in `double`. -/
theorem scaled_near (D : Binary) (v : ℚ) (e V : ℚ) (hD : |D.toRat - v| ≤ e) (hv : |v| ≤ V) :
    |(Binary.mul 53 (Binary.ofInt 53 256) D).toRat - 256 * v|
      ≤ 256 * e + (256 * V + 256 * e) / 2 ^ 53 := by
  have hm := Binary.mul_error 53 (Binary.ofInt 53 256) D
  rw [ofInt_256_toRat] at hm
  have hz : |256 * D.toRat - 256 * v| ≤ 256 * e := by
    rw [← mul_sub, abs_mul]
    have : |(256 : ℚ)| = 256 := abs_of_pos (by norm_num)
    rw [this]
    exact mul_le_mul_of_nonneg_left hD (by norm_num)
  have hV : |256 * v| ≤ 256 * V := by
    rw [abs_mul]
    have : |(256 : ℚ)| = 256 := abs_of_pos (by norm_num)
    rw [this]
    exact mul_le_mul_of_nonneg_left hv (by norm_num)
  exact round_step _ _ _ _ _ hm hz hV

/-- A chroma output `256 * (ca * (b - dY) + cb * (r - dY))` of `RGB_to_YIQ` in `double`. -/
theorem chroma_near (ca cb r b : Int) (D : Binary) (v : ℚ) (hca : |(ca : ℚ)| ≤ 2000)
    (hcb : |(cb : ℚ)| ≤ 2000) (hr : |(r : ℚ)| ≤ 256) (hb : |(b : ℚ)| ≤ 256)
    (hD : |D.toRat - v| ≤ 1 / 2 ^ 39) (hv : |v| ≤ 1536) :
    |(Binary.mul 53 (Binary.ofInt 53 256)
        (Binary.add 53
          (Binary.mul 53 (double1000 ca) (Binary.sub 53 (Binary.ofInt 53 b) D))
          (Binary.mul 53 (double1000 cb) (Binary.sub 53 (Binary.ofInt 53 r) D)))).toRat
      - 256 * ((ca : ℚ) / 1000 * (b - v) + (cb : ℚ) / 1000 * (r - v))| ≤ 1 / 2 ^ 20 := by
  have hca' : |(ca : ℚ) / 1000| ≤ 2 := by
    rw [abs_div]
    have : |(1000 : ℚ)| = 1000 := abs_of_pos (by norm_num)
    rw [this, div_le_iff₀ (by norm_num)]
    linarith
  have hcb' : |(cb : ℚ) / 1000| ≤ 2 := by
    rw [abs_div]
    have : |(1000 : ℚ)| = 1000 := abs_of_pos (by norm_num)
    rw [this, div_le_iff₀ (by norm_num)]
    linarith
  have diff : ∀ x : Int, |(x : ℚ)| ≤ 256 →
      |(Binary.sub 53 (Binary.ofInt 53 x) D).toRat - ((x : ℚ) - v)| ≤ 1 / 2 ^ 38
      ∧ |(x : ℚ) - v| ≤ 1792 := by
    intro x hx
    have hb1 : |(x : ℚ) - v| ≤ 256 + 1536 := by
      have := abs_sub (x : ℚ) v
      linarith
    have h := round_step _ _ _ _ _ (Binary.sub_error 53 (Binary.ofInt 53 x) D)
      (sub_near _ _ _ _ _ _ (ofInt_near x 256 hx) hD) hb1
    constructor
    · refine le_trans h ?_
      norm_num
    · refine le_trans hb1 ?_
      norm_num
  have prod : ∀ (c x : Int), |(c : ℚ)| ≤ 2000 → |(c : ℚ) / 1000| ≤ 2 → |(x : ℚ)| ≤ 256 →
      |(Binary.mul 53 (double1000 c) (Binary.sub 53 (Binary.ofInt 53 x) D)).toRat
        - (c : ℚ) / 1000 * ((x : ℚ) - v)| ≤ 1 / 2 ^ 36
      ∧ |(c : ℚ) / 1000 * ((x : ℚ) - v)| ≤ 3584 := by
    intro c x hc hc' hx
    obtain ⟨d1, d2⟩ := diff x hx
    have hV : |(c : ℚ) / 1000 * ((x : ℚ) - v)| ≤ 2 * 1792 := by
      rw [abs_mul]
      exact mul_le_mul hc' d2 (abs_nonneg _) (by norm_num)
    have h := round_step _ _ _ _ _
      (Binary.mul_error 53 (double1000 c) (Binary.sub 53 (Binary.ofInt 53 x) D))
      (mul_near _ _ _ _ _ _ 2 1792 (double1000_near c hc) d1 hc' d2) hV
    constructor
    · refine le_trans h ?_
      norm_num
    · refine le_trans hV ?_
      norm_num
  obtain ⟨p1, q1⟩ := prod ca b hca hca' hb
  obtain ⟨p2, q2⟩ := prod cb r hcb hcb' hr
  generalize (Binary.mul 53 (double1000 ca) (Binary.sub 53 (Binary.ofInt 53 b) D)) = M1
    at p1 ⊢
  generalize (Binary.mul 53 (double1000 cb) (Binary.sub 53 (Binary.ofInt 53 r) D)) = M2
    at p2 ⊢
  generalize (ca : ℚ) / 1000 * ((b : ℚ) - v) = m1 at p1 q1 ⊢
  generalize (cb : ℚ) / 1000 * ((r : ℚ) - v) = m2 at p2 q2 ⊢
  have b12 : |m1 + m2| ≤ 3584 + 3584 := le_trans (abs_add _ _) (add_le_add q1 q2)
  have s := round_step _ _ _ _ _ (Binary.add_error 53 M1 M2)
    (add_near _ _ _ _ _ _ p1 p2) b12
  have w := scaled_near _ _ _ _ s b12
  refine le_trans w ?_
  norm_num

/-- For `r`, `g`, `b` in `0..255`, every component of `RGB_to_YIQ` computed in `double`
is within 1 of the component computed in exact arithmetic. -/
theorem RGB_to_YIQ_binary64_near (r g b : Int) (hr : 0 ≤ r ∧ r ≤ 255)
    (hg : 0 ≤ g ∧ g ≤ 255) (hb : 0 ≤ b ∧ b ≤ 255) :
    |(RGB_to_YIQ_binary64 r g b).1 - (RGB_to_YIQ r g b).1| ≤ 1
    ∧ |(RGB_to_YIQ_binary64 r g b).2.1 - (RGB_to_YIQ r g b).2.1| ≤ 1
    ∧ |(RGB_to_YIQ_binary64 r g b).2.2 - (RGB_to_YIQ r g b).2.2| ≤ 1 := by
  have ar := byte_abs r hr
  have ag := byte_abs g hg
  have ab := byte_abs b hb
  obtain ⟨hD, hv⟩ := dY_near r g b ar ag ab
  have e : (((300 : Int) : ℚ) / 1000 * r + ((590 : Int) : ℚ) / 1000 * g
      + ((110 : Int) : ℚ) / 1000 * b) = (0.30 * r) + (0.59 * g) + (0.11 * b) := by
    norm_num
  rw [e] at hD hv
  unfold RGB_to_YIQ_binary64 RGB_to_YIQ
  dsimp only
  generalize (0.30 * (r : ℚ)) + (0.59 * g) + (0.11 * b) = v at hD hv ⊢
  generalize (Binary.add 53
      (Binary.add 53 (Binary.mul 53 (double1000 300) (Binary.ofInt 53 r))
        (Binary.mul 53 (double1000 590) (Binary.ofInt 53 g)))
      (Binary.mul 53 (double1000 110) (Binary.ofInt 53 b))) = D at hD ⊢
  refine ⟨?_, ?_, ?_⟩
  · rw [toInt_toRat]
    refine toInt_within_one _ _ (le_trans (scaled_near D v _ _ hD hv) ?_)
    norm_num
  · rw [toInt_toRat]
    have h := chroma_near (-270) 740 r b D v (by norm_num) (by norm_num) ar ab hD hv
    have e2 : 256 * ((((-270 : Int)) : ℚ) / 1000 * (b - v) + ((740 : Int) : ℚ) / 1000 * (r - v))
        = 256 * ((-0.27 * (b - v)) + (0.74 * (r - v))) := by
      norm_num
    rw [e2] at h
    exact toInt_within_one _ _ (le_trans h (by norm_num))
  · rw [toInt_toRat]
    have h := chroma_near 410 480 r b D v (by norm_num) (by norm_num) ar ab hD hv
    have e2 : 256 * ((((410 : Int)) : ℚ) / 1000 * (b - v) + ((480 : Int) : ℚ) / 1000 * (r - v))
        = 256 * ((0.41 * (b - v)) + (0.48 * (r - v))) := by
      norm_num
    rw [e2] at h
    exact toInt_within_one _ _ (le_trans h (by norm_num))

/-! ## The forward conversion truncates -/

set_option maxRecDepth 100000 in
/-- C10 (as stated, refuted): at the pixel `(1, 0, 0)` the exact product `256·Y'` is
`76.8`; rounding to nearest gives 77, `RGB_to_YIQ` returns 76, in exact arithmetic and in
the `double` arithmetic of the source alike. -/
theorem RGB_to_YIQ_not_rounded :
    (RGB_to_YIQ 1 0 0).1 = 76 ∧ (RGB_to_YIQ_spec round 1 0 0).1 = 77
    ∧ RGB_to_YIQ 1 0 0 ≠ RGB_to_YIQ_spec round 1 0 0
    ∧ RGB_to_YIQ_binary64 1 0 0 = (76, 153, 54) := by
  have h1 : (RGB_to_YIQ 1 0 0).1 = 76 := by
    have h : (256 * ((0.30 * ((1 : Int) : ℚ)) + (0.59 * ((0 : Int) : ℚ))
        + (0.11 * ((0 : Int) : ℚ)))) = ((7680 : Int) : ℚ) / ((100 : Nat) : ℚ) := by norm_num
    show toInt _ = 76
    rw [h, toInt_div_nat _ _ (by decide)]
    decide
  have h2 : (RGB_to_YIQ_spec round 1 0 0).1 = 77 := by
    show round _ = 77
    norm_num [round_eq]
  refine ⟨h1, h2, ?_, by decide⟩
  intro h
  rw [h, h2] at h1
  exact absurd h1 (by decide)

theorem tdiv_bounds (n lo hi : Int) (d : Int) (hd : 0 < d) (h1 : (lo - 1) * d < n)
    (h2 : n < (hi + 1) * d) (hlo : lo ≤ 0) (hhi : 0 ≤ hi) :
    lo ≤ Int.tdiv n d ∧ Int.tdiv n d ≤ hi := by
  by_cases hn : 0 ≤ n
  · rw [Int.tdiv_eq_ediv hn (le_of_lt hd)]
    constructor
    · exact le_trans hlo (Int.ediv_nonneg hn (le_of_lt hd))
    · have := Int.ediv_lt_of_lt_mul hd h2
      omega
  · have hn' : 0 ≤ -n := by omega
    have e : Int.tdiv n d = -((-n) / d) := by
      rw [← Int.tdiv_eq_ediv hn' (le_of_lt hd), Int.neg_tdiv, neg_neg]
    rw [e]
    constructor
    · have : (-n) / d < -lo + 1 := Int.ediv_lt_of_lt_mul hd (by linarith)
      omega
    · have := Int.ediv_nonneg hn' (le_of_lt hd)
      omega

/-- C10 (amended): for all `r, g, b` in `0..255` the function `RGB_to_YIQ`, with the
coefficients as exact decimals, returns the three products of the specification converted
by truncation toward zero instead of rounding to nearest; in integer terms, with
`S = 30r + 59g + 11b`, the components are the truncated quotients of `256·S` by `100` and
of `256·(-27(100b - S) + 74(100r - S))` and `256·(41(100b - S) + 48(100r - S))` by
`10000`, so that `0 ≤ Y ≤ 65280`, `|I| ≤ 39102` and `|Q| ≤ 34278`.  The source evaluates
the same expressions in `double`: every component of `RGB_to_YIQ_binary64` is within 1 of
the component in exact arithmetic. -/
theorem RGB_to_YIQ_truncates (r g b : Int) (hr : 0 ≤ r ∧ r ≤ 255) (hg : 0 ≤ g ∧ g ≤ 255)
    (hb : 0 ≤ b ∧ b ≤ 255) :
    RGB_to_YIQ r g b = RGB_to_YIQ_spec toInt r g b
    ∧ (RGB_to_YIQ r g b).1 = Int.tdiv (256 * (30 * r + 59 * g + 11 * b)) 100
    ∧ (RGB_to_YIQ r g b).2.1
        = Int.tdiv (256 * (-27 * (100 * b - (30 * r + 59 * g + 11 * b))
            + 74 * (100 * r - (30 * r + 59 * g + 11 * b)))) 10000
    ∧ (RGB_to_YIQ r g b).2.2
        = Int.tdiv (256 * (41 * (100 * b - (30 * r + 59 * g + 11 * b))
            + 48 * (100 * r - (30 * r + 59 * g + 11 * b)))) 10000
    ∧ (0 ≤ (RGB_to_YIQ r g b).1 ∧ (RGB_to_YIQ r g b).1 ≤ 65280)
    ∧ (-39102 ≤ (RGB_to_YIQ r g b).2.1 ∧ (RGB_to_YIQ r g b).2.1 ≤ 39102)
    ∧ (-34278 ≤ (RGB_to_YIQ r g b).2.2 ∧ (RGB_to_YIQ r g b).2.2 ≤ 34278)
    ∧ |(RGB_to_YIQ_binary64 r g b).1 - (RGB_to_YIQ r g b).1| ≤ 1
    ∧ |(RGB_to_YIQ_binary64 r g b).2.1 - (RGB_to_YIQ r g b).2.1| ≤ 1
    ∧ |(RGB_to_YIQ_binary64 r g b).2.2 - (RGB_to_YIQ r g b).2.2| ≤ 1 := by
  have e1 : (RGB_to_YIQ r g b).1 = Int.tdiv (256 * (30 * r + 59 * g + 11 * b)) 100 := by
    show toInt _ = _
    rw [← toInt_div _ 100 (by decide)]
    congr 1
    push_cast
    ring
  have e2 : (RGB_to_YIQ r g b).2.1
      = Int.tdiv (256 * (-27 * (100 * b - (30 * r + 59 * g + 11 * b))
          + 74 * (100 * r - (30 * r + 59 * g + 11 * b)))) 10000 := by
    show toInt _ = _
    rw [← toInt_div _ 10000 (by decide)]
    congr 1
    push_cast
    ring
  have e3 : (RGB_to_YIQ r g b).2.2
      = Int.tdiv (256 * (41 * (100 * b - (30 * r + 59 * g + 11 * b))
          + 48 * (100 * r - (30 * r + 59 * g + 11 * b)))) 10000 := by
    show toInt _ = _
    rw [← toInt_div _ 10000 (by decide)]
    congr 1
    push_cast
    ring
  refine ⟨?_, e1, e2, e3, ?_, ?_, ?_, RGB_to_YIQ_binary64_near r g b hr hg hb⟩
  · simp only [RGB_to_YIQ, RGB_to_YIQ_spec]
  · rw [e1]
    exact tdiv_bounds _ 0 65280 100 (by decide) (by omega) (by omega) (by decide) (by decide)
  · rw [e2]
    exact tdiv_bounds _ (-39102) 39102 10000 (by decide) (by omega) (by omega) (by decide)
      (by decide)
  · rw [e3]
    exact tdiv_bounds _ (-34278) 34278 10000 (by decide) (by omega) (by omega) (by decide)
      (by decide)

set_option maxRecDepth 100000 in
/-- The pixel `(128, 128, 128)`: the exact product `256·Y'` is the integer 32768, the sum
of the three `double` products is just below 128, and the source returns `Y = 32767`. -/
theorem RGB_to_YIQ_binary64_grey :
    RGB_to_YIQ_binary64 128 128 128 = (32767, 0, 0)
    ∧ Int.tdiv (256 * (30 * 128 + 59 * 128 + 11 * 128)) 100 = 32768 := by
  constructor <;> decide

theorem RGB_to_YIQ_truncates_witness :
    RGB_to_YIQ 1 0 0 = RGB_to_YIQ_spec toInt 1 0 0
    ∧ (RGB_to_YIQ 1 0 0).1 = Int.tdiv (256 * (30 * 1 + 59 * 0 + 11 * 0)) 100
    ∧ (0 ≤ (RGB_to_YIQ 1 0 0).1 ∧ (RGB_to_YIQ 1 0 0).1 ≤ 65280)
    ∧ |(RGB_to_YIQ_binary64 1 0 0).1 - (RGB_to_YIQ 1 0 0).1| ≤ 1 :=
  ⟨(RGB_to_YIQ_truncates 1 0 0 (by decide) (by decide) (by decide)).1,
   (RGB_to_YIQ_truncates 1 0 0 (by decide) (by decide) (by decide)).2.1,
   (RGB_to_YIQ_truncates 1 0 0 (by decide) (by decide) (by decide)).2.2.2.2.1,
   (RGB_to_YIQ_truncates 1 0 0 (by decide) (by decide) (by decide)).2.2.2.2.2.2.2.1⟩

/-! ## Single-pole filter -/

namespace LowpassFilter

/-- C6: `lowpass(x)` returns `x·alpha + prev·(1 - alpha)`, computed as
`x·alpha + (prev - prev·alpha)`, stores the returned value as the new `prev` and leaves
every other member of the filter unchanged. -/
theorem lowpass_step (f : LowpassFilter) (x : ℚ) :
    (f.lowpass x).1 = x * f.alpha + f.prev * (1 - f.alpha)
    ∧ (f.lowpass x).1 = x * f.alpha + (f.prev - f.prev * f.alpha)
    ∧ (f.lowpass x).2.prev = (f.lowpass x).1
    ∧ (f.lowpass x).2.alpha = f.alpha
    ∧ (f.lowpass x).2.timeInterval = f.timeInterval
    ∧ (f.lowpass x).2.cutoff = f.cutoff
    ∧ (f.lowpass x).2.tau = f.tau := by
  refine ⟨?_, rfl, rfl, rfl, rfl, rfl, rfl⟩
  simp only [lowpass]
  ring

theorem setFilter_alpha (f : LowpassFilter) (rate hz : ℚ) :
    (f.setFilter rate hz).alpha = (1 / rate) / (1 / (hz * 2 * M_PI) + 1 / rate) := rfl

theorem setFilter_alpha_pos (f : LowpassFilter) (rate hz : ℚ) (hrate : 0 < rate)
    (hhz : 0 < hz) : 0 < (f.setFilter rate hz).alpha := by
  rw [setFilter_alpha]
  have := M_PI_pos
  positivity

theorem setFilter_alpha_lt_one (f : LowpassFilter) (rate hz : ℚ) (hrate : 0 < rate)
    (hhz : 0 < hz) : (f.setFilter rate hz).alpha < 1 := by
  rw [setFilter_alpha]
  have hpi := M_PI_pos
  have h1 : (0 : ℚ) < 1 / rate := by positivity
  have h2 : (0 : ℚ) < 1 / (hz * 2 * M_PI) := by positivity
  rw [div_lt_one (by linarith)]
  linarith

theorem afterLowpass_alpha (f : LowpassFilter) (x : ℚ) (n : Nat) :
    (afterLowpass f x n).alpha = f.alpha := by
  induction n with
  | zero => rfl
  | succ n ih => simpa [afterLowpass, lowpass] using ih

theorem afterHighpass_alpha (f : LowpassFilter) (x : ℚ) (n : Nat) :
    (afterHighpass f x n).alpha = f.alpha := by
  induction n with
  | zero => rfl
  | succ n ih => simpa [afterHighpass, highpass] using ih

theorem afterLowpass_prev (f : LowpassFilter) (x : ℚ) (n : Nat) :
    (afterLowpass f x n).prev = x + (f.prev - x) * (1 - f.alpha) ^ n := by
  induction n with
  | zero => simp [afterLowpass]
  | succ n ih =>
    have ha := afterLowpass_alpha f x n
    simp only [afterLowpass, lowpass, ih, ha]
    ring

theorem afterHighpass_prev (f : LowpassFilter) (x : ℚ) (n : Nat) :
    (afterHighpass f x n).prev = x + (f.prev - x) * (1 - f.alpha) ^ n := by
  induction n with
  | zero => simp [afterHighpass]
  | succ n ih =>
    have ha := afterHighpass_alpha f x n
    simp only [afterHighpass, highpass, ih, ha]
    ring

theorem lowpassOutput_eq (f : LowpassFilter) (x : ℚ) (n : Nat) :
    lowpassOutput f x n = x + (f.prev - x) * (1 - f.alpha) ^ (n + 1) := by
  have h := afterLowpass_prev f x (n + 1)
  simpa [lowpassOutput, afterLowpass, lowpass] using h

theorem highpassOutput_eq (f : LowpassFilter) (x : ℚ) (n : Nat) :
    highpassOutput f x n = x - (x + (f.prev - x) * (1 - f.alpha) ^ (n + 1)) := by
  have h := afterHighpass_prev f x (n + 1)
  simp only [afterHighpass, highpass] at h
  simp only [highpassOutput, highpass, h]

theorem geometric_tendsto (x d a : ℚ) (h0 : 0 < a) (h1 : a < 1) :
    Filter.Tendsto (fun n : Nat => ((x + d * (1 - a) ^ (n + 1) : ℚ) : ℝ)) Filter.atTop
      (nhds (x : ℝ)) := by
  have hr0 : (0 : ℝ) ≤ 1 - (a : ℝ) := by
    have : (a : ℝ) < 1 := by exact_mod_cast h1
    linarith
  have hr1 : 1 - (a : ℝ) < 1 := by
    have : (0 : ℝ) < (a : ℝ) := by exact_mod_cast h0
    linarith
  have hp := tendsto_pow_atTop_nhds_zero_of_lt_one hr0 hr1
  have hp1 := (Filter.tendsto_add_atTop_iff_nat 1).mpr hp
  have hm := (hp1.const_mul (d : ℝ)).const_add (x : ℝ)
  simp only [mul_zero, add_zero] at hm
  refine hm.congr ?_
  intro n
  push_cast
  ring

/-- C7: for a filter configured with `rate > 0` and `cutoff > 0` (hence `0 < alpha < 1`),
reset to `p0` and fed the constant input `x`: the `n`-th successive `lowpass` output is
`x + (p0 - x)(1 - alpha)^n`, the `n`-th successive `highpass` output is `x` minus that
value, the lowpass outputs converge to `x` and the highpass outputs to `0`, and a filter
whose `prev` is `x` returns exactly `x` from `lowpass(x)` and `0` from `highpass(x)`. -/
theorem constant_input_response (f0 : LowpassFilter) (rate hz p0 x : ℚ) (hrate : 0 < rate)
    (hhz : 0 < hz) :
    0 < ((f0.setFilter rate hz).resetFilter p0).alpha
    ∧ ((f0.setFilter rate hz).resetFilter p0).alpha < 1
    ∧ (∀ n : Nat, lowpassOutput ((f0.setFilter rate hz).resetFilter p0) x n
        = x + (p0 - x) * (1 - ((f0.setFilter rate hz).resetFilter p0).alpha) ^ (n + 1))
    ∧ (∀ n : Nat, highpassOutput ((f0.setFilter rate hz).resetFilter p0) x n
        = x - (x + (p0 - x) * (1 - ((f0.setFilter rate hz).resetFilter p0).alpha) ^ (n + 1)))
    ∧ Filter.Tendsto
        (fun n : Nat => ((lowpassOutput ((f0.setFilter rate hz).resetFilter p0) x n : ℚ) : ℝ))
        Filter.atTop (nhds (x : ℝ))
    ∧ Filter.Tendsto
        (fun n : Nat => ((highpassOutput ((f0.setFilter rate hz).resetFilter p0) x n : ℚ) : ℝ))
        Filter.atTop (nhds 0)
    ∧ (((f0.setFilter rate hz).resetFilter x).lowpass x).1 = x
    ∧ (((f0.setFilter rate hz).resetFilter x).highpass x).1 = 0 := by
  have ha0 : 0 < ((f0.setFilter rate hz).resetFilter p0).alpha :=
    setFilter_alpha_pos f0 rate hz hrate hhz
  have ha1 : ((f0.setFilter rate hz).resetFilter p0).alpha < 1 :=
    setFilter_alpha_lt_one f0 rate hz hrate hhz
  have hlow := geometric_tendsto x (p0 - x) _ ha0 ha1
  refine ⟨ha0, ha1, fun n => lowpassOutput_eq _ x n, fun n => highpassOutput_eq _ x n, ?_, ?_,
    ?_, ?_⟩
  · refine hlow.congr ?_
    intro n
    rw [lowpassOutput_eq]
    rfl
  · have hsub := (hlow.const_sub (x : ℝ))
    rw [sub_self] at hsub
    refine hsub.congr ?_
    intro n
    rw [highpassOutput_eq]
    push_cast
    rfl
  · simp only [lowpass, resetFilter]
    ring
  · simp only [highpass, resetFilter]
    ring

/-- The constant-input response of a filter at 44100 Hz with cutoff 8000 Hz, reset to 16
and fed the constant 1. -/
theorem constant_input_response_witness :
    0 < (((({} : LowpassFilter).setFilter 44100 8000).resetFilter 16).alpha)
    ∧ (((({} : LowpassFilter).setFilter 44100 8000).resetFilter 16).alpha) < 1
    ∧ (∀ n : Nat, lowpassOutput ((({} : LowpassFilter).setFilter 44100 8000).resetFilter 16) 1 n
        = 1 + (16 - 1)
          * (1 - ((({} : LowpassFilter).setFilter 44100 8000).resetFilter 16).alpha) ^ (n + 1))
    ∧ (∀ n : Nat, highpassOutput ((({} : LowpassFilter).setFilter 44100 8000).resetFilter 16) 1 n
        = 1 - (1 + (16 - 1)
          * (1 - ((({} : LowpassFilter).setFilter 44100 8000).resetFilter 16).alpha) ^ (n + 1)))
    ∧ Filter.Tendsto
        (fun n : Nat =>
          ((lowpassOutput ((({} : LowpassFilter).setFilter 44100 8000).resetFilter 16) 1 n : ℚ)
            : ℝ))
        Filter.atTop (nhds ((1 : ℚ) : ℝ))
    ∧ Filter.Tendsto
        (fun n : Nat =>
          ((highpassOutput ((({} : LowpassFilter).setFilter 44100 8000).resetFilter 16) 1 n : ℚ)
            : ℝ))
        Filter.atTop (nhds 0)
    ∧ (((({} : LowpassFilter).setFilter 44100 8000).resetFilter 1).lowpass 1).1 = 1
    ∧ (((({} : LowpassFilter).setFilter 44100 8000).resetFilter 1).highpass 1).1 = 0 :=
  constant_input_response {} 44100 8000 16 1 (by norm_num) (by norm_num)

end LowpassFilter

/-- C9 (as stated, refuted): with `rate = -1` and `cutoff = 1` the specification's
configuration fails with `InvalidParameter`, while `setFilter` completes and leaves in
`alpha` a value above 1. -/
theorem setFilter_accepts_negative_rate :
    configure_spec (-1) 1 = Except.error FilterError.InvalidParameter
    ∧ setFilter_outcome {} (-1) 1 ≠ Except.error FilterError.InvalidParameter
    ∧ setFilter_outcome {} (-1) 1 ≠ configure_spec (-1) 1
    ∧ 1 < (({} : LowpassFilter).setFilter (-1) 1).alpha := by
  have h : configure_spec (-1) 1 = Except.error FilterError.InvalidParameter := by
    unfold configure_spec
    rw [if_pos]
    left
    norm_num
  refine ⟨h, ?_, ?_, ?_⟩
  · intro hc
    simp [setFilter_outcome] at hc
  · rw [h]
    intro hc
    simp [setFilter_outcome] at hc
  · rw [LowpassFilter.setFilter_alpha]
    unfold M_PI
    norm_num

/-- C9 (amended): `setFilter` has no failure outcome for any rate and cutoff (it performs
no validation), and whenever `rate > 0` and `cutoff > 0` it sets the time interval to
`1 / rate` and `alpha` to `Δt / (τ + Δt)` with `τ = 1 / (2π·cutoff)`, in agreement with
the successful configuration of the specification, leaving `prev` untouched. -/
theorem setFilter_never_fails (f : LowpassFilter) (rate hz : ℚ) (hrate : 0 < rate)
    (hhz : 0 < hz) :
    (∀ (f' : LowpassFilter) (rate' hz' : ℚ) (e : FilterError),
        setFilter_outcome f' rate' hz' ≠ Except.error e)
    ∧ setFilter_outcome f rate hz = configure_spec rate hz
    ∧ (f.setFilter rate hz).timeInterval = 1 / rate
    ∧ (f.setFilter rate hz).alpha = (1 / rate) / (1 / (2 * M_PI * hz) + 1 / rate)
    ∧ (f.setFilter rate hz).prev = f.prev := by
  refine ⟨?_, ?_, rfl, ?_, rfl⟩
  · intro f' rate' hz' e hc
    simp [setFilter_outcome] at hc
  · unfold configure_spec setFilter_outcome
    rw [if_neg (by rw [not_or]; exact ⟨not_le.mpr hrate, not_le.mpr hhz⟩)]
    simp only [LowpassFilter.setFilter]
    congr 3
    ring
  · simp only [LowpassFilter.setFilter]
    congr 3
    ring

/-- The configuration at the audio rate 44100 Hz with cutoff 8000 Hz. -/
theorem setFilter_never_fails_witness :
    (∀ (f' : LowpassFilter) (rate' hz' : ℚ) (e : FilterError),
        setFilter_outcome f' rate' hz' ≠ Except.error e)
    ∧ setFilter_outcome {} 44100 8000 = configure_spec 44100 8000
    ∧ (({} : LowpassFilter).setFilter 44100 8000).timeInterval = 1 / 44100
    ∧ (({} : LowpassFilter).setFilter 44100 8000).alpha
        = (1 / 44100) / (1 / (2 * M_PI * 8000) + 1 / 44100)
    ∧ (({} : LowpassFilter).setFilter 44100 8000).prev = ({} : LowpassFilter).prev :=
  setFilter_never_fails {} 44100 8000 (by norm_num) (by norm_num)

/-! ## Filter banks -/

namespace HiLoPass

theorem sampleAfterLo_succ (bank : HiLoPass) (s : ℚ) (k : Nat) (p : HiLoPair)
    (hp : bank[k]? = some p) :
    sampleAfterLo bank s (k + 1) = (p.lo.lowpass (sampleAfterLo bank s k)).1 := by
  unfold sampleAfterLo
  rw [List.take_succ, hp]
  simp [List.foldl_append]

theorem sampleAfterHi_succ (bank : HiLoPass) (s : ℚ) (k : Nat) (p : HiLoPair)
    (hp : bank[k]? = some p) :
    sampleAfterHi bank s (k + 1) = (p.hi.highpass (sampleAfterHi bank s k)).1 := by
  unfold sampleAfterHi
  rw [List.take_succ, hp]
  simp [List.foldl_append]

/-- The state of the first loop of `filter` after `k` iterations. -/
theorem loLoop_state (bank : HiLoPass) (s : ℚ) (k : Nat) (hk : k ≤ bank.length) :
    ((List.range k).foldl loStep (s, bank)).1 = sampleAfterLo bank s k
    ∧ ((List.range k).foldl loStep (s, bank)).2.length = bank.length
    ∧ ∀ i : Nat, ((List.range k).foldl loStep (s, bank)).2[i]?
        = if i < k then
            (bank[i]?).map (fun p => { p with lo := (p.lo.lowpass (sampleAfterLo bank s i)).2 })
          else bank[i]? := by
  induction k with
  | zero => simp [sampleAfterLo]
  | succ k ih =>
    obtain ⟨h1, h2, h3⟩ := ih (by omega)
    have hk' : k < bank.length := by omega
    have hget : ((List.range k).foldl loStep (s, bank)).2[k]? = some bank[k] := by
      rw [h3 k, if_neg (lt_irrefl k), List.getElem?_eq_getElem hk']
    have hb : bank[k]? = some bank[k] := List.getElem?_eq_getElem hk'
    rw [List.range_succ, List.foldl_append, List.foldl_cons, List.foldl_nil]
    simp only [loStep, hget, h1]
    refine ⟨(sampleAfterLo_succ bank s k _ hb).symm, ?_, ?_⟩
    · rw [List.length_set, h2]
    · intro i
      rw [List.getElem?_set]
      by_cases hik : k = i
      · subst hik
        simp [h2, hk', hb]
      · rw [if_neg hik, h3 i]
        by_cases hlt : i < k
        · rw [if_pos hlt, if_pos (by omega)]
        · rw [if_neg hlt, if_neg (by omega)]

/-- The state of the second loop of `filter` after `k` iterations. -/
theorem hiLoop_state (bank : HiLoPass) (s : ℚ) (k : Nat) (hk : k ≤ bank.length) :
    ((List.range k).foldl hiStep (s, bank)).1 = sampleAfterHi bank s k
    ∧ ((List.range k).foldl hiStep (s, bank)).2.length = bank.length
    ∧ ∀ i : Nat, ((List.range k).foldl hiStep (s, bank)).2[i]?
        = if i < k then
            (bank[i]?).map (fun p => { p with hi := (p.hi.highpass (sampleAfterHi bank s i)).2 })
          else bank[i]? := by
  induction k with
  | zero => simp [sampleAfterHi]
  | succ k ih =>
    obtain ⟨h1, h2, h3⟩ := ih (by omega)
    have hk' : k < bank.length := by omega
    have hget : ((List.range k).foldl hiStep (s, bank)).2[k]? = some bank[k] := by
      rw [h3 k, if_neg (lt_irrefl k), List.getElem?_eq_getElem hk']
    have hb : bank[k]? = some bank[k] := List.getElem?_eq_getElem hk'
    rw [List.range_succ, List.foldl_append, List.foldl_cons, List.foldl_nil]
    simp only [hiStep, hget, h1]
    refine ⟨(sampleAfterHi_succ bank s k _ hb).symm, ?_, ?_⟩
    · rw [List.length_set, h2]
    · intro i
      rw [List.getElem?_set]
      by_cases hik : k = i
      · subst hik
        simp [h2, hk', hb]
      · rw [if_neg hik, h3 i]
        by_cases hlt : i < k
        · rw [if_pos hlt, if_pos (by omega)]
        · rw [if_neg hlt, if_neg (by omega)]

theorem sampleAfterHi_congr (b1 b2 : HiLoPass) (s : ℚ) (i : Nat)
    (h : b1.map (fun p => p.hi) = b2.map (fun p => p.hi)) :
    sampleAfterHi b1 s i = sampleAfterHi b2 s i := by
  have key : ∀ b : HiLoPass, sampleAfterHi b s i
      = ((b.map (fun p => p.hi)).take i).foldl (fun s f => (f.highpass s).1) s := by
    intro b
    unfold sampleAfterHi
    rw [← List.map_take, List.foldl_map]
  rw [key b1, key b2, h]

/-- C8: for a bank of `N` pairs, `filter` returns the sample obtained by running the
input through `lo[0].lowpass, …, lo[N-1].lowpass` and then through
`hi[0].highpass, …, hi[N-1].highpass`, in that order; the bank keeps its length, and each
of its `2N` filters is left in the state produced by exactly one call, the one made on
the running sample of its stage. -/
theorem filter_runs_lowpasses_then_highpasses (bank : HiLoPass) (s : ℚ) :
    (filter bank s).1
        = bank.foldl (fun s p => (p.hi.highpass s).1)
            (bank.foldl (fun s p => (p.lo.lowpass s).1) s)
    ∧ (filter bank s).2.length = bank.length
    ∧ ∀ i : Fin bank.length, (filter bank s).2[i.val]?
        = some
          { lo := (bank[i.val].lo.lowpass (sampleAfterLo bank s i.val)).2
            hi := (bank[i.val].hi.highpass
              (sampleAfterHi bank (sampleAfterLo bank s bank.length) i.val)).2 } := by
  obtain ⟨l1, l2, l3⟩ := loLoop_state bank s bank.length le_rfl
  set st1 := (List.range bank.length).foldl loStep (s, bank) with hst1
  obtain ⟨g1, g2, g3⟩ := hiLoop_state st1.2 st1.1 st1.2.length le_rfl
  have hfilter : filter bank s = (List.range st1.2.length).foldl hiStep st1 := rfl
  have hmap : st1.2.map (fun p => p.hi) = bank.map (fun p => p.hi) := by
    apply List.ext_getElem?
    intro i
    rw [List.getElem?_map, List.getElem?_map, l3 i]
    by_cases hi : i < bank.length
    · rw [if_pos hi, List.getElem?_eq_getElem hi]
      rfl
    · rw [if_neg hi]
  have hfull : ∀ (b : HiLoPass) (x : ℚ), sampleAfterLo b x b.length
      = b.foldl (fun s p => (p.lo.lowpass s).1) x := by
    intro b x
    simp [sampleAfterLo]
  have hfullhi : ∀ (b : HiLoPass) (x : ℚ), sampleAfterHi b x b.length
      = b.foldl (fun s p => (p.hi.highpass s).1) x := by
    intro b x
    simp [sampleAfterHi]
  refine ⟨?_, ?_, ?_⟩
  · rw [hfilter, g1, sampleAfterHi_congr _ _ _ _ hmap, l1, l2, hfullhi, hfull]
  · rw [hfilter, g2, l2]
  · intro i
    have hi : i.val < st1.2.length := by rw [l2]; exact i.isLt
    rw [hfilter, g3 i.val, if_pos hi, l3 i.val, if_pos i.isLt,
      List.getElem?_eq_getElem i.isLt, sampleAfterHi_congr _ _ _ _ hmap, l1]
    rfl

end HiLoPass

/-! ## Loops -/

theorem ite_iff {α : Type} (A B : Prop) [Decidable A] [Decidable B] (u v : α) (h : A ↔ B) :
    (if A then u else v) = if B then u else v :=
  if_congr h rfl rfl

theorem forColumns_zero {σ : Type} (body : Nat → σ → σ) (s : σ) : forColumns 0 body s = s := rfl

theorem forColumns_succ {σ : Type} (n : Nat) (body : Nat → σ → σ) (s : σ) :
    forColumns (n + 1) body s = body n (forColumns n body s) := by
  simp [forColumns, List.range_succ, List.foldl_append]

/-- Invariant rule for `loopFrom`: an invariant of the body holds when the loop stops, and
the loop condition is then false, provided the fuel covers the remaining distance. -/
theorem loopFrom_invariant {σ : Type} (step k bound : Nat) (body : Nat → σ → σ)
    (P : Nat → σ → Prop) (hstep : 0 < step)
    (hbody : ∀ x s, P x s → x + k < bound → P (x + step) (body x s)) :
    ∀ (fuel x : Nat) (s : σ), bound ≤ x + k + fuel → P x s →
      P (loopFrom step k bound body fuel x s).1 (loopFrom step k bound body fuel x s).2
      ∧ ¬ ((loopFrom step k bound body fuel x s).1 + k < bound) := by
  intro fuel
  induction fuel with
  | zero =>
    intro x s hb hP
    simp only [loopFrom]
    exact ⟨hP, by omega⟩
  | succ fuel ih =>
    intro x s hb hP
    simp only [loopFrom]
    split
    · next hc => exact ih (x + step) (body x s) (by omega) (hbody x s hP hc)
    · next hc => exact ⟨hP, hc⟩

theorem Planes.row_setRow (p : Planes) (y y' : Nat) (r : Row) :
    (p.setRow y r).row y' = if y' = y then r else p.row y' := by
  by_cases h : y' = y
  · subst h
    simp [Planes.setRow, Planes.row]
  · simp [Planes.setRow, Planes.row, h, Function.update_noteq h]

/-- The rows visited by `for (y = field; y < height; y += 2)`. -/
theorem forFieldRows_rowwise (field height : Nat) (f : Nat → Row → Row) (p : Planes) (y : Nat) :
    (forFieldRows field height (fun y p => p.setRow y (f y (p.row y))) p).row y
      = if field ≤ y ∧ y < height ∧ (y - field) % 2 = 0 then f y (p.row y) else p.row y := by
  have h := loopFrom_invariant 2 0 height (fun y p => p.setRow y (f y (p.row y)))
    (fun y' (p' : Planes) => field ≤ y' ∧ (y' - field) % 2 = 0
      ∧ (y' = field ∨ y' < height + 2) ∧ ∀ r, p'.row r
      = if field ≤ r ∧ r < y' ∧ (r - field) % 2 = 0 then f r (p.row r) else p.row r)
    (by decide)
    (by
      intro x s ⟨h1, h2, _, h3⟩ hx
      refine ⟨by omega, by omega, by omega, ?_⟩
      intro r
      rw [Planes.row_setRow]
      by_cases hr : r = x
      · subst hr
        rw [if_pos rfl, if_pos ⟨h1, by omega, h2⟩, h3 r, if_neg (by omega)]
      · rw [if_neg hr, h3 r]
        by_cases hc : field ≤ r ∧ r < x ∧ (r - field) % 2 = 0
        · rw [if_pos hc, if_pos ⟨hc.1, by omega, hc.2.2⟩]
        · rw [if_neg hc, if_neg (by omega)])
    height field p (by omega)
    ⟨le_rfl, by simp, Or.inl rfl, by intro r; rw [if_neg (by omega)]⟩
  obtain ⟨⟨h1, h2, h5, h3⟩, h4⟩ := h
  unfold forFieldRows
  rw [h3 y]
  by_cases hc : field ≤ y ∧ y < height ∧ (y - field) % 2 = 0
  · rw [if_pos hc, if_pos ⟨hc.1, by omega, hc.2.2⟩]
  · rw [if_neg hc, if_neg (by omega)]

/-- The rows visited by a row loop whose body may fail: when the body succeeds on every
visited row, the loop succeeds and has rewritten exactly the visited rows. -/
theorem forFieldRows_rowwise_option (field height : Nat) (g : Nat → Row → Option Row)
    (f : Nat → Row → Row) (p : Planes)
    (hg : ∀ y, field ≤ y → y < height → (y - field) % 2 = 0 → g y (p.row y) = some (f y (p.row y))) :
    ∃ p' : Planes,
      forFieldRows field height
        (fun y (p : Option Planes) => p.bind fun p => (g y (p.row y)).map fun r => p.setRow y r)
        (some p) = some p'
      ∧ ∀ y, p'.row y
        = if field ≤ y ∧ y < height ∧ (y - field) % 2 = 0 then f y (p.row y) else p.row y := by
  have h := loopFrom_invariant 2 0 height
    (fun y (p : Option Planes) => p.bind fun p => (g y (p.row y)).map fun r => p.setRow y r)
    (fun y' (s : Option Planes) => field ≤ y' ∧ (y' - field) % 2 = 0
      ∧ (y' = field ∨ y' < height + 2) ∧ ∃ p' : Planes, s = some p'
      ∧ ∀ r, p'.row r
        = if field ≤ r ∧ r < y' ∧ (r - field) % 2 = 0 then f r (p.row r) else p.row r)
    (by decide)
    (by
      intro x s ⟨h1, h2, _, p', hs, h3⟩ hx
      refine ⟨by omega, by omega, by omega, p'.setRow x (f x (p.row x)), ?_, ?_⟩
      · subst hs
        have hrow : p'.row x = p.row x := by rw [h3 x, if_neg (by omega)]
        show Option.map (fun r => p'.setRow x r) (g x (p'.row x)) = _
        rw [hrow, hg x h1 (by omega) h2]
        rfl
      · intro r
        rw [Planes.row_setRow]
        by_cases hr : r = x
        · subst hr
          rw [if_pos rfl, if_pos ⟨h1, by omega, h2⟩]
        · rw [if_neg hr, h3 r]
          by_cases hc : field ≤ r ∧ r < x ∧ (r - field) % 2 = 0
          · rw [if_pos hc, if_pos ⟨hc.1, by omega, hc.2.2⟩]
          · rw [if_neg hc, if_neg (by omega)])
    height field (some p) (by omega)
    ⟨le_rfl, by simp, Or.inl rfl, p, rfl, by intro r; rw [if_neg (by omega)]⟩
  obtain ⟨⟨h1, h2, h5, p', hs, h3⟩, h4⟩ := h
  refine ⟨p', hs, ?_⟩
  intro y
  rw [h3 y]
  by_cases hc : field ≤ y ∧ y < height ∧ (y - field) % 2 = 0
  · rw [if_pos hc, if_pos ⟨hc.1, by omega, hc.2.2⟩]
  · rw [if_neg hc, if_neg (by omega)]

/-- The result of `loopFrom` in existential form. -/
theorem loopFrom_result {σ : Type} (step k bound : Nat) (body : Nat → σ → σ)
    (P : Nat → σ → Prop) (hstep : 0 < step)
    (hbody : ∀ x s, P x s → x + k < bound → P (x + step) (body x s))
    (fuel x : Nat) (s : σ) (hfuel : bound ≤ x + k + fuel) (hP : P x s) :
    ∃ (xf : Nat) (sf : σ), loopFrom step k bound body fuel x s = (xf, sf) ∧ P xf sf
      ∧ ¬ (xf + k < bound) :=
  ⟨_, _, rfl, loopFrom_invariant step k bound body P hstep hbody fuel x s hfuel hP⟩

/-! ## Subcarrier modulation -/

theorem and_three (n : Nat) : n &&& 3 = n % 4 :=
  Nat.and_pow_two_sub_one_eq_mod n 2

theorem u32_and_three (n : Nat) : u32 (n : Int) &&& 3 = n % 4 := by
  rw [and_three]
  unfold u32
  omega

theorem u32_add_and_three (a b : Nat) : u32 ((a : Int) + (b : Int)) &&& 3 = (a + b) % 4 := by
  rw [and_three]
  unfold u32
  omega

theorem store_apply (a : Scanline) (x j : Nat) (v : Int) :
    store a x v j = if j = x then v else a j := by
  unfold store
  by_cases h : j = x
  · subst h; simp
  · simp [h, Function.update_noteq h]

/-- The column loop of `chroma_into_luma` on one row, column by column. -/
theorem chroma_into_luma_columns (A : Int) (xi W : Nat) (r : Row) (x : Nat) :
    (forColumns W (chroma_into_luma_pixel A xi) r).Y x
        = (if x < W then
            r.Y x + Int.tdiv (r.I x * A * Umult ((xi + x) % 4)
              + r.Q x * A * Vmult ((xi + x) % 4)) 50
          else r.Y x)
    ∧ (forColumns W (chroma_into_luma_pixel A xi) r).I x = (if x < W then 0 else r.I x)
    ∧ (forColumns W (chroma_into_luma_pixel A xi) r).Q x = (if x < W then 0 else r.Q x) := by
  induction W with
  | zero => simp [forColumns_zero]
  | succ n ih =>
    obtain ⟨hY, hI, hQ⟩ := ih
    rw [forColumns_succ]
    simp only [chroma_into_luma_pixel, store_apply, u32_add_and_three]
    by_cases hx : x = n
    · subst hx
      have e1 : (forColumns x (chroma_into_luma_pixel A xi) r).Y x = r.Y x := by
        rw [hY, if_neg (lt_irrefl x)]
      have e2 : (forColumns x (chroma_into_luma_pixel A xi) r).I x = r.I x := by
        rw [hI, if_neg (lt_irrefl x)]
      have e3 : (forColumns x (chroma_into_luma_pixel A xi) r).Q x = r.Q x := by
        rw [hQ, if_neg (lt_irrefl x)]
      simp [e1, e2, e3]
    · simp only [if_neg hx, hY, hI, hQ]
      by_cases hlt : x < n
      · simp [hlt, Nat.lt_succ_of_lt hlt]
      · have : ¬ x < n + 1 := by omega
        simp [hlt, this]

/-- C2: on every row `y` of the field (`y mod 2 = f`, `y` below the frame height) and
every column `x < W`, `chroma_into_luma` sets
`Y'[x] = Y[x] + (I[x]·A·U[(xi+x) mod 4] + Q[x]·A·V[(xi+x) mod 4]) / 50` with truncating
division, `U = [1,0,-1,0]`, `V = [0,1,0,-1]` and `xi` the phase index of the row, and
sets `I'[x] = Q'[x] = 0`. -/
theorem chroma_into_luma_modulates (phase_shift phase_offset : Int)
    (W H field fieldno : Nat) (A : Int) (p : Planes) (y x : Nat)
    (hfield : field < 2) (hy : y < H) (hpar : y % 2 = field) (hx : x < W) :
    (chroma_into_luma phase_shift phase_offset W H field fieldno A p).fY y x
        = p.fY y x + Int.tdiv
            (p.fI y x * A
                * ([1, 0, -1, 0] : List Int).getD
                    ((chroma_into_luma_xi phase_shift phase_offset fieldno y + x) % 4) 0
              + p.fQ y x * A
                * ([0, 1, 0, -1] : List Int).getD
                    ((chroma_into_luma_xi phase_shift phase_offset fieldno y + x) % 4) 0) 50
    ∧ (chroma_into_luma phase_shift phase_offset W H field fieldno A p).fI y x = 0
    ∧ (chroma_into_luma phase_shift phase_offset W H field fieldno A p).fQ y x = 0 := by
  have hrow := forFieldRows_rowwise field H
    (fun y r => forColumns W
      (chroma_into_luma_pixel A (chroma_into_luma_xi phase_shift phase_offset fieldno y)) r)
    p y
  rw [if_pos ⟨by omega, hy, by omega⟩] at hrow
  have hcols := chroma_into_luma_columns A
    (chroma_into_luma_xi phase_shift phase_offset fieldno y) W (p.row y) x
  simp only [if_pos hx] at hcols
  have hrow' : (chroma_into_luma phase_shift phase_offset W H field fieldno A p).row y
      = forColumns W
        (chroma_into_luma_pixel A (chroma_into_luma_xi phase_shift phase_offset fieldno y))
        (p.row y) := hrow
  have eY : (chroma_into_luma phase_shift phase_offset W H field fieldno A p).fY y
      = ((chroma_into_luma phase_shift phase_offset W H field fieldno A p).row y).Y := rfl
  have eI : (chroma_into_luma phase_shift phase_offset W H field fieldno A p).fI y
      = ((chroma_into_luma phase_shift phase_offset W H field fieldno A p).row y).I := rfl
  have eQ : (chroma_into_luma phase_shift phase_offset W H field fieldno A p).fQ y
      = ((chroma_into_luma phase_shift phase_offset W H field fieldno A p).row y).Q := rfl
  rw [eY, eI, eQ, hrow']
  exact hcols

/-- The modulation formula on row 1, column 2 of a 4×4 frame for the odd field. -/
theorem chroma_into_luma_modulates_witness :
    (chroma_into_luma 180 0 4 4 1 0 50
        { fY := fun _ _ => 1000, fI := fun _ _ => 7, fQ := fun _ _ => -13 }).fY 1 2
        = (1000 : Int) + Int.tdiv
            (7 * 50 * ([1, 0, -1, 0] : List Int).getD ((chroma_into_luma_xi 180 0 0 1 + 2) % 4) 0
              + (-13) * 50
                * ([0, 1, 0, -1] : List Int).getD ((chroma_into_luma_xi 180 0 0 1 + 2) % 4) 0) 50
    ∧ (chroma_into_luma 180 0 4 4 1 0 50
        { fY := fun _ _ => 1000, fI := fun _ _ => 7, fQ := fun _ _ => -13 }).fI 1 2 = 0
    ∧ (chroma_into_luma 180 0 4 4 1 0 50
        { fY := fun _ _ => 1000, fI := fun _ _ => 7, fQ := fun _ _ => -13 }).fQ 1 2 = 0 :=
  chroma_into_luma_modulates 180 0 4 4 1 0 50
    { fY := fun _ _ => 1000, fI := fun _ _ => 7, fQ := fun _ _ => -13 } 1 2
    (by decide) (by decide) (by decide) (by decide)

/-! ## Subcarrier demodulation, loop by loop -/

/-- The box-blur loop after `n` columns. -/
theorem blur_state (W : Nat) (Y : Scanline) (hW : 2 ≤ W) (n : Nat) (hn : n ≤ W) :
    (∀ j, (forColumns n (blurStep W)
        { Y := Y, chroma := fun _ => 0, delay0 := 0, delay1 := 0, delay2 := Y 0,
          delay3 := Y 1, sum := Y 0 + Y 1 }).Y j = if j < n then boxBlur W Y j else Y j)
    ∧ (∀ j, (forColumns n (blurStep W)
        { Y := Y, chroma := fun _ => 0, delay0 := 0, delay1 := 0, delay2 := Y 0,
          delay3 := Y 1, sum := Y 0 + Y 1 }).chroma j
          = if j < n then padded W Y (j + 2) - boxBlur W Y j else 0)
    ∧ (forColumns n (blurStep W)
        { Y := Y, chroma := fun _ => 0, delay0 := 0, delay1 := 0, delay2 := Y 0,
          delay3 := Y 1, sum := Y 0 + Y 1 }).delay0 = (if n < 2 then 0 else padded W Y (n - 2))
    ∧ (forColumns n (blurStep W)
        { Y := Y, chroma := fun _ => 0, delay0 := 0, delay1 := 0, delay2 := Y 0,
          delay3 := Y 1, sum := Y 0 + Y 1 }).delay1 = (if n < 1 then 0 else padded W Y (n - 1))
    ∧ (forColumns n (blurStep W)
        { Y := Y, chroma := fun _ => 0, delay0 := 0, delay1 := 0, delay2 := Y 0,
          delay3 := Y 1, sum := Y 0 + Y 1 }).delay2 = padded W Y n
    ∧ (forColumns n (blurStep W)
        { Y := Y, chroma := fun _ => 0, delay0 := 0, delay1 := 0, delay2 := Y 0,
          delay3 := Y 1, sum := Y 0 + Y 1 }).delay3 = padded W Y (n + 1)
    ∧ (forColumns n (blurStep W)
        { Y := Y, chroma := fun _ => 0, delay0 := 0, delay1 := 0, delay2 := Y 0,
          delay3 := Y 1, sum := Y 0 + Y 1 }).sum
        = (if n < 2 then 0 else padded W Y (n - 2)) + (if n < 1 then 0 else padded W Y (n - 1))
          + padded W Y n + padded W Y (n + 1) := by
  induction n with
  | zero =>
    have h0 : padded W Y 0 = Y 0 := by unfold padded; rw [if_pos (by omega)]
    have h1 : padded W Y 1 = Y 1 := by unfold padded; rw [if_pos (by omega)]
    simp [forColumns_zero, h0, h1]
  | succ n ih =>
    obtain ⟨hY, hC, h0, h1, h2, h3, hs⟩ := ih (by omega)
    rw [forColumns_succ]
    set s := forColumns n (blurStep W)
        { Y := Y, chroma := fun _ => 0, delay0 := 0, delay1 := 0, delay2 := Y 0,
          delay3 := Y 1, sum := Y 0 + Y 1 } with hsdef
    have hc : (if n + 2 < W then s.Y (n + 2) else 0) = padded W Y (n + 2) := by
      unfold padded
      rw [hY (n + 2), if_neg (by omega : ¬ n + 2 < n)]
    have hsum : s.sum - s.delay0 + padded W Y (n + 2)
        = (if n + 1 < 2 then 0 else padded W Y (n + 1 - 2))
          + (if n + 1 < 1 then 0 else padded W Y (n + 1 - 1))
          + padded W Y (n + 1) + padded W Y (n + 1 + 1) := by
      rw [hs, h0]
      rcases Nat.lt_or_ge n 1 with hlt | hge
      · have : n = 0 := by omega
        subst this
        simp
      · have e1 : n + 1 - 2 = n - 1 := by omega
        have e2 : n + 1 - 1 = n := by omega
        rw [if_neg (by omega : ¬ n < 1), if_neg (by omega : ¬ n + 1 < 2),
          if_neg (by omega : ¬ n + 1 < 1), e1, e2]
        ring
    have hblur : Int.tdiv (s.sum - s.delay0 + padded W Y (n + 2)) 4 = boxBlur W Y n := by
      unfold boxBlur
      rw [hs, h0]
      congr 1
      rcases Nat.lt_or_ge n 1 with hlt | hge
      · have : n = 0 := by omega
        subst this
        simp
      · rw [if_neg (by omega : ¬ n < 1), if_neg (by omega : ¬ n = 0)]
        ring
    have hstep : blurStep W n s
        = { Y := store s.Y n (boxBlur W Y n)
            chroma := store s.chroma n (padded W Y (n + 2) - boxBlur W Y n)
            delay0 := s.delay1
            delay1 := s.delay2
            delay2 := s.delay3
            delay3 := padded W Y (n + 2)
            sum := s.sum - s.delay0 + padded W Y (n + 2) } := by
      simp [blurStep, hc, store_apply, hblur]
    rw [hstep]
    refine ⟨?_, ?_, ?_, ?_, ?_, ?_, ?_⟩
    · intro j
      show store s.Y n (boxBlur W Y n) j = _
      rw [store_apply, hY j]
      by_cases hj : j = n
      · subst hj
        rw [if_pos rfl, if_pos (Nat.lt_succ_self j)]
      · rw [if_neg hj]
        exact ite_iff _ _ _ _ (by omega)
    · intro j
      show store s.chroma n (padded W Y (n + 2) - boxBlur W Y n) j = _
      rw [store_apply, hC j]
      by_cases hj : j = n
      · subst hj
        rw [if_pos rfl, if_pos (Nat.lt_succ_self j)]
      · rw [if_neg hj]
        exact ite_iff _ _ _ _ (by omega)
    · show s.delay1 = _
      rw [h1]
      rcases Nat.lt_or_ge n 1 with hlt | hge
      · rw [if_pos hlt, if_pos (by omega : n + 1 < 2)]
      · have e1 : n + 1 - 2 = n - 1 := by omega
        rw [if_neg (by omega : ¬ n < 1), if_neg (by omega : ¬ n + 1 < 2), e1]
    · show s.delay2 = _
      rw [h2, if_neg (by omega : ¬ n + 1 < 1)]
      rfl
    · exact h3
    · rfl
    · exact hsum

/-- The box-blur loop of `chroma_from_luma` on a row of at least two samples: the blurred
luma and the residual `Y[x + 2] - Y_lf[x]` of every column. -/
theorem chroma_from_luma_blur_spec (W : Nat) (Y : Scanline) (hW : 2 ≤ W) (j : Nat) :
    (chroma_from_luma_blur W Y).Y j = (if j < W then boxBlur W Y j else Y j)
    ∧ (chroma_from_luma_blur W Y).chroma j
        = (if j < W then padded W Y (j + 2) - boxBlur W Y j else 0) := by
  obtain ⟨hY, hC, -⟩ := blur_state W Y hW W le_rfl
  exact ⟨hY j, hC j⟩

theorem flip_start (xi : Nat) (hxi : xi < 4) : u32 (4 - (xi : Int)) &&& 3 = (4 - xi) % 4 := by
  rw [and_three]
  unfold u32
  omega

/-- The sign-correction loop of `chroma_from_luma`. -/
theorem chroma_from_luma_flip_spec (W xi : Nat) (hxi : xi < 4) (ch : Scanline) (j : Nat) :
    chroma_from_luma_flip W xi ch j = if flipped W xi j then -ch j else ch j := by
  unfold chroma_from_luma_flip
  rw [flip_start xi hxi]
  have h := loopFrom_invariant 4 3 W
    (fun x (c : Scanline) => store (store c (x + 2) (-c (x + 2))) (x + 3)
      (-(store c (x + 2) (-c (x + 2))) (x + 3)))
    (fun x (c : Scanline) => (4 - xi) % 4 ≤ x ∧ (x - (4 - xi) % 4) % 4 = 0
      ∧ (x = (4 - xi) % 4 ∨ x < W + 1)
      ∧ ∀ t, c t = if (4 - xi) % 4 + 2 ≤ t ∧ 2 ≤ (t - (4 - xi) % 4) % 4
          ∧ t - (t - (4 - xi) % 4) % 4 < x then -ch t else ch t)
    (by decide)
    (by
      intro x s ⟨h1, h2, _, h4⟩ hx
      refine ⟨by omega, by omega, by omega, ?_⟩
      intro t
      simp only [store_apply]
      by_cases ht3 : t = x + 3
      · subst ht3
        rw [if_pos rfl, if_neg (by omega : ¬ x + 3 = x + 2), h4,
          if_neg (by omega : ¬ ((4 - xi) % 4 + 2 ≤ x + 3 ∧ 2 ≤ (x + 3 - (4 - xi) % 4) % 4
            ∧ x + 3 - (x + 3 - (4 - xi) % 4) % 4 < x)),
          if_pos (by omega : (4 - xi) % 4 + 2 ≤ x + 3 ∧ 2 ≤ (x + 3 - (4 - xi) % 4) % 4
            ∧ x + 3 - (x + 3 - (4 - xi) % 4) % 4 < x + 4)]
      · rw [if_neg ht3]
        by_cases ht2 : t = x + 2
        · subst ht2
          rw [if_pos rfl, h4,
            if_neg (by omega : ¬ ((4 - xi) % 4 + 2 ≤ x + 2 ∧ 2 ≤ (x + 2 - (4 - xi) % 4) % 4
              ∧ x + 2 - (x + 2 - (4 - xi) % 4) % 4 < x)),
            if_pos (by omega : (4 - xi) % 4 + 2 ≤ x + 2 ∧ 2 ≤ (x + 2 - (4 - xi) % 4) % 4
              ∧ x + 2 - (x + 2 - (4 - xi) % 4) % 4 < x + 4)]
        · rw [if_neg ht2, h4]
          exact ite_iff _ _ _ _ (by omega))
    W ((4 - xi) % 4) ch (by omega)
    ⟨le_rfl, by simp, Or.inl rfl, by
      intro t
      rw [if_neg (by omega : ¬ ((4 - xi) % 4 + 2 ≤ t ∧ 2 ≤ (t - (4 - xi) % 4) % 4
        ∧ t - (t - (4 - xi) % 4) % 4 < (4 - xi) % 4))]⟩
  obtain ⟨⟨h1, h2, h3, h4⟩, h5⟩ := h
  rw [h4 j]
  clear h4
  unfold flipped
  generalize (loopFrom 4 3 W
    (fun x (c : Scanline) => store (store c (x + 2) (-c (x + 2))) (x + 3)
      (-(store c (x + 2) (-c (x + 2))) (x + 3))) W ((4 - xi) % 4) ch).1 = xf at h1 h2 h3 h5 ⊢
  exact ite_iff _ _ _ _ (by omega)

/-- The rescaling loop of `chroma_from_luma` with a nonzero amplitude. -/
theorem chroma_from_luma_scale_spec (W : Nat) (A : Int) (hA : A ≠ 0) (ch : Scanline) :
    chroma_from_luma_scale W A ch
      = some (fun j => if j < W then Int.tdiv (ch j * 50) A else ch j) := by
  unfold chroma_from_luma_scale
  induction W with
  | zero => simp [forColumns_zero]
  | succ n ih =>
    rw [forColumns_succ, ih]
    simp only [Option.some_bind, if_neg hA]
    congr 1
    funext j
    rw [store_apply]
    by_cases hj : j = n
    · subst hj
      simp
    · rw [if_neg hj]
      exact ite_iff _ _ _ _ (by omega)

/-- The demultiplexing loops of `chroma_from_luma`: every even column below `width`
receives `-chroma[x + xi]` and `-chroma[x + xi + 1]` while `x + xi + 1 < width` and zero
afterwards; the odd columns are not written. -/
theorem chroma_from_luma_decode_spec (W xi : Nat) (ch I Q : Scanline) (j : Nat) :
    (chroma_from_luma_decode W xi ch I Q).1 j
        = (if j % 2 = 0 ∧ j < W then (if j + xi + 1 < W then -ch (j + xi) else 0) else I j)
    ∧ (chroma_from_luma_decode W xi ch I Q).2 j
        = (if j % 2 = 0 ∧ j < W then (if j + xi + 1 < W then -ch (j + xi + 1) else 0)
            else Q j) := by
  obtain ⟨x1, s1, e1, ⟨a1, a2, a3⟩, a4⟩ := loopFrom_result 2 (xi + 1) W
    (fun x (iq : Scanline × Scanline) =>
      (store iq.1 x (-ch (x + xi + 0)), store iq.2 x (-ch (x + xi + 1))))
    (fun x (iq : Scanline × Scanline) => x % 2 = 0 ∧ (x = 0 ∨ x + xi < W + 1)
      ∧ ∀ t, iq.1 t = (if t % 2 = 0 ∧ t < x then -ch (t + xi) else I t)
        ∧ iq.2 t = (if t % 2 = 0 ∧ t < x then -ch (t + xi + 1) else Q t))
    (by decide)
    (by
      intro x s ⟨h1, _, h3⟩ hx
      refine ⟨by omega, by omega, ?_⟩
      intro t
      simp only [store_apply, Nat.add_zero]
      by_cases ht : t = x
      · subst ht
        rw [if_pos rfl, if_pos rfl, if_pos (by omega : t % 2 = 0 ∧ t < t + 2),
          if_pos (by omega : t % 2 = 0 ∧ t < t + 2)]
        exact ⟨rfl, rfl⟩
      · rw [if_neg ht, if_neg ht, (h3 t).1, (h3 t).2]
        exact ⟨ite_iff _ _ _ _ (by omega), ite_iff _ _ _ _ (by omega)⟩)
    W 0 (I, Q) (by omega)
    ⟨rfl, Or.inl rfl, by
      intro t
      have hn : ¬ (t % 2 = 0 ∧ t < 0) := by omega
      rw [if_neg hn, if_neg hn]
      exact ⟨rfl, rfl⟩⟩
  obtain ⟨x2, s2, e2, ⟨b1, b2, b3, b4⟩, b5⟩ := loopFrom_result 2 0 W
    (fun x (iq : Scanline × Scanline) => (store iq.1 x 0, store iq.2 x 0))
    (fun x (iq : Scanline × Scanline) => x % 2 = 0 ∧ x1 ≤ x ∧ (x = x1 ∨ x < W + 2)
      ∧ ∀ t, iq.1 t = (if t % 2 = 0 ∧ t < x then (if t < x1 then -ch (t + xi) else 0) else I t)
        ∧ iq.2 t
          = (if t % 2 = 0 ∧ t < x then (if t < x1 then -ch (t + xi + 1) else 0) else Q t))
    (by decide)
    (by
      intro x s ⟨h1, h2, _, h4⟩ hx
      refine ⟨by omega, by omega, by omega, ?_⟩
      intro t
      simp only [store_apply]
      by_cases ht : t = x
      · subst ht
        have hn : ¬ t < x1 := by omega
        rw [if_pos rfl, if_pos rfl, if_pos (by omega : t % 2 = 0 ∧ t < t + 2),
          if_pos (by omega : t % 2 = 0 ∧ t < t + 2), if_neg hn, if_neg hn]
        exact ⟨rfl, rfl⟩
      · rw [if_neg ht, if_neg ht, (h4 t).1, (h4 t).2]
        exact ⟨ite_iff _ _ _ _ (by omega), ite_iff _ _ _ _ (by omega)⟩)
    W x1 s1 (by omega)
    ⟨a1, le_rfl, Or.inl rfl, by
      intro t
      rw [(a3 t).1, (a3 t).2]
      constructor
      · by_cases hc : t % 2 = 0 ∧ t < x1
        · rw [if_pos hc, if_pos hc, if_pos hc.2]
        · rw [if_neg hc, if_neg hc]
      · by_cases hc : t % 2 = 0 ∧ t < x1
        · rw [if_pos hc, if_pos hc, if_pos hc.2]
        · rw [if_neg hc, if_neg hc]⟩
  have hdef : chroma_from_luma_decode W xi ch I Q = s2 := by
    unfold chroma_from_luma_decode
    simp only [e1, e2]
  rw [hdef, (b4 j).1, (b4 j).2]
  clear b4 a3 hdef e1 e2
  constructor
  · by_cases hc : j % 2 = 0 ∧ j < W
    · rw [if_pos hc, if_pos (by omega : j % 2 = 0 ∧ j < x2)]
      exact ite_iff _ _ _ _ (by omega)
    · rw [if_neg hc, if_neg (by omega : ¬ (j % 2 = 0 ∧ j < x2))]
  · by_cases hc : j % 2 = 0 ∧ j < W
    · rw [if_pos hc, if_pos (by omega : j % 2 = 0 ∧ j < x2)]
      exact ite_iff _ _ _ _ (by omega)
    · rw [if_neg hc, if_neg (by omega : ¬ (j % 2 = 0 ∧ j < x2))]

/-- The interpolation loops of `chroma_from_luma` on one plane: below `width`, an even
column keeps its value while `x + 2 < width`, an odd column receives the floored mean of
its two neighbours while `x + 1 < width`, and the remaining columns are cleared. -/
theorem chroma_from_luma_interpolate_spec (W : Nat) (I Q : Scanline) (j : Nat) :
    (chroma_from_luma_interpolate W I Q).1 j
        = (if j < W then
            (if j % 2 = 0 then (if j + 2 < W then I j else 0)
              else (if j + 1 < W then (I (j - 1) + I (j + 1)) >>> (1 : Nat) else 0))
          else I j)
    ∧ (chroma_from_luma_interpolate W I Q).2 j
        = (if j < W then
            (if j % 2 = 0 then (if j + 2 < W then Q j else 0)
              else (if j + 1 < W then (Q (j - 1) + Q (j + 1)) >>> (1 : Nat) else 0))
          else Q j) := by
  obtain ⟨x1, s1, e1, ⟨a1, a2, a3⟩, a4⟩ := loopFrom_result 2 2 W
    (fun x (iq : Scanline × Scanline) =>
      (store iq.1 (x + 1) ((iq.1 x + iq.1 (x + 2)) >>> (1 : Nat)),
       store iq.2 (x + 1) ((iq.2 x + iq.2 (x + 2)) >>> (1 : Nat))))
    (fun x (iq : Scanline × Scanline) => x % 2 = 0 ∧ (x = 0 ∨ x < W)
      ∧ ∀ t, iq.1 t = (if t % 2 = 1 ∧ t < x then (I (t - 1) + I (t + 1)) >>> (1 : Nat) else I t)
        ∧ iq.2 t = (if t % 2 = 1 ∧ t < x then (Q (t - 1) + Q (t + 1)) >>> (1 : Nat) else Q t))
    (by decide)
    (by
      intro x s ⟨h1, _, h3⟩ hx
      refine ⟨by omega, by omega, ?_⟩
      intro t
      simp only [store_apply]
      have ex1 : s.1 x = I x := by
        rw [(h3 x).1, if_neg (by omega : ¬ (x % 2 = 1 ∧ x < x))]
      have ex2 : s.1 (x + 2) = I (x + 2) := by
        rw [(h3 (x + 2)).1, if_neg (by omega : ¬ ((x + 2) % 2 = 1 ∧ x + 2 < x))]
      have ey1 : s.2 x = Q x := by
        rw [(h3 x).2, if_neg (by omega : ¬ (x % 2 = 1 ∧ x < x))]
      have ey2 : s.2 (x + 2) = Q (x + 2) := by
        rw [(h3 (x + 2)).2, if_neg (by omega : ¬ ((x + 2) % 2 = 1 ∧ x + 2 < x))]
      by_cases ht : t = x + 1
      · subst ht
        rw [if_pos rfl, if_pos rfl, if_pos (by omega : (x + 1) % 2 = 1 ∧ x + 1 < x + 2),
          if_pos (by omega : (x + 1) % 2 = 1 ∧ x + 1 < x + 2), ex1, ex2, ey1, ey2]
        exact ⟨rfl, rfl⟩
      · rw [if_neg ht, if_neg ht, (h3 t).1, (h3 t).2]
        exact ⟨ite_iff _ _ _ _ (by omega), ite_iff _ _ _ _ (by omega)⟩)
    W 0 (I, Q) (by omega)
    ⟨rfl, Or.inl rfl, by
      intro t
      have hn : ¬ (t % 2 = 1 ∧ t < 0) := by omega
      rw [if_neg hn, if_neg hn]
      exact ⟨rfl, rfl⟩⟩
  obtain ⟨x2, s2, e2, ⟨b1, b2, b3⟩, b4⟩ := loopFrom_result 1 0 W
    (fun x (iq : Scanline × Scanline) => (store iq.1 x 0, store iq.2 x 0))
    (fun x (iq : Scanline × Scanline) => x1 ≤ x ∧ (x = x1 ∨ x ≤ W)
      ∧ ∀ t, iq.1 t = (if x1 ≤ t ∧ t < x then 0 else s1.1 t)
        ∧ iq.2 t = (if x1 ≤ t ∧ t < x then 0 else s1.2 t))
    (by decide)
    (by
      intro x s ⟨h1, _, h3⟩ hx
      refine ⟨by omega, by omega, ?_⟩
      intro t
      simp only [store_apply]
      by_cases ht : t = x
      · subst ht
        rw [if_pos rfl, if_pos rfl, if_pos (by omega : x1 ≤ t ∧ t < t + 1),
          if_pos (by omega : x1 ≤ t ∧ t < t + 1)]
        exact ⟨rfl, rfl⟩
      · rw [if_neg ht, if_neg ht, (h3 t).1, (h3 t).2]
        exact ⟨ite_iff _ _ _ _ (by omega), ite_iff _ _ _ _ (by omega)⟩)
    W x1 s1 (by omega)
    ⟨le_rfl, Or.inl rfl, by
      intro t
      have hn : ¬ (x1 ≤ t ∧ t < x1) := by omega
      rw [if_neg hn, if_neg hn]
      exact ⟨rfl, rfl⟩⟩
  have hdef : chroma_from_luma_interpolate W I Q = s2 := by
    unfold chroma_from_luma_interpolate
    simp only [e1, e2]
  rw [hdef, (b3 j).1, (b3 j).2, (a3 j).1, (a3 j).2]
  clear b3 a3 hdef e1 e2
  constructor
  · split_ifs <;> first | rfl | (exfalso; omega)
  · split_ifs <;> first | rfl | (exfalso; omega)

/-! ## Modulation followed by demodulation on a constant row -/

theorem carrier_cases (i q : Int) (n : Nat) :
    carrier i q n
      = if n % 4 = 0 then i else if n % 4 = 1 then q else if n % 4 = 2 then -i else -q := by
  unfold carrier
  have h : n % 4 = 0 ∨ n % 4 = 1 ∨ n % 4 = 2 ∨ n % 4 = 3 := by omega
  rcases h with h | h | h | h <;> rw [h] <;> simp [Umult, Vmult]

theorem carrier_sum (i q : Int) (n : Nat) :
    carrier i q n + carrier i q (n + 1) + carrier i q (n + 2) + carrier i q (n + 3) = 0 := by
  simp only [carrier_cases]
  have h : n % 4 = 0 ∨ n % 4 = 1 ∨ n % 4 = 2 ∨ n % 4 = 3 := by omega
  rcases h with h | h | h | h
  · have h1 : (n + 1) % 4 = 1 := by omega
    have h2 : (n + 2) % 4 = 2 := by omega
    have h3 : (n + 3) % 4 = 3 := by omega
    simp [h, h1, h2, h3]
  · have h1 : (n + 1) % 4 = 2 := by omega
    have h2 : (n + 2) % 4 = 3 := by omega
    have h3 : (n + 3) % 4 = 0 := by omega
    simp [h, h1, h2, h3]
  · have h1 : (n + 1) % 4 = 3 := by omega
    have h2 : (n + 2) % 4 = 0 := by omega
    have h3 : (n + 3) % 4 = 1 := by omega
    simp [h, h1, h2, h3]
  · have h1 : (n + 1) % 4 = 0 := by omega
    have h2 : (n + 2) % 4 = 1 := by omega
    have h3 : (n + 3) % 4 = 2 := by omega
    simp [h, h1, h2, h3]

/-- The residual of a constant row after sign correction: `-i` on the columns of even
phase, `-q` on the columns of odd phase. -/
theorem carrier_after_flip (i q : Int) (W xi t : Nat) (hxi : xi < 4) (ht : 4 ≤ t)
    (htW : t + 3 ≤ W) :
    (if flipped W xi t then -carrier i q (xi + t + 2) else carrier i q (xi + t + 2))
      = if (t + xi) % 2 = 0 then -i else -q := by
  rw [carrier_cases]
  unfold flipped
  have h : (t + xi) % 4 = 0 ∨ (t + xi) % 4 = 1 ∨ (t + xi) % 4 = 2 ∨ (t + xi) % 4 = 3 := by
    omega
  rcases h with h | h | h | h
  · rw [if_neg (by omega), if_neg (by omega : ¬ (xi + t + 2) % 4 = 0),
      if_neg (by omega : ¬ (xi + t + 2) % 4 = 1), if_pos (by omega : (xi + t + 2) % 4 = 2),
      if_pos (by omega : (t + xi) % 2 = 0)]
  · rw [if_neg (by omega), if_neg (by omega : ¬ (xi + t + 2) % 4 = 0),
      if_neg (by omega : ¬ (xi + t + 2) % 4 = 1), if_neg (by omega : ¬ (xi + t + 2) % 4 = 2),
      if_neg (by omega : ¬ (t + xi) % 2 = 0)]
  · rw [if_pos (by omega), if_pos (by omega : (xi + t + 2) % 4 = 0),
      if_pos (by omega : (t + xi) % 2 = 0)]
  · rw [if_pos (by omega), if_neg (by omega : ¬ (xi + t + 2) % 4 = 0),
      if_pos (by omega : (xi + t + 2) % 4 = 1), if_neg (by omega : ¬ (t + xi) % 2 = 0)]

theorem shiftRight_double (i : Int) : (i + i) >>> (1 : Nat) = i := by
  rw [Int.shiftRight_eq_div_pow]
  norm_num
  omega

/-- Modulation followed by demodulation, both with amplitude 50 and the same phase index,
on one row of at least 12 samples whose planes are constant: the demodulation succeeds
and every column `x` with `4 ≤ x ≤ width - 8` holds the original samples. -/
theorem modulate_demodulate_row (W xi : Nat) (hxi : xi < 4) (hW : 12 ≤ W) (r : Row)
    (c i q : Int) (hconst : ∀ x, x < W → r.Y x = c ∧ r.I x = i ∧ r.Q x = q) :
    ∃ r' : Row,
      chroma_from_luma_row W xi 50 (forColumns W (chroma_into_luma_pixel 50 xi) r) = some r'
      ∧ ∀ x, 4 ≤ x → x + 8 ≤ W → r'.Y x = c ∧ r'.I x = i ∧ r'.Q x = q := by
  -- the modulated luma
  have hY1 : ∀ x, x < W →
      (forColumns W (chroma_into_luma_pixel 50 xi) r).Y x = c + carrier i q (xi + x) := by
    intro x hx
    rw [(chroma_into_luma_columns 50 xi W r x).1, if_pos hx, (hconst x hx).1,
      (hconst x hx).2.1, (hconst x hx).2.2]
    have e : i * 50 * Umult ((xi + x) % 4) + q * 50 * Vmult ((xi + x) % 4)
        = 50 * carrier i q (xi + x) := by
      unfold carrier
      ring
    rw [e, Int.mul_tdiv_cancel_left _ (by decide)]
  set r1 := forColumns W (chroma_into_luma_pixel 50 xi) r with hr1
  -- the blurred luma and the residual
  have hpad : ∀ x, x < W → padded W r1.Y x = c + carrier i q (xi + x) := by
    intro x hx
    unfold padded
    rw [if_pos hx, hY1 x hx]
  have hblur : ∀ x, 1 ≤ x → x + 2 < W → boxBlur W r1.Y x = c := by
    intro x hx1 hx2
    unfold boxBlur
    rw [if_neg (by omega : ¬ x = 0), hpad (x - 1) (by omega), hpad x (by omega),
      hpad (x + 1) (by omega), hpad (x + 2) (by omega)]
    have hs := carrier_sum i q (xi + (x - 1))
    have e1 : xi + (x - 1) + 1 = xi + x := by omega
    have e2 : xi + (x - 1) + 2 = xi + (x + 1) := by omega
    have e3 : xi + (x - 1) + 3 = xi + (x + 2) := by omega
    rw [e1, e2, e3] at hs
    have e : c + carrier i q (xi + (x - 1)) + (c + carrier i q (xi + x))
        + (c + carrier i q (xi + (x + 1))) + (c + carrier i q (xi + (x + 2))) = 4 * c := by
      linarith
    rw [e, Int.mul_tdiv_cancel_left _ (by decide)]
  have hbY : ∀ x, 1 ≤ x → x + 2 < W → (chroma_from_luma_blur W r1.Y).Y x = c := by
    intro x hx1 hx2
    rw [(chroma_from_luma_blur_spec W r1.Y (by omega) x).1, if_pos (by omega), hblur x hx1 hx2]
  have hbC : ∀ x, 1 ≤ x → x + 2 < W →
      (chroma_from_luma_blur W r1.Y).chroma x = carrier i q (xi + x + 2) := by
    intro x hx1 hx2
    rw [(chroma_from_luma_blur_spec W r1.Y (by omega) x).2, if_pos (by omega), hblur x hx1 hx2,
      hpad (x + 2) hx2]
    have e : xi + (x + 2) = xi + x + 2 := by omega
    rw [e]
    ring
  -- sign correction and rescaling
  set ch2 : Scanline := fun j => if j < W then
        Int.tdiv (chroma_from_luma_flip W xi (chroma_from_luma_blur W r1.Y).chroma j * 50) 50
      else chroma_from_luma_flip W xi (chroma_from_luma_blur W r1.Y).chroma j with hch2
  have hscale : chroma_from_luma_scale W 50
      (chroma_from_luma_flip W xi (chroma_from_luma_blur W r1.Y).chroma) = some ch2 :=
    chroma_from_luma_scale_spec W 50 (by decide) _
  have hS : ∀ t, 4 ≤ t → t + 3 ≤ W → ch2 t = if (t + xi) % 2 = 0 then -i else -q := by
    intro t ht1 ht2
    show (if t < W then
        Int.tdiv (chroma_from_luma_flip W xi (chroma_from_luma_blur W r1.Y).chroma t * 50) 50
      else chroma_from_luma_flip W xi (chroma_from_luma_blur W r1.Y).chroma t) = _
    rw [if_pos (by omega : t < W), Int.mul_tdiv_cancel _ (by decide),
      chroma_from_luma_flip_spec W xi hxi, hbC t (by omega) (by omega)]
    exact carrier_after_flip i q W xi t hxi ht1 ht2
  have hrow : chroma_from_luma_row W xi 50 r1
      = some
        { Y := (chroma_from_luma_blur W r1.Y).Y
          I := (chroma_from_luma_interpolate W (chroma_from_luma_decode W xi ch2 r1.I r1.Q).1
            (chroma_from_luma_decode W xi ch2 r1.I r1.Q).2).1
          Q := (chroma_from_luma_interpolate W (chroma_from_luma_decode W xi ch2 r1.I r1.Q).1
            (chroma_from_luma_decode W xi ch2 r1.I r1.Q).2).2 } := by
    unfold chroma_from_luma_row
    simp only [hscale, Option.map_some']
  refine ⟨_, hrow, ?_⟩
  -- demultiplexing
  have hI2 : ∀ j, j % 2 = 0 → 4 ≤ j → j + 7 ≤ W →
      (chroma_from_luma_decode W xi ch2 r1.I r1.Q).1 j = i
      ∧ (chroma_from_luma_decode W xi ch2 r1.I r1.Q).2 j = q := by
    intro j hj0 hj1 hj2
    have hc1 : j % 2 = 0 ∧ j < W := ⟨hj0, by omega⟩
    have hc2 : j + xi + 1 < W := by omega
    rw [(chroma_from_luma_decode_spec W xi ch2 r1.I r1.Q j).1,
      (chroma_from_luma_decode_spec W xi ch2 r1.I r1.Q j).2, if_pos hc1, if_pos hc1,
      if_pos hc2, if_pos hc2, hS (j + xi) (by omega) (by omega),
      hS (j + xi + 1) (by omega) (by omega), if_pos (by omega : (j + xi + xi) % 2 = 0),
      if_neg (by omega : ¬ (j + xi + 1 + xi) % 2 = 0)]
    exact ⟨neg_neg i, neg_neg q⟩
  -- interpolation
  intro x hx1 hx2
  refine ⟨hbY x (by omega) (by omega), ?_⟩
  have hint := chroma_from_luma_interpolate_spec W
    (chroma_from_luma_decode W xi ch2 r1.I r1.Q).1
    (chroma_from_luma_decode W xi ch2 r1.I r1.Q).2 x
  show (chroma_from_luma_interpolate W _ _).1 x = i ∧ (chroma_from_luma_interpolate W _ _).2 x = q
  have hxW : x < W := by omega
  rw [hint.1, hint.2, if_pos hxW, if_pos hxW]
  by_cases hpar : x % 2 = 0
  · have h2 : x + 2 < W := by omega
    rw [if_pos hpar, if_pos hpar, if_pos h2, if_pos h2]
    exact hI2 x hpar hx1 (by omega)
  · have h1 : x + 1 < W := by omega
    rw [if_neg hpar, if_neg hpar, if_pos h1, if_pos h1,
      (hI2 (x - 1) (by omega) (by omega) (by omega)).1,
      (hI2 (x - 1) (by omega) (by omega) (by omega)).2,
      (hI2 (x + 1) (by omega) (by omega) (by omega)).1,
      (hI2 (x + 1) (by omega) (by omega) (by omega)).2]
    exact ⟨shiftRight_double i, shiftRight_double q⟩

theorem chroma_from_luma_xi_lt (phase_shift phase_offset : Int) (fieldno y : Nat) :
    chroma_from_luma_xi phase_shift phase_offset fieldno y < 4 := by
  unfold chroma_from_luma_xi
  split_ifs <;> rw [and_three] <;> exact Nat.mod_lt _ (by decide)

theorem chroma_xi_agree (phase_shift phase_offset : Int) (fieldno y : Nat) :
    chroma_from_luma_xi phase_shift phase_offset fieldno y
      = chroma_into_luma_xi phase_shift phase_offset fieldno y := rfl

theorem chroma_from_luma_row_some (W xi : Nat) (A : Int) (hA : A ≠ 0) (r : Row) :
    chroma_from_luma_row W xi A r
      = some ((chroma_from_luma_row W xi A r).getD r) := by
  unfold chroma_from_luma_row
  simp only [chroma_from_luma_scale_spec W A hA, Option.map_some', Option.getD_some]

/-- C3: with amplitude 50 in both calls, the same field index, phase policy and phase
offset, a width of at least 12 and a row of the field whose three planes are constant
(`Y = c`, `I = i`, `Q = q`), `chroma_into_luma` followed by `chroma_from_luma` succeeds
and leaves `Y[x] = c`, `I[x] = i`, `Q[x] = q` at every column `4 ≤ x ≤ W - 8`. -/
theorem modulate_demodulate_constant_row (phase_shift phase_offset : Int)
    (W H field fieldno : Nat) (p : Planes) (y : Nat) (c i q : Int)
    (hW : 12 ≤ W) (hfield : field < 2) (hy : y < H) (hpar : y % 2 = field)
    (hconst : ∀ x, x < W → p.fY y x = c ∧ p.fI y x = i ∧ p.fQ y x = q) :
    ∃ p' : Planes,
      chroma_from_luma phase_shift phase_offset W H field fieldno 50
          (chroma_into_luma phase_shift phase_offset W H field fieldno 50 p) = some p'
      ∧ ∀ x, 4 ≤ x → x ≤ W - 8 → p'.fY y x = c ∧ p'.fI y x = i ∧ p'.fQ y x = q := by
  have hvisit : field ≤ y ∧ y < H ∧ (y - field) % 2 = 0 := ⟨by omega, hy, by omega⟩
  have hrow1 : (chroma_into_luma phase_shift phase_offset W H field fieldno 50 p).row y
      = forColumns W
          (chroma_into_luma_pixel 50 (chroma_into_luma_xi phase_shift phase_offset fieldno y))
          (p.row y) := by
    have h := forFieldRows_rowwise field H
      (fun y r => forColumns W
        (chroma_into_luma_pixel 50 (chroma_into_luma_xi phase_shift phase_offset fieldno y)) r)
      p y
    rw [if_pos hvisit] at h
    exact h
  obtain ⟨p', hp', hrows⟩ := forFieldRows_rowwise_option field H
    (fun y r => chroma_from_luma_row W
      (chroma_from_luma_xi phase_shift phase_offset fieldno y) 50 r)
    (fun y r => (chroma_from_luma_row W
      (chroma_from_luma_xi phase_shift phase_offset fieldno y) 50 r).getD r)
    (chroma_into_luma phase_shift phase_offset W H field fieldno 50 p)
    (fun y _ _ _ => chroma_from_luma_row_some W _ 50 (by decide) _)
  refine ⟨p', hp', ?_⟩
  obtain ⟨r', hr', hwin⟩ := modulate_demodulate_row W
    (chroma_from_luma_xi phase_shift phase_offset fieldno y)
    (chroma_from_luma_xi_lt phase_shift phase_offset fieldno y) hW (p.row y) c i q hconst
  have hrow2 : p'.row y = r' := by
    rw [hrows y, if_pos hvisit, hrow1, ← chroma_xi_agree, hr']
    rfl
  intro x hx1 hx2
  have h := hwin x hx1 (by omega)
  rw [← hrow2] at h
  exact h

/-- The round trip on row 0 of a constant 12×2 frame in the even field. -/
theorem modulate_demodulate_constant_row_witness :
    ∃ p' : Planes,
      chroma_from_luma 180 0 12 2 0 0 50
          (chroma_into_luma 180 0 12 2 0 0 50
            { fY := fun _ _ => 1000, fI := fun _ _ => 7, fQ := fun _ _ => -13 }) = some p'
      ∧ ∀ x, 4 ≤ x → x ≤ 12 - 8 → p'.fY 0 x = 1000 ∧ p'.fI 0 x = 7 ∧ p'.fQ 0 x = -13 :=
  modulate_demodulate_constant_row 180 0 12 2 0 0
    { fY := fun _ _ => 1000, fI := fun _ _ => 7, fQ := fun _ _ => -13 } 0 1000 7 (-13)
    (by decide) (by decide) (by decide) (by decide) (fun _ _ => ⟨rfl, rfl, rfl⟩)


/-! ## The field compositor -/

/-- A row loop whose body replaces row `y` of a row-indexed state by a function of that
row rewrites exactly the visited rows. -/
theorem forFieldRows_pointwise {α : Type} (field height : Nat) (g : Nat → α → α)
    (s : Nat → α) (y : Nat) :
    forFieldRows field height (fun y (s : Nat → α) => Function.update s y (g y (s y))) s y
      = if visited field height y then g y (s y) else s y := by
  obtain ⟨yf, sf, e, ⟨h1, h2, h5, h3⟩, h4⟩ := loopFrom_result 2 0 height
    (fun y (s : Nat → α) => Function.update s y (g y (s y)))
    (fun y' (s' : Nat → α) => field ≤ y' ∧ (y' - field) % 2 = 0
      ∧ (y' = field ∨ y' < height + 2) ∧ ∀ r, s' r
        = if field ≤ r ∧ r < y' ∧ (r - field) % 2 = 0 then g r (s r) else s r)
    (by decide)
    (by
      intro x t ⟨h1, h2, _, h3⟩ hx
      refine ⟨by omega, by omega, by omega, ?_⟩
      intro r
      beta_reduce
      by_cases hr : r = x
      · subst hr
        rw [Function.update_same, h3 r,
          if_neg (by omega : ¬ (field ≤ r ∧ r < r ∧ (r - field) % 2 = 0)),
          if_pos (by omega : field ≤ r ∧ r < r + 2 ∧ (r - field) % 2 = 0)]
      · rw [Function.update_noteq hr, h3 r]
        exact ite_iff _ _ _ _ (by omega))
    height field s (by omega)
    ⟨le_rfl, by simp, Or.inl rfl, by
      intro r
      rw [if_neg (by omega : ¬ (field ≤ r ∧ r < field ∧ (r - field) % 2 = 0))]⟩
  unfold forFieldRows
  rw [e]
  show sf y = _
  rw [h3 y]
  unfold visited
  exact ite_iff _ _ _ _ (by omega)

/-- A column loop that stores a value depending on the column into row `y`. -/
theorem forColumns_store_row {α : Type} (W y : Nat) (v : Nat → α) (d : Nat → Nat → α) :
    forColumns W (fun x (d : Nat → Nat → α) => Function.update d y (Function.update (d y) x (v x)))
        d
      = Function.update d y (fun x => if x < W then v x else d y x) := by
  induction W with
  | zero =>
    rw [forColumns_zero]
    funext r
    by_cases hr : r = y
    · subst hr
      rw [Function.update_same]
      funext x
      rw [if_neg (by omega : ¬ x < 0)]
    · rw [Function.update_noteq hr]
  | succ n ih =>
    rw [forColumns_succ, ih]
    funext r
    by_cases hr : r = y
    · subst hr
      simp only [Function.update_same]
      funext x
      by_cases hx : x = n
      · subst hx
        rw [Function.update_same, if_pos (by omega : x < x + 1)]
      · rw [Function.update_noteq hx]
        exact ite_iff _ _ _ _ (by omega)
    · simp only [Function.update_noteq hr]

/-- The final loop of `composite_layer` rewrites the pixels of the visited rows below the
frame width and no other pixel. -/
theorem composite_layer_store_spec (W H field : Nat) (p : Planes) (d : Nat → Nat → Nat)
    (y x : Nat) :
    composite_layer_store W H field p d y x
      = if visited field H y ∧ x < W then packPixel (p.fY y x) (p.fI y x) (p.fQ y x)
        else d y x := by
  have hbody : (fun y (d : Nat → Nat → Nat) =>
      forColumns W (fun x (d : Nat → Nat → Nat) =>
        Function.update d y (Function.update (d y) x
          (packPixel (p.fY y x) (p.fI y x) (p.fQ y x)))) d)
      = (fun y (d : Nat → Nat → Nat) => Function.update d y
          ((fun y (row : Nat → Nat) =>
            fun x => if x < W then packPixel (p.fY y x) (p.fI y x) (p.fQ y x) else row x)
            y (d y))) := by
    funext y d
    exact forColumns_store_row W y _ d
  have key := forFieldRows_pointwise field H
    (fun y (row : Nat → Nat) =>
      fun x => if x < W then packPixel (p.fY y x) (p.fI y x) (p.fQ y x) else row x) d y
  unfold composite_layer_store
  rw [hbody]
  refine (congrFun key x).trans ?_
  by_cases hv : visited field H y
  · rw [if_pos hv]
    exact ite_iff _ _ _ _ (by simp [hv])
  · rw [if_neg hv, if_neg (by simp [hv])]

theorem dispatch_field (N : Nat) : (N &&& 1) ^^^ 1 = 1 - N % 2 := by
  have h : N &&& 1 = N % 2 := Nat.and_pow_two_sub_one_eq_mod N 1
  rw [h]
  have h2 : N % 2 = 0 ∨ N % 2 = 1 := by omega
  rcases h2 with h2 | h2 <;> rw [h2] <;> decide

theorem visited_dispatch (N H y : Nat) :
    visited ((N &&& 1) ^^^ 1) H y ↔ y < H ∧ y % 2 ≠ N % 2 := by
  rw [dispatch_field]
  unfold visited
  omega

/-- With a nonzero amplitude `chroma_from_luma` divides by no zero. -/
theorem chroma_from_luma_some (phase_shift phase_offset : Int) (W H field fieldno : Nat)
    (A : Int) (hA : A ≠ 0) (p : Planes) :
    ∃ p' : Planes, chroma_from_luma phase_shift phase_offset W H field fieldno A p = some p' := by
  obtain ⟨p', hp', -⟩ := forFieldRows_rowwise_option field H
    (fun y r => chroma_from_luma_row W
      (chroma_from_luma_xi phase_shift phase_offset fieldno y) A r)
    (fun y r => (chroma_from_luma_row W
      (chroma_from_luma_xi phase_shift phase_offset fieldno y) A r).getD r)
    p (fun y _ _ _ => chroma_from_luma_row_some W _ A hA _)
  exact ⟨p', hp'⟩

theorem composite_layer_head_switching_some (cfg : Config) (env : Env) (W H field : Nat)
    (fY : Plane) (k : Nat) (hW : 0 < W) :
    ∃ r, composite_layer_head_switching cfg env W H field fY k = some r := by
  unfold composite_layer_head_switching
  by_cases hs : cfg.vhs_head_switching = true
  · rw [if_pos hs]
    simp only []
    rw [if_neg (by omega : ¬ W + W / 10 = 0)]
    exact ⟨_, rfl⟩
  · rw [if_neg hs]
    exact ⟨_, rfl⟩

theorem composite_layer_vhs_some (cfg : Config) (W H field fieldno : Nat) (p : Planes)
    (hA : cfg.subcarrier_amplitude ≠ 0)
    (hspeed : cfg.output_vhs_tape_speed = VHS_SP ∨ cfg.output_vhs_tape_speed = VHS_LP
      ∨ cfg.output_vhs_tape_speed = VHS_EP) :
    ∃ p' : Planes, composite_layer_vhs cfg W H field fieldno p = some p' := by
  unfold composite_layer_vhs
  by_cases hv : cfg.emulating_vhs = true
  · rw [if_pos hv]
    obtain ⟨prm, hprm⟩ : ∃ prm, vhs_parameters cfg.output_vhs_tape_speed = some prm := by
      unfold vhs_parameters
      rcases hspeed with h | h | h <;> rw [h] <;> simp [VHS_SP, VHS_LP, VHS_EP]
    rw [hprm]
    simp only [Option.some_bind]
    by_cases hsv : cfg.vhs_svideo_out = true
    · rw [if_neg (by simp [hsv])]
      exact ⟨_, rfl⟩
    · rw [if_pos (by simp [hsv])]
      exact chroma_from_luma_some _ _ _ _ _ _ _ hA _
  · rw [if_neg hv]
    exact ⟨_, rfl⟩

/-- The pipeline of `composite_layer` reaches its final loop whenever both subcarrier
amplitudes are nonzero, the tape speed is one of the three enumerators and the frame is
not empty. -/
theorem composite_layer_planes_some (cfg : Config) (env : Env) (src : AVFrame)
    (spx : Nat → Nat → Nat) (W H field fieldno k : Nat) (hW : 0 < W)
    (hA : cfg.subcarrier_amplitude ≠ 0) (hAb : cfg.subcarrier_amplitude_back ≠ 0)
    (hspeed : cfg.output_vhs_tape_speed = VHS_SP ∨ cfg.output_vhs_tape_speed = VHS_LP
      ∨ cfg.output_vhs_tape_speed = VHS_EP) :
    ∃ pk, composite_layer_planes cfg env src spx W H field fieldno k = some pk := by
  unfold composite_layer_planes
  simp only []
  obtain ⟨r, hr⟩ := composite_layer_head_switching_some cfg env W H field
    (composite_layer_video_noise cfg env W H field
      (composite_layer_preemphasis cfg W H field
        (chroma_into_luma cfg.video_scanline_phase_shift cfg.video_scanline_phase_shift_offset
          W H field fieldno cfg.subcarrier_amplitude
          (if cfg.composite_in_chroma_lowpass = true then
            composite_lowpass W H field (composite_layer_fill W H field src spx)
          else composite_layer_fill W H field src spx))).fY k).1
    (composite_layer_video_noise cfg env W H field
      (composite_layer_preemphasis cfg W H field
        (chroma_into_luma cfg.video_scanline_phase_shift cfg.video_scanline_phase_shift_offset
          W H field fieldno cfg.subcarrier_amplitude
          (if cfg.composite_in_chroma_lowpass = true then
            composite_lowpass W H field (composite_layer_fill W H field src spx)
          else composite_layer_fill W H field src spx))).fY k).2 hW
  rw [hr]
  simp only [Option.some_bind]
  by_cases hn : cfg.nocolor_subcarrier = true
  · rw [if_neg (by simp [hn])]
    simp only [Option.some_bind]
    obtain ⟨p', hp'⟩ := composite_layer_vhs_some cfg W H field fieldno
      (composite_layer_phase_noise cfg env W H field
        (composite_layer_chroma_noise cfg env W H field _ r.2).1
        (composite_layer_chroma_noise cfg env W H field _ r.2).2).1 hA hspeed
    rw [hp']
    exact ⟨_, rfl⟩
  · rw [if_pos (by simp [hn])]
    obtain ⟨p1, hp1⟩ := chroma_from_luma_some cfg.video_scanline_phase_shift
      cfg.video_scanline_phase_shift_offset W H field fieldno cfg.subcarrier_amplitude_back hAb
      { (composite_layer_preemphasis cfg W H field
        (chroma_into_luma cfg.video_scanline_phase_shift cfg.video_scanline_phase_shift_offset
          W H field fieldno cfg.subcarrier_amplitude
          (if cfg.composite_in_chroma_lowpass = true then
            composite_lowpass W H field (composite_layer_fill W H field src spx)
          else composite_layer_fill W H field src spx))) with fY := r.1 }
    rw [hp1]
    simp only [Option.some_bind]
    obtain ⟨p', hp'⟩ := composite_layer_vhs_some cfg W H field fieldno
      (composite_layer_phase_noise cfg env W H field
        (composite_layer_chroma_noise cfg env W H field p1 r.2).1
        (composite_layer_chroma_noise cfg env W H field p1 r.2).2).1 hA hspeed
    rw [hp']
    exact ⟨_, rfl⟩

theorem RGB_to_YIQ_eq_int : RGB_to_YIQ = RGB_to_YIQ_int := by
  funext r g b
  have e1 : toInt (256 * ((0.30 * (r : ℚ)) + (0.59 * (g : ℚ)) + (0.11 * (b : ℚ))))
      = Int.tdiv (256 * (30 * r + 59 * g + 11 * b)) 100 := by
    rw [← toInt_div _ 100 (by decide)]
    congr 1
    push_cast
    ring
  have e2 : toInt (256 * ((-0.27 * ((b : ℚ) - ((0.30 * (r : ℚ)) + (0.59 * (g : ℚ))
        + (0.11 * (b : ℚ))))) + (0.74 * ((r : ℚ) - ((0.30 * (r : ℚ)) + (0.59 * (g : ℚ))
        + (0.11 * (b : ℚ)))))))
      = Int.tdiv (256 * (-27 * (100 * b - (30 * r + 59 * g + 11 * b))
          + 74 * (100 * r - (30 * r + 59 * g + 11 * b)))) 10000 := by
    rw [← toInt_div _ 10000 (by decide)]
    congr 1
    push_cast
    ring
  have e3 : toInt (256 * ((0.41 * ((b : ℚ) - ((0.30 * (r : ℚ)) + (0.59 * (g : ℚ))
        + (0.11 * (b : ℚ))))) + (0.48 * ((r : ℚ) - ((0.30 * (r : ℚ)) + (0.59 * (g : ℚ))
        + (0.11 * (b : ℚ)))))))
      = Int.tdiv (256 * (41 * (100 * b - (30 * r + 59 * g + 11 * b))
          + 48 * (100 * r - (30 * r + 59 * g + 11 * b)))) 10000 := by
    rw [← toInt_div _ 10000 (by decide)]
    congr 1
    push_cast
    ring
  unfold RGB_to_YIQ RGB_to_YIQ_int
  simp only [e1, e2, e3]

theorem YIQ_to_RGB_eq_int : YIQ_to_RGB = YIQ_to_RGB_int := by
  funext Y I Q
  have e1 : toInt (((1.000 * (Y : ℚ)) + (0.956 * (I : ℚ)) + (0.621 * (Q : ℚ))) / 256)
      = Int.tdiv (1000 * Y + 956 * I + 621 * Q) 256000 := by
    rw [← toInt_div _ 256000 (by decide)]
    congr 1
    push_cast
    ring
  have e2 : toInt (((1.000 * (Y : ℚ)) + (-0.272 * (I : ℚ)) + (-0.647 * (Q : ℚ))) / 256)
      = Int.tdiv (1000 * Y - 272 * I - 647 * Q) 256000 := by
    rw [← toInt_div _ 256000 (by decide)]
    congr 1
    push_cast
    ring
  have e3 : toInt (((1.000 * (Y : ℚ)) + (-1.106 * (I : ℚ)) + (1.703 * (Q : ℚ))) / 256)
      = Int.tdiv (1000 * Y - 1106 * I + 1703 * Q) 256000 := by
    rw [← toInt_div _ 256000 (by decide)]
    congr 1
    push_cast
    ring
  unfold YIQ_to_RGB YIQ_to_RGB_int
  simp only [e1, e2, e3]

/-- With every optional stage switched off, the pipeline of `composite_layer` is the
conversion to YIQ followed by modulation and demodulation. -/
theorem composite_layer_planes_plain (cfg : Config) (env : Env) (src : AVFrame)
    (spx : Nat → Nat → Nat) (W H field fieldno k : Nat)
    (h1 : cfg.composite_in_chroma_lowpass = false) (h2 : cfg.composite_preemphasis = 0)
    (h3 : cfg.video_noise = 0) (h4 : cfg.vhs_head_switching = false)
    (h5 : cfg.nocolor_subcarrier = false) (h6 : cfg.video_chroma_noise = 0)
    (h7 : cfg.video_chroma_phase_noise = 0) (h8 : cfg.emulating_vhs = false)
    (h9 : cfg.video_chroma_loss = 0) (h10 : cfg.composite_out_chroma_lowpass = false) :
    composite_layer_planes cfg env src spx W H field fieldno k
      = (chroma_from_luma cfg.video_scanline_phase_shift cfg.video_scanline_phase_shift_offset
          W H field fieldno cfg.subcarrier_amplitude_back
          (chroma_into_luma cfg.video_scanline_phase_shift
            cfg.video_scanline_phase_shift_offset W H field fieldno cfg.subcarrier_amplitude
            (composite_layer_fill W H field src spx))).map fun p => (p, k) := by
  unfold composite_layer_planes composite_layer_preemphasis composite_layer_video_noise
    composite_layer_head_switching composite_layer_chroma_noise composite_layer_phase_noise
    composite_layer_vhs composite_layer_chroma_loss composite_layer_out_lowpass
  simp only [h1, h2, h3, h4, h5, h6, h7, h8, h9, h10]
  simp
  cases chroma_from_luma cfg.video_scanline_phase_shift cfg.video_scanline_phase_shift_offset
      W H field fieldno cfg.subcarrier_amplitude_back
      (chroma_into_luma cfg.video_scanline_phase_shift
        cfg.video_scanline_phase_shift_offset W H field fieldno cfg.subcarrier_amplitude
        (composite_layer_fill W H field src spx)) <;> rfl

set_option maxRecDepth 200000 in
/-- The planes of the odd field of a 2×2 pure red frame after conversion, modulation and
demodulation with the initial phase settings and amplitude 50. -/
theorem red_frame_planes :
    (chroma_from_luma 180 0 2 2 1 0 50
        (chroma_into_luma 180 0 2 2 1 0 50
          (composite_layer_fill 2 2 1 (solidFrame 0xFF0000) (fun _ _ => 0xFF0000)))).map
      (fun p => ((p.fY 1 0, p.fI 1 0, p.fQ 1 0), (p.fY 1 1, p.fI 1 1, p.fQ 1 1)))
      = some ((23043, 0, 0), (23043, 0, 0)) := by
  unfold composite_layer_fill
  simp only [RGB_to_YIQ_eq_int]
  decide

theorem packPixel_grey : packPixel 23043 0 0 = 5921370 := by
  unfold packPixel
  rw [YIQ_to_RGB_eq_int]
  decide

/-- The odd field of a 2×2 pure red frame composited over a black frame by the dispatch
of field 0, with every optional stage switched off, the initial phase settings and both
amplitudes 50: the two pixels of row 1 become the grey `(90, 90, 90)`, row 0 stays
black. -/
theorem red_frame_field (cfg : Config) (env : Env)
    (h1 : cfg.composite_in_chroma_lowpass = false) (h2 : cfg.composite_preemphasis = 0)
    (h3 : cfg.video_noise = 0) (h4 : cfg.vhs_head_switching = false)
    (h5 : cfg.nocolor_subcarrier = false) (h6 : cfg.video_chroma_noise = 0)
    (h7 : cfg.video_chroma_phase_noise = 0) (h8 : cfg.emulating_vhs = false)
    (h9 : cfg.video_chroma_loss = 0) (h10 : cfg.composite_out_chroma_lowpass = false)
    (hps : cfg.video_scanline_phase_shift = 180)
    (hpo : cfg.video_scanline_phase_shift_offset = 0)
    (hA : cfg.subcarrier_amplitude = 50) (hAb : cfg.subcarrier_amplitude_back = 50) :
    ∃ dst' : AVFrame,
      main_composite_field cfg env [solidFrame 0xFF0000] 0 (solidFrame 0) 0 = some (dst', 0)
      ∧ dst'.pixelAt 0 0 = some 0 ∧ dst'.pixelAt 0 1 = some 0
      ∧ dst'.pixelAt 1 0 = some 5921370 ∧ dst'.pixelAt 1 1 = some 5921370 := by
  have hplanes := composite_layer_planes_plain cfg env (solidFrame 0xFF0000)
    (fun _ _ => 0xFF0000) 2 2 1 0 0 h1 h2 h3 h4 h5 h6 h7 h8 h9 h10
  rw [hps, hpo, hA, hAb] at hplanes
  have hred := red_frame_planes
  obtain ⟨p', hp'⟩ : ∃ p', chroma_from_luma 180 0 2 2 1 0 50
      (chroma_into_luma 180 0 2 2 1 0 50
        (composite_layer_fill 2 2 1 (solidFrame 0xFF0000) (fun _ _ => 0xFF0000))) = some p' :=
    chroma_from_luma_some _ _ _ _ _ _ _ (by decide) _
  rw [hp'] at hplanes hred
  simp only [Option.map_some', Option.some.injEq, Prod.mk.injEq] at hred
  obtain ⟨⟨e1, e2, e3⟩, e4, e5, e6⟩ := hred
  have hcall : main_composite_field cfg env [solidFrame 0xFF0000] 0 (solidFrame 0) 0
      = some ({ solidFrame 0 with
          data := some (composite_layer_store 2 2 1 p' (fun _ _ => 0)) }, 0) := by
    unfold main_composite_field
    simp only [List.foldl_cons, List.foldl_nil, Option.some_bind]
    have hf : (0 &&& 1) ^^^ 1 = 1 := by decide
    rw [hf]
    unfold composite_layer
    simp only [solidFrame] at hplanes ⊢
    simp [hplanes]
  refine ⟨_, hcall, ?_, ?_, ?_, ?_⟩
  · show some (composite_layer_store 2 2 1 p' (fun _ _ => 0) 0 0) = some 0
    rw [composite_layer_store_spec, if_neg (by unfold visited; omega)]
  · show some (composite_layer_store 2 2 1 p' (fun _ _ => 0) 0 1) = some 0
    rw [composite_layer_store_spec, if_neg (by unfold visited; omega)]
  · show some (composite_layer_store 2 2 1 p' (fun _ _ => 0) 1 0) = some 5921370
    rw [composite_layer_store_spec, if_pos (by unfold visited; omega), e1, e2, e3,
      packPixel_grey]
  · show some (composite_layer_store 2 2 1 p' (fun _ _ => 0) 1 1) = some 5921370
    rw [composite_layer_store_spec, if_pos (by unfold visited; omega), e4, e5, e6,
      packPixel_grey]

/-- C4 (as stated, refuted): for the field index `N = 0` the dispatch of `main` rewrites
row 1, the row of parity different from `N & 1`, of a black 2×2 output frame (a red
source gives the grey word 5921370 there), and leaves row 0, the row of parity `N & 1`,
as it was. -/
theorem dispatch_field_zero_rewrites_odd_row :
    ∃ dst' : AVFrame,
      main_composite_field quietConfig zeroEnv [solidFrame 0xFF0000] 0 (solidFrame 0) 0
        = some (dst', 0)
      ∧ dst'.pixelAt 0 0 = (solidFrame 0).pixelAt 0 0
      ∧ dst'.pixelAt 1 0 = some 5921370
      ∧ dst'.pixelAt 1 0 ≠ (solidFrame 0).pixelAt 1 0 := by
  obtain ⟨dst', h, a, _, c, _⟩ := red_frame_field quietConfig zeroEnv rfl rfl rfl rfl rfl rfl
    rfl rfl rfl rfl rfl rfl rfl rfl
  refine ⟨dst', h, ?_, c, ?_⟩
  · rw [a]
    rfl
  · rw [c]
    show some 5921370 ≠ some 0
    decide

/-- The effect of one call of `composite_layer` on the destination pixels: a call that
completes leaves every pixel outside the visited rows as it was. -/
theorem composite_layer_keeps_other_rows (cfg : Config) (env : Env) (dst src : AVFrame)
    (field fieldno k : Nat) (r : AVFrame × Nat)
    (h : composite_layer cfg env dst src field fieldno k = some r) (y x : Nat)
    (hy : ¬ visited field dst.height y) : r.1.pixelAt y x = dst.pixelAt y x := by
  unfold composite_layer at h
  split at h
  · next dpx spx hd hs =>
    split_ifs at h
    · cases h; rfl
    · cases h; rfl
    · cases h; rfl
    · cases h; rfl
    · cases hp : composite_layer_planes cfg env src spx dst.width dst.height field fieldno k with
      | none => rw [hp] at h; cases h
      | some pk =>
        rw [hp] at h
        cases h
        show some (composite_layer_store dst.width dst.height field pk.1 dpx y x) = _
        rw [composite_layer_store_spec, if_neg (by tauto)]
        unfold AVFrame.pixelAt
        rw [hd]
        rfl
  · cases h; rfl

/-- C4 (amended): for every field index `N`, the call made by the dispatch of `main`,
`composite_layer(dst, src, (N & 1) ^ 1, N)`, on valid frames of equal dimensions
completes (nonzero amplitudes, a known tape speed, a frame of nonzero width and height:
on a frame without pixels the call throws `std::bad_array_new_length`), rewrites every
pixel of the rows of parity `(N & 1) ^ 1`, the parity opposite to `N & 1`, with the
packed conversion of the field planes, and leaves the rows of parity `N & 1` as they
were; for arbitrary frames a completed call leaves the rows of parity `N & 1` as they
were. -/
theorem dispatch_rewrites_opposite_parity (cfg : Config) (env : Env) (dst src : AVFrame)
    (dpx spx : Nat → Nat → Nat) (N k : Nat)
    (hd : dst.data = some dpx) (hs : src.data = some spx)
    (hl1 : dst.width * 4 ≤ dst.linesize) (hl2 : src.width * 4 ≤ src.linesize)
    (hw : dst.width = src.width) (hh : dst.height = src.height) (hW : 0 < dst.width)
    (hH : 0 < dst.height)
    (hA : cfg.subcarrier_amplitude ≠ 0) (hAb : cfg.subcarrier_amplitude_back ≠ 0)
    (hspeed : cfg.output_vhs_tape_speed = VHS_SP ∨ cfg.output_vhs_tape_speed = VHS_LP
      ∨ cfg.output_vhs_tape_speed = VHS_EP) :
    (∃ (dst' : AVFrame) (k' : Nat) (planes : Planes) (dpx' : Nat → Nat → Nat),
      main_composite_field cfg env [src] N dst k = some (dst', k')
      ∧ composite_layer_planes cfg env src spx dst.width dst.height ((N &&& 1) ^^^ 1) N k
          = some (planes, k')
      ∧ dst'.data = some dpx' ∧ dst'.width = dst.width ∧ dst'.height = dst.height
      ∧ (∀ y x, y % 2 = N % 2 → dpx' y x = dpx y x)
      ∧ (∀ y x, y < dst.height → y % 2 ≠ N % 2 → x < dst.width →
          dpx' y x = packPixel (planes.fY y x) (planes.fI y x) (planes.fQ y x)))
    ∧ (∀ (dst2 src2 : AVFrame) (k2 : Nat) (r : AVFrame × Nat),
        main_composite_field cfg env [src2] N dst2 k2 = some r →
        ∀ y x, y % 2 = N % 2 → r.1.pixelAt y x = dst2.pixelAt y x) := by
  constructor
  · obtain ⟨pk, hpk⟩ := composite_layer_planes_some cfg env src spx dst.width dst.height
      ((N &&& 1) ^^^ 1) N k hW hA hAb hspeed
    have hcall : main_composite_field cfg env [src] N dst k
        = some ({ dst with
            data := some (composite_layer_store dst.width dst.height ((N &&& 1) ^^^ 1) pk.1
              dpx) }, pk.2) := by
      unfold main_composite_field
      simp only [List.foldl_cons, List.foldl_nil, Option.some_bind]
      unfold composite_layer
      rw [hd, hs]
      simp only []
      rw [if_neg (by omega), if_neg (by omega), if_neg (by simp [hw]), if_neg (by simp [hh]),
        if_neg (Nat.mul_pos hW hH).ne', hpk]
      rfl
    refine ⟨_, pk.2, pk.1, _, hcall, hpk, rfl, rfl, rfl, ?_, ?_⟩
    · intro y x hy
      rw [composite_layer_store_spec, if_neg]
      rw [visited_dispatch]
      tauto
    · intro y x hy hpar hx
      rw [composite_layer_store_spec, if_pos]
      rw [visited_dispatch]
      exact ⟨⟨hy, hpar⟩, hx⟩
  · intro dst2 src2 k2 r hr y x hy
    unfold main_composite_field at hr
    simp only [List.foldl_cons, List.foldl_nil, Option.some_bind] at hr
    refine composite_layer_keeps_other_rows cfg env dst2 src2 _ N k2 r hr y x ?_
    rw [visited_dispatch]
    tauto

/-- The dispatch of field 0 on a red 2×2 source over a black 2×2 frame with the initial
configuration. -/
theorem dispatch_rewrites_opposite_parity_witness :
    (∃ (dst' : AVFrame) (k' : Nat) (planes : Planes) (dpx' : Nat → Nat → Nat),
      main_composite_field {} zeroEnv [solidFrame 0xFF0000] 0 (solidFrame 0) 0
        = some (dst', k')
      ∧ composite_layer_planes {} zeroEnv (solidFrame 0xFF0000) (fun _ _ => 0xFF0000)
          (solidFrame 0).width (solidFrame 0).height ((0 &&& 1) ^^^ 1) 0 0
          = some (planes, k')
      ∧ dst'.data = some dpx' ∧ dst'.width = (solidFrame 0).width
      ∧ dst'.height = (solidFrame 0).height
      ∧ (∀ y x, y % 2 = 0 % 2 → dpx' y x = (fun _ _ => 0) y x)
      ∧ (∀ y x, y < (solidFrame 0).height → y % 2 ≠ 0 % 2 → x < (solidFrame 0).width →
          dpx' y x = packPixel (planes.fY y x) (planes.fI y x) (planes.fQ y x)))
    ∧ (∀ (dst2 src2 : AVFrame) (k2 : Nat) (r : AVFrame × Nat),
        main_composite_field {} zeroEnv [src2] 0 dst2 k2 = some r →
        ∀ y x, y % 2 = 0 % 2 → r.1.pixelAt y x = dst2.pixelAt y x) :=
  dispatch_rewrites_opposite_parity {} zeroEnv (solidFrame 0) (solidFrame 0xFF0000)
    (fun _ _ => 0) (fun _ _ => 0xFF0000) 0 0 rfl rfl (by decide) (by decide) rfl rfl
    (by decide) (by decide) (by decide) (by decide) (Or.inl rfl)

/-- C5 (the code at the failing input): `composite_layer` never reads
`enable_composite_emulation`, so the switch `-nocomp` changes nothing in it; with
`-nocomp -noise 0 -in-composite-lowpass 0 -out-composite-lowpass 0` the processed row of
a 2×2 pure red frame is written as the grey `(90, 90, 90)` (the word 5921370), not as
`(255, 0, 0) ± 2`. -/
theorem nocomp_red_frame_turns_grey :
    (parse_argv_nocomp quietConfig).enable_composite_emulation = false
    ∧ (∀ (cfg : Config) (env : Env) (dst src : AVFrame) (field fieldno k : Nat),
        composite_layer (parse_argv_nocomp cfg) env dst src field fieldno k
          = composite_layer cfg env dst src field fieldno k)
    ∧ ∃ dst' : AVFrame,
        main_composite_field (parse_argv_nocomp quietConfig) zeroEnv [solidFrame 0xFF0000] 0
          (solidFrame 0) 0 = some (dst', 0)
        ∧ dst'.pixelAt 1 0 = some 5921370 ∧ dst'.pixelAt 1 1 = some 5921370
        ∧ (5921370 / 65536 % 256 = 90 ∧ 5921370 / 256 % 256 = 90 ∧ 5921370 % 256 = 90) := by
  refine ⟨rfl, fun cfg env dst src field fieldno k => rfl, ?_⟩
  obtain ⟨dst', h, _, _, c, d⟩ := red_frame_field (parse_argv_nocomp quietConfig) zeroEnv
    rfl rfl rfl rfl rfl rfl rfl rfl rfl rfl rfl rfl rfl rfl
  exact ⟨dst', h, c, d, by decide⟩


/-! ## Conversion back to RGB -/

theorem clamp255_eq (v : Int) : clamp255 v = max 0 (min 255 v) := by
  unfold clamp255
  split_ifs <;> omega

theorem clamp255_range (v : Int) : 0 ≤ clamp255 v ∧ clamp255 v ≤ 255 := by
  rw [clamp255_eq]
  omega

/-! ## The inverse conversion in `double` arithmetic -/

set_option maxRecDepth 100000 in
/-- Claim C11, counterexample. At `(Y, I, Q) = (460, 750, 0)` the exact value of
`(Y - 0.272 I - 0.647 Q) / 256` is `256 / 256 = 1`, so the claim gives `g = 1`; the
source evaluates the expression in `double`, where the product `-0.272 * 750` is
`-204.00000000000003`, the sum is just below 256 and the quotient just below 1, and
returns `g = 0`. -/
theorem YIQ_to_RGB_green_below_exact_quotient :
    YIQ_to_RGB_binary64 460 750 0 = (4, 0, 0)
    ∧ max 0 (min 255 (toInt (((460 : ℚ) - 0.272 * 750 - 0.647 * 0) / 256))) = 1
    ∧ Binary.mul 53 (double1000 (-272)) (Binary.ofInt 53 750)
        = { m := -7177611906121729, e := -45 }
    ∧ (-7177611906121729 : Int) < -204 * 2 ^ 45 := by
  refine ⟨by decide, ?_, by decide, by decide⟩
  have h : ((460 : ℚ) - 0.272 * 750 - 0.647 * 0) / 256 = ((1 : Int) : ℚ) := by norm_num
  rw [h, toInt_intCast]
  decide

/-- Claim C11, amended. For all integers `Y`, `I`, `Q` the channels returned by
`YIQ_to_RGB` are the values of `((1.000 * Y) + (0.956 * I) + (0.621 * Q)) / 256`,
`((1.000 * Y) + (-0.272 * I) + (-0.647 * Q)) / 256` and
`((1.000 * Y) + (-1.106 * I) + (1.703 * Q)) / 256` as evaluated in `double` arithmetic
(every literal, product, sum and quotient rounded to the nearest `double`), truncated to
integers and then clamped to `[0, 255]`; every channel lies in `0..255`, and the pixel
word `(r << 16) + (g << 8) + b` is `65536 r + 256 g + b`, below `2^24`; for arguments in
the range of `int`, every channel is within 1 of the exact value of the expression
truncated and clamped. -/
theorem YIQ_to_RGB_binary64_truncates_then_clamps (Y I Q : Int) :
    YIQ_to_RGB_binary64 Y I Q
        = (max 0 (min 255 (Binary.toInt (Binary.div 53
              (Binary.add 53
                (Binary.add 53 (Binary.mul 53 (double1000 1000) (Binary.ofInt 53 Y))
                  (Binary.mul 53 (double1000 956) (Binary.ofInt 53 I)))
                (Binary.mul 53 (double1000 621) (Binary.ofInt 53 Q)))
              (Binary.ofInt 53 256)))),
           max 0 (min 255 (Binary.toInt (Binary.div 53
              (Binary.add 53
                (Binary.add 53 (Binary.mul 53 (double1000 1000) (Binary.ofInt 53 Y))
                  (Binary.mul 53 (double1000 (-272)) (Binary.ofInt 53 I)))
                (Binary.mul 53 (double1000 (-647)) (Binary.ofInt 53 Q)))
              (Binary.ofInt 53 256)))),
           max 0 (min 255 (Binary.toInt (Binary.div 53
              (Binary.add 53
                (Binary.add 53 (Binary.mul 53 (double1000 1000) (Binary.ofInt 53 Y))
                  (Binary.mul 53 (double1000 (-1106)) (Binary.ofInt 53 I)))
                (Binary.mul 53 (double1000 1703) (Binary.ofInt 53 Q)))
              (Binary.ofInt 53 256)))))
      ∧ (∀ x : Binary, Binary.toInt x = toInt x.toRat)
      ∧ (0 ≤ (YIQ_to_RGB_binary64 Y I Q).1 ∧ (YIQ_to_RGB_binary64 Y I Q).1 ≤ 255)
      ∧ (0 ≤ (YIQ_to_RGB_binary64 Y I Q).2.1 ∧ (YIQ_to_RGB_binary64 Y I Q).2.1 ≤ 255)
      ∧ (0 ≤ (YIQ_to_RGB_binary64 Y I Q).2.2 ∧ (YIQ_to_RGB_binary64 Y I Q).2.2 ≤ 255)
      ∧ ((u32 ((YIQ_to_RGB_binary64 Y I Q).1 * 2 ^ 16 + (YIQ_to_RGB_binary64 Y I Q).2.1 * 2 ^ 8
            + (YIQ_to_RGB_binary64 Y I Q).2.2) : Nat) : Int)
          = (YIQ_to_RGB_binary64 Y I Q).1 * 65536 + (YIQ_to_RGB_binary64 Y I Q).2.1 * 256
            + (YIQ_to_RGB_binary64 Y I Q).2.2
      ∧ u32 ((YIQ_to_RGB_binary64 Y I Q).1 * 2 ^ 16 + (YIQ_to_RGB_binary64 Y I Q).2.1 * 2 ^ 8
            + (YIQ_to_RGB_binary64 Y I Q).2.2) < 2 ^ 24
      ∧ (-2 ^ 31 ≤ Y ∧ Y < 2 ^ 31 → -2 ^ 31 ≤ I ∧ I < 2 ^ 31 → -2 ^ 31 ≤ Q ∧ Q < 2 ^ 31 →
          |(YIQ_to_RGB_binary64 Y I Q).1
              - clamp255 (toInt (((1.000 * Y) + (0.956 * I) + (0.621 * Q)) / 256))| ≤ 1
          ∧ |(YIQ_to_RGB_binary64 Y I Q).2.1
              - clamp255 (toInt (((1.000 * Y) + (-0.272 * I) + (-0.647 * Q)) / 256))| ≤ 1
          ∧ |(YIQ_to_RGB_binary64 Y I Q).2.2
              - clamp255 (toInt (((1.000 * Y) + (-1.106 * I) + (1.703 * Q)) / 256))| ≤ 1) := by
  have hr : 0 ≤ (YIQ_to_RGB_binary64 Y I Q).1 ∧ (YIQ_to_RGB_binary64 Y I Q).1 ≤ 255 :=
    clamp255_range _
  have hg : 0 ≤ (YIQ_to_RGB_binary64 Y I Q).2.1 ∧ (YIQ_to_RGB_binary64 Y I Q).2.1 ≤ 255 :=
    clamp255_range _
  have hb : 0 ≤ (YIQ_to_RGB_binary64 Y I Q).2.2 ∧ (YIQ_to_RGB_binary64 Y I Q).2.2 ≤ 255 :=
    clamp255_range _
  refine ⟨?_, ?_, hr, hg, hb, ?_, ?_, YIQ_to_RGB_binary64_near Y I Q⟩
  · show (clamp255 _, clamp255 _, clamp255 _) = _
    rw [clamp255_eq, clamp255_eq, clamp255_eq]
  · intro x
    unfold Binary.toInt Binary.toRat
    exact (toInt_div_nat _ _ (Binary.den_pos x)).symm
  · unfold u32
    generalize (YIQ_to_RGB_binary64 Y I Q).1 = r at hr ⊢
    generalize (YIQ_to_RGB_binary64 Y I Q).2.1 = g at hg ⊢
    generalize (YIQ_to_RGB_binary64 Y I Q).2.2 = b at hb ⊢
    omega
  · unfold u32
    generalize (YIQ_to_RGB_binary64 Y I Q).1 = r at hr ⊢
    generalize (YIQ_to_RGB_binary64 Y I Q).2.1 = g at hg ⊢
    generalize (YIQ_to_RGB_binary64 Y I Q).2.2 = b at hb ⊢
    omega

set_option maxRecDepth 100000 in
theorem YIQ_to_RGB_binary64_truncates_then_clamps_witness :
    (-2 ^ 31 ≤ (460 : Int) ∧ (460 : Int) < 2 ^ 31)
    ∧ (-2 ^ 31 ≤ (750 : Int) ∧ (750 : Int) < 2 ^ 31)
    ∧ (-2 ^ 31 ≤ (0 : Int) ∧ (0 : Int) < 2 ^ 31)
    ∧ |(YIQ_to_RGB_binary64 460 750 0).2.1
        - clamp255 (toInt (((1.000 * ((460 : Int) : ℚ)) + (-0.272 * ((750 : Int) : ℚ))
            + (-0.647 * ((0 : Int) : ℚ))) / 256))| ≤ 1 :=
  ⟨by decide, by decide, by decide,
   ((YIQ_to_RGB_binary64_truncates_then_clamps 460 750 0).2.2.2.2.2.2.2
      (by decide) (by decide) (by decide)).2.1⟩

/-! ## Row loops as counted loops -/

theorem forColumns_succ_left {σ : Type} (n : Nat) (body : Nat → σ → σ) (s : σ) :
    forColumns (n + 1) body s = forColumns n (fun i => body (i + 1)) (body 0 s) := by
  induction n with
  | zero => rfl
  | succ n ih => rw [forColumns_succ, ih, forColumns_succ]

theorem loopFrom_two_eq {σ : Type} (height : Nat) (body : Nat → σ → σ) :
    ∀ (fuel x : Nat) (s : σ), height ≤ x + fuel →
      (loopFrom 2 0 height body fuel x s).2
        = forColumns ((height + 1 - x) / 2) (fun i s => body (x + 2 * i) s) s := by
  intro fuel
  induction fuel with
  | zero =>
    intro x s h
    have e : (height + 1 - x) / 2 = 0 := by omega
    rw [e]
    rfl
  | succ fuel ih =>
    intro x s h
    simp only [loopFrom]
    split
    · next hc =>
      have e : (height + 1 - x) / 2 = (height + 1 - (x + 2)) / 2 + 1 := by omega
      rw [ih (x + 2) (body x s) (by omega), e, forColumns_succ_left]
      have e2 : (fun i s => body (x + 2 + 2 * i) s) = (fun i s => body (x + 2 * (i + 1)) s) := by
        funext i s
        congr 1
        omega
      rw [e2]
      rfl
    · next hc =>
      have e : (height + 1 - x) / 2 = 0 := by omega
      rw [e]
      rfl

/-- The loop over the rows of a field runs its body on the rows `field + 2 i` in order. -/
theorem forFieldRows_eq_forColumns {σ : Type} (field height : Nat) (body : Nat → σ → σ)
    (s : σ) :
    forFieldRows field height body s
      = forColumns ((height + 1 - field) / 2) (fun i s => body (field + 2 * i) s) s :=
  loopFrom_two_eq height body height field s (by omega)

theorem visited_index (field height y : Nat) (h : visited field height y) :
    y = field + 2 * ((y - field) / 2) ∧ (y - field) / 2 < (height + 1 - field) / 2 := by
  unfold visited at h
  omega

/-! ## Chroma dropout -/

theorem u32_small (n : Int) (h0 : 0 ≤ n) (h1 : n < 2 ^ 32) : (u32 n : Int) = n := by
  unfold u32
  omega

theorem chroma_loss_all_rows (W field : Nat) (p : Planes) (k : Nat) (n : Nat) :
    ∀ i x, i < n → x < W →
      (forColumns n (fun i (st : Planes × Nat) =>
          (({ st.1 with
              fI := Function.update st.1.fI (field + 2 * i)
                (fun x => if x < W then 0 else st.1.fI (field + 2 * i) x),
              fQ := Function.update st.1.fQ (field + 2 * i)
                (fun x => if x < W then 0 else st.1.fQ (field + 2 * i) x) } : Planes),
            st.2 + 1)) (p, k)).1.fI (field + 2 * i) x = 0
      ∧ (forColumns n (fun i (st : Planes × Nat) =>
          (({ st.1 with
              fI := Function.update st.1.fI (field + 2 * i)
                (fun x => if x < W then 0 else st.1.fI (field + 2 * i) x),
              fQ := Function.update st.1.fQ (field + 2 * i)
                (fun x => if x < W then 0 else st.1.fQ (field + 2 * i) x) } : Planes),
            st.2 + 1)) (p, k)).1.fQ (field + 2 * i) x = 0 := by
  induction n with
  | zero => intro i x hi; omega
  | succ n ih =>
    intro i x hi hx
    rw [forColumns_succ]
    by_cases h : i = n
    · subst h
      simp [Function.update_same, hx]
    · have hne : field + 2 * i ≠ field + 2 * n := by omega
      have := ih i x (by omega) hx
      simp only [Function.update_noteq hne]
      exact this

/-- Claim C12. In the chroma dropout stage, for every stream of random draws: with
`video_chroma_loss = 0` the planes (and the draw counter) are returned unchanged, and with
`video_chroma_loss = 100000` every row of the field has `I[x] = Q[x] = 0` at every column
`x < width` after the stage. -/
theorem chroma_loss_never_or_always (cfg : Config) (env : Env) (W H field : Nat) (p : Planes)
    (k : Nat) :
    (cfg.video_chroma_loss = 0 →
      composite_layer_chroma_loss cfg env W H field p k = (p, k))
    ∧ (cfg.video_chroma_loss = 100000 → ∀ y x, visited field H y → x < W →
        (composite_layer_chroma_loss cfg env W H field p k).1.fI y x = 0
        ∧ (composite_layer_chroma_loss cfg env W H field p k).1.fQ y x = 0) := by
  constructor
  · intro h
    unfold composite_layer_chroma_loss
    rw [if_neg (by simp [h])]
  · intro h y x hy hx
    obtain ⟨ey, hi⟩ := visited_index field H y hy
    unfold composite_layer_chroma_loss
    rw [if_pos (by rw [h]; decide), forFieldRows_eq_forColumns, h]
    have hc : ∀ n : Nat, n % 100000 < u32 100000 := by
      intro n
      have : u32 100000 = 100000 := by decide
      rw [this]
      exact Nat.mod_lt _ (by decide)
    simp only [hc, if_true]
    rw [ey]
    exact chroma_loss_all_rows W field p k _ _ x hi hx

theorem chroma_loss_never_or_always_witness :
    composite_layer_chroma_loss { video_chroma_loss := 0 } zeroEnv 2 2 0
        ⟨fun _ _ => 1, fun _ _ => 2, fun _ _ => 3⟩ 0
      = (⟨fun _ _ => 1, fun _ _ => 2, fun _ _ => 3⟩, 0)
    ∧ (composite_layer_chroma_loss { video_chroma_loss := 100000 } zeroEnv 2 2 0
        ⟨fun _ _ => 1, fun _ _ => 2, fun _ _ => 3⟩ 0).1.fI 0 1 = 0
    ∧ (composite_layer_chroma_loss { video_chroma_loss := 100000 } zeroEnv 2 2 0
        ⟨fun _ _ => 1, fun _ _ => 2, fun _ _ => 3⟩ 0).1.fQ 0 1 = 0 :=
  ⟨(chroma_loss_never_or_always { video_chroma_loss := 0 } zeroEnv 2 2 0 _ 0).1 rfl,
   ((chroma_loss_never_or_always { video_chroma_loss := 100000 } zeroEnv 2 2 0
      ⟨fun _ _ => 1, fun _ _ => 2, fun _ _ => 3⟩ 0).2 rfl 0 1 (by decide) (by decide))⟩

/-! ## Subcarrier amplitude zero -/

theorem forColumns_none {α : Type} (n : Nat) (g : Nat → Option α → Option α)
    (hg : ∀ i, g i none = none) : forColumns n g none = none := by
  induction n with
  | zero => rfl
  | succ n ih => rw [forColumns_succ, ih, hg]

theorem forColumns_first_none {α : Type} (n : Nat) (g : Nat → Option α → Option α)
    (s : Option α) (hn : 0 < n) (hg : ∀ i, g i none = none) (h0 : g 0 s = none) :
    forColumns n g s = none := by
  obtain ⟨m, rfl⟩ : ∃ m, n = m + 1 := ⟨n - 1, by omega⟩
  rw [forColumns_succ_left, h0]
  exact forColumns_none m _ (fun i => hg (i + 1))

/-- With amplitude 0 the rescaling loop of `chroma_from_luma` divides by zero on its
first column. -/
theorem chroma_from_luma_scale_zero (W : Nat) (hW : 0 < W) (ch : Scanline) :
    chroma_from_luma_scale W 0 ch = none := by
  unfold chroma_from_luma_scale
  exact forColumns_first_none W _ _ hW (fun _ => rfl) rfl

/-- With amplitude 0, a frame that is at least one column wide and has a row in the field
makes `chroma_from_luma` divide by zero. -/
theorem chroma_from_luma_zero (phase_shift phase_offset : Int) (W H field fieldno : Nat)
    (hW : 0 < W) (hH : field < H) (p : Planes) :
    chroma_from_luma phase_shift phase_offset W H field fieldno 0 p = none := by
  unfold chroma_from_luma
  rw [forFieldRows_eq_forColumns]
  refine forColumns_first_none _ _ _ (by omega) (fun _ => rfl) ?_
  show (chroma_from_luma_row W _ 0 _).map _ = none
  unfold chroma_from_luma_row
  simp only [chroma_from_luma_scale_zero W hW, Option.map_none']

/-- With amplitude 0, `chroma_into_luma` leaves the luma plane as it is. -/
theorem chroma_into_luma_zero (phase_shift phase_offset : Int) (W H field fieldno : Nat)
    (p : Planes) :
    (chroma_into_luma phase_shift phase_offset W H field fieldno 0 p).fY = p.fY := by
  funext y x
  have hrow := forFieldRows_rowwise field H
    (fun y r => forColumns W
      (chroma_into_luma_pixel 0 (chroma_into_luma_xi phase_shift phase_offset fieldno y)) r)
    p y
  have hrow' : (chroma_into_luma phase_shift phase_offset W H field fieldno 0 p).row y
      = _ := hrow
  have eY : (chroma_into_luma phase_shift phase_offset W H field fieldno 0 p).fY y
      = ((chroma_into_luma phase_shift phase_offset W H field fieldno 0 p).row y).Y := rfl
  rw [eY, hrow']
  split
  · have hcols := (chroma_into_luma_columns 0
      (chroma_into_luma_xi phase_shift phase_offset fieldno y) W (p.row y) x).1
    rw [hcols]
    split
    · simp [Planes.row]
    · rfl
  · rfl

theorem composite_layer_head_switching_off (cfg : Config) (env : Env) (W H field : Nat)
    (fY : Plane) (k : Nat) (h : cfg.vhs_head_switching = false) :
    composite_layer_head_switching cfg env W H field fY k = some (fY, k) := by
  unfold composite_layer_head_switching
  rw [if_neg (by simp [h])]

theorem composite_layer_planes_zero_amplitude (cfg : Config) (env : Env) (src : AVFrame)
    (sp : Nat → Nat → Nat) (W H field fieldno k : Nat) (hW : 0 < W) (hH : field < H)
    (hs : cfg.vhs_head_switching = false) (hc : cfg.nocolor_subcarrier = false)
    (hA : cfg.subcarrier_amplitude_back = 0) :
    composite_layer_planes cfg env src sp W H field fieldno k = none := by
  unfold composite_layer_planes
  simp only []
  rw [composite_layer_head_switching_off _ _ _ _ _ _ _ hs]
  simp only [Option.some_bind]
  rw [if_pos (by simp [hc]), hA, chroma_from_luma_zero _ _ W H field fieldno hW hH]
  rfl

theorem composite_layer_of_planes_none (cfg : Config) (env : Env) (dst src : AVFrame)
    (d s : Nat → Nat → Nat) (field fieldno k : Nat) (hd : dst.data = some d)
    (hs : src.data = some s) (h1 : ¬ dst.linesize < dst.width * 4)
    (h2 : ¬ src.linesize < src.width * 4) (h3 : dst.width = src.width)
    (h4 : dst.height = src.height)
    (hp : composite_layer_planes cfg env src s dst.width dst.height field fieldno k = none) :
    composite_layer cfg env dst src field fieldno k = none := by
  unfold composite_layer
  rw [hd, hs]
  simp only []
  rw [if_neg h1, if_neg h2, if_neg (by simp [h3]), if_neg (by simp [h4]), hp]
  split <;> rfl

/-- Claim C13 at the switch `-subcarrier-amp 0` on the initial configuration (both
amplitudes 0, composite preemphasis 0) and 720×480 frames: `chroma_into_luma` leaves the
luma plane unchanged for arbitrary `I` and `Q`, but the following `chroma_from_luma`
reaches the division `(chroma[x] * 50) / subcarrier_amplitude` with divisor 0, so that
`composite_layer` has no result. -/
theorem zero_amplitude_divides_by_zero :
    (∀ (p : Planes) (field fieldno : Nat),
      (chroma_into_luma 180 0 720 480 field fieldno 0 p).fY = p.fY)
    ∧ (∀ (p : Planes) (fieldno : Nat), chroma_from_luma 180 0 720 480 0 fieldno 0 p = none)
    ∧ (∀ (p : Planes) (fieldno : Nat), chroma_from_luma 180 0 720 480 1 fieldno 0 p = none)
    ∧ (∀ (env : Env) (d s : Nat → Nat → Nat) (fieldno k : Nat),
        composite_layer { subcarrier_amplitude := 0, subcarrier_amplitude_back := 0 } env
          { width := 720, height := 480, linesize := 2880, data := some d }
          { width := 720, height := 480, linesize := 2880, data := some s } 0 fieldno k
          = none) := by
  refine ⟨fun p field fieldno => chroma_into_luma_zero 180 0 720 480 field fieldno p,
    fun p fieldno => chroma_from_luma_zero 180 0 720 480 0 fieldno (by decide) (by decide) p,
    fun p fieldno => chroma_from_luma_zero 180 0 720 480 1 fieldno (by decide) (by decide) p,
    ?_⟩
  intro env d s fieldno k
  exact composite_layer_of_planes_none _ env _ _ d s 0 fieldno k rfl rfl
    (by show ¬ 2880 < 720 * 4; decide) (by show ¬ 2880 < 720 * 4; decide) rfl rfl
    (composite_layer_planes_zero_amplitude _ env _ s 720 480 0 fieldno k (by decide)
      (by decide) rfl rfl rfl)

/-! ## Head switching disabled -/

/-- Claim C15. When `vhs_head_switching` is false, `composite_layer` returns the same
result (frame and draw counter, or no result) for every choice of
`vhs_head_switching_point`, `vhs_head_switching_phase` and
`vhs_head_switching_phase_noise`, the frames, the other options and the random draws being
the same. -/
theorem head_switching_parameters_unused (cfg : Config) (env : Env) (dst src : AVFrame)
    (field fieldno k : Nat) (point phase noise point2 phase2 noise2 : ℚ)
    (h : cfg.vhs_head_switching = false) :
    composite_layer
        { cfg with vhs_head_switching_point := point, vhs_head_switching_phase := phase,
                   vhs_head_switching_phase_noise := noise } env dst src field fieldno k
      = composite_layer
        { cfg with vhs_head_switching_point := point2, vhs_head_switching_phase := phase2,
                   vhs_head_switching_phase_noise := noise2 } env dst src field fieldno k := by
  have key : ∀ (sp : Nat → Nat → Nat) (W H : Nat),
      composite_layer_planes
          { cfg with vhs_head_switching_point := point, vhs_head_switching_phase := phase,
                     vhs_head_switching_phase_noise := noise } env src sp W H field fieldno k
        = composite_layer_planes
          { cfg with vhs_head_switching_point := point2, vhs_head_switching_phase := phase2,
                     vhs_head_switching_phase_noise := noise2 } env src sp W H field fieldno k := by
    intro sp W H
    unfold composite_layer_planes
    simp only []
    rw [composite_layer_head_switching_off
        { cfg with vhs_head_switching_point := point, vhs_head_switching_phase := phase,
                   vhs_head_switching_phase_noise := noise } _ _ _ _ _ _ h,
      composite_layer_head_switching_off
        { cfg with vhs_head_switching_point := point2, vhs_head_switching_phase := phase2,
                   vhs_head_switching_phase_noise := noise2 } _ _ _ _ _ _ h]
    rfl
  unfold composite_layer
  split
  · simp only [key]
  · rfl

theorem head_switching_parameters_unused_witness :
    composite_layer
        { quietConfig with vhs_head_switching_point := 1 / 2, vhs_head_switching_phase := 1 / 3,
                           vhs_head_switching_phase_noise := 1 / 4 } zeroEnv
        (solidFrame 0) (solidFrame 255) 0 0 0
      = composite_layer
        { quietConfig with vhs_head_switching_point := 0, vhs_head_switching_phase := 0,
                           vhs_head_switching_phase_noise := 0 } zeroEnv
        (solidFrame 0) (solidFrame 255) 0 0 0 :=
  head_switching_parameters_unused quietConfig zeroEnv (solidFrame 0) (solidFrame 255) 0 0 0
    (1 / 2) (1 / 3) (1 / 4) 0 0 0 rfl

/-! ## Head switching -/

/-- With initial displacement 0 and current shift 0 the head switching loop never rewrites
a row. -/
theorem head_switching_loop_zero (W H tw : Nat) :
    ∀ (fuel : Nat) (y : Int) (tx shy : Nat) (fY : Plane),
      head_switching_loop W H tw 0 fuel y tx 0 shy fY = fY := by
  intro fuel
  induction fuel with
  | zero => intro y tx shy fY; rfl
  | succ fuel ih =>
    intro y tx shy fY
    unfold head_switching_loop
    split
    · simp only [ne_eq, not_true_eq_false, if_false, ite_self]
      have e : (if shy = 0 then (0 : Int) else Int.tdiv (0 * 7) 8) = 0 := by
        split <;> rfl
      rw [e]
      exact ih _ _ _ _
    · rfl

theorem toInt_natCast (n : Nat) : toInt (n : ℚ) = n := by
  have := toInt_intCast (n : Int)
  simpa using this

/-- The start row and the displacement computed by the head switching stage for point
0.97, phase 0.0, noise level 0 and NTSC on a frame 720 samples wide: the loop starts at
row `464 + field` with `tx = 0` and `ishif = 0`. -/
theorem composite_layer_head_switching_at_phase_zero (cfg : Config) (env : Env)
    (H field : Nat) (fY : Plane) (k : Nat)
    (hs : cfg.vhs_head_switching = true) (hpt : cfg.vhs_head_switching_point = 0.97)
    (hph : cfg.vhs_head_switching_phase = 0.0) (hn : cfg.vhs_head_switching_phase_noise = 0)
    (hntsc : cfg.output_ntsc = true) :
    composite_layer_head_switching cfg env 720 H field fY k
      = some (head_switching_loop 720 H 792 0 (H + 50) (464 + (field : Int)) 0 0 0 fY, k) := by
  have e1 : toInt (fmod1 ((0.97 : ℚ) + 0) * (((720 + 720 / 10 : Nat) : ℚ) * 262.5))
      = 201663 := by
    have a : toInt ((0.97 : ℚ) + 0) = 0 := by
      unfold toInt
      rw [if_pos (by norm_num)]
      rw [Int.floor_eq_iff]
      norm_num
    unfold fmod1
    rw [a]
    have b : ((0.97 : ℚ) + 0 - ((0 : Int) : ℚ)) * (((720 + 720 / 10 : Nat) : ℚ) * 262.5)
        = ((201663 : Nat) : ℚ) := by norm_num
    rw [b, toInt_natCast]
    rfl
  have e2 : toInt (fmod1 ((0.0 : ℚ) + 0) * (((720 + 720 / 10 : Nat) : ℚ) * 262.5)) = 0 := by
    have a : toInt ((0.0 : ℚ) + 0) = 0 := by
      unfold toInt
      rw [if_pos (by norm_num)]
      rw [Int.floor_eq_iff]
      norm_num
    unfold fmod1
    rw [a]
    have b : ((0.0 : ℚ) + 0 - ((0 : Int) : ℚ)) * (((720 + 720 / 10 : Nat) : ℚ) * 262.5)
        = ((0 : Nat) : ℚ) := by norm_num
    rw [b, toInt_natCast]
    rfl
  unfold composite_layer_head_switching
  rw [if_pos hs]
  simp only [hn, ne_eq, not_true_eq_false, if_false, hpt, hph, hntsc, if_true, e1, e2]
  rw [if_neg (by decide)]
  have e3 : u32 201663 = 201663 := by decide
  have e4 : u32 0 = 0 := by decide
  simp only [e3, e4]
  have e5 : ((((201663 / (720 + 720 / 10)) * 2 + field : Nat) : Int)) - (262 - 240) * 2
      = 464 + (field : Int) := by
    have : 201663 / (720 + 720 / 10) = 254 := by decide
    rw [this]
    push_cast
    ring
  rw [e5]
  rfl

/-- Claim C14, counterexample. With head switching enabled, point 0.97, phase 0.0, noise
level 0 and NTSC, the stage run on a 720×480 luma plane whose rows are the ramp
`1, 2, 3, …` (on which any nonzero horizontal shift would be visible) starts at row 464,
not 468, with displacement 0, and returns the plane as it was: no row of 468..479 is
shifted. -/
theorem head_switching_phase_zero_shifts_nothing :
    composite_layer_head_switching headSwitchingConfig zeroEnv 720 480 0 rampPlane 0
        = some (head_switching_loop 720 480 792 0 530 464 0 0 0 rampPlane, 0)
    ∧ composite_layer_head_switching headSwitchingConfig zeroEnv 720 480 0 rampPlane 0
        = some (rampPlane, 0)
    ∧ (∀ y x, 468 ≤ y → y ≤ 479 →
        ((composite_layer_head_switching headSwitchingConfig zeroEnv 720 480 0 rampPlane 0).map
          fun r => r.1 y x) = some (rampPlane y x)) := by
  have h := composite_layer_head_switching_at_phase_zero headSwitchingConfig zeroEnv 480 0
    rampPlane 0 rfl rfl rfl rfl rfl
  have h2 : composite_layer_head_switching headSwitchingConfig zeroEnv 720 480 0 rampPlane 0
      = some (rampPlane, 0) := by
    rw [h, head_switching_loop_zero]
  refine ⟨h, h2, ?_⟩
  intro y x _ _
  rw [h2]
  rfl

/-- Claim C14, amended. With head switching enabled, `vhs_head_switching_point = 0.97`,
`vhs_head_switching_phase = 0.0`, noise level 0, NTSC and a 720×480 frame, the head
switching stage starts at row `464 + field` with horizontal displacement 0 (the
displacement is taken from the phase), so the shift is 0 on every row and the luma plane
is returned unchanged, without a random draw. -/
theorem head_switching_phase_zero_leaves_luma (cfg : Config) (env : Env) (field : Nat)
    (fY : Plane) (k : Nat)
    (hs : cfg.vhs_head_switching = true) (hpt : cfg.vhs_head_switching_point = 0.97)
    (hph : cfg.vhs_head_switching_phase = 0.0) (hn : cfg.vhs_head_switching_phase_noise = 0)
    (hntsc : cfg.output_ntsc = true) :
    composite_layer_head_switching cfg env 720 480 field fY k
        = some (head_switching_loop 720 480 792 0 530 (464 + (field : Int)) 0 0 0 fY, k)
    ∧ composite_layer_head_switching cfg env 720 480 field fY k = some (fY, k) := by
  have h := composite_layer_head_switching_at_phase_zero cfg env 480 field fY k hs hpt hph hn
    hntsc
  refine ⟨h, ?_⟩
  rw [h, head_switching_loop_zero]

theorem head_switching_phase_zero_leaves_luma_witness :
    composite_layer_head_switching headSwitchingConfig zeroEnv 720 480 1 (fun _ _ => 5) 3
        = some (head_switching_loop 720 480 792 0 530 (464 + ((1 : Nat) : Int)) 0 0 0
            (fun _ _ => 5), 3)
    ∧ composite_layer_head_switching headSwitchingConfig zeroEnv 720 480 1 (fun _ _ => 5) 3
        = some (fun _ _ => 5, 3) :=
  head_switching_phase_zero_leaves_luma headSwitchingConfig zeroEnv 1 (fun _ _ => 5) 3
    rfl rfl rfl rfl rfl

/-! ## Luma noise -/

/-- Claim C20, counterexample. On a 1×3 plane of luma 100 with `video_noise = 2`, the
first draw `u = 2` and the later draws `u = 0`, the stage leaves `Y = 100` on row 0 (the
accumulator is added before it is updated) and gives `Y = 101` on row 2 (the accumulator
1 left by row 0 is carried into row 2), whereas the stage described in the claim gives
101 on row 0 and 100 on row 2; and with `video_noise = -1` a draw `rand() = 5` gives
`u = 6`, outside `[-v, +v]`. -/
theorem video_noise_not_reset_per_row :
    (composite_layer_video_noise { video_noise := 2 } drawEnv 1 3 0 (fun _ _ => 100) 0).1 0 0
        = 100
    ∧ (composite_layer_video_noise { video_noise := 2 } drawEnv 1 3 0 (fun _ _ => 100) 0).1 2 0
        = 101
    ∧ (video_noise_spec { video_noise := 2 } drawEnv 1 3 0 (fun _ _ => 100) 0).1 0 0 = 101
    ∧ (video_noise_spec { video_noise := 2 } drawEnv 1 3 0 (fun _ _ => 100) 0).1 2 0 = 100
    ∧ noiseDraw { rand := fun _ => 5, sin := fun _ => 0, cos := fun _ => 1 } 0
        (((-1 : Int) * 2) + 1) (-1) = 6 := by
  decide

theorem composite_layer_video_noise_eq (cfg : Config) (env : Env) (W H field : Nat)
    (fY : Plane) (k : Nat) (hv : cfg.video_noise ≠ 0) :
    composite_layer_video_noise cfg env W H field fY k
      = ((forFieldRows field H (fun y (st : NoiseState) =>
            forColumns W (video_noise_pixel env ((cfg.video_noise * 2) + 1) cfg.video_noise y)
              st) { fY := fY, noise := 0, k := k }).fY,
         (forFieldRows field H (fun y (st : NoiseState) =>
            forColumns W (video_noise_pixel env ((cfg.video_noise * 2) + 1) cfg.video_noise y)
              st) { fY := fY, noise := 0, k := k }).k) := by
  unfold composite_layer_video_noise
  rw [if_pos hv]
  rfl

/-- The column loop of the luma noise stage on row `y`, entered after `n0` pixels. -/
theorem video_noise_columns (env : Env) (v : Int) (k0 n0 y : Nat) (st : NoiseState)
    (hn : st.noise = noiseWalk env k0 v n0) (hk : st.k = k0 + n0) (m : Nat) :
    (forColumns m (video_noise_pixel env ((v * 2) + 1) v y) st).noise
        = noiseWalk env k0 v (n0 + m)
    ∧ (forColumns m (video_noise_pixel env ((v * 2) + 1) v y) st).k = k0 + (n0 + m)
    ∧ ∀ r x, (forColumns m (video_noise_pixel env ((v * 2) + 1) v y) st).fY r x
        = if r = y ∧ x < m then st.fY r x + noiseWalk env k0 v (n0 + x) else st.fY r x := by
  induction m with
  | zero =>
    refine ⟨hn, hk, ?_⟩
    intro r x
    rw [if_neg (by omega)]
    rfl
  | succ m ih =>
    obtain ⟨h1, h2, h3⟩ := ih
    rw [forColumns_succ]
    refine ⟨?_, ?_, ?_⟩
    · show Int.tdiv (_ + noiseDraw env _ _ _) 2 = _
      rw [h1, h2]
      rfl
    · show _ + 1 = _
      rw [h2]
      omega
    · intro r x
      show (Function.update _ y (store _ m (_ + _)) : Plane) r x = _
      by_cases hr : r = y
      · subst hr
        rw [Function.update_same, store_apply]
        by_cases hx : x = m
        · subst hx
          rw [if_pos rfl, h3, if_neg (by omega), h1, if_pos (by omega)]
        · rw [if_neg hx, h3]
          exact ite_iff _ _ _ _ (by omega)
      · rw [Function.update_noteq hr, h3, if_neg (by tauto), if_neg (by tauto)]

/-- The row loop of the luma noise stage after `i` rows of the field. -/
theorem video_noise_rows (env : Env) (v : Int) (k0 W field : Nat) (fY : Plane) (i : Nat) :
    (forColumns i (fun j (st : NoiseState) =>
        forColumns W (video_noise_pixel env ((v * 2) + 1) v (field + 2 * j)) st)
        { fY := fY, noise := 0, k := k0 }).noise = noiseWalk env k0 v (i * W)
    ∧ (forColumns i (fun j (st : NoiseState) =>
        forColumns W (video_noise_pixel env ((v * 2) + 1) v (field + 2 * j)) st)
        { fY := fY, noise := 0, k := k0 }).k = k0 + i * W
    ∧ ∀ r x, (forColumns i (fun j (st : NoiseState) =>
        forColumns W (video_noise_pixel env ((v * 2) + 1) v (field + 2 * j)) st)
        { fY := fY, noise := 0, k := k0 }).fY r x
        = if field ≤ r ∧ (r - field) % 2 = 0 ∧ (r - field) / 2 < i ∧ x < W then
            fY r x + noiseWalk env k0 v ((r - field) / 2 * W + x)
          else fY r x := by
  induction i with
  | zero =>
    refine ⟨by simp [forColumns_zero, noiseWalk], by simp [forColumns_zero], ?_⟩
    intro r x
    rw [if_neg (by omega)]
    rfl
  | succ i ih =>
    obtain ⟨h1, h2, h3⟩ := ih
    rw [forColumns_succ]
    obtain ⟨c1, c2, c3⟩ := video_noise_columns env v k0 (i * W) (field + 2 * i) _ h1 h2 W
    refine ⟨?_, ?_, ?_⟩
    · rw [c1]
      congr 1
      ring
    · rw [c2]
      ring
    · intro r x
      rw [c3, h3]
      by_cases hr : r = field + 2 * i
      · subst hr
        have e : (field + 2 * i - field) / 2 = i := by omega
        by_cases hx : x < W
        · rw [if_pos ⟨rfl, hx⟩, if_neg (by omega), if_pos ⟨by omega, by omega, by omega, hx⟩, e]
        · rw [if_neg (by tauto), if_neg (by tauto), if_neg (by tauto)]
      · rw [if_neg (by tauto)]
        exact ite_iff _ _ _ _ (by omega)

theorem noiseDraw_range (env : Env) (n : Nat) (v : Int) (h1 : 1 ≤ v) (h2 : v < 2 ^ 30) :
    -v ≤ noiseDraw env n ((v * 2) + 1) v ∧ noiseDraw env n ((v * 2) + 1) v ≤ v := by
  unfold noiseDraw
  have hm : (u32 ((v * 2) + 1) : Int) = (v * 2) + 1 := u32_small _ (by omega) (by omega)
  have hpos : 0 < u32 ((v * 2) + 1) := by omega
  have hr := Nat.mod_lt (u32 (env.rand n)) hpos
  generalize u32 (env.rand n) % u32 ((v * 2) + 1) = r at hr ⊢
  generalize u32 ((v * 2) + 1) = m at hm hr
  unfold i32
  split <;> omega

/-- Claim C20, amended. In the luma noise stage with `video_noise = v ≠ 0` the accumulator
is set to 0 once, before the first row of the field, and is carried over from each row to
the next: the sample at column `x` of the `i`-th row of the field receives the value the
accumulator has after `i · width + x` pixels, that is, each column first adds the current
accumulator to `Y[x]` and then updates `noise := (noise + u) / 2` (truncating) with the
next draw `u`; one draw is made per pixel; and for `1 ≤ v < 2^30` every draw `u` lies in
`[-v, +v]`. -/
theorem video_noise_carries_across_rows (cfg : Config) (env : Env) (W H field : Nat)
    (fY : Plane) (k : Nat) (hv : cfg.video_noise ≠ 0) :
    (∀ y x, visited field H y → x < W →
      (composite_layer_video_noise cfg env W H field fY k).1 y x
        = fY y x + noiseWalk env k cfg.video_noise ((y - field) / 2 * W + x))
    ∧ (composite_layer_video_noise cfg env W H field fY k).2 = k + (H + 1 - field) / 2 * W
    ∧ noiseWalk env k cfg.video_noise 0 = 0
    ∧ (∀ n, noiseWalk env k cfg.video_noise (n + 1)
        = Int.tdiv (noiseWalk env k cfg.video_noise n
            + noiseDraw env (k + n) ((cfg.video_noise * 2) + 1) cfg.video_noise) 2)
    ∧ (1 ≤ cfg.video_noise → cfg.video_noise < 2 ^ 30 → ∀ n,
        -cfg.video_noise ≤ noiseDraw env n ((cfg.video_noise * 2) + 1) cfg.video_noise
        ∧ noiseDraw env n ((cfg.video_noise * 2) + 1) cfg.video_noise ≤ cfg.video_noise) := by
  obtain ⟨-, h2, h3⟩ := video_noise_rows env cfg.video_noise k W field fY
    ((H + 1 - field) / 2)
  refine ⟨?_, ?_, rfl, fun _ => rfl, fun h1 h2 n => noiseDraw_range env n _ h1 h2⟩
  · intro y x hy hx
    obtain ⟨-, hi⟩ := visited_index field H y hy
    rw [composite_layer_video_noise_eq cfg env W H field fY k hv, forFieldRows_eq_forColumns]
    show NoiseState.fY (forColumns _ _ _) y x = _
    rw [h3, if_pos ⟨hy.1, hy.2.2, hi, hx⟩]
  · rw [composite_layer_video_noise_eq cfg env W H field fY k hv, forFieldRows_eq_forColumns]
    exact h2

theorem video_noise_carries_across_rows_witness :
    ({ video_noise := 2 } : Config).video_noise ≠ 0
    ∧ (composite_layer_video_noise { video_noise := 2 } drawEnv 1 3 0 (fun _ _ => 100) 0).1 2 0
        = 100 + noiseWalk drawEnv 0 2 ((2 - 0) / 2 * 1 + 0)
    ∧ (composite_layer_video_noise { video_noise := 2 } drawEnv 1 3 0 (fun _ _ => 100) 0).2
        = 0 + (3 + 1 - 0) / 2 * 1 :=
  ⟨by decide,
   (video_noise_carries_across_rows { video_noise := 2 } drawEnv 1 3 0 (fun _ _ => 100) 0
      (by decide)).1 2 0 (by decide) (by decide),
   (video_noise_carries_across_rows { video_noise := 2 } drawEnv 1 3 0 (fun _ _ => 100) 0
      (by decide)).2.1⟩

/-! ## Vertical chroma blend -/

/-- The column loop of the vertical blend on row `y`. -/
theorem vert_blend_columns (y : Nat) (st : BlendState) (m : Nat) :
    (∀ r x, (forColumns m (vert_blend_step y) st).fI r x
        = if r = y ∧ x < m then (st.delayU x + st.fI y x + 1) >>> (1 : Nat) else st.fI r x)
    ∧ (∀ r x, (forColumns m (vert_blend_step y) st).fQ r x
        = if r = y ∧ x < m then (st.delayV x + st.fQ y x + 1) >>> (1 : Nat) else st.fQ r x)
    ∧ (∀ x, (forColumns m (vert_blend_step y) st).delayU x
        = if x < m then st.fI y x else st.delayU x)
    ∧ (∀ x, (forColumns m (vert_blend_step y) st).delayV x
        = if x < m then st.fQ y x else st.delayV x) := by
  induction m with
  | zero =>
    refine ⟨?_, ?_, ?_, ?_⟩ <;> intros <;> rw [if_neg (by omega)] <;> rfl
  | succ m ih =>
    obtain ⟨h1, h2, h3, h4⟩ := ih
    rw [forColumns_succ]
    have a1 : (forColumns m (vert_blend_step y) st).fI y m = st.fI y m := by
      rw [h1, if_neg (by omega)]
    have a2 : (forColumns m (vert_blend_step y) st).fQ y m = st.fQ y m := by
      rw [h2, if_neg (by omega)]
    have a3 : (forColumns m (vert_blend_step y) st).delayU m = st.delayU m := by
      rw [h3, if_neg (by omega)]
    have a4 : (forColumns m (vert_blend_step y) st).delayV m = st.delayV m := by
      rw [h4, if_neg (by omega)]
    refine ⟨?_, ?_, ?_, ?_⟩
    · intro r x
      show (Function.update _ y (store _ m _) : Plane) r x = _
      by_cases hr : r = y
      · subst hr
        rw [Function.update_same, store_apply]
        by_cases hx : x = m
        · subst hx
          rw [if_pos rfl, a1, a3, if_pos (by omega)]
        · rw [if_neg hx, h1]
          exact ite_iff _ _ _ _ (by omega)
      · rw [Function.update_noteq hr, h1, if_neg (by tauto), if_neg (by tauto)]
    · intro r x
      show (Function.update _ y (store _ m _) : Plane) r x = _
      by_cases hr : r = y
      · subst hr
        rw [Function.update_same, store_apply]
        by_cases hx : x = m
        · subst hx
          rw [if_pos rfl, a2, a4, if_pos (by omega)]
        · rw [if_neg hx, h2]
          exact ite_iff _ _ _ _ (by omega)
      · rw [Function.update_noteq hr, h2, if_neg (by tauto), if_neg (by tauto)]
    · intro x
      show store _ m _ x = _
      rw [store_apply]
      by_cases hx : x = m
      · subst hx
        rw [if_pos rfl, a1, if_pos (by omega)]
      · rw [if_neg hx, h3]
        exact ite_iff _ _ _ _ (by omega)
    · intro x
      show store _ m _ x = _
      rw [store_apply]
      by_cases hx : x = m
      · subst hx
        rw [if_pos rfl, a2, if_pos (by omega)]
      · rw [if_neg hx, h4]
        exact ite_iff _ _ _ _ (by omega)

/-- The row loop of the vertical blend after `i` rows, the first of them row `f2`: the
delay lines hold the samples the planes had in the last row blended, or zeros before the
first row; each blended row holds the rounded mean of its own samples and the delay
line. -/
theorem vert_blend_rows (W f2 : Nat) (p : Planes) (i : Nat) :
    (∀ r x, (forColumns i (fun j (st : BlendState) =>
          forColumns W (vert_blend_step (f2 + 2 * j)) st)
          { fI := p.fI, fQ := p.fQ, delayU := fun _ => 0, delayV := fun _ => 0 }).fI r x
        = if f2 ≤ r ∧ (r - f2) % 2 = 0 ∧ (r - f2) / 2 < i ∧ x < W then
            ((if r = f2 then 0 else p.fI (r - 2) x) + p.fI r x + 1) >>> (1 : Nat)
          else p.fI r x)
    ∧ (∀ r x, (forColumns i (fun j (st : BlendState) =>
          forColumns W (vert_blend_step (f2 + 2 * j)) st)
          { fI := p.fI, fQ := p.fQ, delayU := fun _ => 0, delayV := fun _ => 0 }).fQ r x
        = if f2 ≤ r ∧ (r - f2) % 2 = 0 ∧ (r - f2) / 2 < i ∧ x < W then
            ((if r = f2 then 0 else p.fQ (r - 2) x) + p.fQ r x + 1) >>> (1 : Nat)
          else p.fQ r x)
    ∧ (∀ x, (forColumns i (fun j (st : BlendState) =>
          forColumns W (vert_blend_step (f2 + 2 * j)) st)
          { fI := p.fI, fQ := p.fQ, delayU := fun _ => 0, delayV := fun _ => 0 }).delayU x
        = if i = 0 ∨ W ≤ x then 0 else p.fI (f2 + 2 * i - 2) x)
    ∧ (∀ x, (forColumns i (fun j (st : BlendState) =>
          forColumns W (vert_blend_step (f2 + 2 * j)) st)
          { fI := p.fI, fQ := p.fQ, delayU := fun _ => 0, delayV := fun _ => 0 }).delayV x
        = if i = 0 ∨ W ≤ x then 0 else p.fQ (f2 + 2 * i - 2) x) := by
  induction i with
  | zero =>
    refine ⟨?_, ?_, ?_, ?_⟩
    · intro r x
      rw [if_neg (by omega)]
      rfl
    · intro r x
      rw [if_neg (by omega)]
      rfl
    · intro x
      rw [if_pos (Or.inl rfl)]
      rfl
    · intro x
      rw [if_pos (Or.inl rfl)]
      rfl
  | succ i ih =>
    obtain ⟨h1, h2, h3, h4⟩ := ih
    rw [forColumns_succ]
    obtain ⟨c1, c2, c3, c4⟩ := vert_blend_columns (f2 + 2 * i)
      (forColumns i (fun j (st : BlendState) =>
          forColumns W (vert_blend_step (f2 + 2 * j)) st)
          { fI := p.fI, fQ := p.fQ, delayU := fun _ => 0, delayV := fun _ => 0 }) W
    have b1 : ∀ x, (forColumns i (fun j (st : BlendState) =>
          forColumns W (vert_blend_step (f2 + 2 * j)) st)
          { fI := p.fI, fQ := p.fQ, delayU := fun _ => 0, delayV := fun _ => 0 }).fI
            (f2 + 2 * i) x = p.fI (f2 + 2 * i) x := by
      intro x
      rw [h1, if_neg (by omega)]
    have b2 : ∀ x, (forColumns i (fun j (st : BlendState) =>
          forColumns W (vert_blend_step (f2 + 2 * j)) st)
          { fI := p.fI, fQ := p.fQ, delayU := fun _ => 0, delayV := fun _ => 0 }).fQ
            (f2 + 2 * i) x = p.fQ (f2 + 2 * i) x := by
      intro x
      rw [h2, if_neg (by omega)]
    refine ⟨?_, ?_, ?_, ?_⟩
    · intro r x
      rw [c1, b1, h3, h1]
      by_cases hr : r = f2 + 2 * i
      · subst hr
        by_cases hx : x < W
        · have k1 : f2 + 2 * i = f2 + 2 * i ∧ x < W := ⟨rfl, hx⟩
          have k2 : f2 ≤ f2 + 2 * i ∧ (f2 + 2 * i - f2) % 2 = 0
              ∧ (f2 + 2 * i - f2) / 2 < i + 1 ∧ x < W := ⟨by omega, by omega, by omega, hx⟩
          rw [if_pos k1, if_pos k2]
          congr 3
          exact ite_iff _ _ _ _ (by omega)
        · have k1 : ¬ (f2 + 2 * i = f2 + 2 * i ∧ x < W) := by tauto
          have k2 : ¬ (f2 ≤ f2 + 2 * i ∧ (f2 + 2 * i - f2) % 2 = 0
              ∧ (f2 + 2 * i - f2) / 2 < i + 1 ∧ x < W) := by tauto
          have k3 : ¬ (f2 ≤ f2 + 2 * i ∧ (f2 + 2 * i - f2) % 2 = 0
              ∧ (f2 + 2 * i - f2) / 2 < i ∧ x < W) := by tauto
          rw [if_neg k1, if_neg k2, if_neg k3]
      · have k1 : ¬ (r = f2 + 2 * i ∧ x < W) := by tauto
        rw [if_neg k1]
        exact ite_iff _ _ _ _ (by omega)
    · intro r x
      rw [c2, b2, h4, h2]
      by_cases hr : r = f2 + 2 * i
      · subst hr
        by_cases hx : x < W
        · have k1 : f2 + 2 * i = f2 + 2 * i ∧ x < W := ⟨rfl, hx⟩
          have k2 : f2 ≤ f2 + 2 * i ∧ (f2 + 2 * i - f2) % 2 = 0
              ∧ (f2 + 2 * i - f2) / 2 < i + 1 ∧ x < W := ⟨by omega, by omega, by omega, hx⟩
          rw [if_pos k1, if_pos k2]
          congr 3
          exact ite_iff _ _ _ _ (by omega)
        · have k1 : ¬ (f2 + 2 * i = f2 + 2 * i ∧ x < W) := by tauto
          have k2 : ¬ (f2 ≤ f2 + 2 * i ∧ (f2 + 2 * i - f2) % 2 = 0
              ∧ (f2 + 2 * i - f2) / 2 < i + 1 ∧ x < W) := by tauto
          have k3 : ¬ (f2 ≤ f2 + 2 * i ∧ (f2 + 2 * i - f2) % 2 = 0
              ∧ (f2 + 2 * i - f2) / 2 < i ∧ x < W) := by tauto
          rw [if_neg k1, if_neg k2, if_neg k3]
      · have k1 : ¬ (r = f2 + 2 * i ∧ x < W) := by tauto
        rw [if_neg k1]
        exact ite_iff _ _ _ _ (by omega)
    · intro x
      rw [c3, b1, h3]
      have e : f2 + 2 * (i + 1) - 2 = f2 + 2 * i := by omega
      by_cases hx : x < W
      · rw [if_pos hx, if_neg (by omega : ¬ (i + 1 = 0 ∨ W ≤ x)), e]
      · rw [if_neg hx, if_pos (by omega : i = 0 ∨ W ≤ x),
          if_pos (by omega : i + 1 = 0 ∨ W ≤ x)]
    · intro x
      rw [c4, b2, h4]
      have e : f2 + 2 * (i + 1) - 2 = f2 + 2 * i := by omega
      by_cases hx : x < W
      · rw [if_pos hx, if_neg (by omega : ¬ (i + 1 = 0 ∨ W ≤ x)), e]
      · rw [if_neg hx, if_pos (by omega : i = 0 ∨ W ≤ x),
          if_pos (by omega : i + 1 = 0 ∨ W ≤ x)]

/-- Claim C16 and the code. The vertical blend rewrites the rows `field + 2`, `field + 4`,
… of the field below the frame height: at every column `x < width` the blended `I` (and
likewise `Q`) sample is `(P + C + 1) >> 1`, where `C` is the row's own sample before the
blend and `P` is the sample before the blend of the previous row of the field, except on
row `field + 2`, where `P` is 0 because the delay lines start zeroed and the loop starts
at the second row of the field. On a 1×3 frame with `I = 10` on row 0 and `I = 20` on
row 2 the blended sample of row 2 is `(0 + 20 + 1) >> 1 = 10`, not
`(10 + 20 + 1) >> 1 = 15`. -/
theorem vert_blend_second_row_uses_zero :
    (∀ (W H field : Nat) (p : Planes) (r x : Nat),
      (vhs_vert_blend W H field p).fI r x
          = (if field + 2 ≤ r ∧ r < H ∧ (r - field) % 2 = 0 ∧ x < W then
              ((if r = field + 2 then 0 else p.fI (r - 2) x) + p.fI r x + 1) >>> (1 : Nat)
            else p.fI r x)
      ∧ (vhs_vert_blend W H field p).fQ r x
          = (if field + 2 ≤ r ∧ r < H ∧ (r - field) % 2 = 0 ∧ x < W then
              ((if r = field + 2 then 0 else p.fQ (r - 2) x) + p.fQ r x + 1) >>> (1 : Nat)
            else p.fQ r x))
    ∧ (vhs_vert_blend 1 3 0
        { fY := fun _ _ => 0, fI := fun y _ => if y = 0 then 10 else 20,
          fQ := fun _ _ => 0 }).fI 2 0 = 10
    ∧ ((10 : Int) + 20 + 1) >>> (1 : Nat) = 15 := by
  refine ⟨?_, by decide, by decide⟩
  intro W H field p r x
  obtain ⟨h1, h2, -, -⟩ := vert_blend_rows W (field + 2) p ((H + 1 - (field + 2)) / 2)
  have e1 : (vhs_vert_blend W H field p).fI
      = (forColumns ((H + 1 - (field + 2)) / 2) (fun j (st : BlendState) =>
          forColumns W (vert_blend_step (field + 2 + 2 * j)) st)
          { fI := p.fI, fQ := p.fQ, delayU := fun _ => 0, delayV := fun _ => 0 }).fI := by
    unfold vhs_vert_blend
    rw [forFieldRows_eq_forColumns]
  have e2 : (vhs_vert_blend W H field p).fQ
      = (forColumns ((H + 1 - (field + 2)) / 2) (fun j (st : BlendState) =>
          forColumns W (vert_blend_step (field + 2 + 2 * j)) st)
          { fI := p.fI, fQ := p.fQ, delayU := fun _ => 0, delayV := fun _ => 0 }).fQ := by
    unfold vhs_vert_blend
    rw [forFieldRows_eq_forColumns]
  rw [e1, e2, h1, h2]
  constructor <;> exact ite_iff _ _ _ _ (by omega)

/-! ## Order of the stages -/

theorem composite_layer_planes_order (cfg : Config) (env : Env) (src : AVFrame)
    (spx : Nat → Nat → Nat) (W H field fieldno k : Nat) :
    composite_layer_planes cfg env src spx W H field fieldno k
      = (composite_layer_demodulated cfg env src spx W H field fieldno k).bind fun pk =>
          (composite_layer_vhs cfg W H field fieldno pk.1).map fun p =>
            (composite_layer_out_lowpass cfg W H field
                (composite_layer_chroma_loss cfg env W H field p pk.2).1,
              (composite_layer_chroma_loss cfg env W H field p pk.2).2) := by
  unfold composite_layer_planes composite_layer_demodulated
  simp only []
  cases composite_layer_head_switching cfg env W H field _ _ with
  | none => rfl
  | some yk =>
    simp only [Option.some_bind]
    split
    · cases chroma_from_luma cfg.video_scanline_phase_shift
        cfg.video_scanline_phase_shift_offset W H field fieldno cfg.subcarrier_amplitude_back _
        <;> rfl
    · rfl

theorem composite_layer_planes_spec_order_eq (cfg : Config) (env : Env) (src : AVFrame)
    (spx : Nat → Nat → Nat) (W H field fieldno k : Nat) :
    composite_layer_planes_spec_order cfg env src spx W H field fieldno k
      = (composite_layer_demodulated cfg env src spx W H field fieldno k).bind fun pk =>
          (composite_layer_vhs cfg W H field fieldno
              (composite_layer_chroma_loss cfg env W H field pk.1 pk.2).1).map fun p =>
            (composite_layer_out_lowpass cfg W H field p,
              (composite_layer_chroma_loss cfg env W H field pk.1 pk.2).2) := by
  unfold composite_layer_planes_spec_order composite_layer_demodulated
  simp only []
  cases composite_layer_head_switching cfg env W H field _ _ with
  | none => rfl
  | some yk =>
    simp only [Option.some_bind]
    split
    · cases chroma_from_luma cfg.video_scanline_phase_shift
        cfg.video_scanline_phase_shift_offset W H field fieldno cfg.subcarrier_amplitude_back _
        <;> rfl
    · rfl

theorem composite_layer_chroma_loss_off (cfg : Config) (env : Env) (W H field : Nat)
    (p : Planes) (k : Nat) (h : cfg.video_chroma_loss = 0) :
    composite_layer_chroma_loss cfg env W H field p k = (p, k) := by
  unfold composite_layer_chroma_loss
  rw [if_neg (by simp [h])]

theorem composite_layer_vhs_off (cfg : Config) (W H field fieldno : Nat) (p : Planes)
    (h : cfg.emulating_vhs = false) : composite_layer_vhs cfg W H field fieldno p = some p := by
  unfold composite_layer_vhs
  rw [if_neg (by simp [h])]

/-- Claim C17, amended. `composite_layer` applies the chroma dropout stage after the VHS
stage, not before it: the planes of the field are
`outputLowpass(chromaLoss(vhsStage(phaseNoise(chromaNoise(demodulate(…))))))`; this is the
order of the data flow of the specification when `video_chroma_loss = 0` or VHS emulation
is off. -/
theorem chroma_loss_follows_vhs (cfg : Config) (env : Env) (src : AVFrame)
    (spx : Nat → Nat → Nat) (W H field fieldno k : Nat) :
    composite_layer_planes cfg env src spx W H field fieldno k
        = ((composite_layer_demodulated cfg env src spx W H field fieldno k).bind fun pk =>
            (composite_layer_vhs cfg W H field fieldno pk.1).map fun p =>
              (composite_layer_out_lowpass cfg W H field
                  (composite_layer_chroma_loss cfg env W H field p pk.2).1,
                (composite_layer_chroma_loss cfg env W H field p pk.2).2))
    ∧ (cfg.video_chroma_loss = 0 ∨ cfg.emulating_vhs = false →
        composite_layer_planes cfg env src spx W H field fieldno k
          = composite_layer_planes_spec_order cfg env src spx W H field fieldno k) := by
  refine ⟨composite_layer_planes_order cfg env src spx W H field fieldno k, ?_⟩
  intro h
  rw [composite_layer_planes_order, composite_layer_planes_spec_order_eq]
  cases composite_layer_demodulated cfg env src spx W H field fieldno k with
  | none => rfl
  | some pk =>
    simp only [Option.some_bind]
    rcases h with h | h
    · simp only [composite_layer_chroma_loss_off cfg env W H field _ _ h]
    · simp only [composite_layer_vhs_off cfg W H field fieldno _ h, Option.map_some']

theorem chroma_loss_follows_vhs_witness :
    (quietConfig.video_chroma_loss = 0 ∨ quietConfig.emulating_vhs = false)
    ∧ composite_layer_planes quietConfig zeroEnv (solidFrame 255) (fun _ _ => 255) 2 2 0 0 0
        = composite_layer_planes_spec_order quietConfig zeroEnv (solidFrame 255)
            (fun _ _ => 255) 2 2 0 0 0 :=
  ⟨Or.inl rfl,
   (chroma_loss_follows_vhs quietConfig zeroEnv (solidFrame 255) (fun _ _ => 255) 2 2 0 0 0).2
     (Or.inl rfl)⟩

/-! ### A frame on which the two orders differ -/

theorem forColumns_fixed {σ : Type} (n : Nat) (body : Nat → σ → σ) (s : σ)
    (h : ∀ i, body i s = s) : forColumns n body s = s := by
  induction n with
  | zero => rfl
  | succ n ih => rw [forColumns_succ, ih, h]

/-- A row loop that rewrites only the luma plane leaves the chroma planes as they are. -/
theorem luma_rows_keep_chroma (field H : Nat) (g : Nat → Scanline → Scanline) (p : Planes) :
    (forFieldRows field H (fun y (p : Planes) =>
        { p with fY := (Function.update p.fY y (g y (p.fY y))) }) p).fI = p.fI
    ∧ (forFieldRows field H (fun y (p : Planes) =>
        { p with fY := (Function.update p.fY y (g y (p.fY y))) }) p).fQ = p.fQ := by
  rw [forFieldRows_eq_forColumns]
  generalize (H + 1 - field) / 2 = n
  induction n with
  | zero => exact ⟨rfl, rfl⟩
  | succ n ih =>
    rw [forColumns_succ]
    exact ih

/-- On a row not wider than the delay the VHS chroma lowpass stores nothing. -/
theorem vhs_chroma_lowpass_row_narrow (W : Nat) (cut : ℚ) (delay : Nat) (U V : Scanline)
    (h : W ≤ delay) : vhs_chroma_lowpass_row W cut delay U V = (U, V) := by
  unfold vhs_chroma_lowpass_row
  have key : ∀ m, m ≤ delay →
      (forColumns m
        (fun x (st : (Scanline × List LowpassFilter) × (Scanline × List LowpassFilter)) =>
          (delayedLowpassStep delay x st.1, delayedLowpassStep delay x st.2))
        ((U, filters3 cut 0), (V, filters3 cut 0))).1.1 = U
      ∧ (forColumns m
        (fun x (st : (Scanline × List LowpassFilter) × (Scanline × List LowpassFilter)) =>
          (delayedLowpassStep delay x st.1, delayedLowpassStep delay x st.2))
        ((U, filters3 cut 0), (V, filters3 cut 0))).2.1 = V := by
    intro m
    induction m with
    | zero => intro _; exact ⟨rfl, rfl⟩
    | succ m ih =>
      intro hm
      obtain ⟨h1, h2⟩ := ih (by omega)
      rw [forColumns_succ]
      constructor
      · show (delayedLowpassStep delay m _).1 = U
        unfold delayedLowpassStep
        simp only []
        rw [if_neg (by omega)]
        exact h1
      · show (delayedLowpassStep delay m _).1 = V
        unfold delayedLowpassStep
        simp only []
        rw [if_neg (by omega)]
        exact h2
  obtain ⟨h1, h2⟩ := key W h
  simp only []
  rw [h1, h2]

theorem vhs_vert_blend_congr (W H field : Nat) (p q : Planes) (hI : q.fI = p.fI)
    (hQ : q.fQ = p.fQ) :
    (vhs_vert_blend W H field q).fI = (vhs_vert_blend W H field p).fI
    ∧ (vhs_vert_blend W H field q).fQ = (vhs_vert_blend W H field p).fQ := by
  unfold vhs_vert_blend
  simp [hI, hQ]

/-- With S-Video output and rows not wider than the chroma delay, the VHS stage at
standard play changes the chroma planes by the vertical blend only. -/
theorem composite_layer_vhs_svideo_narrow (cfg : Config) (W H field fieldno : Nat)
    (p : Planes) (hv : cfg.emulating_vhs = true) (hsp : cfg.output_vhs_tape_speed = VHS_SP)
    (hsv : cfg.vhs_svideo_out = true) (hb : cfg.vhs_chroma_vert_blend = true)
    (hn : cfg.output_ntsc = true) (hW : W ≤ 9) :
    ∃ p', composite_layer_vhs cfg W H field fieldno p = some p'
      ∧ p'.fI = (vhs_vert_blend W H field p).fI ∧ p'.fQ = (vhs_vert_blend W H field p).fQ := by
  unfold composite_layer_vhs
  rw [if_pos hv, hsp]
  have hprm : vhs_parameters VHS_SP = some (2400000, 320000, 9) := rfl
  rw [hprm]
  simp only [Option.some_bind]
  rw [if_neg (by simp [hsv]), if_pos ⟨hb, hn⟩]
  refine ⟨_, rfl, ?_⟩
  have hc : ∀ q : Planes, forFieldRows field H (fun y (p : Planes) =>
      ({ p with
          fI := Function.update p.fI y (vhs_chroma_lowpass_row W 320000 9 (p.fI y) (p.fQ y)).1,
          fQ := Function.update p.fQ y (vhs_chroma_lowpass_row W 320000 9 (p.fI y) (p.fQ y)).2 }
        : Planes)) q = q := by
    intro q
    rw [forFieldRows_eq_forColumns]
    apply forColumns_fixed
    intro i
    simp only [vhs_chroma_lowpass_row_narrow W 320000 9 _ _ hW, Function.update_eq_self]
  rw [hc]
  obtain ⟨s1, s2⟩ := luma_rows_keep_chroma field H
    (fun _ Y => vhs_sharpen_row W 2400000 cfg.vhs_out_sharpen Y)
    (vhs_vert_blend W H field (forFieldRows field H (fun y (p : Planes) =>
      { p with fY := Function.update p.fY y (vhs_luma_lowpass_row W 2400000 (p.fY y)) }) p))
  obtain ⟨l1, l2⟩ := luma_rows_keep_chroma field H
    (fun _ Y => vhs_luma_lowpass_row W 2400000 Y) p
  obtain ⟨b1, b2⟩ := vhs_vert_blend_congr W H field p _ l1 l2
  exact ⟨s1.trans b1, s2.trans b2⟩

/-- The vertical blend, sample by sample. -/
theorem vhs_vert_blend_spec (W H field : Nat) (p : Planes) (r x : Nat) :
    (vhs_vert_blend W H field p).fI r x
        = (if field + 2 ≤ r ∧ r < H ∧ (r - field) % 2 = 0 ∧ x < W then
            ((if r = field + 2 then 0 else p.fI (r - 2) x) + p.fI r x + 1) >>> (1 : Nat)
          else p.fI r x)
    ∧ (vhs_vert_blend W H field p).fQ r x
        = (if field + 2 ≤ r ∧ r < H ∧ (r - field) % 2 = 0 ∧ x < W then
            ((if r = field + 2 then 0 else p.fQ (r - 2) x) + p.fQ r x + 1) >>> (1 : Nat)
          else p.fQ r x) := by
  obtain ⟨h1, h2, -, -⟩ := vert_blend_rows W (field + 2) p ((H + 1 - (field + 2)) / 2)
  have e1 : (vhs_vert_blend W H field p).fI
      = (forColumns ((H + 1 - (field + 2)) / 2) (fun j (st : BlendState) =>
          forColumns W (vert_blend_step (field + 2 + 2 * j)) st)
          { fI := p.fI, fQ := p.fQ, delayU := fun _ => 0, delayV := fun _ => 0 }).fI := by
    unfold vhs_vert_blend
    rw [forFieldRows_eq_forColumns]
  have e2 : (vhs_vert_blend W H field p).fQ
      = (forColumns ((H + 1 - (field + 2)) / 2) (fun j (st : BlendState) =>
          forColumns W (vert_blend_step (field + 2 + 2 * j)) st)
          { fI := p.fI, fQ := p.fQ, delayU := fun _ => 0, delayV := fun _ => 0 }).fQ := by
    unfold vhs_vert_blend
    rw [forFieldRows_eq_forColumns]
  rw [e1, e2, h1, h2]
  constructor <;> exact ite_iff _ _ _ _ (by omega)

/-- The chroma dropout stage on a 4×5 field 0 when only the third draw is below the
threshold: rows 0 and 2 are kept, row 4 is cleared. -/
theorem chroma_loss_drops_row_four (p : Planes) :
    (composite_layer_chroma_loss dropoutConfig dropoutEnv 4 5 0 p 0).1.fI 2 0 = p.fI 2 0
    ∧ (composite_layer_chroma_loss dropoutConfig dropoutEnv 4 5 0 p 0).1.fI 4 0 = 0 := by
  unfold composite_layer_chroma_loss
  rw [if_pos (by decide), forFieldRows_eq_forColumns]
  have e : (5 + 1 - 0) / 2 = 3 := rfl
  rw [e]
  simp only [forColumns_succ, forColumns_zero]
  have c0 : ¬ (u32 (dropoutEnv.rand 0) % 100000 < u32 dropoutConfig.video_chroma_loss) := by
    decide
  have c1 : ¬ (u32 (dropoutEnv.rand (0 + 1)) % 100000 < u32 dropoutConfig.video_chroma_loss) := by
    decide
  have c2 : u32 (dropoutEnv.rand (0 + 1 + 1)) % 100000 < u32 dropoutConfig.video_chroma_loss := by
    decide
  simp only [if_neg c0, if_neg c1, if_pos c2]
  constructor
  · show Function.update p.fI (0 + 2 * 2) _ 2 0 = _
    rw [Function.update_noteq (by decide)]
  · show Function.update p.fI (0 + 2 * 2) _ 4 0 = _
    rw [Function.update_same]
    rfl

theorem composite_layer_demodulated_plain (cfg : Config) (env : Env) (src : AVFrame)
    (spx : Nat → Nat → Nat) (W H field fieldno k : Nat)
    (h1 : cfg.composite_in_chroma_lowpass = false) (h2 : cfg.composite_preemphasis = 0)
    (h3 : cfg.video_noise = 0) (h4 : cfg.vhs_head_switching = false)
    (h5 : cfg.nocolor_subcarrier = false) (h6 : cfg.video_chroma_noise = 0)
    (h7 : cfg.video_chroma_phase_noise = 0) :
    composite_layer_demodulated cfg env src spx W H field fieldno k
      = (chroma_from_luma cfg.video_scanline_phase_shift cfg.video_scanline_phase_shift_offset
          W H field fieldno cfg.subcarrier_amplitude_back
          (chroma_into_luma cfg.video_scanline_phase_shift
            cfg.video_scanline_phase_shift_offset W H field fieldno cfg.subcarrier_amplitude
            (composite_layer_fill W H field src spx))).map fun p => (p, k) := by
  unfold composite_layer_demodulated composite_layer_preemphasis composite_layer_video_noise
    composite_layer_head_switching composite_layer_chroma_noise composite_layer_phase_noise
  simp only [h1, h2, h3, h4, h5, h6, h7]
  simp

set_option maxRecDepth 1000000 in
/-- The demodulated `I` sample at row 2, column 0 of field 0 of a 4×5 pure red frame with
the initial phase settings and amplitude 50. -/
theorem wide_red_frame_chroma :
    (chroma_from_luma 180 0 4 5 0 0 50
        (chroma_into_luma 180 0 4 5 0 0 50
          (composite_layer_fill 4 5 0 (wideFrame 0xFF0000) (fun _ _ => 0xFF0000)))).map
      (fun p => p.fI 2 0) = some 24463 := by
  unfold composite_layer_fill
  simp only [RGB_to_YIQ_eq_int]
  decide

/-- Claim C17, counterexample. On a 4×5 pure red frame, field 0, with VHS emulation and
S-Video output, `video_chroma_loss = 50000` and draws that drop row 4 only, the planes of
`composite_layer` have `I = 0` at row 4, column 0 (the dropout clears the row after the
VHS stage), whereas the stages in the order of the claim, dropout before the VHS stage,
give `I = 12232` there (the vertical blend of the VHS stage mixes row 2 into the cleared
row). -/
theorem chroma_loss_not_before_vhs :
    (composite_layer_planes dropoutConfig dropoutEnv (wideFrame 0xFF0000)
        (fun _ _ => 0xFF0000) 4 5 0 0 0).map (fun r => r.1.fI 4 0) = some 0
    ∧ (composite_layer_planes_spec_order dropoutConfig dropoutEnv (wideFrame 0xFF0000)
        (fun _ _ => 0xFF0000) 4 5 0 0 0).map (fun r => r.1.fI 4 0) = some 12232 := by
  have hd := composite_layer_demodulated_plain dropoutConfig dropoutEnv (wideFrame 0xFF0000)
    (fun _ _ => 0xFF0000) 4 5 0 0 0 rfl rfl rfl rfl rfl rfl rfl
  have hv := wide_red_frame_chroma
  obtain ⟨p1, hp1⟩ := chroma_from_luma_some 180 0 4 5 0 0 50 (by decide)
    (chroma_into_luma 180 0 4 5 0 0 50
      (composite_layer_fill 4 5 0 (wideFrame 0xFF0000) (fun _ _ => 0xFF0000)))
  rw [hp1] at hv
  have hI : p1.fI 2 0 = 24463 := by
    simpa using hv
  have hd2 : composite_layer_demodulated dropoutConfig dropoutEnv (wideFrame 0xFF0000)
      (fun _ _ => 0xFF0000) 4 5 0 0 0 = some (p1, 0) := by
    rw [hd]
    exact congrArg (Option.map (fun p : Planes => (p, 0))) hp1
  constructor
  · rw [composite_layer_planes_order, hd2]
    obtain ⟨p2, hp2, -, -⟩ := composite_layer_vhs_svideo_narrow dropoutConfig 4 5 0 0 p1
      rfl rfl rfl rfl rfl (by decide)
    simp only [Option.some_bind, hp2, Option.map_some']
    have ho : ∀ q, composite_layer_out_lowpass dropoutConfig 4 5 0 q = q := fun _ => rfl
    rw [ho, (chroma_loss_drops_row_four p2).2]
  · rw [composite_layer_planes_spec_order_eq, hd2]
    obtain ⟨p2, hp2, hp2I, -⟩ := composite_layer_vhs_svideo_narrow dropoutConfig 4 5 0 0
      (composite_layer_chroma_loss dropoutConfig dropoutEnv 4 5 0 p1 0).1
      rfl rfl rfl rfl rfl (by decide)
    simp only [Option.some_bind, hp2, Option.map_some']
    have ho : ∀ q, composite_layer_out_lowpass dropoutConfig 4 5 0 q = q := fun _ => rfl
    rw [ho, hp2I, (vhs_vert_blend_spec 4 5 0 _ 4 0).1,
      if_pos (by decide), if_neg (by decide),
      (chroma_loss_drops_row_four p1).2]
    have e : (4 : Nat) - 2 = 2 := rfl
    rw [e, (chroma_loss_drops_row_four p1).1, hI]
    decide

/-! ## The back amplitude after `parse_argv` -/

theorem except_error_ok {α : Type} (P : α → Prop) (e : ParseError) :
    ∀ r, (Except.error e : Except ParseError α) = .ok r → P r := by
  intro r h
  cases h

theorem except_ok_ok {α : Type} (P : α → Prop) (x : α) (h : P x) :
    ∀ r, (Except.ok x : Except ParseError α) = .ok r → P r := by
  intro r e
  cases e
  exact h

theorem except_ite_ok {α : Type} (P : α → Prop) (c : Prop) [Decidable c]
    (x y : Except ParseError α) (hx : ∀ r, x = .ok r → P r) (hy : ∀ r, y = .ok r → P r) :
    ∀ r, (if c then x else y) = .ok r → P r := by
  intro r
  split
  · exact hx r
  · exact hy r

theorem withArg_ok (P : Globals × Bool → Prop) (v : Option String) (m : ParseError)
    (f : String → Except ParseError (Globals × Bool)) (h : ∀ s r, f s = .ok r → P r) :
    ∀ r, withArg v m f = .ok r → P r := by
  intro r
  unfold withArg
  cases v with
  | none => intro e; cases e
  | some s => exact h s r

theorem withInt_ok (P : Globals × Bool → Prop) (lib : CLib) (v : Option String)
    (f : Int → Globals) (h : ∀ x, P (f x, true)) : ∀ r, withInt lib v f = .ok r → P r :=
  withArg_ok P v _ _ fun _ => except_ok_ok P _ (h _)

theorem withFloat_ok (P : Globals × Bool → Prop) (lib : CLib) (v : Option String)
    (f : ℚ → Globals) (h : ∀ x, P (f x, true)) : ∀ r, withFloat lib v f = .ok r → P r :=
  withArg_ok P v _ _ fun _ => except_ok_ok P _ (h _)

theorem parse_vhs_hifi_amplitudes (lib : CLib) (v : Option String) (g : Globals)
    (hg : g.subcarrier_amplitude_back = g.subcarrier_amplitude) :
    ∀ r, parse_vhs_hifi lib v g = .ok r →
      r.1.subcarrier_amplitude_back = r.1.subcarrier_amplitude := by
  unfold parse_vhs_hifi
  refine withInt_ok _ _ _ _ (fun x => ?_)
  dsimp only
  split <;> exact hg

/-- Every branch of `parse_argv` keeps the two amplitudes equal. -/
theorem parse_switch_amplitudes (lib : CLib) (a : String) (v : Option String) (g : Globals)
    (hg : g.subcarrier_amplitude_back = g.subcarrier_amplitude) :
    ∀ r, parse_switch lib a v g = .ok r →
      r.1.subcarrier_amplitude_back = r.1.subcarrier_amplitude := by
  unfold parse_switch parse_tvstd parse_vhs_speed
  repeat' first
    | exact except_error_ok _ _
    | exact except_ok_ok _ _ hg
    | exact withInt_ok _ _ _ _ (fun _ => hg)
    | exact withInt_ok _ _ _ _ (fun _ => rfl)
    | exact withFloat_ok _ _ _ _ (fun _ => hg)
    | exact parse_vhs_hifi_amplitudes lib v g hg
    | refine except_ite_ok _ _ _ _ ?_ ?_
    | refine withArg_ok _ _ _ _ (fun s => ?_)

/-- The loop of `parse_argv` keeps the two amplitudes equal. -/
theorem parse_argv_loop_amplitudes (lib : CLib) :
    ∀ (n : Nat) (args : List String) (g g' : Globals), args.length ≤ n →
      g.subcarrier_amplitude_back = g.subcarrier_amplitude →
      parse_argv_loop lib args g = .ok g' →
      g'.subcarrier_amplitude_back = g'.subcarrier_amplitude := by
  intro n
  induction n with
  | zero =>
    intro args g g' hl hg h
    cases args with
    | nil => unfold parse_argv_loop at h; cases h; exact hg
    | cons a t => simp at hl
  | succ n ih =>
    intro args g g' hl hg h
    match args, hl, h with
    | [], _, h => unfold parse_argv_loop at h; cases h; exact hg
    | [a], _, h =>
      unfold parse_argv_loop at h
      cases hs : switchName a with
      | none => rw [hs] at h; cases h
      | some name =>
        rw [hs] at h
        dsimp only at h
        cases hp : parse_switch lib name none g with
        | error e => rw [hp] at h; cases h
        | ok r =>
          rw [hp] at h
          cases h
          exact parse_switch_amplitudes lib name none g hg r hp
    | a :: v :: rest, hl, h =>
      unfold parse_argv_loop at h
      cases hs : switchName a with
      | none => rw [hs] at h; cases h
      | some name =>
        rw [hs] at h
        dsimp only at h
        cases hp : parse_switch lib name (some v) g with
        | error e => rw [hp] at h; cases h
        | ok r =>
          rw [hp] at h
          have hr := parse_switch_amplitudes lib name (some v) g hg r hp
          obtain ⟨g1, c⟩ := r
          cases c with
          | true =>
            exact ih rest g1 g' (by simp at hl; omega) hr h
          | false =>
            exact ih (v :: rest) g1 g' (by simp at hl ⊢; omega) hr h

theorem parse_argv_audio_video (g : Globals) :
    (parse_argv_audio g).toConfig = g.toConfig := by
  unfold parse_argv_audio
  dsimp only
  split_ifs <;> rfl

theorem parse_argv_ok (lib : CLib) (args : List String) (g g' : Globals)
    (h : parse_argv lib args g = .ok g') :
    ∃ g1, parse_argv_loop lib args g = .ok g1
      ∧ g' = { parse_argv_amplitude lib (parse_argv_audio g1) with
          output_audio_hiss_level :=
            toInt (dBFS lib
              (parse_argv_amplitude lib (parse_argv_audio g1)).output_audio_hiss_db * 5000) }
      ∧ g'.output_file ≠ "" ∧ g'.input_files ≠ [] := by
  unfold parse_argv at h
  cases h1 : parse_argv_loop lib args g with
  | error e => rw [h1] at h; cases h
  | ok g1 =>
    rw [h1] at h
    simp only [Except.bind] at h
    split_ifs at h with c1 c2
    cases h
    exact ⟨g1, rfl, rfl, c1, c2⟩

theorem parse_argv_amplitude_spec (lib : CLib) (g : Globals) :
    (parse_argv_amplitude lib g).subcarrier_amplitude = g.subcarrier_amplitude
    ∧ (parse_argv_amplitude lib g).composite_preemphasis = g.composite_preemphasis
    ∧ (parse_argv_amplitude lib g).composite_preemphasis_cut = g.composite_preemphasis_cut
    ∧ (g.composite_preemphasis_cut ≠ 0 →
        (parse_argv_amplitude lib g).subcarrier_amplitude_back
          = (if g.composite_preemphasis ≠ 0 then
              toInt ((g.subcarrier_amplitude_back : ℚ)
                + (50 * g.composite_preemphasis * ((Int.tdiv 315000000 88 : Int) : ℚ))
                  / (2 * g.composite_preemphasis_cut))
            else g.subcarrier_amplitude_back)) := by
  unfold parse_argv_amplitude
  by_cases hp : g.composite_preemphasis ≠ 0
  · rw [if_pos hp, if_pos hp]
    refine ⟨rfl, rfl, rfl, ?_⟩
    intro hc
    dsimp only
    rw [if_neg hc]
  · rw [if_neg hp, if_neg hp]
    exact ⟨rfl, rfl, rfl, fun _ => rfl⟩

/-- Claim C19. After a successful `parse_argv` from the initial globals, with `A` the
configured `subcarrier_amplitude`, `pre` the preemphasis scale and `cut > 0` the
preemphasis cutoff: if `pre ≠ 0` then `subcarrier_amplitude_back` is
`A + (50 · pre · 3579545) / (2 · cut)` truncated to an integer, in exact arithmetic,
where 3579545 is the integer quotient `315000000 / 88`, and if `pre = 0` it is `A`; the
command line `-i in.avi -o out.avi -comp-catv` gives 225. -/
theorem subcarrier_amplitude_back_after_parse :
    (∀ (lib : CLib) (args : List String) (g : Globals),
      parse_argv lib args {} = .ok g → 0 < g.composite_preemphasis_cut →
        g.subcarrier_amplitude_back
          = (if g.composite_preemphasis ≠ 0 then
              toInt ((g.subcarrier_amplitude : ℚ)
                + (50 * g.composite_preemphasis * 3579545) / (2 * g.composite_preemphasis_cut))
            else g.subcarrier_amplitude))
    ∧ Int.tdiv 315000000 88 = 3579545
    ∧ ∀ lib : CLib,
        (parse_argv lib ["-i", "in.avi", "-o", "out.avi", "-comp-catv"] {}).map
          (fun g => (g.subcarrier_amplitude, g.composite_preemphasis,
            g.composite_preemphasis_cut, g.subcarrier_amplitude_back))
          = .ok (50, 7, 3579545, 225) := by
  refine ⟨?_, by decide, ?_⟩
  · intro lib args g h hcut
    obtain ⟨g1, h1, h3, -, -⟩ := parse_argv_ok lib args {} g h
    have inv1 := parse_argv_loop_amplitudes lib args.length args {} g1 le_rfl rfl h1
    have ev : (parse_argv_audio g1).toConfig = g1.toConfig := parse_argv_audio_video g1
    have e0 : ((Int.tdiv 315000000 88 : Int) : ℚ) = 3579545 := by
      have : Int.tdiv 315000000 88 = 3579545 := by decide
      rw [this]
      norm_num
    obtain ⟨a1, a2, a3, a4⟩ := parse_argv_amplitude_spec lib (parse_argv_audio g1)
    have b1 : g.subcarrier_amplitude_back
        = (parse_argv_amplitude lib (parse_argv_audio g1)).subcarrier_amplitude_back := by
      rw [h3]
    have b2 : g.subcarrier_amplitude
        = (parse_argv_amplitude lib (parse_argv_audio g1)).subcarrier_amplitude := by rw [h3]
    have b3 : g.composite_preemphasis
        = (parse_argv_amplitude lib (parse_argv_audio g1)).composite_preemphasis := by rw [h3]
    have b4 : g.composite_preemphasis_cut
        = (parse_argv_amplitude lib (parse_argv_audio g1)).composite_preemphasis_cut := by
      rw [h3]
    have d1 : (parse_argv_audio g1).subcarrier_amplitude_back
        = (parse_argv_audio g1).subcarrier_amplitude := by
      show (parse_argv_audio g1).toConfig.subcarrier_amplitude_back
        = (parse_argv_audio g1).toConfig.subcarrier_amplitude
      rw [ev]
      exact inv1
    have hc : (parse_argv_audio g1).composite_preemphasis_cut ≠ 0 := by
      rw [← a3, ← b4]
      exact ne_of_gt hcut
    rw [b1, b2, b3, b4, a4 hc, a1, a2, a3, d1, e0]
  · intro lib
    have s1 : switchName "-i" = some "i" := rfl
    have s2 : switchName "-o" = some "o" := rfl
    have s3 : switchName "-comp-catv" = some "comp-catv" := rfl
    have e0 : ((Int.tdiv 315000000 88 : Int) : ℚ) = 3579545 := by
      have : Int.tdiv 315000000 88 = 3579545 := by decide
      rw [this]
      norm_num
    have e1 : toInt ((50 : ℚ) + 50 * 7 * 3579545 / (2 * 3579545)) = 225 := by
      have : (50 : ℚ) + 50 * 7 * 3579545 / (2 * 3579545) = ((225 : Int) : ℚ) := by norm_num
      rw [this, toInt_intCast]
    simp [parse_argv, parse_argv_loop, s1, s2, s3, parse_switch, withArg, Except.bind,
      Except.map, parse_argv_audio, parse_argv_amplitude, e0, e1]

theorem subcarrier_amplitude_back_after_parse_witness :
    ∃ g, parse_argv zeroLib ["-i", "in.avi", "-o", "out.avi", "-comp-catv"] {} = .ok g
      ∧ 0 < g.composite_preemphasis_cut
      ∧ g.subcarrier_amplitude_back
          = (if g.composite_preemphasis ≠ 0 then
              toInt ((g.subcarrier_amplitude : ℚ)
                + (50 * g.composite_preemphasis * 3579545) / (2 * g.composite_preemphasis_cut))
            else g.subcarrier_amplitude) := by
  have h3 := subcarrier_amplitude_back_after_parse.2.2 zeroLib
  cases hp : parse_argv zeroLib ["-i", "in.avi", "-o", "out.avi", "-comp-catv"] {} with
  | error e =>
    rw [hp] at h3
    cases h3
  | ok g =>
    rw [hp] at h3
    have hc : g.composite_preemphasis_cut = 3579545 := by
      have := congrArg (fun r => r.map (fun t : Int × ℚ × ℚ × Int => t.2.2.1)) h3
      simpa [Except.map] using this
    have hpos : 0 < g.composite_preemphasis_cut := by
      rw [hc]
      norm_num
    exact ⟨g, rfl, hpos, subcarrier_amplitude_back_after_parse.1 zeroLib _ g hp hpos⟩

/-! ## Audio channels -/

theorem audio_init_default :
    audio_init defaultGlobals
      = { audiostate := List.replicate 2 (List.replicate 6
            { lo := ({} : LowpassFilter).setFilter 44100 20000,
              hi := ({} : LowpassFilter).setFilter 44100 20 })
          audio_linear_preemphasis_pre := List.replicate 2
            (({} : LowpassFilter).setFilter 44100 16000)
          audio_linear_preemphasis_post := List.replicate 2
            (({} : LowpassFilter).setFilter 44100 16000)
          audio_post_vhs_boost := List.replicate 2
            (({} : LowpassFilter).setFilter 44100 10000) } := by
  have e : u64 defaultGlobals.output_audio_channels = 2 := by decide
  unfold audio_init
  simp only [e]
  simp [defaultGlobals, List.range, List.range.loop, List.replicate]

theorem noiseDraw_oneEnv (k : Nat) : noiseDraw oneEnv k (1 * 2 + 1) 1 = 0 := by
  show i32 (u32 1 % u32 (1 * 2 + 1)) - 1 = 0
  decide

theorem toInt_of_bounds (q : ℚ) (n : Int) (h0 : 0 ≤ q) (h1 : (n : ℚ) ≤ q)
    (h2 : q < (n : ℚ) + 1) : toInt q = n := by
  unfold toInt
  rw [if_pos h0, Int.floor_eq_iff]
  exact ⟨h1, h2⟩

set_option maxHeartbeats 4000000 in
set_option maxRecDepth 100000 in
/-- One stereo sample period with the initial settings and `output_audio_hiss_level = 1`,
every hiss draw being 0: a silent buffer stays silent. -/
theorem audio_silent_period (lib : CLib) :
    (composite_audio_process defaultGlobals lib oneEnv (stereoBuffer 0) 1
        (audio_init defaultGlobals)).map (fun r => r.1 1) = some 0 := by
  rw [audio_init_default]
  have e1 : u32 defaultGlobals.output_audio_channels = 2 := by decide
  have e2 : u64 defaultGlobals.output_audio_channels = 2 := by decide
  have e3 : defaultGlobals.output_audio_hiss_level = 1 := rfl
  have e4 : defaultGlobals.emulating_preemphasis = true := rfl
  have e5 : defaultGlobals.emulating_deemphasis = true := rfl
  have e6 : defaultGlobals.output_vhs_hifi = true := rfl
  unfold composite_audio_process audio_channel
  simp only [e1, e2, e3, noiseDraw_oneEnv, e4, e5, e6]
  norm_num [forColumns, List.range, List.range.loop, audio_preemphasis,
    audio_deemphasis, stereoBuffer,
    HiLoPass.filter, HiLoPass.loStep, HiLoPass.hiStep, List.replicate, LowpassFilter.setFilter,
    LowpassFilter.highpass, LowpassFilter.lowpass, M_PI, Function.update]
  rw [toInt_of_bounds _ 0 le_rfl (by norm_num) (by norm_num)]
  decide

set_option maxHeartbeats 4000000 in
set_option maxRecDepth 100000 in
/-- The same period with the left sample 32767 and the right sample silent: the right
output sample is 1242. -/
theorem audio_left_only_period (lib : CLib) :
    (composite_audio_process defaultGlobals lib oneEnv (stereoBuffer 32767) 1
        (audio_init defaultGlobals)).map (fun r => r.1 1) = some 1242 := by
  rw [audio_init_default]
  have e1 : u32 defaultGlobals.output_audio_channels = 2 := by decide
  have e2 : u64 defaultGlobals.output_audio_channels = 2 := by decide
  have e3 : defaultGlobals.output_audio_hiss_level = 1 := rfl
  have e4 : defaultGlobals.emulating_preemphasis = true := rfl
  have e5 : defaultGlobals.emulating_deemphasis = true := rfl
  have e6 : defaultGlobals.output_vhs_hifi = true := rfl
  unfold composite_audio_process audio_channel
  simp only [e1, e2, e3, noiseDraw_oneEnv, e4, e5, e6]
  norm_num [forColumns, List.range, List.range.loop, audio_preemphasis,
    audio_deemphasis, stereoBuffer,
    HiLoPass.filter, HiLoPass.loStep, HiLoPass.hiStep, List.replicate, LowpassFilter.setFilter,
    LowpassFilter.highpass, LowpassFilter.lowpass, M_PI, Function.update]
  rw [toInt_of_bounds _ 1242 (by norm_num) (by norm_num) (by norm_num)]
  decide

/-- Claim C18 and the code. With two channels, the initial settings (preemphasis and
deemphasis enabled), freshly configured filters and every hiss draw 0, two runs of
`composite_audio_process` over one sample period whose buffers agree on the right channel
(a silent sample) and differ on the left channel (0 and 32767) give different right output
samples, 0 and 1242: inside the loop over the channels the sample of each channel is
passed through the preemphasis and deemphasis filters of both channels. -/
theorem audio_right_output_depends_on_left_input (lib : CLib) :
    stereoBuffer 0 1 = stereoBuffer 32767 1
    ∧ (composite_audio_process defaultGlobals lib oneEnv (stereoBuffer 0) 1
        (audio_init defaultGlobals)).map (fun r => r.1 1) = some 0
    ∧ (composite_audio_process defaultGlobals lib oneEnv (stereoBuffer 32767) 1
        (audio_init defaultGlobals)).map (fun r => r.1 1) = some 1242 :=
  ⟨rfl, audio_silent_period lib, audio_left_only_period lib⟩

/-! ## The row phase index -/

theorem and_two (n : Nat) : n &&& 2 = 2 * (n / 2 % 2) := by
  have h32 : (3 &&& 2 : Nat) = 2 := by decide
  have h : n &&& 2 = (n % 4) &&& 2 := by
    rw [← and_three n, Nat.and_assoc, h32]
  rw [h]
  have h4 : n % 4 < 4 := Nat.mod_lt _ (by decide)
  have e : n / 2 % 2 = n % 4 / 2 := by omega
  rw [e]
  interval_cases (n % 4) <;> rfl

/-- Claim C30. The row phase index `xi` is the same function of the phase policy, the phase
offset, the field index and the row in `chroma_into_luma` and in `chroma_from_luma`; it
is below 4; and for every field index, every offset (negative ones included) and every
row `y` it advances from row `y` to row `y + 2` by `policy / 90` quarter cycles:
`xi(y + 2) = (xi(y) + policy / 90) mod 4` for the policies 0, 90, 180 and 270. -/
theorem xi_advances_by_policy (phase_offset : Int) (fieldno y : Nat) :
    (∀ policy : Int, chroma_from_luma_xi policy phase_offset fieldno y
        = chroma_into_luma_xi policy phase_offset fieldno y)
    ∧ (∀ policy : Int, chroma_into_luma_xi policy phase_offset fieldno y < 4)
    ∧ chroma_into_luma_xi 0 phase_offset fieldno (y + 2)
        = (chroma_into_luma_xi 0 phase_offset fieldno y + 0) % 4
    ∧ chroma_into_luma_xi 90 phase_offset fieldno (y + 2)
        = (chroma_into_luma_xi 90 phase_offset fieldno y + 1) % 4
    ∧ chroma_into_luma_xi 180 phase_offset fieldno (y + 2)
        = (chroma_into_luma_xi 180 phase_offset fieldno y + 2) % 4
    ∧ chroma_into_luma_xi 270 phase_offset fieldno (y + 2)
        = (chroma_into_luma_xi 270 phase_offset fieldno y + 3) % 4 := by
  have hs : ((y + 2) >>> 1 : Nat) = (y >>> 1) + 1 := by
    simp only [Nat.shiftRight_eq_div_pow]
    omega
  refine ⟨fun _ => rfl, fun policy => chroma_from_luma_xi_lt policy phase_offset fieldno y,
    ?_, ?_, ?_, ?_⟩
  · show u32 phase_offset &&& 3 = (u32 phase_offset &&& 3 + 0) % 4
    rw [and_three]
    omega
  · unfold chroma_into_luma_xi
    rw [if_pos rfl, if_pos rfl, hs, and_three, and_three]
    unfold u64
    omega
  · unfold chroma_into_luma_xi
    rw [if_neg (by decide), if_pos rfl, if_neg (by decide), if_pos rfl, and_three, and_three,
      and_two, and_two]
    unfold u64
    omega
  · unfold chroma_into_luma_xi
    rw [if_neg (by decide), if_neg (by decide), if_pos rfl, if_neg (by decide),
      if_neg (by decide), if_pos rfl, hs, and_three, and_three]
    unfold u64
    omega

/-! ## Rows of the other field -/

/-- A completed call of `composite_layer` changes nothing of the destination frame but its
pixels. -/
theorem composite_layer_keeps_geometry (cfg : Config) (env : Env) (dst src : AVFrame)
    (field fieldno k : Nat) (r : AVFrame × Nat)
    (h : composite_layer cfg env dst src field fieldno k = some r) :
    r.1.width = dst.width ∧ r.1.height = dst.height ∧ r.1.linesize = dst.linesize
      ∧ r.1.data.isSome = dst.data.isSome := by
  unfold composite_layer at h
  split at h
  · next dpx spx hd hs =>
    split_ifs at h
    · cases h; exact ⟨rfl, rfl, rfl, rfl⟩
    · cases h; exact ⟨rfl, rfl, rfl, rfl⟩
    · cases h; exact ⟨rfl, rfl, rfl, rfl⟩
    · cases h; exact ⟨rfl, rfl, rfl, rfl⟩
    · cases hp : composite_layer_planes cfg env src spx dst.width dst.height field fieldno k with
      | none => rw [hp] at h; cases h
      | some pk =>
        rw [hp] at h
        cases h
        refine ⟨rfl, rfl, rfl, ?_⟩
        rw [hd]
        rfl
  · cases h; exact ⟨rfl, rfl, rfl, rfl⟩

/-- Claim C26. For every source frame, field parity `f`, configuration and stream of
draws, a completed call of `composite_layer` changes in the destination frame only rows
`y` with `y mod 2 = f`: every pixel word of a row of the other parity is the word it was
before the call, and the dimensions of the frame are unchanged. -/
theorem composite_layer_writes_one_parity (cfg : Config) (env : Env) (dst src : AVFrame)
    (f fieldno k : Nat) (r : AVFrame × Nat) (hf : f < 2)
    (h : composite_layer cfg env dst src f fieldno k = some r) :
    (∀ y x, y % 2 ≠ f → r.1.pixelAt y x = dst.pixelAt y x)
    ∧ r.1.width = dst.width ∧ r.1.height = dst.height ∧ r.1.linesize = dst.linesize := by
  obtain ⟨g1, g2, g3, -⟩ := composite_layer_keeps_geometry cfg env dst src f fieldno k r h
  refine ⟨?_, g1, g2, g3⟩
  intro y x hy
  refine composite_layer_keeps_other_rows cfg env dst src f fieldno k r h y x ?_
  unfold visited
  omega

theorem composite_layer_writes_one_parity_witness :
    ∃ r, composite_layer quietConfig zeroEnv (solidFrame 7) (solidFrame 0xFF0000) 1 0 0 = some r
      ∧ (∀ y x, y % 2 ≠ 1 → r.1.pixelAt y x = (solidFrame 7).pixelAt y x)
      ∧ r.1.width = (solidFrame 7).width ∧ r.1.height = (solidFrame 7).height
      ∧ r.1.linesize = (solidFrame 7).linesize := by
  obtain ⟨pk, hpk⟩ := composite_layer_planes_some quietConfig zeroEnv (solidFrame 0xFF0000)
    (fun _ _ => 0xFF0000) 2 2 1 0 0 (by decide) (by decide) (by decide) (Or.inl rfl)
  have hr : composite_layer quietConfig zeroEnv (solidFrame 7) (solidFrame 0xFF0000) 1 0 0
      = some ({ solidFrame 7 with
          data := some (composite_layer_store 2 2 1 pk.1 (fun _ _ => 7)) }, pk.2) := by
    unfold composite_layer
    show (if (8 : Nat) < 2 * 4 then _ else _) = _
    rw [if_neg (by decide)]
    show (if (8 : Nat) < 2 * 4 then _ else _) = _
    rw [if_neg (by decide)]
    show (if (2 : Nat) ≠ 2 then _ else _) = _
    rw [if_neg (by decide)]
    show (if (2 : Nat) ≠ 2 then _ else _) = _
    rw [if_neg (by decide)]
    show (if (2 : Nat) * 2 = 0 then _ else _) = _
    rw [if_neg (by decide)]
    show (composite_layer_planes quietConfig zeroEnv (solidFrame 0xFF0000)
      (fun _ _ => 0xFF0000) 2 2 1 0 0).map _ = _
    rw [hpk]
    rfl
  exact ⟨_, hr, composite_layer_writes_one_parity quietConfig zeroEnv (solidFrame 7)
    (solidFrame 0xFF0000) 1 0 0 _ (by decide) hr⟩

/-! ## Demodulation, row by row -/

/-- The rows rewritten by `chroma_from_luma` with a nonzero amplitude. -/
theorem chroma_from_luma_rowwise (phase_shift phase_offset : Int) (W H field fieldno : Nat)
    (A : Int) (hA : A ≠ 0) (p : Planes) :
    ∃ p' : Planes,
      chroma_from_luma phase_shift phase_offset W H field fieldno A p = some p'
      ∧ ∀ y, p'.row y
        = if field ≤ y ∧ y < H ∧ (y - field) % 2 = 0 then
            (chroma_from_luma_row W (chroma_from_luma_xi phase_shift phase_offset fieldno y) A
              (p.row y)).getD (p.row y)
          else p.row y :=
  forFieldRows_rowwise_option field H
    (fun y r => chroma_from_luma_row W
      (chroma_from_luma_xi phase_shift phase_offset fieldno y) A r)
    (fun y r => (chroma_from_luma_row W
      (chroma_from_luma_xi phase_shift phase_offset fieldno y) A r).getD r)
    p (fun _ _ _ _ => chroma_from_luma_row_some W _ A hA _)

/-- The row body of `chroma_from_luma` with a nonzero amplitude, loop by loop. -/
theorem chroma_from_luma_row_eq (W xi : Nat) (A : Int) (hA : A ≠ 0) (r : Row) :
    ∃ C, chroma_from_luma_residual W xi A r.Y = some C
      ∧ (chroma_from_luma_row W xi A r).getD r
        = { Y := (chroma_from_luma_blur W r.Y).Y
            I := (chroma_from_luma_interpolate W (chroma_from_luma_decode W xi C r.I r.Q).1
              (chroma_from_luma_decode W xi C r.I r.Q).2).1
            Q := (chroma_from_luma_interpolate W (chroma_from_luma_decode W xi C r.I r.Q).1
              (chroma_from_luma_decode W xi C r.I r.Q).2).2 } := by
  refine ⟨_, chroma_from_luma_scale_spec W A hA _, ?_⟩
  unfold chroma_from_luma_row
  simp only [chroma_from_luma_scale_spec W A hA, Option.map_some', Option.getD_some]

/-- Claim C21, counterexample. On the row `0, 0, 8, 0` the box blur gives `Y_lf[0] = 2` and
the residual formed at column 0 is `Y_raw[2] - Y_lf[0] = 6`, not
`Y_raw[0] - Y_lf[0] = -2`. -/
theorem residual_not_centred :
    (chroma_from_luma_blur 4 stepRow.Y).Y 0 = 2
    ∧ (chroma_from_luma_blur 4 stepRow.Y).chroma 0 = 6
    ∧ stepRow.Y 0 - (chroma_from_luma_blur 4 stepRow.Y).Y 0 = -2 := by
  decide

/-- Claim C21, amended. For every row of the field, of width `W ≥ 2`, and every column
`x < W`, `chroma_from_luma` (with a nonzero amplitude) stores in `Y[x]` the 4-tap box blur
`Y_lf[x] = (Y_raw[x-1] + Y_raw[x] + Y_raw[x+1] + Y_raw[x+2]) / 4`, the samples outside
the row counting as 0 and the division truncating toward zero, and forms the residual of
the column as `C[x] = Y_raw[x+2] - Y_lf[x]`, from the sample two columns to the right
(0 past the end of the row), where `Y_raw` is the luma of the row before the call. -/
theorem chroma_from_luma_blurs_and_forms_residual (phase_shift phase_offset : Int)
    (W H field fieldno : Nat) (A : Int) (p : Planes) (hA : A ≠ 0) (hW : 2 ≤ W) :
    ∃ p' : Planes,
      chroma_from_luma phase_shift phase_offset W H field fieldno A p = some p'
      ∧ ∀ y x, visited field H y → x < W →
          p'.fY y x
            = Int.tdiv ((if x = 0 then 0 else p.fY y (x - 1)) + p.fY y x
                + (if x + 1 < W then p.fY y (x + 1) else 0)
                + (if x + 2 < W then p.fY y (x + 2) else 0)) 4
          ∧ (chroma_from_luma_blur W (p.fY y)).Y x = p'.fY y x
          ∧ (chroma_from_luma_blur W (p.fY y)).chroma x
            = (if x + 2 < W then p.fY y (x + 2) else 0) - p'.fY y x := by
  obtain ⟨p', hp', hrows⟩ := chroma_from_luma_rowwise phase_shift phase_offset W H field
    fieldno A hA p
  refine ⟨p', hp', ?_⟩
  intro y x hy hx
  obtain ⟨C, -, hrow⟩ := chroma_from_luma_row_eq W
    (chroma_from_luma_xi phase_shift phase_offset fieldno y) A hA (p.row y)
  have hY : p'.fY y = (chroma_from_luma_blur W (p.fY y)).Y := by
    show (p'.row y).Y = _
    rw [hrows y, if_pos (show field ≤ y ∧ y < H ∧ (y - field) % 2 = 0 from hy), hrow]
    rfl
  obtain ⟨b1, b2⟩ := chroma_from_luma_blur_spec W (p.fY y) hW x
  rw [if_pos hx] at b1 b2
  have e : boxBlur W (p.fY y) x
      = Int.tdiv ((if x = 0 then 0 else p.fY y (x - 1)) + p.fY y x
          + (if x + 1 < W then p.fY y (x + 1) else 0)
          + (if x + 2 < W then p.fY y (x + 2) else 0)) 4 := by
    unfold boxBlur padded
    rw [if_pos hx]
    by_cases h0 : x = 0
    · rw [if_pos h0, if_pos h0]
    · rw [if_neg h0, if_neg h0, if_pos (by omega : x - 1 < W)]
  rw [hY, b1, b2, e]
  exact ⟨rfl, rfl, rfl⟩

theorem chroma_from_luma_blurs_and_forms_residual_witness :
    ∃ p' : Planes,
      chroma_from_luma 180 0 4 1 0 0 50
          { fY := fun _ => stepRow.Y, fI := fun _ _ => 0, fQ := fun _ _ => 0 } = some p'
      ∧ ∀ y x, visited 0 1 y → x < 4 →
          p'.fY y x
            = Int.tdiv ((if x = 0 then 0 else stepRow.Y (x - 1)) + stepRow.Y x
                + (if x + 1 < 4 then stepRow.Y (x + 1) else 0)
                + (if x + 2 < 4 then stepRow.Y (x + 2) else 0)) 4
          ∧ (chroma_from_luma_blur 4 stepRow.Y).Y x = p'.fY y x
          ∧ (chroma_from_luma_blur 4 stepRow.Y).chroma x
            = (if x + 2 < 4 then stepRow.Y (x + 2) else 0) - p'.fY y x :=
  chroma_from_luma_blurs_and_forms_residual 180 0 4 1 0 0 50
    { fY := fun _ => stepRow.Y, fI := fun _ _ => 0, fQ := fun _ _ => 0 } (by decide) (by decide)

/-- Claim C22, counterexample. On the row `0, 0, 100, 0` with `xi = 0` and amplitude 50 the
scaled residual is `C = 75, -25, 25, 25`; the even column 2 satisfies `2 + xi + 1 < 4` but
ends with `I[2] = 0`, not `-C[2] = -25`, and the odd column 1 ends with `I[1] = -50`, the
floored mean of the demultiplexed values -75 and -25, not the mean of its final
neighbours -75 and 0. -/
theorem last_even_column_is_cleared :
    (chroma_from_luma_residual 4 0 50 pulseRow.Y).map (fun C => (C 0, C 1, C 2, C 3))
        = some (75, -25, 25, 25)
    ∧ (chroma_from_luma_row 4 0 50 pulseRow).map (fun r => (r.I 0, r.I 1, r.I 2, r.I 3))
        = some (-75, -50, 0, 0) := by
  decide

/-- Claim C22, amended. For every row of the field, after `chroma_from_luma` (with a
nonzero amplitude), with `C` the residual after the sign correction and the scaling by
`50 / A` and `xi` the phase index of the row: every even column `x` with `x + 2 < W`
holds the demultiplexed values, `I[x] = -C[x + xi]` and `Q[x] = -C[x + xi + 1]` when
`x + xi + 1 < W` and 0 otherwise; the even column with `x + 2 ≥ W` is cleared; every odd
column `x` with `x + 1 < W` holds the mean, floored (`>> 1`), of the values demultiplexed
for its two even neighbours, which are the final values of those neighbours when
`x + 3 < W`; the last odd column is cleared. -/
theorem chroma_from_luma_demultiplexes (phase_shift phase_offset : Int)
    (W H field fieldno : Nat) (A : Int) (p : Planes) (hA : A ≠ 0) :
    ∃ p' : Planes,
      chroma_from_luma phase_shift phase_offset W H field fieldno A p = some p'
      ∧ ∀ y, visited field H y →
        ∃ C, chroma_from_luma_residual W
            (chroma_from_luma_xi phase_shift phase_offset fieldno y) A (p.fY y) = some C
          ∧ ∀ x, x < W →
            (x % 2 = 0 →
              p'.fI y x = (if x + 2 < W then
                  demuxI W (chroma_from_luma_xi phase_shift phase_offset fieldno y) C x else 0)
              ∧ p'.fQ y x = (if x + 2 < W then
                  demuxQ W (chroma_from_luma_xi phase_shift phase_offset fieldno y) C x else 0))
            ∧ (x % 2 = 1 →
              p'.fI y x = (if x + 1 < W then
                  (demuxI W (chroma_from_luma_xi phase_shift phase_offset fieldno y) C (x - 1)
                    + demuxI W (chroma_from_luma_xi phase_shift phase_offset fieldno y) C (x + 1))
                    >>> (1 : Nat) else 0)
              ∧ p'.fQ y x = (if x + 1 < W then
                  (demuxQ W (chroma_from_luma_xi phase_shift phase_offset fieldno y) C (x - 1)
                    + demuxQ W (chroma_from_luma_xi phase_shift phase_offset fieldno y) C (x + 1))
                    >>> (1 : Nat) else 0))
            ∧ (x % 2 = 1 → x + 3 < W →
              p'.fI y x = (p'.fI y (x - 1) + p'.fI y (x + 1)) >>> (1 : Nat)
              ∧ p'.fQ y x = (p'.fQ y (x - 1) + p'.fQ y (x + 1)) >>> (1 : Nat)) := by
  obtain ⟨p', hp', hrows⟩ := chroma_from_luma_rowwise phase_shift phase_offset W H field
    fieldno A hA p
  refine ⟨p', hp', ?_⟩
  intro y hy
  obtain ⟨C, hC, hrow⟩ := chroma_from_luma_row_eq W
    (chroma_from_luma_xi phase_shift phase_offset fieldno y) A hA (p.row y)
  refine ⟨C, hC, ?_⟩
  have hr := hrows y
  rw [if_pos (show field ≤ y ∧ y < H ∧ (y - field) % 2 = 0 from hy), hrow] at hr
  generalize chroma_from_luma_xi phase_shift phase_offset fieldno y = xi at hr ⊢
  have hI : ∀ j, p'.fI y j
      = (chroma_from_luma_interpolate W (chroma_from_luma_decode W xi C (p.row y).I (p.row y).Q).1
          (chroma_from_luma_decode W xi C (p.row y).I (p.row y).Q).2).1 j := by
    intro j
    show (p'.row y).I j = _
    rw [hr]
  have hQ : ∀ j, p'.fQ y j
      = (chroma_from_luma_interpolate W (chroma_from_luma_decode W xi C (p.row y).I (p.row y).Q).1
          (chroma_from_luma_decode W xi C (p.row y).I (p.row y).Q).2).2 j := by
    intro j
    show (p'.row y).Q j = _
    rw [hr]
  have dI : ∀ t, t % 2 = 0 → t < W →
      (chroma_from_luma_decode W xi C (p.row y).I (p.row y).Q).1 t = demuxI W xi C t := by
    intro t h1 h2
    rw [(chroma_from_luma_decode_spec W xi C _ _ t).1, if_pos ⟨h1, h2⟩]
    rfl
  have dQ : ∀ t, t % 2 = 0 → t < W →
      (chroma_from_luma_decode W xi C (p.row y).I (p.row y).Q).2 t = demuxQ W xi C t := by
    intro t h1 h2
    rw [(chroma_from_luma_decode_spec W xi C _ _ t).2, if_pos ⟨h1, h2⟩]
    rfl
  have fI : ∀ j, j < W → p'.fI y j
      = (if j % 2 = 0 then (if j + 2 < W then demuxI W xi C j else 0)
          else (if j + 1 < W then (demuxI W xi C (j - 1) + demuxI W xi C (j + 1)) >>> (1 : Nat)
            else 0)) := by
    intro j hj
    rw [hI, (chroma_from_luma_interpolate_spec W _ _ j).1, if_pos hj]
    by_cases he : j % 2 = 0
    · rw [if_pos he, if_pos he, dI j he hj]
    · rw [if_neg he, if_neg he]
      by_cases h1 : j + 1 < W
      · rw [if_pos h1, if_pos h1, dI (j - 1) (by omega) (by omega), dI (j + 1) (by omega) h1]
      · rw [if_neg h1, if_neg h1]
  have fQ : ∀ j, j < W → p'.fQ y j
      = (if j % 2 = 0 then (if j + 2 < W then demuxQ W xi C j else 0)
          else (if j + 1 < W then (demuxQ W xi C (j - 1) + demuxQ W xi C (j + 1)) >>> (1 : Nat)
            else 0)) := by
    intro j hj
    rw [hQ, (chroma_from_luma_interpolate_spec W _ _ j).2, if_pos hj]
    by_cases he : j % 2 = 0
    · rw [if_pos he, if_pos he, dQ j he hj]
    · rw [if_neg he, if_neg he]
      by_cases h1 : j + 1 < W
      · rw [if_pos h1, if_pos h1, dQ (j - 1) (by omega) (by omega), dQ (j + 1) (by omega) h1]
      · rw [if_neg h1, if_neg h1]
  intro x hx
  refine ⟨?_, ?_, ?_⟩
  · intro he
    rw [fI x hx, fQ x hx, if_pos he, if_pos he]
    exact ⟨rfl, rfl⟩
  · intro ho
    have hne : ¬ x % 2 = 0 := by omega
    rw [fI x hx, fQ x hx, if_neg hne, if_neg hne]
    exact ⟨rfl, rfl⟩
  · intro ho h3
    have hne : ¬ x % 2 = 0 := by omega
    have h1 : x + 1 < W := by omega
    have e1 : (x - 1) % 2 = 0 := by omega
    have e2 : (x + 1) % 2 = 0 := by omega
    have l1 : x - 1 + 2 < W := by omega
    have l2 : x + 1 + 2 < W := by omega
    rw [fI x hx, fQ x hx, if_neg hne, if_neg hne, if_pos h1, if_pos h1,
      fI (x - 1) (by omega), fI (x + 1) (by omega), fQ (x - 1) (by omega),
      fQ (x + 1) (by omega)]
    simp only [if_pos e1, if_pos e2, if_pos l1, if_pos l2]
    exact ⟨trivial, trivial⟩

theorem chroma_from_luma_demultiplexes_witness :
    ∃ p' : Planes,
      chroma_from_luma 0 0 4 1 0 0 50
          { fY := fun _ => pulseRow.Y, fI := fun _ _ => 0, fQ := fun _ _ => 0 } = some p'
      ∧ ∃ C, chroma_from_luma_residual 4 (chroma_from_luma_xi 0 0 0 0) 50 pulseRow.Y = some C
        ∧ p'.fI 0 0 = (if 0 + 2 < 4 then demuxI 4 (chroma_from_luma_xi 0 0 0 0) C 0 else 0)
        ∧ p'.fI 0 2 = (if 2 + 2 < 4 then demuxI 4 (chroma_from_luma_xi 0 0 0 0) C 2 else 0) := by
  obtain ⟨p', hp', h⟩ := chroma_from_luma_demultiplexes 0 0 4 1 0 0 50
    { fY := fun _ => pulseRow.Y, fI := fun _ _ => 0, fQ := fun _ _ => 0 } (by decide)
  obtain ⟨C, hC, hx⟩ := h 0 (by decide)
  exact ⟨p', hp', C, hC, ((hx 0 (by decide)).1 rfl).1, ((hx 2 (by decide)).1 rfl).1⟩

/-- Claim C23, counterexample. The command line `-i in.avi -o out.avi -subcarrier-amp 200`,
whose value lies outside the documented range 0..100, is not rejected: `parse_argv`
returns the globals with both amplitudes 200; so is `-subcarrier-amp -5`. -/
theorem subcarrier_amp_200_is_accepted :
    (parse_argv (constLib 200) ["-i", "in.avi", "-o", "out.avi", "-subcarrier-amp", "200"]
        {}).map (fun g => (g.subcarrier_amplitude, g.subcarrier_amplitude_back))
      = .ok (200, 200)
    ∧ (parse_argv (constLib (-5)) ["-i", "in.avi", "-o", "out.avi", "-subcarrier-amp", "-5"]
        {}).map (fun g => (g.subcarrier_amplitude, g.subcarrier_amplitude_back))
      = .ok (-5, -5)
    ∧ ¬ ((0 : Int) ≤ 200 ∧ (200 : Int) ≤ 100) ∧ ¬ ((0 : Int) ≤ -5 ∧ (-5 : Int) ≤ 100) := by
  have s1 : switchName "-i" = some "i" := rfl
  have s2 : switchName "-o" = some "o" := rfl
  have s3 : switchName "-subcarrier-amp" = some "subcarrier-amp" := rfl
  refine ⟨?_, ?_, by decide, by decide⟩
  · simp [parse_argv, parse_argv_loop, s1, s2, s3, parse_switch, withInt, withArg, Except.bind,
      Except.map, parse_argv_audio, parse_argv_amplitude, constLib]
  · simp [parse_argv, parse_argv_loop, s1, s2, s3, parse_switch, withInt, withArg, Except.bind,
      Except.map, parse_argv_audio, parse_argv_amplitude, constLib]

/-- Claim C23, amended. The branch `-subcarrier-amp` of `parse_argv` makes no range check:
it stores `atoi` of its argument in `subcarrier_amplitude` and
`subcarrier_amplitude_back` whatever its value, and continues; the command line
`-i in.avi -o out.avi -subcarrier-amp 200` is accepted with both amplitudes equal to the
converted value, inside the range 0..100 or not. -/
theorem subcarrier_amp_is_not_range_checked (lib : CLib) :
    (∀ (s : String) (g : Globals),
      parse_switch lib "subcarrier-amp" (some s) g
        = .ok ({ g with subcarrier_amplitude := lib.atoi s,
                        subcarrier_amplitude_back := lib.atoi s }, true))
    ∧ (parse_argv lib ["-i", "in.avi", "-o", "out.avi", "-subcarrier-amp", "200"] {}).map
          (fun g => (g.subcarrier_amplitude, g.subcarrier_amplitude_back))
        = .ok (lib.atoi "200", lib.atoi "200") := by
  have s1 : switchName "-i" = some "i" := rfl
  have s2 : switchName "-o" = some "o" := rfl
  have s3 : switchName "-subcarrier-amp" = some "subcarrier-amp" := rfl
  constructor
  · intro s g
    simp [parse_switch, withInt, withArg]
  · simp [parse_argv, parse_argv_loop, s1, s2, s3, parse_switch, withInt, withArg, Except.bind,
      Except.map, parse_argv_audio, parse_argv_amplitude]

/-! ## Bounds of the noise accumulators -/

/-- Halving, truncating toward zero, the sum of two values of magnitude at most `v` gives
a value of magnitude at most `v`. -/
theorem tdiv_two_bound (v a u : Int) (ha : -v ≤ a ∧ a ≤ v) (hu : -v ≤ u ∧ u ≤ v) :
    -v ≤ Int.tdiv (a + u) 2 ∧ Int.tdiv (a + u) 2 ≤ v := by
  by_cases h : 0 ≤ a + u
  · rw [Int.tdiv_eq_ediv h (by decide)]
    omega
  · have e : Int.tdiv (a + u) 2 = -((-(a + u)) / 2) := by
      rw [← Int.tdiv_eq_ediv (by omega) (by decide), Int.neg_tdiv, neg_neg]
    rw [e]
    omega

theorem noiseWalk_bound (env : Env) (k : Nat) (v : Int) (h1 : 1 ≤ v) (h2 : v < 2 ^ 30)
    (n : Nat) : -v ≤ noiseWalk env k v n ∧ noiseWalk env k v n ≤ v := by
  induction n with
  | zero =>
    show -v ≤ 0 ∧ (0 : Int) ≤ v
    omega
  | succ n ih =>
    exact tdiv_two_bound v _ _ ih (noiseDraw_range env _ v h1 h2)

theorem chromaNoiseWalk_bound (env : Env) (k : Nat) (v : Int) (off : Nat) (h1 : 1 ≤ v)
    (h2 : v < 2 ^ 30) (n : Nat) :
    -v ≤ chromaNoiseWalk env k v off n ∧ chromaNoiseWalk env k v off n ≤ v := by
  induction n with
  | zero =>
    show -v ≤ 0 ∧ (0 : Int) ≤ v
    omega
  | succ n ih =>
    exact tdiv_two_bound v _ _ ih (noiseDraw_range env _ v h1 h2)

theorem composite_layer_chroma_noise_eq (cfg : Config) (env : Env) (W H field : Nat)
    (p : Planes) (k : Nat) (hv : cfg.video_chroma_noise ≠ 0) :
    composite_layer_chroma_noise cfg env W H field p k
      = ({ p with
            fI := (forFieldRows field H (fun y (st : ChromaNoiseState) =>
              forColumns W (chroma_noise_pixel env cfg.video_chroma_noise y) st)
              { fI := p.fI, fQ := p.fQ, noiseU := 0, noiseV := 0, k := k }).fI,
            fQ := (forFieldRows field H (fun y (st : ChromaNoiseState) =>
              forColumns W (chroma_noise_pixel env cfg.video_chroma_noise y) st)
              { fI := p.fI, fQ := p.fQ, noiseU := 0, noiseV := 0, k := k }).fQ },
         (forFieldRows field H (fun y (st : ChromaNoiseState) =>
            forColumns W (chroma_noise_pixel env cfg.video_chroma_noise y) st)
            { fI := p.fI, fQ := p.fQ, noiseU := 0, noiseV := 0, k := k }).k) := by
  unfold composite_layer_chroma_noise
  rw [if_pos hv]
  rfl

/-- The column loop of the chroma noise stage on row `y`, entered after `n0` pixels. -/
theorem chroma_noise_columns (env : Env) (v : Int) (k0 n0 y : Nat) (st : ChromaNoiseState)
    (hU : st.noiseU = chromaNoiseWalk env k0 v 0 n0)
    (hV : st.noiseV = chromaNoiseWalk env k0 v 1 n0) (hk : st.k = k0 + 2 * n0) (m : Nat) :
    (forColumns m (chroma_noise_pixel env v y) st).noiseU = chromaNoiseWalk env k0 v 0 (n0 + m)
    ∧ (forColumns m (chroma_noise_pixel env v y) st).noiseV
        = chromaNoiseWalk env k0 v 1 (n0 + m)
    ∧ (forColumns m (chroma_noise_pixel env v y) st).k = k0 + 2 * (n0 + m)
    ∧ (∀ r x, (forColumns m (chroma_noise_pixel env v y) st).fI r x
        = if r = y ∧ x < m then st.fI r x + chromaNoiseWalk env k0 v 0 (n0 + x)
          else st.fI r x)
    ∧ ∀ r x, (forColumns m (chroma_noise_pixel env v y) st).fQ r x
        = if r = y ∧ x < m then st.fQ r x + chromaNoiseWalk env k0 v 1 (n0 + x)
          else st.fQ r x := by
  induction m with
  | zero =>
    refine ⟨hU, hV, hk, ?_, ?_⟩
    · intro r x
      rw [if_neg (by omega)]
      rfl
    · intro r x
      rw [if_neg (by omega)]
      rfl
  | succ m ih =>
    obtain ⟨h1, h1', h2, h3, h4⟩ := ih
    rw [forColumns_succ]
    refine ⟨?_, ?_, ?_, ?_, ?_⟩
    · show Int.tdiv (_ + noiseDraw env _ _ _) 2 = _
      rw [h1, h2]
      rfl
    · show Int.tdiv (_ + noiseDraw env (_ + 1) _ _) 2 = _
      rw [h1', h2]
      rfl
    · show _ + 2 = _
      rw [h2]
      omega
    · intro r x
      show (Function.update _ y (store _ m (_ + _)) : Plane) r x = _
      by_cases hr : r = y
      · subst hr
        rw [Function.update_same, store_apply]
        by_cases hx : x = m
        · subst hx
          rw [if_pos rfl, h3, if_neg (by omega), h1, if_pos (by omega)]
        · rw [if_neg hx, h3]
          exact ite_iff _ _ _ _ (by omega)
      · rw [Function.update_noteq hr, h3, if_neg (by tauto), if_neg (by tauto)]
    · intro r x
      show (Function.update _ y (store _ m (_ + _)) : Plane) r x = _
      by_cases hr : r = y
      · subst hr
        rw [Function.update_same, store_apply]
        by_cases hx : x = m
        · subst hx
          rw [if_pos rfl, h4, if_neg (by omega), h1', if_pos (by omega)]
        · rw [if_neg hx, h4]
          exact ite_iff _ _ _ _ (by omega)
      · rw [Function.update_noteq hr, h4, if_neg (by tauto), if_neg (by tauto)]

/-- The row loop of the chroma noise stage after `i` rows of the field. -/
theorem chroma_noise_rows (env : Env) (v : Int) (k0 W field : Nat) (fI fQ : Plane) (i : Nat) :
    (forColumns i (fun j (st : ChromaNoiseState) =>
        forColumns W (chroma_noise_pixel env v (field + 2 * j)) st)
        { fI := fI, fQ := fQ, noiseU := 0, noiseV := 0, k := k0 }).noiseU
      = chromaNoiseWalk env k0 v 0 (i * W)
    ∧ (forColumns i (fun j (st : ChromaNoiseState) =>
        forColumns W (chroma_noise_pixel env v (field + 2 * j)) st)
        { fI := fI, fQ := fQ, noiseU := 0, noiseV := 0, k := k0 }).noiseV
      = chromaNoiseWalk env k0 v 1 (i * W)
    ∧ (forColumns i (fun j (st : ChromaNoiseState) =>
        forColumns W (chroma_noise_pixel env v (field + 2 * j)) st)
        { fI := fI, fQ := fQ, noiseU := 0, noiseV := 0, k := k0 }).k = k0 + 2 * (i * W)
    ∧ (∀ r x, (forColumns i (fun j (st : ChromaNoiseState) =>
        forColumns W (chroma_noise_pixel env v (field + 2 * j)) st)
        { fI := fI, fQ := fQ, noiseU := 0, noiseV := 0, k := k0 }).fI r x
        = if field ≤ r ∧ (r - field) % 2 = 0 ∧ (r - field) / 2 < i ∧ x < W then
            fI r x + chromaNoiseWalk env k0 v 0 ((r - field) / 2 * W + x)
          else fI r x)
    ∧ ∀ r x, (forColumns i (fun j (st : ChromaNoiseState) =>
        forColumns W (chroma_noise_pixel env v (field + 2 * j)) st)
        { fI := fI, fQ := fQ, noiseU := 0, noiseV := 0, k := k0 }).fQ r x
        = if field ≤ r ∧ (r - field) % 2 = 0 ∧ (r - field) / 2 < i ∧ x < W then
            fQ r x + chromaNoiseWalk env k0 v 1 ((r - field) / 2 * W + x)
          else fQ r x := by
  induction i with
  | zero =>
    refine ⟨by simp [forColumns_zero, chromaNoiseWalk], by simp [forColumns_zero, chromaNoiseWalk],
      by simp [forColumns_zero], ?_, ?_⟩
    · intro r x
      rw [if_neg (by omega)]
      rfl
    · intro r x
      rw [if_neg (by omega)]
      rfl
  | succ i ih =>
    obtain ⟨h1, h1', h2, h3, h4⟩ := ih
    rw [forColumns_succ]
    obtain ⟨c1, c1', c2, c3, c4⟩ := chroma_noise_columns env v k0 (i * W) (field + 2 * i) _
      h1 h1' h2 W
    refine ⟨?_, ?_, ?_, ?_, ?_⟩
    · rw [c1]
      congr 1
      ring
    · rw [c1']
      congr 1
      ring
    · rw [c2]
      ring
    · intro r x
      rw [c3, h3]
      by_cases hr : r = field + 2 * i
      · subst hr
        have e : (field + 2 * i - field) / 2 = i := by omega
        by_cases hx : x < W
        · rw [if_pos ⟨rfl, hx⟩, if_neg (by omega), if_pos ⟨by omega, by omega, by omega, hx⟩, e]
        · rw [if_neg (by tauto), if_neg (by tauto), if_neg (by tauto)]
      · rw [if_neg (by tauto)]
        exact ite_iff _ _ _ _ (by omega)
    · intro r x
      rw [c4, h4]
      by_cases hr : r = field + 2 * i
      · subst hr
        have e : (field + 2 * i - field) / 2 = i := by omega
        by_cases hx : x < W
        · rw [if_pos ⟨rfl, hx⟩, if_neg (by omega), if_pos ⟨by omega, by omega, by omega, hx⟩, e]
        · rw [if_neg (by tauto), if_neg (by tauto), if_neg (by tauto)]
      · rw [if_neg (by tauto)]
        exact ite_iff _ _ _ _ (by omega)

/-- The luma noise stage adds to each sample a value of the accumulator. -/
theorem video_noise_adds_walk (cfg : Config) (env : Env) (W H field : Nat) (fY : Plane)
    (k : Nat) (hv : cfg.video_noise ≠ 0) (y x : Nat) :
    (composite_layer_video_noise cfg env W H field fY k).1 y x
      = fY y x + (if visited field H y ∧ x < W then
          noiseWalk env k cfg.video_noise ((y - field) / 2 * W + x) else 0) := by
  obtain ⟨-, -, h3⟩ := video_noise_rows env cfg.video_noise k W field fY ((H + 1 - field) / 2)
  rw [composite_layer_video_noise_eq cfg env W H field fY k hv, forFieldRows_eq_forColumns]
  show NoiseState.fY (forColumns _ _ _) y x = _
  rw [h3]
  by_cases hy : visited field H y ∧ x < W
  · obtain ⟨-, hi⟩ := visited_index field H y hy.1
    rw [if_pos ⟨hy.1.1, hy.1.2.2, hi, hy.2⟩, if_pos hy]
  · rw [if_neg hy, add_zero]
    refine if_neg ?_
    rintro ⟨a, b, c, d⟩
    refine hy ⟨⟨a, ?_, b⟩, d⟩
    omega

/-- The chroma noise stage adds to each sample a value of its accumulator. -/
theorem chroma_noise_adds_walk (cfg : Config) (env : Env) (W H field : Nat) (p : Planes)
    (k : Nat) (hv : cfg.video_chroma_noise ≠ 0) (y x : Nat) :
    (composite_layer_chroma_noise cfg env W H field p k).1.fI y x
        = p.fI y x + (if visited field H y ∧ x < W then
            chromaNoiseWalk env k cfg.video_chroma_noise 0 ((y - field) / 2 * W + x) else 0)
      ∧ (composite_layer_chroma_noise cfg env W H field p k).1.fQ y x
        = p.fQ y x + (if visited field H y ∧ x < W then
            chromaNoiseWalk env k cfg.video_chroma_noise 1 ((y - field) / 2 * W + x) else 0)
      ∧ (composite_layer_chroma_noise cfg env W H field p k).1.fY = p.fY := by
  obtain ⟨-, -, -, h3, h4⟩ := chroma_noise_rows env cfg.video_chroma_noise k W field p.fI p.fQ
    ((H + 1 - field) / 2)
  refine ⟨?_, ?_, ?_⟩
  · rw [composite_layer_chroma_noise_eq cfg env W H field p k hv, forFieldRows_eq_forColumns]
    show ChromaNoiseState.fI (forColumns _ _ _) y x = _
    rw [h3]
    by_cases hy : visited field H y ∧ x < W
    · obtain ⟨-, hi⟩ := visited_index field H y hy.1
      rw [if_pos ⟨hy.1.1, hy.1.2.2, hi, hy.2⟩, if_pos hy]
    · rw [if_neg hy, add_zero]
      refine if_neg ?_
      rintro ⟨a, b, c, d⟩
      refine hy ⟨⟨a, ?_, b⟩, d⟩
      omega
  · rw [composite_layer_chroma_noise_eq cfg env W H field p k hv, forFieldRows_eq_forColumns]
    show ChromaNoiseState.fQ (forColumns _ _ _) y x = _
    rw [h4]
    by_cases hy : visited field H y ∧ x < W
    · obtain ⟨-, hi⟩ := visited_index field H y hy.1
      rw [if_pos ⟨hy.1.1, hy.1.2.2, hi, hy.2⟩, if_pos hy]
    · rw [if_neg hy, add_zero]
      refine if_neg ?_
      rintro ⟨a, b, c, d⟩
      refine hy ⟨⟨a, ?_, b⟩, d⟩
      omega
  · rw [composite_layer_chroma_noise_eq cfg env W H field p k hv]

/-- Every value `-v ≤ a ≤ v` added to a sample changes it by at most `v`. -/
theorem add_ite_bound (v a b : Int) (c : Prop) [Decidable c]
    (ha : -v ≤ a ∧ a ≤ v) : -v ≤ b + (if c then a else 0) - b ∧ b + (if c then a else 0) - b ≤ v := by
  split <;> omega

/-- Claim C29. For `video_noise = v` with `1 ≤ v < 2^30` (so that `(v * 2) + 1` is an
`int`) and every stream of `rand()` values, the accumulator of the luma noise stage is 0
before the first update, every update is `noise := (noise + u) / 2` (truncating) with a
draw `-v ≤ u ≤ v`, and `-v ≤ noise ≤ v` holds before and after every update; the stage adds
to each luma sample of the field the value of the accumulator at that pixel and leaves
every other sample alone, so it changes each luma sample by at most `v`. The same holds
with `video_chroma_noise` for the two accumulators `noiseU` and `noiseV` of the chroma
noise stage and the planes `I` and `Q`. -/
theorem noise_accumulators_stay_within_amplitude (cfg : Config) (env : Env) (W H field : Nat)
    (p : Planes) (k : Nat) :
    (1 ≤ cfg.video_noise → cfg.video_noise < 2 ^ 30 →
      noiseWalk env k cfg.video_noise 0 = 0
      ∧ (∀ n, noiseWalk env k cfg.video_noise (n + 1)
            = Int.tdiv (noiseWalk env k cfg.video_noise n
                + noiseDraw env (k + n) ((cfg.video_noise * 2) + 1) cfg.video_noise) 2
          ∧ -cfg.video_noise ≤ noiseDraw env (k + n) ((cfg.video_noise * 2) + 1) cfg.video_noise
          ∧ noiseDraw env (k + n) ((cfg.video_noise * 2) + 1) cfg.video_noise ≤ cfg.video_noise
          ∧ -cfg.video_noise ≤ noiseWalk env k cfg.video_noise n
          ∧ noiseWalk env k cfg.video_noise n ≤ cfg.video_noise)
      ∧ ∀ y x,
          (composite_layer_video_noise cfg env W H field p.fY k).1 y x
            = p.fY y x + (if visited field H y ∧ x < W then
                noiseWalk env k cfg.video_noise ((y - field) / 2 * W + x) else 0)
          ∧ -cfg.video_noise
              ≤ (composite_layer_video_noise cfg env W H field p.fY k).1 y x - p.fY y x
          ∧ (composite_layer_video_noise cfg env W H field p.fY k).1 y x - p.fY y x
              ≤ cfg.video_noise)
    ∧ (1 ≤ cfg.video_chroma_noise → cfg.video_chroma_noise < 2 ^ 30 →
      (∀ off, chromaNoiseWalk env k cfg.video_chroma_noise off 0 = 0
        ∧ ∀ n, chromaNoiseWalk env k cfg.video_chroma_noise off (n + 1)
              = Int.tdiv (chromaNoiseWalk env k cfg.video_chroma_noise off n
                  + noiseDraw env (k + 2 * n + off) ((cfg.video_chroma_noise * 2) + 1)
                      cfg.video_chroma_noise) 2
            ∧ -cfg.video_chroma_noise
                ≤ noiseDraw env (k + 2 * n + off) ((cfg.video_chroma_noise * 2) + 1)
                    cfg.video_chroma_noise
            ∧ noiseDraw env (k + 2 * n + off) ((cfg.video_chroma_noise * 2) + 1)
                  cfg.video_chroma_noise ≤ cfg.video_chroma_noise
            ∧ -cfg.video_chroma_noise ≤ chromaNoiseWalk env k cfg.video_chroma_noise off n
            ∧ chromaNoiseWalk env k cfg.video_chroma_noise off n ≤ cfg.video_chroma_noise)
      ∧ ∀ y x,
          (composite_layer_chroma_noise cfg env W H field p k).1.fI y x
            = p.fI y x + (if visited field H y ∧ x < W then
                chromaNoiseWalk env k cfg.video_chroma_noise 0 ((y - field) / 2 * W + x)
              else 0)
          ∧ (composite_layer_chroma_noise cfg env W H field p k).1.fQ y x
            = p.fQ y x + (if visited field H y ∧ x < W then
                chromaNoiseWalk env k cfg.video_chroma_noise 1 ((y - field) / 2 * W + x)
              else 0)
          ∧ -cfg.video_chroma_noise
              ≤ (composite_layer_chroma_noise cfg env W H field p k).1.fI y x - p.fI y x
          ∧ (composite_layer_chroma_noise cfg env W H field p k).1.fI y x - p.fI y x
              ≤ cfg.video_chroma_noise
          ∧ -cfg.video_chroma_noise
              ≤ (composite_layer_chroma_noise cfg env W H field p k).1.fQ y x - p.fQ y x
          ∧ (composite_layer_chroma_noise cfg env W H field p k).1.fQ y x - p.fQ y x
              ≤ cfg.video_chroma_noise) := by
  constructor
  · intro h1 h2
    refine ⟨rfl, ?_, ?_⟩
    · intro n
      exact ⟨rfl, (noiseDraw_range env _ _ h1 h2).1, (noiseDraw_range env _ _ h1 h2).2,
        (noiseWalk_bound env k _ h1 h2 n).1, (noiseWalk_bound env k _ h1 h2 n).2⟩
    · intro y x
      have e := video_noise_adds_walk cfg env W H field p.fY k (by omega) y x
      refine ⟨e, ?_⟩
      rw [e]
      exact add_ite_bound _ _ _ _ (noiseWalk_bound env k _ h1 h2 _)
  · intro h1 h2
    refine ⟨?_, ?_⟩
    · intro off
      refine ⟨rfl, ?_⟩
      intro n
      exact ⟨rfl, (noiseDraw_range env _ _ h1 h2).1, (noiseDraw_range env _ _ h1 h2).2,
        (chromaNoiseWalk_bound env k _ off h1 h2 n).1,
        (chromaNoiseWalk_bound env k _ off h1 h2 n).2⟩
    · intro y x
      obtain ⟨eI, eQ, -⟩ := chroma_noise_adds_walk cfg env W H field p k (by omega) y x
      refine ⟨eI, eQ, ?_⟩
      rw [eI, eQ]
      exact ⟨(add_ite_bound _ _ _ _ (chromaNoiseWalk_bound env k _ 0 h1 h2 _)).1,
        (add_ite_bound _ _ _ _ (chromaNoiseWalk_bound env k _ 0 h1 h2 _)).2,
        (add_ite_bound _ _ _ _ (chromaNoiseWalk_bound env k _ 1 h1 h2 _)).1,
        (add_ite_bound _ _ _ _ (chromaNoiseWalk_bound env k _ 1 h1 h2 _)).2⟩

theorem noise_accumulators_stay_within_amplitude_witness :
    (1 ≤ noisyConfig.video_noise ∧ noisyConfig.video_noise < 2 ^ 30
      ∧ -noisyConfig.video_noise
          ≤ (composite_layer_video_noise noisyConfig drawEnv 2 3 0 (fun _ _ => 100) 0).1 2 1
              - 100
      ∧ (composite_layer_video_noise noisyConfig drawEnv 2 3 0 (fun _ _ => 100) 0).1 2 1 - 100
          ≤ noisyConfig.video_noise)
    ∧ (1 ≤ noisyConfig.video_chroma_noise ∧ noisyConfig.video_chroma_noise < 2 ^ 30
      ∧ -noisyConfig.video_chroma_noise
          ≤ (composite_layer_chroma_noise noisyConfig drawEnv 2 3 0
                { fY := fun _ _ => 100, fI := fun _ _ => 7, fQ := fun _ _ => 9 } 0).1.fI 2 1 - 7
      ∧ (composite_layer_chroma_noise noisyConfig drawEnv 2 3 0
            { fY := fun _ _ => 100, fI := fun _ _ => 7, fQ := fun _ _ => 9 } 0).1.fQ 2 1 - 9
          ≤ noisyConfig.video_chroma_noise) :=
  ⟨⟨by decide, by decide,
    ((noise_accumulators_stay_within_amplitude noisyConfig drawEnv 2 3 0
        { fY := fun _ _ => 100, fI := fun _ _ => 7, fQ := fun _ _ => 9 } 0).1
      (by decide) (by decide)).2.2 2 1 |>.2.1,
    ((noise_accumulators_stay_within_amplitude noisyConfig drawEnv 2 3 0
        { fY := fun _ _ => 100, fI := fun _ _ => 7, fQ := fun _ _ => 9 } 0).1
      (by decide) (by decide)).2.2 2 1 |>.2.2⟩,
   ⟨by decide, by decide,
    ((noise_accumulators_stay_within_amplitude noisyConfig drawEnv 2 3 0
        { fY := fun _ _ => 100, fI := fun _ _ => 7, fQ := fun _ _ => 9 } 0).2
      (by decide) (by decide)).2 2 1 |>.2.2.1,
    ((noise_accumulators_stay_within_amplitude noisyConfig drawEnv 2 3 0
        { fY := fun _ _ => 100, fI := fun _ _ => 7, fQ := fun _ _ => 9 } 0).2
      (by decide) (by decide)).2 2 1 |>.2.2.2.2.2⟩⟩

/-! ## Chroma lowpass in `float` arithmetic -/

/-- A row loop that rewrites the scanlines of `I` one by one. -/
theorem rows_of_I (field H : Nat) (g : Nat → Scanline → Scanline) (p : Planes) (y : Nat) :
    (forFieldRows field H (fun y (p : Planes) =>
        { p with fI := Function.update p.fI y (g y (p.fI y)) }) p).fI y
      = (if visited field H y then g y (p.fI y) else p.fI y)
    ∧ (forFieldRows field H (fun y (p : Planes) =>
        { p with fI := Function.update p.fI y (g y (p.fI y)) }) p).fY y = p.fY y
    ∧ (forFieldRows field H (fun y (p : Planes) =>
        { p with fI := Function.update p.fI y (g y (p.fI y)) }) p).fQ y = p.fQ y := by
  have e : (fun y (p : Planes) => { p with fI := Function.update p.fI y (g y (p.fI y)) })
      = (fun y (p : Planes) => p.setRow y ((fun y (r : Row) => { r with I := g y r.I }) y
          (p.row y))) := by
    funext y p
    simp [Planes.setRow, Planes.row, Function.update_eq_self]
  rw [e]
  have h := forFieldRows_rowwise field H (fun y (r : Row) => { r with I := g y r.I }) p y
  refine ⟨?_, ?_, ?_⟩
  · have := congrArg Row.I h
    refine this.trans ?_
    unfold visited
    split <;> rfl
  · have := congrArg Row.Y h
    refine this.trans ?_
    split <;> rfl
  · have := congrArg Row.Q h
    refine this.trans ?_
    split <;> rfl

/-- A row loop that rewrites the scanlines of `Q` one by one. -/
theorem rows_of_Q (field H : Nat) (g : Nat → Scanline → Scanline) (p : Planes) (y : Nat) :
    (forFieldRows field H (fun y (p : Planes) =>
        { p with fQ := Function.update p.fQ y (g y (p.fQ y)) }) p).fQ y
      = (if visited field H y then g y (p.fQ y) else p.fQ y)
    ∧ (forFieldRows field H (fun y (p : Planes) =>
        { p with fQ := Function.update p.fQ y (g y (p.fQ y)) }) p).fY y = p.fY y
    ∧ (forFieldRows field H (fun y (p : Planes) =>
        { p with fQ := Function.update p.fQ y (g y (p.fQ y)) }) p).fI y = p.fI y := by
  have e : (fun y (p : Planes) => { p with fQ := Function.update p.fQ y (g y (p.fQ y)) })
      = (fun y (p : Planes) => p.setRow y ((fun y (r : Row) => { r with Q := g y r.Q }) y
          (p.row y))) := by
    funext y p
    simp [Planes.setRow, Planes.row, Function.update_eq_self]
  rw [e]
  have h := forFieldRows_rowwise field H (fun y (r : Row) => { r with Q := g y r.Q }) p y
  refine ⟨?_, ?_, ?_⟩
  · have := congrArg Row.Q h
    refine this.trans ?_
    unfold visited
    split <;> rfl
  · have := congrArg Row.Y h
    refine this.trans ?_
    split <;> rfl
  · have := congrArg Row.I h
    refine this.trans ?_
    split <;> rfl

/-- The column loop of the chroma lowpass after `m` columns. -/
theorem chroma_lowpass_columns_binary32 (cutoff : Int) (delay : Nat) (P : Scanline)
    (hd : 1 ≤ delay) (m : Nat) :
    (forColumns m (delayedLowpassStep_binary32 delay) (P, filters3_binary32 cutoff)).2
        = cascadeState_binary32 cutoff P m
    ∧ ∀ j, (forColumns m (delayedLowpassStep_binary32 delay) (P, filters3_binary32 cutoff)).1 j
        = if j + delay < m then Binary.toInt (cascadeOutput_binary32 cutoff P (j + delay))
          else P j := by
  induction m with
  | zero =>
    refine ⟨rfl, ?_⟩
    intro j
    rw [if_neg (by omega)]
    rfl
  | succ m ih =>
    obtain ⟨h1, h2⟩ := ih
    rw [forColumns_succ]
    generalize forColumns m (delayedLowpassStep_binary32 delay) (P, filters3_binary32 cutoff)
      = st at h1 h2 ⊢
    obtain ⟨Y, lp⟩ := st
    dsimp only at h1 h2
    subst h1
    have hm : Y m = P m := by rw [h2, if_neg (by omega)]
    unfold delayedLowpassStep_binary32
    dsimp only
    rw [hm]
    refine ⟨rfl, ?_⟩
    intro j
    by_cases hge : m ≥ delay
    · rw [if_pos hge, store_apply, h2]
      by_cases hj : j = m - delay
      · have e : j + delay = m := by omega
        rw [if_pos hj, if_pos (by omega), e]
        rfl
      · rw [if_neg hj]
        exact ite_iff _ _ _ _ (by omega)
    · rw [if_neg hge, h2, if_neg (by omega), if_neg (by omega)]

theorem chroma_lowpass_row_binary32_spec (W : Nat) (cutoff : Int) (delay : Nat)
    (P : Scanline) (hd : 1 ≤ delay) (j : Nat) :
    chroma_lowpass_row_binary32 W cutoff delay P j
      = if j + delay < W then Binary.toInt (cascadeOutput_binary32 cutoff P (j + delay))
        else P j :=
  (chroma_lowpass_columns_binary32 cutoff delay P hd W).2 j

/-- Two passes of the chroma lowpass, the first over `I` and the second over `Q`. -/
theorem two_pass_lowpass_binary32 (W H field : Nat) (cI cQ : Int) (dI dQ : Nat) (hI : 1 ≤ dI)
    (hQ : 1 ≤ dQ) (p : Planes) (y x : Nat) :
    (forFieldRows field H (fun y (p : Planes) =>
        { p with fQ := Function.update p.fQ y (chroma_lowpass_row_binary32 W cQ dQ (p.fQ y)) })
      (forFieldRows field H (fun y (p : Planes) =>
        { p with fI := Function.update p.fI y (chroma_lowpass_row_binary32 W cI dI (p.fI y)) })
        p)).fI y x
      = (if visited field H y ∧ x + dI < W then
          Binary.toInt (cascadeOutput_binary32 cI (p.fI y) (x + dI))
          else p.fI y x)
    ∧ (forFieldRows field H (fun y (p : Planes) =>
        { p with fQ := Function.update p.fQ y (chroma_lowpass_row_binary32 W cQ dQ (p.fQ y)) })
      (forFieldRows field H (fun y (p : Planes) =>
        { p with fI := Function.update p.fI y (chroma_lowpass_row_binary32 W cI dI (p.fI y)) })
        p)).fQ y x
      = (if visited field H y ∧ x + dQ < W then
          Binary.toInt (cascadeOutput_binary32 cQ (p.fQ y) (x + dQ))
          else p.fQ y x)
    ∧ (forFieldRows field H (fun y (p : Planes) =>
        { p with fQ := Function.update p.fQ y (chroma_lowpass_row_binary32 W cQ dQ (p.fQ y)) })
      (forFieldRows field H (fun y (p : Planes) =>
        { p with fI := Function.update p.fI y (chroma_lowpass_row_binary32 W cI dI (p.fI y)) })
        p)).fY y x
      = p.fY y x := by
  obtain ⟨a1, a2, a3⟩ := rows_of_I field H (fun _ P => chroma_lowpass_row_binary32 W cI dI P)
    p y
  obtain ⟨b1, b2, b3⟩ := rows_of_Q field H (fun _ P => chroma_lowpass_row_binary32 W cQ dQ P)
    (forFieldRows field H (fun y (p : Planes) =>
        { p with fI := Function.update p.fI y (chroma_lowpass_row_binary32 W cI dI (p.fI y)) })
      p) y
  refine ⟨?_, ?_, ?_⟩
  · rw [b3, a1]
    by_cases hv : visited field H y
    · rw [if_pos hv, chroma_lowpass_row_binary32_spec W cI dI _ hI]
      exact ite_iff _ _ _ _ (by tauto)
    · rw [if_neg hv, if_neg (by tauto)]
  · rw [b1, a3]
    by_cases hv : visited field H y
    · rw [if_pos hv, chroma_lowpass_row_binary32_spec W cQ dQ _ hQ]
      exact ite_iff _ _ _ _ (by tauto)
    · rw [if_neg hv, if_neg (by tauto)]
  · rw [b2, a2]

/-- Claim C28. In the `float` arithmetic of the source, for every plane set and every row
`y` of the field, `composite_lowpass` writes `I[x] = (int) f_{x+2}` for `x + 2 < W` and
`Q[x] = (int) f_{x+4}` for `x + 4 < W`, and `composite_lowpass_tv` writes
`I[x] = (int) f_{x+1}` and `Q[x] = (int) f_{x+1}` for `x + 1 < W`, where `f_x` is the
output for the sample `in[x]` of three cascaded lowpass filters (cutoffs 1.3 MHz, 0.6 MHz
and 2.6 MHz) that are reset to 0 at the start of the row and fed the row's original
samples `in[0]`, …, `in[x]`, each converted to `float`; the last `delay` samples of the
row keep their input values, and the plane `Y` and the rows of the other parity are
unchanged. -/
theorem composite_lowpass_delays_filtered_chroma (W H field : Nat) (p : Planes) :
    (∀ y x,
      (composite_lowpass_binary32 W H field p).fI y x
        = (if visited field H y ∧ x + 2 < W then
            Binary.toInt (cascadeOutput_binary32 1300000 (p.fI y) (x + 2)) else p.fI y x)
      ∧ (composite_lowpass_binary32 W H field p).fQ y x
        = (if visited field H y ∧ x + 4 < W then
            Binary.toInt (cascadeOutput_binary32 600000 (p.fQ y) (x + 4)) else p.fQ y x)
      ∧ (composite_lowpass_binary32 W H field p).fY y x = p.fY y x
      ∧ (composite_lowpass_tv_binary32 W H field p).fI y x
        = (if visited field H y ∧ x + 1 < W then
            Binary.toInt (cascadeOutput_binary32 2600000 (p.fI y) (x + 1)) else p.fI y x)
      ∧ (composite_lowpass_tv_binary32 W H field p).fQ y x
        = (if visited field H y ∧ x + 1 < W then
            Binary.toInt (cascadeOutput_binary32 2600000 (p.fQ y) (x + 1)) else p.fQ y x)
      ∧ (composite_lowpass_tv_binary32 W H field p).fY y x = p.fY y x)
    ∧ (∀ (cutoff : Int) (P : Scanline),
        cascadeState_binary32 cutoff P 0
          = List.replicate 3 ((({} : LowpassFilter32).setFilter videoRate_binary32
              (Binary.ofInt 24 cutoff)).resetFilter { m := 0, e := 0 })
        ∧ ∀ x, cascadeOutput_binary32 cutoff P x
            = (lowpassChain_binary32 (cascadeState_binary32 cutoff P x)
                (Binary.ofInt 24 (P x))).1
          ∧ cascadeState_binary32 cutoff P (x + 1)
            = (lowpassChain_binary32 (cascadeState_binary32 cutoff P x)
                (Binary.ofInt 24 (P x))).2)
    ∧ (∀ (f1 f2 f3 : LowpassFilter32) (s : Binary),
        lowpassChain_binary32 [f1, f2, f3] s
          = ((f3.lowpass (f2.lowpass (f1.lowpass s).1).1).1,
             [(f1.lowpass s).2, (f2.lowpass (f1.lowpass s).1).2,
              (f3.lowpass (f2.lowpass (f1.lowpass s).1).1).2]))
    ∧ ∀ x : Binary, Binary.toInt x = toInt x.toRat := by
  refine ⟨?_, ?_, ?_, ?_⟩
  · intro y x
    obtain ⟨a1, a2, a3⟩ := two_pass_lowpass_binary32 W H field 1300000 600000 2 4 (by decide)
      (by decide) p y x
    obtain ⟨b1, b2, b3⟩ := two_pass_lowpass_binary32 W H field 2600000 2600000 1 1 (by decide)
      (by decide) p y x
    exact ⟨a1, a2, a3, b1, b2, b3⟩
  · intro cutoff P
    exact ⟨rfl, fun x => ⟨rfl, rfl⟩⟩
  · intro f1 f2 f3 s
    rfl
  · intro x
    unfold Binary.toInt Binary.toRat
    exact (toInt_div_nat _ _ (Binary.den_pos x)).symm

set_option maxRecDepth 1000000 in
set_option maxHeartbeats 4000000 in
/-- The `float` cascade of `composite_lowpass_tv` on a row that holds 39102 in every
column: the first two samples written are 14210 and 21957, and the sample written at
column 25 is 39102, the value of the input. -/
theorem chroma_lowpass_row_binary32_constant :
    chroma_lowpass_row_binary32 3 2600000 1 (fun _ => 39102) 0 = 14210
    ∧ chroma_lowpass_row_binary32 3 2600000 1 (fun _ => 39102) 1 = 21957
    ∧ chroma_lowpass_row_binary32 27 2600000 1 (fun _ => 39102) 25 = 39102 := by
  decide

/-! ## Head switching: the shifted rows -/

theorem emod_succ (a : Int) (tw : Nat) (h : 0 < tw) :
    ((a + 1) % (tw : Int)).toNat
      = if (a % (tw : Int)).toNat + 1 = tw then 0 else (a % (tw : Int)).toNat + 1 := by
  have hpos : (0 : Int) < (tw : Int) := by exact_mod_cast h
  have h0 := Int.emod_nonneg a (ne_of_gt hpos)
  have h1 := Int.emod_lt_of_pos a hpos
  have e : a + 1 = (a % (tw : Int) + 1) + (tw : Int) * (a / (tw : Int)) := by
    have := Int.emod_add_ediv a (tw : Int)
    linarith
  rw [e, Int.add_mul_emod_self_left]
  generalize a % (tw : Int) = r at h0 h1
  by_cases hr : r + 1 = (tw : Int)
  · rw [hr, Int.emod_self, if_pos (by omega)]
    rfl
  · rw [Int.emod_eq_of_lt (by omega) (by omega), if_neg (by omega)]
    omega

/-- The start index `x2 = (tx + twidth + (unsigned)shif) % twidth` for `tx = 0`. -/
theorem head_switching_x2 (tw : Nat) (shif : Int) (h0 : 0 < tw) (h31 : tw < 2 ^ 31)
    (hs : -(tw : Int) ≤ shif ∧ shif ≤ (tw : Int)) :
    u32 (((0 : Nat) : Int) + (tw : Int) + (u32 shif : Int)) % tw
      = ((((0 : Nat) : Int) + shif) % (tw : Int)).toNat := by
  have e1 : u32 (((0 : Nat) : Int) + (tw : Int) + (u32 shif : Int))
      = ((tw : Int) + shif).toNat := by
    unfold u32
    omega
  rw [e1]
  have e2 : (((0 : Nat) : Int) + shif) % (tw : Int) = ((tw : Int) + shif) % (tw : Int) := by
    rw [Int.add_emod_self_left]
    simp
  rw [e2]
  have e3 : (tw : Int) + shif = ((((tw : Int) + shif).toNat : Nat) : Int) := by omega
  rw [e3]
  generalize ((tw : Int) + shif).toNat = n
  have h : ((n : Int) % (tw : Int)) = ((n % tw : Nat) : Int) := (Int.natCast_mod n tw).symm
  rw [h]
  exact (Int.toNat_natCast _).symm

/-- A shifted row is rewritten from column 0: `Y[x] = tmp[(x + shif) mod twidth]`, where
`tmp` holds the old row followed by zeros. -/
theorem head_switching_shift_row_spec (W tw : Nat) (shif : Int) (Y : Scanline) (h0 : 0 < tw)
    (h31 : tw < 2 ^ 31) (hs : -(tw : Int) ≤ shif ∧ shif ≤ (tw : Int)) (x : Nat) :
    head_switching_shift_row W tw 0 shif Y x
      = if x < W then
          (if (((x : Int) + shif) % (tw : Int)).toNat < W then
            Y (((x : Int) + shif) % (tw : Int)).toNat else 0)
        else Y x := by
  unfold head_switching_shift_row
  dsimp only
  obtain ⟨xf, sf, hres, ⟨i1, i2, i3⟩, hstop⟩ := loopFrom_result 1 0 W
    (fun x (st : ShiftState) =>
      ({ Y := store st.Y x ((fun j => if j < W then Y j else 0) st.x2),
         x2 := if st.x2 + 1 = tw then 0 else st.x2 + 1 } : ShiftState))
    (fun x' (st : ShiftState) => x' ≤ W
      ∧ st.x2 = (((x' : Int) + shif) % (tw : Int)).toNat
      ∧ ∀ j, st.Y j = if j < x' then
          (if (((j : Int) + shif) % (tw : Int)).toNat < W then
            Y (((j : Int) + shif) % (tw : Int)).toNat else 0)
        else Y j)
    (by decide)
    (by
      intro x' st ⟨a1, a2, a3⟩ hx
      refine ⟨by omega, ?_, ?_⟩
      · show (if st.x2 + 1 = tw then 0 else st.x2 + 1) = _
        rw [a2]
        have := emod_succ ((x' : Int) + shif) tw h0
        rw [← this]
        congr 2
        push_cast
        ring
      · intro j
        show store st.Y x' _ j = _
        rw [store_apply]
        by_cases hj : j = x'
        · subst hj
          rw [if_pos rfl, if_pos (by omega), a2]
        · rw [if_neg hj, a3]
          exact ite_iff _ _ _ _ (by omega))
    W 0 { Y := Y, x2 := u32 (((0 : Nat) : Int) + (tw : Int) + (u32 shif : Int)) % tw }
    (by omega)
    ⟨by omega, head_switching_x2 tw shif h0 h31 hs, by intro j; rw [if_neg (by omega)]⟩
  rw [hres]
  show sf.Y x = _
  rw [i3]
  exact ite_iff _ _ _ _ (by omega)

/-! ## Head switching: the sequence of shifts -/

theorem head_switching_shif_succ (ishif : Int) (n : Nat) :
    head_switching_shif ishif (n + 2) = Int.tdiv (head_switching_shif ishif (n + 1) * 7) 8 := by
  show (if n + 1 = 0 then ishif else Int.tdiv (head_switching_shif ishif (n + 1) * 7) 8) = _
  rw [if_neg (by omega)]

theorem tdiv_seven_eighths (s : Int) (h : s ≠ 0) :
    (Int.tdiv (s * 7) 8).natAbs < s.natAbs := by
  by_cases hs : 0 ≤ s
  · rw [Int.tdiv_eq_ediv (by omega) (by decide)]
    omega
  · have e : Int.tdiv (s * 7) 8 = -((-(s * 7)) / 8) := by
      rw [← Int.tdiv_eq_ediv (by omega) (by decide), Int.neg_tdiv, neg_neg]
    rw [e]
    omega

theorem head_switching_shif_decay (ishif : Int) (n : Nat) :
    (head_switching_shif ishif (n + 1)).natAbs + n ≤ ishif.natAbs
      ∨ head_switching_shif ishif (n + 1) = 0 := by
  induction n with
  | zero =>
    left
    show (if 0 = 0 then ishif else _).natAbs + 0 ≤ _
    rw [if_pos rfl]
    omega
  | succ n ih =>
    rw [head_switching_shif_succ]
    by_cases hz : head_switching_shif ishif (n + 1) = 0
    · right
      rw [hz]
      rfl
    · have := tdiv_seven_eighths _ hz
      left
      omega

theorem head_switching_shif_bound (ishif : Int) (n : Nat) :
    (head_switching_shif ishif n).natAbs ≤ ishif.natAbs := by
  cases n with
  | zero => exact Nat.zero_le _
  | succ n =>
    rcases head_switching_shif_decay ishif n with h | h
    · omega
    · rw [h]
      exact Nat.zero_le _

theorem head_switching_shif_vanishes (ishif : Int) (n : Nat) (h : ishif.natAbs + 1 ≤ n) :
    head_switching_shif ishif n = 0 := by
  cases n with
  | zero => rfl
  | succ n =>
    rcases head_switching_shif_decay ishif n with h1 | h1
    · omega
    · exact h1

/-! ## Head switching: the loop -/

/-- The loop of the head switching stage, entered at row `y` in iteration `shy`: the
iteration for row `r` rewrites it when its shift is not 0, with start column `tx` in the
iteration it is entered at and 0 afterwards. -/
theorem head_switching_loop_spec (W H tw : Nat) (ishif : Int) :
    ∀ (fuel : Nat) (y : Int) (tx shy : Nat) (fY : Plane),
      (H : Int) ≤ y + 2 * (fuel : Int) →
      ∀ r : Nat,
        head_switching_loop W H tw ishif fuel y tx (head_switching_shif ishif shy) shy fY r
          = if y ≤ (r : Int) ∧ r < H ∧ ((r : Int) - y) % 2 = 0
              ∧ head_switching_shif ishif (shy + (((r : Int) - y) / 2).toNat) ≠ 0 then
              head_switching_shift_row W tw (if (r : Int) = y then tx else 0)
                (head_switching_shif ishif (shy + (((r : Int) - y) / 2).toNat)) (fY r)
            else fY r := by
  intro fuel
  induction fuel with
  | zero =>
    intro y tx shy fY hf r
    rw [if_neg (by omega)]
    rfl
  | succ fuel ih =>
    intro y tx shy fY hf r
    unfold head_switching_loop
    by_cases hy : y < (H : Int)
    · rw [if_pos hy]
      have es : (if shy = 0 then ishif else Int.tdiv (head_switching_shif ishif shy * 7) 8)
          = head_switching_shif ishif (shy + 1) := rfl
      rw [es, ih (y + 2) 0 (shy + 1) _ (by push_cast at hf ⊢; omega) r]
      by_cases hr : (r : Int) = y
      · have hyn : y.toNat = r := by omega
        have h0 : 0 ≤ y := by omega
        have e0 : shy + (((r : Int) - y) / 2).toNat = shy := by omega
        rw [if_neg (by omega), if_pos h0, e0, if_pos hr]
        by_cases hsz : head_switching_shif ishif shy ≠ 0
        · rw [if_pos hsz, if_pos ⟨by omega, by omega, by omega, hsz⟩, hyn,
            Function.update_same]
        · rw [if_neg hsz, if_neg (by tauto)]
      · have hrow : (if 0 ≤ y then
              (if head_switching_shif ishif shy ≠ 0 then
                Function.update fY y.toNat
                  (head_switching_shift_row W tw tx (head_switching_shif ishif shy)
                    (fY y.toNat))
              else fY)
            else fY) r = fY r := by
          split
          · split
            · exact Function.update_noteq (by omega) _ _
            · rfl
          · rfl
        rw [hrow, if_neg hr, ite_self]
        by_cases hc : y + 2 ≤ (r : Int) ∧ r < H ∧ ((r : Int) - (y + 2)) % 2 = 0
        · have e1 : shy + 1 + (((r : Int) - (y + 2)) / 2).toNat
              = shy + (((r : Int) - y) / 2).toNat := by omega
          rw [e1]
          exact ite_iff _ _ _ _ (by omega)
        · rw [if_neg (by tauto), if_neg (by omega)]
    · rw [if_neg hy, if_neg (by omega)]

/-- The head switching stage, when enabled on a frame of nonzero width, is its loop run
from the start values. -/
theorem composite_layer_head_switching_eq (cfg : Config) (env : Env) (W H field : Nat)
    (fY : Plane) (k : Nat) (hs : cfg.vhs_head_switching = true) (hW : 0 < W) :
    composite_layer_head_switching cfg env W H field fY k
      = some (head_switching_loop W H (W + W / 10) (head_switching_start cfg env W field k).ishif
          (H + 50) (head_switching_start cfg env W field k).y
          (head_switching_start cfg env W field k).x 0 0 fY,
        (head_switching_start cfg env W field k).k) := by
  unfold composite_layer_head_switching
  rw [if_pos hs]
  dsimp only
  rw [if_neg (by omega)]
  rfl

theorem head_switching_start_bounds (cfg : Config) (env : Env) (W field k : Nat)
    (hW : 0 < W) :
    (head_switching_start cfg env W field k).x < W + W / 10
    ∧ (head_switching_start cfg env W field k).ishif
        = (if (head_switching_start cfg env W field k).x ≥ (W + W / 10) / 2 then
            ((head_switching_start cfg env W field k).x : Int) - ((W + W / 10 : Nat) : Int)
          else ((head_switching_start cfg env W field k).x : Int))
    ∧ -48 ≤ (head_switching_start cfg env W field k).y := by
  refine ⟨Nat.mod_lt _ (by omega), rfl, ?_⟩
  unfold head_switching_start
  dsimp only
  split <;> omega

/-- The whole head switching stage in terms of the shift sequence. -/
theorem head_switching_rows (cfg : Config) (env : Env) (W H field : Nat) (fY : Plane)
    (k : Nat) (hs : cfg.vhs_head_switching = true) (hW : 0 < W) :
    ∃ out, composite_layer_head_switching cfg env W H field fY k
        = some (out, (head_switching_start cfg env W field k).k)
      ∧ ∀ r : Nat, out r
        = if (head_switching_start cfg env W field k).y ≤ (r : Int) ∧ r < H
              ∧ ((r : Int) - (head_switching_start cfg env W field k).y) % 2 = 0
              ∧ head_switching_shif (head_switching_start cfg env W field k).ishif
                  (((r : Int) - (head_switching_start cfg env W field k).y) / 2).toNat ≠ 0 then
            head_switching_shift_row W (W + W / 10)
              (if (r : Int) = (head_switching_start cfg env W field k).y then
                (head_switching_start cfg env W field k).x else 0)
              (head_switching_shif (head_switching_start cfg env W field k).ishif
                (((r : Int) - (head_switching_start cfg env W field k).y) / 2).toNat) (fY r)
          else fY r := by
  refine ⟨_, composite_layer_head_switching_eq cfg env W H field fY k hs hW, ?_⟩
  intro r
  have hb := (head_switching_start_bounds cfg env W field k hW).2.2
  have h := head_switching_loop_spec W H (W + W / 10)
    (head_switching_start cfg env W field k).ishif (H + 50)
    (head_switching_start cfg env W field k).y (head_switching_start cfg env W field k).x 0 fY
    (by push_cast; omega) r
  rw [Nat.zero_add] at h
  exact h

theorem head_switching_start_ishif (cfg : Config) (env : Env) (W field k : Nat)
    (hW : 0 < W) :
    (head_switching_start cfg env W field k).ishif.natAbs ≤ (W + W / 10 + 1) / 2 := by
  obtain ⟨h1, h2, -⟩ := head_switching_start_bounds cfg env W field k hW
  rw [h2]
  split <;> omega

/-- The start values for phase 0.002 at point 0.97 on a frame 10 samples wide: the
virtual line is 11 samples wide, the start column is 5 and the displacement is -6. -/
theorem head_switching_start_phase :
    head_switching_start phaseConfig zeroEnv 10 0 0 = { y := 464, x := 5, ishif := -6, k := 0 } := by
  have e1 : toInt (fmod1 ((0.97 : ℚ) + 0) * (((10 + 10 / 10 : Nat) : ℚ) * 262.5)) = 2800 := by
    have a : toInt ((0.97 : ℚ) + 0) = 0 :=
      toInt_of_bounds _ 0 (by norm_num) (by norm_num) (by norm_num)
    unfold fmod1
    rw [a]
    exact toInt_of_bounds _ 2800 (by norm_num) (by norm_num) (by norm_num)
  have e2 : toInt (fmod1 ((0.002 : ℚ) + 0) * (((10 + 10 / 10 : Nat) : ℚ) * 262.5)) = 5 := by
    have a : toInt ((0.002 : ℚ) + 0) = 0 :=
      toInt_of_bounds _ 0 (by norm_num) (by norm_num) (by norm_num)
    unfold fmod1
    rw [a]
    exact toInt_of_bounds _ 5 (by norm_num) (by norm_num) (by norm_num)
  unfold head_switching_start
  have c1 : phaseConfig.vhs_head_switching_phase_noise = 0 := rfl
  have c2 : phaseConfig.vhs_head_switching_point = 0.97 := rfl
  have c3 : phaseConfig.vhs_head_switching_phase = 0.002 := rfl
  have c4 : phaseConfig.output_ntsc = true := rfl
  simp only [c1, c2, c3, c4, ne_eq, not_true_eq_false, if_false, if_true, e1, e2]
  have e3 : u32 2800 = 2800 := by decide
  have e4 : u32 5 = 5 := by decide
  simp only [e3, e4]
  decide

/-- Claim C25, counterexample. On a frame 10 samples wide the virtual line is
`tw = 11` samples wide; with phase 0.002 (NTSC, no phase noise) the start column is
`5 ≥ tw / 2`, so the initial displacement is `5 - 11 = -6`, whose magnitude 6 exceeds
`tw / 2` (5 as an integer quotient, 5.5 as a fraction: `2 · 6 > 11`). -/
theorem head_switching_displacement_exceeds_half :
    (head_switching_start phaseConfig zeroEnv 10 0 0).x = 5
    ∧ (head_switching_start phaseConfig zeroEnv 10 0 0).ishif = -6
    ∧ ¬ ((head_switching_start phaseConfig zeroEnv 10 0 0).ishif.natAbs ≤ (10 + 10 / 10) / 2)
    ∧ ¬ (2 * (head_switching_start phaseConfig zeroEnv 10 0 0).ishif.natAbs ≤ 10 + 10 / 10) := by
  rw [head_switching_start_phase]
  decide

/-- Claim C25, amended. With head switching enabled, for every frame width `W ≥ 1` and
every phase value, iteration number `n` of the loop (the one for row `y + 2n`, counted
from the start row `y`, which can lie above the frame, where an iteration writes nothing
but still advances the shift) uses the shift `shif_n`: it is 0 in the first iteration,
equals the initial displacement `ishif` with `|ishif| ≤ (tw + 1) / 2` (`tw = W + W / 10`)
in the second, and thereafter follows `shif := (shif * 7) / 8` with division truncating
toward zero; its magnitude strictly decreases while it is nonzero, so it is 0 from
iteration `|ishif| + 1` on. -/
theorem head_switching_shift_decays (cfg : Config) (env : Env) (W H field : Nat) (fY : Plane)
    (k : Nat) (hs : cfg.vhs_head_switching = true) (hW : 0 < W) :
    (∃ out, composite_layer_head_switching cfg env W H field fY k
          = some (out, (head_switching_start cfg env W field k).k)
        ∧ ∀ r : Nat, out r
          = if head_switching_visits cfg env W H field k r
                ∧ head_switching_row_shif cfg env W field k r ≠ 0 then
              head_switching_shift_row W (W + W / 10)
                (if (r : Int) = (head_switching_start cfg env W field k).y then
                  (head_switching_start cfg env W field k).x else 0)
                (head_switching_row_shif cfg env W field k r) (fY r)
            else fY r)
    ∧ (∀ r : Nat, head_switching_row_shif cfg env W field k r
        = head_switching_shif (head_switching_start cfg env W field k).ishif
            (((r : Int) - (head_switching_start cfg env W field k).y) / 2).toNat)
    ∧ head_switching_shif (head_switching_start cfg env W field k).ishif 0 = 0
    ∧ head_switching_shif (head_switching_start cfg env W field k).ishif 1
        = (head_switching_start cfg env W field k).ishif
    ∧ (head_switching_start cfg env W field k).ishif.natAbs ≤ (W + W / 10 + 1) / 2
    ∧ (∀ n, head_switching_shif (head_switching_start cfg env W field k).ishif (n + 2)
        = Int.tdiv
            (head_switching_shif (head_switching_start cfg env W field k).ishif (n + 1) * 7) 8)
    ∧ (∀ n, head_switching_shif (head_switching_start cfg env W field k).ishif (n + 1) ≠ 0 →
        (head_switching_shif (head_switching_start cfg env W field k).ishif (n + 2)).natAbs
          < (head_switching_shif (head_switching_start cfg env W field k).ishif (n + 1)).natAbs)
    ∧ ∀ n, (head_switching_start cfg env W field k).ishif.natAbs + 1 ≤ n →
        head_switching_shif (head_switching_start cfg env W field k).ishif n = 0 := by
  refine ⟨?_, fun _ => rfl, rfl, rfl, head_switching_start_ishif cfg env W field k hW,
    head_switching_shif_succ _, ?_, head_switching_shif_vanishes _⟩
  · obtain ⟨out, h1, h2⟩ := head_switching_rows cfg env W H field fY k hs hW
    refine ⟨out, h1, ?_⟩
    intro r
    rw [h2 r]
    refine ite_iff _ _ _ _ ?_
    unfold head_switching_visits head_switching_row_shif
    tauto
  · intro n hn
    rw [head_switching_shif_succ]
    exact tdiv_seven_eighths _ hn

theorem head_switching_shift_decays_witness :
    phaseConfig.vhs_head_switching = true ∧ 0 < 10
    ∧ (head_switching_start phaseConfig zeroEnv 10 0 0).ishif.natAbs ≤ (10 + 10 / 10 + 1) / 2
    ∧ ∀ n, (head_switching_start phaseConfig zeroEnv 10 0 0).ishif.natAbs + 1 ≤ n →
        head_switching_shif (head_switching_start phaseConfig zeroEnv 10 0 0).ishif n = 0 :=
  ⟨rfl, by decide,
   (head_switching_shift_decays phaseConfig zeroEnv 10 480 0 rampPlane 0 rfl
      (by decide)).2.2.2.2.1,
   (head_switching_shift_decays phaseConfig zeroEnv 10 480 0 rampPlane 0 rfl
      (by decide)).2.2.2.2.2.2.2⟩

/-- Claim C27. With head switching enabled on a frame of width `W ≥ 1` (and
`tw = W + W / 10` below `2^31`), whenever the loop shifts a row `r` (its `shif` is not 0)
it is not the first row of the loop, the only one where the start column derived from the
phase is in force (there the shift is 0), so the row is rewritten from column 0: for every
`x < W` the new `Y[x]` is the old `Y[(x + shif) mod tw]` when that index is below `W` and
0 otherwise, and every index into the scratch row is below `tw`; every other row is
returned as it was. -/
theorem head_switching_rewrites_whole_row (cfg : Config) (env : Env) (W H field : Nat)
    (fY : Plane) (k : Nat) (hs : cfg.vhs_head_switching = true) (hW : 0 < W)
    (h31 : W + W / 10 < 2 ^ 31) :
    ∃ out, composite_layer_head_switching cfg env W H field fY k
        = some (out, (head_switching_start cfg env W field k).k)
      ∧ head_switching_shif (head_switching_start cfg env W field k).ishif 0 = 0
      ∧ ∀ r : Nat,
        (head_switching_visits cfg env W H field k r
            ∧ head_switching_row_shif cfg env W field k r ≠ 0 →
          (r : Int) ≠ (head_switching_start cfg env W field k).y
          ∧ out r = head_switching_shift_row W (W + W / 10) 0
              (head_switching_row_shif cfg env W field k r) (fY r)
          ∧ ∀ x : Nat,
            (((x : Int) + head_switching_row_shif cfg env W field k r)
                % ((W + W / 10 : Nat) : Int)).toNat < W + W / 10
            ∧ (x < W → out r x
              = if (((x : Int) + head_switching_row_shif cfg env W field k r)
                    % ((W + W / 10 : Nat) : Int)).toNat < W then
                  fY r (((x : Int) + head_switching_row_shif cfg env W field k r)
                    % ((W + W / 10 : Nat) : Int)).toNat
                else 0))
        ∧ (¬ (head_switching_visits cfg env W H field k r
              ∧ head_switching_row_shif cfg env W field k r ≠ 0) → out r = fY r) := by
  obtain ⟨out, h1, h2⟩ := head_switching_rows cfg env W H field fY k hs hW
  refine ⟨out, h1, rfl, ?_⟩
  intro r
  have hi := head_switching_start_ishif cfg env W field k hW
  have hb := head_switching_shif_bound (head_switching_start cfg env W field k).ishif
    (((r : Int) - (head_switching_start cfg env W field k).y) / 2).toNat
  constructor
  · intro ⟨hv, hz⟩
    have hne : (r : Int) ≠ (head_switching_start cfg env W field k).y := by
      intro he
      apply hz
      unfold head_switching_row_shif
      rw [he]
      simp [head_switching_shif]
    have ho : out r = head_switching_shift_row W (W + W / 10) 0
        (head_switching_row_shif cfg env W field k r) (fY r) := by
      rw [h2 r, if_pos ⟨hv.1, hv.2.1, hv.2.2, hz⟩, if_neg hne]
      rfl
    refine ⟨hne, ho, ?_⟩
    intro x
    have hpos : (0 : Int) < ((W + W / 10 : Nat) : Int) := by omega
    constructor
    · have := Int.emod_lt_of_pos ((x : Int) + head_switching_row_shif cfg env W field k r) hpos
      have := Int.emod_nonneg ((x : Int) + head_switching_row_shif cfg env W field k r)
        (ne_of_gt hpos)
      omega
    · intro hx
      rw [ho, head_switching_shift_row_spec W (W + W / 10) _ (fY r) (by omega) h31
        (by unfold head_switching_row_shif; omega), if_pos hx]
  · intro hn
    rw [h2 r]
    refine if_neg ?_
    intro hc
    exact hn ⟨⟨hc.1, hc.2.1, hc.2.2.1⟩, hc.2.2.2⟩

theorem head_switching_rewrites_whole_row_witness :
    phaseConfig.vhs_head_switching = true ∧ 0 < 10 ∧ 10 + 10 / 10 < 2 ^ 31
    ∧ head_switching_visits phaseConfig zeroEnv 10 480 0 0 466
    ∧ head_switching_row_shif phaseConfig zeroEnv 10 0 0 466 = -6
    ∧ ∃ out, composite_layer_head_switching phaseConfig zeroEnv 10 480 0 rampPlane 0
        = some (out, (head_switching_start phaseConfig zeroEnv 10 0 0).k)
      ∧ out 466 0 = rampPlane 466 5 ∧ out 466 5 = 0 := by
  obtain ⟨out, h1, -, h2⟩ := head_switching_rewrites_whole_row phaseConfig zeroEnv 10 480 0
    rampPlane 0 rfl (by decide) (by decide)
  have hv : head_switching_visits phaseConfig zeroEnv 10 480 0 0 466 := by
    unfold head_switching_visits
    rw [head_switching_start_phase]
    decide
  have e : head_switching_row_shif phaseConfig zeroEnv 10 0 0 466 = -6 := by
    unfold head_switching_row_shif
    rw [head_switching_start_phase]
    decide
  have hx := ((h2 466).1 ⟨hv, by rw [e]; decide⟩).2.2
  have a := (hx 0).2 (by decide)
  have b := (hx 5).2 (by decide)
  rw [e] at a b
  exact ⟨rfl, by decide, by decide, hv, e, out, h1, a.trans (by decide), b.trans (by decide)⟩

/-! ## The loop over the input layers -/

/-- On frames that pass its checks `composite_layer` stores the planes computed from the
source frame. -/
theorem composite_layer_valid (cfg : Config) (env : Env) (dst src : AVFrame)
    (d s : Nat → Nat → Nat) (field fieldno k : Nat) (hd : dst.data = some d)
    (hs : src.data = some s) (h1 : ¬ dst.linesize < dst.width * 4)
    (h2 : ¬ src.linesize < src.width * 4) (h3 : dst.width = src.width)
    (h4 : dst.height = src.height) (h5 : dst.width * dst.height ≠ 0) :
    composite_layer cfg env dst src field fieldno k
      = (composite_layer_planes cfg env src s dst.width dst.height field fieldno k).map
          fun pk => ({ dst with
            data := some (composite_layer_store dst.width dst.height field pk.1 d) }, pk.2) := by
  unfold composite_layer
  rw [hd, hs]
  simp only []
  rw [if_neg h1, if_neg h2, if_neg (by simp [h3]), if_neg (by simp [h4]), if_neg h5]

/-- On frames that pass its checks `composite_layer` returns only if the frame has a
pixel. -/
theorem composite_layer_pixels_of_some (cfg : Config) (env : Env) (dst src : AVFrame)
    (d s : Nat → Nat → Nat) (field fieldno k : Nat) (r : AVFrame × Nat)
    (hd : dst.data = some d) (hs : src.data = some s) (h1 : ¬ dst.linesize < dst.width * 4)
    (h2 : ¬ src.linesize < src.width * 4) (h3 : dst.width = src.width)
    (h4 : dst.height = src.height)
    (h : composite_layer cfg env dst src field fieldno k = some r) :
    dst.width * dst.height ≠ 0 := by
  intro h5
  unfold composite_layer at h
  rw [hd, hs] at h
  simp only [] at h
  rw [if_neg h1, if_neg h2, if_neg (by simp [h3]), if_neg (by simp [h4]), if_pos h5] at h
  cases h

/-- For a destination of nonzero width and height, nonzero amplitudes and a tape speed of
the program, `composite_layer` returns. -/
theorem composite_layer_some (cfg : Config) (env : Env) (dst src : AVFrame)
    (field fieldno k : Nat) (hW : 0 < dst.width) (hH : 0 < dst.height)
    (hA : cfg.subcarrier_amplitude ≠ 0) (hAb : cfg.subcarrier_amplitude_back ≠ 0)
    (hspeed : cfg.output_vhs_tape_speed = VHS_SP ∨ cfg.output_vhs_tape_speed = VHS_LP
      ∨ cfg.output_vhs_tape_speed = VHS_EP) :
    ∃ r, composite_layer cfg env dst src field fieldno k = some r := by
  unfold composite_layer
  split
  · next dpx spx hd hs =>
    split_ifs with c1 c2 c3 c4 c5
    · exact ⟨_, rfl⟩
    · exact ⟨_, rfl⟩
    · exact ⟨_, rfl⟩
    · exact ⟨_, rfl⟩
    · exact absurd c5 (Nat.mul_pos hW hH).ne'
    · obtain ⟨pk, hpk⟩ := composite_layer_planes_some cfg env src spx dst.width dst.height
        field fieldno k hW hA hAb hspeed
      rw [hpk]
      exact ⟨_, rfl⟩
  · exact ⟨_, rfl⟩

theorem main_composite_field_nil (cfg : Config) (env : Env) (current : Nat) (dst : AVFrame)
    (k : Nat) : main_composite_field cfg env [] current dst k = some (dst, k) := rfl

theorem foldl_layers_none (cfg : Config) (env : Env) (current : Nat) (layers : List AVFrame) :
    layers.foldl
      (fun (st : Option (AVFrame × Nat)) (srcframe : AVFrame) =>
        st.bind fun st =>
          composite_layer cfg env st.1 srcframe ((current &&& 1) ^^^ 1) current st.2)
      none = none := by
  induction layers with
  | nil => rfl
  | cons a l ih => exact ih

theorem main_composite_field_cons (cfg : Config) (env : Env) (a : AVFrame)
    (layers : List AVFrame) (current : Nat) (dst : AVFrame) (k : Nat) :
    main_composite_field cfg env (a :: layers) current dst k
      = (composite_layer cfg env dst a ((current &&& 1) ^^^ 1) current k).bind
          fun st => main_composite_field cfg env layers current st.1 st.2 := by
  unfold main_composite_field
  rw [List.foldl_cons]
  show List.foldl _ (composite_layer cfg env dst a ((current &&& 1) ^^^ 1) current k) layers = _
  cases composite_layer cfg env dst a ((current &&& 1) ^^^ 1) current k with
  | none => exact foldl_layers_none cfg env current layers
  | some st => rfl

theorem main_composite_field_append (cfg : Config) (env : Env) (layers : List AVFrame)
    (last : AVFrame) (current : Nat) (dst : AVFrame) (k : Nat) :
    main_composite_field cfg env (layers ++ [last]) current dst k
      = (main_composite_field cfg env layers current dst k).bind
          fun st => composite_layer cfg env st.1 last ((current &&& 1) ^^^ 1) current st.2 := by
  unfold main_composite_field
  rw [List.foldl_append]
  rfl

/-- The loop over the layers keeps the geometry of the output frame. -/
theorem main_composite_field_keeps_geometry (cfg : Config) (env : Env) (current : Nat)
    (layers : List AVFrame) :
    ∀ (dst : AVFrame) (k : Nat) (r : AVFrame × Nat),
      main_composite_field cfg env layers current dst k = some r →
      r.1.width = dst.width ∧ r.1.height = dst.height ∧ r.1.linesize = dst.linesize
        ∧ r.1.data.isSome = dst.data.isSome := by
  induction layers with
  | nil =>
    intro dst k r h
    rw [main_composite_field_nil] at h
    cases h
    exact ⟨rfl, rfl, rfl, rfl⟩
  | cons a l ih =>
    intro dst k r h
    rw [main_composite_field_cons] at h
    cases hc : composite_layer cfg env dst a ((current &&& 1) ^^^ 1) current k with
    | none => rw [hc] at h; cases h
    | some st =>
      rw [hc] at h
      obtain ⟨g1, g2, g3, g4⟩ := composite_layer_keeps_geometry cfg env dst a _ _ _ st hc
      obtain ⟨i1, i2, i3, i4⟩ := ih st.1 st.2 r h
      exact ⟨i1.trans g1, i2.trans g2, i3.trans g3, i4.trans g4⟩

/-- For an output frame of nonzero width and height, nonzero amplitudes and a tape speed
of the program, the loop over the layers returns. -/
theorem main_composite_field_some (cfg : Config) (env : Env) (current : Nat)
    (hA : cfg.subcarrier_amplitude ≠ 0) (hAb : cfg.subcarrier_amplitude_back ≠ 0)
    (hspeed : cfg.output_vhs_tape_speed = VHS_SP ∨ cfg.output_vhs_tape_speed = VHS_LP
      ∨ cfg.output_vhs_tape_speed = VHS_EP) (layers : List AVFrame) :
    ∀ (dst : AVFrame) (k : Nat), 0 < dst.width → 0 < dst.height →
      ∃ r, main_composite_field cfg env layers current dst k = some r := by
  induction layers with
  | nil =>
    intro dst k _ _
    exact ⟨_, rfl⟩
  | cons a l ih =>
    intro dst k hW hH
    rw [main_composite_field_cons]
    obtain ⟨st, hst⟩ := composite_layer_some cfg env dst a ((current &&& 1) ^^^ 1) current k hW
      hH hA hAb hspeed
    rw [hst]
    obtain ⟨g1, g2, -, -⟩ := composite_layer_keeps_geometry cfg env dst a _ _ _ st hst
    exact ih st.1 st.2 (by rw [g1]; exact hW) (by rw [g2]; exact hH)

/-- The pixels of the field after `composite_layer` on frames that pass its checks. -/
theorem composite_layer_field_pixels (cfg : Config) (env : Env) (dst src : AVFrame)
    (s : Nat → Nat → Nat) (field fieldno k : Nat) (r : AVFrame × Nat)
    (hd : dst.data.isSome = true) (hs : src.data = some s)
    (h1 : ¬ dst.linesize < dst.width * 4) (h2 : ¬ src.linesize < src.width * 4)
    (h3 : dst.width = src.width) (h4 : dst.height = src.height)
    (h : composite_layer cfg env dst src field fieldno k = some r) :
    ∃ p, composite_layer_planes cfg env src s src.width src.height field fieldno k
        = some (p, r.2)
      ∧ ∀ y x, visited field src.height y → x < src.width →
          r.1.pixelAt y x = some (packPixel (p.fY y x) (p.fI y x) (p.fQ y x)) := by
  obtain ⟨d, hdd⟩ := Option.isSome_iff_exists.mp hd
  have h5 := composite_layer_pixels_of_some cfg env dst src d s field fieldno k r hdd hs h1 h2
    h3 h4 h
  rw [composite_layer_valid cfg env dst src d s field fieldno k hdd hs h1 h2 h3 h4 h5, h3,
    h4] at h
  cases hp : composite_layer_planes cfg env src s src.width src.height field fieldno k with
  | none => rw [hp] at h; cases h
  | some pk =>
    rw [hp] at h
    cases h
    refine ⟨pk.1, rfl, ?_⟩
    intro y x hy hx
    show some (composite_layer_store src.width src.height field pk.1 d y x) = _
    rw [composite_layer_store_spec, if_pos ⟨hy, hx⟩]

/-- Claim C24. For a list of layers ending in a layer `last` of the output's dimensions
(non-null pixels, rows at least `4 · width` bytes long), composited in order into the
output frame for the field `current`: if the loop returns, the earlier layers return, with
`k0` random draws made, and on every processed row `y` and column `x < width` the output
holds the pixel `composite_layer` computes from `last` alone with the draws from `k0` on,
whatever frame of the same dimensions it is given as destination; the number of draws
agrees as well.  For an output of nonzero width, nonzero subcarrier amplitudes and a tape
speed of the program the loop does return when the output has nonzero height too (on a
frame without pixels `composite_layer` throws `std::bad_array_new_length`). -/
theorem last_layer_replaces_earlier_layers (cfg : Config) (env : Env) (layers : List AVFrame)
    (last : AVFrame) (s : Nat → Nat → Nat) (current : Nat) (dst : AVFrame) (k : Nat)
    (hd : dst.data.isSome = true) (hs : last.data = some s)
    (h1 : ¬ dst.linesize < dst.width * 4) (h2 : ¬ last.linesize < last.width * 4)
    (h3 : dst.width = last.width) (h4 : dst.height = last.height) :
    (∀ r, main_composite_field cfg env (layers ++ [last]) current dst k = some r →
      ∃ mid p, main_composite_field cfg env layers current dst k = some mid
        ∧ composite_layer_planes cfg env last s last.width last.height
            ((current &&& 1) ^^^ 1) current mid.2 = some (p, r.2)
        ∧ (∀ y x, visited ((current &&& 1) ^^^ 1) dst.height y → x < dst.width →
            r.1.pixelAt y x = some (packPixel (p.fY y x) (p.fI y x) (p.fQ y x)))
        ∧ ∀ dst0 : AVFrame, dst0.data.isSome = true → ¬ dst0.linesize < dst0.width * 4 →
            dst0.width = dst.width → dst0.height = dst.height →
            ∃ r0, composite_layer cfg env dst0 last ((current &&& 1) ^^^ 1) current mid.2
                = some r0
              ∧ r0.2 = r.2
              ∧ ∀ y x, visited ((current &&& 1) ^^^ 1) dst.height y → x < dst.width →
                  r0.1.pixelAt y x = r.1.pixelAt y x)
    ∧ (0 < dst.width → 0 < dst.height → cfg.subcarrier_amplitude ≠ 0 →
        cfg.subcarrier_amplitude_back ≠ 0 →
        (cfg.output_vhs_tape_speed = VHS_SP ∨ cfg.output_vhs_tape_speed = VHS_LP
          ∨ cfg.output_vhs_tape_speed = VHS_EP) →
        ∃ r, main_composite_field cfg env (layers ++ [last]) current dst k = some r) := by
  constructor
  · intro r h
    rw [main_composite_field_append] at h
    cases hm : main_composite_field cfg env layers current dst k with
    | none => rw [hm] at h; cases h
    | some mid =>
      rw [hm] at h
      have hcall : composite_layer cfg env mid.1 last ((current &&& 1) ^^^ 1) current mid.2
          = some r := h
      obtain ⟨g1, g2, g3, g4⟩ := main_composite_field_keeps_geometry cfg env current layers
        dst k mid hm
      obtain ⟨dm, hdm⟩ := Option.isSome_iff_exists.mp
        (show mid.1.data.isSome = true by rw [g4]; exact hd)
      have hpos : mid.1.width * mid.1.height ≠ 0 :=
        composite_layer_pixels_of_some cfg env mid.1 last dm s _ _ _ r hdm hs
          (by rw [g3, g1]; exact h1) h2 (by rw [g1]; exact h3) (by rw [g2]; exact h4) hcall
      obtain ⟨p, hp, hpx⟩ := composite_layer_field_pixels cfg env mid.1 last s _ _ _ r
        (by rw [g4]; exact hd) hs (by rw [g3, g1]; exact h1) h2 (by rw [g1]; exact h3)
        (by rw [g2]; exact h4) hcall
      refine ⟨mid, p, rfl, hp, ?_, ?_⟩
      · intro y x hy hx
        exact hpx y x (by rw [← h4]; exact hy) (by rw [← h3]; exact hx)
      · intro dst0 e1 e2 e3 e4
        have hd0 : ∃ d0, dst0.data = some d0 := Option.isSome_iff_exists.mp e1
        obtain ⟨d0, hd0⟩ := hd0
        have hv := composite_layer_valid cfg env dst0 last d0 s ((current &&& 1) ^^^ 1) current
          mid.2 hd0 hs e2 h2 (by rw [e3]; exact h3) (by rw [e4]; exact h4)
          (by rw [e3, e4, ← g1, ← g2]; exact hpos)
        rw [e3, e4, h3, h4, hp] at hv
        refine ⟨_, hv, rfl, ?_⟩
        intro y x hy hx
        rw [hpx y x (by rw [← h4]; exact hy) (by rw [← h3]; exact hx)]
        show some (composite_layer_store last.width last.height _ p d0 y x) = _
        rw [composite_layer_store_spec,
          if_pos ⟨by rw [← h4]; exact hy, by rw [← h3]; exact hx⟩]
  · intro hW hH hA hAb hspeed
    exact main_composite_field_some cfg env current hA hAb hspeed _ dst k hW hH

theorem last_layer_replaces_earlier_layers_witness :
    (solidFrame 0).data.isSome = true ∧ (solidFrame 0xFF0000).data = some (fun _ _ => 0xFF0000)
    ∧ ∃ r, main_composite_field quietConfig zeroEnv ([solidFrame 7] ++ [solidFrame 0xFF0000]) 0
          (solidFrame 0) 0 = some r
      ∧ ∃ mid p, main_composite_field quietConfig zeroEnv [solidFrame 7] 0 (solidFrame 0) 0
          = some mid
        ∧ composite_layer_planes quietConfig zeroEnv (solidFrame 0xFF0000)
            (fun _ _ => 0xFF0000) 2 2 ((0 &&& 1) ^^^ 1) 0 mid.2 = some (p, r.2)
        ∧ r.1.pixelAt 1 0 = some (packPixel (p.fY 1 0) (p.fI 1 0) (p.fQ 1 0)) := by
  have h := last_layer_replaces_earlier_layers quietConfig zeroEnv [solidFrame 7]
    (solidFrame 0xFF0000) (fun _ _ => 0xFF0000) 0 (solidFrame 0) 0 rfl rfl (by decide)
    (by decide) rfl rfl
  obtain ⟨r, hr⟩ := h.2 (by decide) (by decide) (by decide) (by decide) (Or.inl rfl)
  obtain ⟨mid, p, a1, a2, a3, -⟩ := h.1 r hr
  exact ⟨rfl, rfl, r, hr, mid, p, a1, a2, a3 1 0 (by decide) (by decide)⟩

end CompositeVideo
